import Mathlib

/-!
# Decision tree induction (`DecisionTreeNode.h`, `DecisionTreeDataset.h`)

A shallow embedding of the binary-classification decision tree of the
`MLComparison` namespace.

Modelling conventions.

* The element type `T` of the data table and C++ `double` are both the exact
  rationals `ℚ`: arithmetic is exact, there is no rounding and no NaN.
* `std::vector<int> row_indices` is a `List Nat`; an iterator into it is a position
  (a `Nat`), and an iterator range `[first, last)` is a pair of positions.
* `std::unique_ptr<DecisionTreeNode>` is the inductive type `Tree`, whose constructor
  `Tree.nullptr` is the empty pointer.
* The shared training set is passed explicitly; every method that can write to it
  returns the dataset it leaves behind.
-/

namespace MLComparison

/-! ## The tabular dataset -/

/-- A row of the data table, `std::array<T, n_cols>`. -/
abbrev Row := List ℚ

/-- Element access `row[col]` of a row. -/
def Row.get (row : Row) (col : Nat) : ℚ := row.getD col 0

/-- The class `DecisionTreeDataset<T, x_vars>`: the data table and the vector of row
indices; the target of a row is stored in column `x_vars`. -/
structure DecisionTreeDataset where
  /-- Template parameter `x_vars`, the number of independent variables. -/
  x_vars : Nat
  /-- Member `data_table`. -/
  data_table : List Row
  /-- Member `row_indices`. -/
  row_indices : List Nat

/-- Method `DecisionTreeDataset::at`: row `i` of the underlying data table. -/
def DecisionTreeDataset.at (ds : DecisionTreeDataset) (i : Nat) : Row :=
  ds.data_table.getD i []

/-! ## `std::partition` on a range of the index vector -/

/-- Library call `std::iter_swap`: exchange the elements at two positions. -/
def iter_swap (a : List Nat) (i j : Nat) : List Nat :=
  (a.set i (a.getD j 0)).set j (a.getD i 0)

/-- First inner loop of `std::partition`: advance `first` while it differs from `last`
and the predicate holds at `first`. The range is given by `first` and the distance
`last - first`, so that `first == last` is the test that the distance is zero. -/
def partition_skip_true (pred : Nat → Bool) (a : List Nat) : Nat → Nat → Nat
  | first, 0 => first
  | first, dist + 1 =>
    if pred (a.getD first 0) then partition_skip_true pred a (first + 1) dist else first

/-- Second inner loop of `std::partition`: starting from the position `first + dist`
(the already decremented `last`), step `last` down while it differs from `first` and
the predicate fails at `last`. -/
def partition_skip_false (pred : Nat → Bool) (a : List Nat) (first : Nat) : Nat → Nat
  | 0 => first
  | dist + 1 =>
    if !pred (a.getD (first + (dist + 1)) 0) then partition_skip_false pred a first dist
    else first + (dist + 1)

/-- Library call `std::partition(first, last, pred)` for bidirectional iterators, as in
the GNU and LLVM standard libraries: skip the leading elements that satisfy the
predicate, skip the trailing elements that do not, exchange the two elements the scans
stopped at, and repeat until the scans meet. Returns the reordered vector and the
partition point. -/
def partition (pred : Nat → Bool) (a : List Nat) (first last : Nat) : List Nat × Nat :=
  let first1 := partition_skip_true pred a first (last - first)
  if first1 = last then (a, first1)
  else
    let last1 := last - 1
    let last2 := partition_skip_false pred a first1 (last1 - first1)
    if hmeet : first1 = last2 then (a, first1)
    else partition pred (iter_swap a first1 last2) (first1 + 1) last2
termination_by last - first
decreasing_by
  have hge : ∀ (dist first : Nat), first ≤ partition_skip_true pred a first dist := by
    intro dist
    induction dist with
    | zero => intro first; simp [partition_skip_true]
    | succ d ih =>
      intro first
      simp only [partition_skip_true]
      split
      · exact Nat.le_trans (Nat.le_succ first) (ih (first + 1))
      · exact Nat.le_refl first
  have hle : ∀ (first dist : Nat), partition_skip_false pred a first dist ≤ first + dist := by
    intro first dist
    induction dist with
    | zero => simp [partition_skip_false]
    | succ d ih =>
      simp only [partition_skip_false]
      split
      · omega
      · omega
  have h0 : partition_skip_true pred a first (last - first) ≠
      partition_skip_false pred a (partition_skip_true pred a first (last - first))
        (last - 1 - partition_skip_true pred a first (last - first)) := hmeet
  have hge2 : ∀ (first dist : Nat), first ≤ partition_skip_false pred a first dist := by
    intro first dist
    induction dist with
    | zero => simp [partition_skip_false]
    | succ d ih =>
      simp only [partition_skip_false]
      split
      · exact ih
      · omega
  have h1 := hge (last - first) first
  have h3 := hge2 (partition_skip_true pred a first (last - first))
    (last - 1 - partition_skip_true pred a first (last - first))
  have h2 := hle (partition_skip_true pred a first (last - first))
    (last - 1 - partition_skip_true pred a first (last - first))
  omega

/-! ## The tree node -/

/-- The data members of `DecisionTreeNode<T, dataset_x_vars>` other than the two child
pointers and the pointer to the training set. -/
structure DecisionTreeNode where
  /-- Member `split_var`, initialised to `-1`. -/
  split_var : Int
  /-- Member `split_val`, initialised to `-1`. -/
  split_val : ℚ
  /-- Member `class_prediction`, initialised to `-1`. -/
  class_prediction : Int
  /-- Member `depth`. -/
  depth : Nat
  /-- Member `x_vars_to_use`. -/
  x_vars_to_use : Nat
  /-- Member `group_begin`, a position in the vector of row indices. -/
  group_begin : Nat
  /-- Member `group_end`, a position in the vector of row indices. -/
  group_end : Nat
  /-- Member `group_size`. -/
  group_size : Nat

/-- An owning pointer `std::unique_ptr<DecisionTreeNode>`: empty, or a node together
with its members `left` and `right`. -/
inductive Tree where
  | nullptr : Tree
  | node (self : DecisionTreeNode) (left right : Tree) : Tree

/-- The constructor `DecisionTreeNode(node_depth, group_begin_it, group_end_it,
training_dataset, dataset_x_vars_to_use)`; `group_size` is `std::distance` of the two
iterators. -/
def DecisionTreeNode.new (node_depth group_begin_it group_end_it dataset_x_vars_to_use : Nat) :
    DecisionTreeNode where
  split_var := -1
  split_val := -1
  class_prediction := -1
  depth := node_depth
  x_vars_to_use := dataset_x_vars_to_use
  group_begin := group_begin_it
  group_end := group_end_it
  group_size := group_end_it - group_begin_it

/-- The row indices visited by `for (auto it = group_begin; it < group_end; ++it)`. -/
def DecisionTreeNode.group (ds : DecisionTreeDataset) (self : DecisionTreeNode) : List Nat :=
  (ds.row_indices.drop self.group_begin).take (self.group_end - self.group_begin)

/-- The accumulators `subgroup_sizes` and `subgroup_class_val_sums` of
`calculate_gini_index`. -/
structure GiniAcc where
  /-- Entry `subgroup_sizes[0]`. -/
  size0 : ℚ
  /-- Entry `subgroup_sizes[1]`. -/
  size1 : ℚ
  /-- Entry `subgroup_class_val_sums[0]`. -/
  sum0 : ℚ
  /-- Entry `subgroup_class_val_sums[1]`. -/
  sum1 : ℚ

/-- Body of the first loop of `calculate_gini_index` for the row index `i`. -/
def gini_count_row (ds : DecisionTreeDataset) (split_variable : Nat) (split_value : ℚ)
    (acc : GiniAcc) (i : Nat) : GiniAcc :=
  let row := ds.at i
  if row.get split_variable ≥ split_value then
    { acc with size1 := acc.size1 + 1, sum1 := acc.sum1 + row.get ds.x_vars }
  else
    { acc with size0 := acc.size0 + 1, sum0 := acc.sum0 + row.get ds.x_vars }

/-- Body of the second loop of `calculate_gini_index` for one subgroup with the given
size, class value sum and size proportion: the addition to `gini_index`. -/
def gini_add_subgroup (gini_index size sum proportion : ℚ) : ℚ :=
  if size > 0 then
    let class_proportions1 := sum / size
    let class_proportions0 := 1 - class_proportions1
    gini_index + (1 - ((class_proportions0 * class_proportions0)
      + (class_proportions1 * class_proportions1))) * proportion
  else gini_index

/-- Method `DecisionTreeNode::calculate_gini_index`, in exact arithmetic. The method with
the rounding of its `double` arithmetic is `calculate_gini_index_double`; what depends on
that rounding, the order between candidates of equal exact impurity, is stated for an
arbitrary impurity function (`get_best_split_scored`). -/
def DecisionTreeNode.calculate_gini_index (ds : DecisionTreeDataset) (self : DecisionTreeNode)
    (split_variable : Nat) (split_value : ℚ) : ℚ :=
  let acc := (self.group ds).foldl (gini_count_row ds split_variable split_value) ⟨0, 0, 0, 0⟩
  let subgroup_size_proportions0 := acc.size0 / (self.group_size : ℚ)
  let subgroup_size_proportions1 := 1 - subgroup_size_proportions0
  let gini_index := gini_add_subgroup 0 acc.size0 acc.sum0 subgroup_size_proportions0
  gini_add_subgroup gini_index acc.size1 acc.sum1 subgroup_size_proportions1

/-- The local variables of `get_best_split` that survive an iteration. -/
structure BestSplit where
  /-- Local `best_gini_index`. -/
  best_gini_index : ℚ
  /-- Local `best_val`. -/
  best_val : ℚ
  /-- Local `best_var`. -/
  best_var : Nat
  /-- Local `done`. -/
  done : Bool

/-- Body of the inner loop of `get_best_split` for column `col` of `row`; the loop
condition `!done` is checked first. -/
def get_best_split_col (ds : DecisionTreeDataset) (self : DecisionTreeNode) (row : Row)
    (st : BestSplit) (col : Nat) : BestSplit :=
  if st.done then st
  else
    let current_val := row.get col
    let current_gini_index := self.calculate_gini_index ds col current_val
    if current_gini_index < st.best_gini_index then
      { best_gini_index := current_gini_index
        best_val := current_val
        best_var := col
        done := if current_gini_index = 0 then true else st.done }
    else st

/-- Body of the outer loop of `get_best_split` for the row index `i`; the loop
condition `!done` is checked first. -/
def get_best_split_row (ds : DecisionTreeDataset) (self : DecisionTreeNode)
    (st : BestSplit) (i : Nat) : BestSplit :=
  if st.done then st
  else (List.range self.x_vars_to_use).foldl (get_best_split_col ds self (ds.at i)) st

/-- The two loops of `get_best_split`, started from `best_gini_index = 0.5`,
`best_val = 0`, `best_var = 0`, `done = false`. -/
def DecisionTreeNode.best_split_search (ds : DecisionTreeDataset) (self : DecisionTreeNode) :
    BestSplit :=
  (self.group ds).foldl (get_best_split_row ds self) ⟨1 / 2, 0, 0, false⟩

/-- Method `DecisionTreeNode::get_best_split`. -/
def DecisionTreeNode.get_best_split (ds : DecisionTreeDataset) (self : DecisionTreeNode) :
    DecisionTreeNode :=
  let best := self.best_split_search ds
  { self with split_var := (best.best_var : Int), split_val := best.best_val }

/-- The predicate handed to `std::partition` by `split_group`. -/
def DecisionTreeNode.goes_left (ds : DecisionTreeDataset) (self : DecisionTreeNode)
    (i : Nat) : Bool :=
  decide ((ds.at i).get self.split_var.toNat < self.split_val)

/-- Method `DecisionTreeNode::split_group`: the dataset with its reordered row indices,
and the position of the split point. -/
def DecisionTreeNode.split_group (ds : DecisionTreeDataset) (self : DecisionTreeNode) :
    DecisionTreeDataset × Nat :=
  let r := partition (self.goes_left ds) ds.row_indices self.group_begin self.group_end
  ({ ds with row_indices := r.1 }, r.2)

/-- Conversion of a `double` to `int`: truncation toward zero. -/
def truncate (q : ℚ) : Int := Int.tdiv q.num q.den

/-- Method `DecisionTreeNode::become_leaf`; `sum` is an `int`, so each addition of a
class value is truncated. -/
def DecisionTreeNode.become_leaf (ds : DecisionTreeDataset) (self : DecisionTreeNode) :
    DecisionTreeNode :=
  let sum : Int :=
    (self.group ds).foldl (fun sum i => truncate ((sum : ℚ) + (ds.at i).get ds.x_vars)) 0
  { self with class_prediction := if sum > ((self.group_size / 2 : Nat) : Int) then 1 else 0 }

/-- Method `DecisionTreeNode::train`, called on the node `self` whose child pointers
are `left` and `right`. Returns the dataset and the node after training. -/
def DecisionTreeNode.train (ds : DecisionTreeDataset) (self : DecisionTreeNode)
    (left right : Tree) : DecisionTreeDataset × Tree :=
  if h : self.depth < 6 ∧ self.group_size > 10 then
    let self1 := self.get_best_split ds
    let sp := self1.split_group ds
    let split_point := sp.2
    if split_point = self1.group_begin ∨ split_point = self1.group_end then
      (sp.1, Tree.node (self1.become_leaf sp.1) left right)
    else
      let l := DecisionTreeNode.train sp.1
        (DecisionTreeNode.new (self1.depth + 1) self1.group_begin split_point self1.x_vars_to_use)
        Tree.nullptr Tree.nullptr
      let r := DecisionTreeNode.train l.1
        (DecisionTreeNode.new (self1.depth + 1) split_point self1.group_end self1.x_vars_to_use)
        Tree.nullptr Tree.nullptr
      (r.1, Tree.node self1 l.2 r.2)
  else
    (ds, Tree.node (self.become_leaf ds) left right)
termination_by 6 - self.depth
decreasing_by
  all_goals simp_wf
  all_goals simp only [DecisionTreeNode.new, DecisionTreeNode.get_best_split]
  all_goals omega

/-! ## Reference definitions for the Gini impurity -/


/-- The target (class value) of the row with index `i`. -/
def DecisionTreeDataset.target (ds : DecisionTreeDataset) (i : Nat) : ℚ :=
  (ds.at i).get ds.x_vars

/-- Reference, in the words of the specification: the contribution of one subgroup `S`
to the impurity of a split of a group of `group_size` rows. An empty subgroup
contributes 0; otherwise, with `p` the mean target of `S`, the contribution is
`(|S| / group_size) * (1 - p^2 - (1 - p)^2)`. -/
def gini_subgroup_reference (ds : DecisionTreeDataset) (group_size : Nat) (S : List Nat) : ℚ :=
  if S.length = 0 then 0
  else
    let p := (S.map ds.target).sum / (S.length : ℚ)
    ((S.length : ℚ) / (group_size : ℚ)) * (1 - p ^ 2 - (1 - p) ^ 2)

/-- Reference, in the words of the specification: the weighted Gini impurity of the
split of `group` by feature `f` and threshold `t`. -/
def gini_reference (ds : DecisionTreeDataset) (group : List Nat) (f : Nat) (t : ℚ) : ℚ :=
  let low := group.filter (fun i => decide ((ds.at i).get f < t))
  let high := group.filter (fun i => decide ((ds.at i).get f ≥ t))
  gini_subgroup_reference ds group.length low + gini_subgroup_reference ds group.length high

/-! ## The split search as a scan over candidates -/


/-- The candidate splits `(col, row[col])` in the order in which `get_best_split`
examines them: rows in range order, then columns `0 .. x_vars_to_use - 1`. -/
def DecisionTreeNode.candidates (ds : DecisionTreeDataset) (self : DecisionTreeNode) :
    List (Nat × ℚ) :=
  (self.group ds).flatMap
    (fun i => (List.range self.x_vars_to_use).map (fun col => (col, (ds.at i).get col)))

/-- The search of `get_best_split` over an explicit list of candidates `(col, val)`,
scored by `gini`: the body of the inner loop applied to each candidate in turn. -/
def best_split_scan (gini : Nat → ℚ → ℚ) (cands : List (Nat × ℚ)) : BestSplit :=
  cands.foldl (fun st c =>
    if st.done then st
    else if gini c.1 c.2 < st.best_gini_index then
      { best_gini_index := gini c.1 c.2, best_val := c.2, best_var := c.1,
        done := if gini c.1 c.2 = 0 then true else st.done }
    else st) ⟨1 / 2, 0, 0, false⟩

/-! ## The range invariant of a trained tree -/


/-- The range condition of C10 at one node `n` with children `left` and `right`: when
both children are present, the left child's range is `[n.group_begin, p)` and the right
child's range is `[p, n.group_end)` for a split point `p` strictly between the ends, and
the children's group sizes sum to the group size of `n`. -/
def children_split_range (n : DecisionTreeNode) : Tree → Tree → Prop
  | Tree.node nl _ _, Tree.node nr _ _ =>
    n.group_begin < nl.group_end ∧ nl.group_end < n.group_end ∧
    nl.group_begin = n.group_begin ∧ nr.group_begin = nl.group_end ∧
    nr.group_end = n.group_end ∧ nl.group_size + nr.group_size = n.group_size
  | _, _ => True

/-- The range condition `children_split_range` at every node of a tree. -/
def Tree.split_invariant : Tree → Prop
  | Tree.nullptr => True
  | Tree.node n left right =>
    children_split_range n left right ∧ left.split_invariant ∧ right.split_invariant

/-! ## `predict` -/

/-- Method `DecisionTreeNode::predict`, called through the pointer that owns the node;
a call through an empty pointer has no result. -/
def Tree.predict : Tree → Row → Option Int
  | Tree.nullptr, _ => none
  | Tree.node self left right, sample =>
    if self.class_prediction ≥ 0 then some self.class_prediction
    else if sample.get self.split_var.toNat < self.split_val then left.predict sample
    else right.predict sample

/-- The shape of a trained tree: every node is a leaf (class prediction 0 or 1 and no
children) or an internal node (class prediction `-1` and two children of the same
shape). -/
def Tree.leaf_or_internal : Tree → Prop
  | Tree.nullptr => False
  | Tree.node n left right =>
    ((n.class_prediction = 0 ∨ n.class_prediction = 1) ∧
      left = Tree.nullptr ∧ right = Tree.nullptr) ∨
    (n.class_prediction = -1 ∧ left.leaf_or_internal ∧ right.leaf_or_internal)

/-! ## `calculate_rows_to_use` -/

/-- Library call `std::round` on a `double`: the nearest integer, halfway cases rounded
away from zero. -/
def std_round (x : ℚ) : Int :=
  if 0 ≤ x then ⌊x + 1 / 2⌋ else ⌈x - 1 / 2⌉

/-- Function `calculate_rows_to_use(total_divisions, divisions_to_use, total_rows)` with
the quotient and the product taken in exact arithmetic; the final `static_cast<size_t>`
of the rounded value is `Int.toNat`. The function with the rounding of its `double`
arithmetic is `calculate_rows_to_use_double`; the two return the same for
`total_divisions = 8`, the value every caller passes, on fewer than `2^50` rows
(`calculate_rows_to_use_double_eight`). -/
def calculate_rows_to_use (total_divisions divisions_to_use : Int) (total_rows : Nat) : Nat :=
  if divisions_to_use ≥ total_divisions ∨ divisions_to_use ≤ 0 then total_rows
  else
    (std_round (((divisions_to_use : ℚ) / (total_divisions : ℚ)) * (total_rows : ℚ))).toNat

/-- Reference, in the words of the specification: the unweighted impurity
`1 - p^2 - (1 - p)^2` of a group, `p` being the mean target of the group. -/
def gini_unweighted_reference (ds : DecisionTreeDataset) (group : List Nat) : ℚ :=
  let p := (group.map ds.target).sum / (group.length : ℚ)
  1 - p ^ 2 - (1 - p) ^ 2

/-! ## Matrices (`Matrix.h`, `GradMatrix.h`) -/

/-- The class `Matrix<T, n_rows, n_cols>`: the two-dimensional array `data`. -/
structure Matrix (α : Type) (n_rows n_cols : Nat) where
  /-- Member `data`; `data row col` is `data[row][col]`. -/
  data : Fin n_rows → Fin n_cols → α

/-- The default constructor of `Matrix`: all elements zero. -/
def Matrix.zero {α : Type} [CommRing α] {n_rows n_cols : Nat} : Matrix α n_rows n_cols :=
  ⟨fun _ _ => 0⟩

/-- The assignment `m[row][col] = v`. -/
def Matrix.set {α : Type} {n_rows n_cols : Nat} (m : Matrix α n_rows n_cols)
    (row : Fin n_rows) (col : Fin n_cols) (v : α) : Matrix α n_rows n_cols :=
  ⟨Function.update m.data row (Function.update (m.data row) col v)⟩

/-- Method `Matrix::dot`: the three nested loops, accumulating into a zero-initialised
result. -/
def Matrix.dot {α : Type} [CommRing α] {n_rows n_cols right_cols : Nat}
    (self : Matrix α n_rows n_cols) (rhs : Matrix α n_cols right_cols) :
    Matrix α n_rows right_cols :=
  (List.finRange n_rows).foldl (fun result row =>
    (List.finRange right_cols).foldl (fun result col =>
      (List.finRange n_cols).foldl (fun result k =>
        result.set row col (result.data row col + self.data row k * rhs.data k col))
        result) result) Matrix.zero

/-- Method `Matrix::t_dot`: the product of the transpose of the matrix with `rhs`. -/
def Matrix.t_dot {α : Type} [CommRing α] {n_rows n_cols right_cols : Nat}
    (self : Matrix α n_rows n_cols) (rhs : Matrix α n_rows right_cols) :
    Matrix α n_cols right_cols :=
  (List.finRange n_cols).foldl (fun result row =>
    (List.finRange right_cols).foldl (fun result col =>
      (List.finRange n_rows).foldl (fun result k =>
        result.set row col (result.data row col + self.data k row * rhs.data k col))
        result) result) Matrix.zero

/-- Method `Matrix::dot_t`: the product of the matrix with the transpose of `rhs`. -/
def Matrix.dot_t {α : Type} [CommRing α] {n_rows n_cols right_rows : Nat}
    (self : Matrix α n_rows n_cols) (rhs : Matrix α right_rows n_cols) :
    Matrix α n_rows right_rows :=
  (List.finRange n_rows).foldl (fun result row =>
    (List.finRange right_rows).foldl (fun result col =>
      (List.finRange n_cols).foldl (fun result k =>
        result.set row col (result.data row col + self.data row k * rhs.data col k))
        result) result) Matrix.zero

/-- Method `Matrix::add_inplace`. -/
def Matrix.add_inplace {α : Type} [CommRing α] {n_rows n_cols : Nat}
    (self : Matrix α n_rows n_cols) (rhs : Matrix α n_rows n_cols) : Matrix α n_rows n_cols :=
  (List.finRange n_rows).foldl (fun m row =>
    (List.finRange n_cols).foldl (fun m col =>
      m.set row col (m.data row col + rhs.data row col)) m) self

/-- Method `Matrix::add`: a copy of the matrix to which `rhs` is added in place. -/
def Matrix.add {α : Type} [CommRing α] {n_rows n_cols : Nat}
    (self : Matrix α n_rows n_cols) (rhs : Matrix α n_rows n_cols) : Matrix α n_rows n_cols :=
  self.add_inplace rhs

/-- Method `Matrix::t`: the transpose. -/
def Matrix.t {α : Type} [CommRing α] {n_rows n_cols : Nat}
    (self : Matrix α n_rows n_cols) : Matrix α n_cols n_rows :=
  (List.finRange n_rows).foldl (fun result row =>
    (List.finRange n_cols).foldl (fun result col =>
      result.set col row (self.data row col)) result) Matrix.zero

/-- The class `GradMatrix<T, n_rows, n_cols>`: a matrix with the member `grad`. -/
structure GradMatrix (α : Type) (n_rows n_cols : Nat) extends Matrix α n_rows n_cols where
  /-- Member `grad`. -/
  grad : Matrix α n_rows n_cols

/-- Method `GradMatrix::SGDStep`. -/
def GradMatrix.SGDStep {α : Type} [CommRing α] {n_rows n_cols : Nat}
    (self : GradMatrix α n_rows n_cols) (learning_rate : α) : GradMatrix α n_rows n_cols :=
  (List.finRange n_rows).foldl (fun m row =>
    (List.finRange n_cols).foldl (fun m col =>
      { m with
        toMatrix := m.toMatrix.set row col
          (m.data row col - learning_rate * m.grad.data row col) }) m) self

/-! ## The linear layer (`Linear.h`, `base_layers.h`) -/

/-- The object a pointer of static type `Matrix<T, 1, n>*` points to, with its dynamic
type: a plain matrix, or a gradient-bearing matrix (the case in which the
`dynamic_cast` to `GradMatrix<T, 1, n>*` succeeds). -/
inductive MatrixRef (α : Type) (n : Nat) where
  | matrix (m : Matrix α 1 n) : MatrixRef α n
  | grad_matrix (m : GradMatrix α 1 n) : MatrixRef α n

/-- The `Matrix` part of the object pointed to. -/
def MatrixRef.toMatrix {α : Type} {n : Nat} : MatrixRef α n → Matrix α 1 n
  | MatrixRef.matrix m => m
  | MatrixRef.grad_matrix m => m.toMatrix

/-- The struct `ForwardRecord<T, input_size, output_size>`. The object `input_matrix`
points to is kept in the record, `none` being the null pointer, so that what `backward`
writes through the pointer can be read back. -/
structure ForwardRecord (α : Type) (input_size output_size : Nat) where
  /-- Member `input_matrix`. -/
  input_matrix : Option (MatrixRef α input_size)
  /-- Member `output_matrix`. -/
  output_matrix : GradMatrix α 1 output_size

/-- The class `Linear<T, n_inputs, n_units>`. -/
structure Linear (α : Type) (n_inputs n_units : Nat) where
  /-- Member `learning_rate` of `TrainableLayer`. -/
  learning_rate : α
  /-- Member `forward_record`. -/
  forward_record : ForwardRecord α n_inputs n_units
  /-- Member `weights`. -/
  weights : GradMatrix α n_inputs n_units
  /-- Member `biases`. -/
  biases : GradMatrix α 1 n_units

/-- Method `Linear::operator()`: the forward pass on the matrix `x` points to. The
assignment to `output_matrix` copies the data only and leaves its `grad` as it was. -/
def Linear.call {α : Type} [CommRing α] {n_inputs n_units : Nat}
    (self : Linear α n_inputs n_units) (x : MatrixRef α n_inputs) : Linear α n_inputs n_units :=
  { self with
    forward_record :=
      { input_matrix := some x
        output_matrix :=
          { self.forward_record.output_matrix with
            toMatrix := (x.toMatrix.dot self.weights.toMatrix).add self.biases.toMatrix } } }

/-- Method `Linear::backward`. -/
def Linear.backward {α : Type} [CommRing α] {n_inputs n_units : Nat}
    (self : Linear α n_inputs n_units) : Linear α n_inputs n_units :=
  match self.forward_record.input_matrix with
  | none => self
  | some x =>
    let x1 : MatrixRef α n_inputs :=
      match x with
      | MatrixRef.grad_matrix ptr =>
        MatrixRef.grad_matrix
          { ptr with grad := self.forward_record.output_matrix.grad.dot_t self.weights.toMatrix }
      | MatrixRef.matrix m => MatrixRef.matrix m
    { self with
      forward_record := { self.forward_record with input_matrix := some x1 }
      weights :=
        { self.weights with grad := x1.toMatrix.t_dot self.forward_record.output_matrix.grad }
      biases := { self.biases with grad := self.forward_record.output_matrix.grad } }

/-! ## The tree model (`DecisionTreeModel.h`) -/

/-- Method `DecisionTreeDataset::size`: the number of row indices. -/
def DecisionTreeDataset.size (ds : DecisionTreeDataset) : Nat := ds.row_indices.length

/-- Method `DecisionTreeDataset::indices_begin`: the position of the first row index. -/
def DecisionTreeDataset.indices_begin (_ds : DecisionTreeDataset) : Nat := 0

/-- Method `DecisionTreeDataset::indices_end(unsigned int rows_to_use)`: the position of
the end iterator for a number of rows to use. -/
def DecisionTreeDataset.indices_end (ds : DecisionTreeDataset) (rows_to_use : Nat) : Nat :=
  if rows_to_use < ds.row_indices.length ∧ rows_to_use ≥ 0 then rows_to_use
  else ds.row_indices.length

/-- The class `DecisionTreeModel<T, dataset_x_vars>`; `training_set` is the dataset
`training_set_ptr` points to, and `dataset_x_vars` is the `x_vars` of the datasets. -/
structure DecisionTreeModel where
  /-- Member `validation_accuracy`. -/
  validation_accuracy : ℚ
  /-- The dataset behind member `training_set_ptr`. -/
  training_set : DecisionTreeDataset
  /-- Member `validation_set`. -/
  validation_set : DecisionTreeDataset
  /-- Member `root_node_ptr`. -/
  root_node_ptr : Tree

/-- Method `DecisionTreeModel::get_accuracy`. -/
def DecisionTreeModel.get_accuracy (self : DecisionTreeModel) : ℚ := self.validation_accuracy

/-- Method `DecisionTreeModel::train(uint8_t eighths_rows_to_use, size_t x_vars_to_use)`,
without the clock readings. The `size_t` value `rows_to_use` is converted to the
`unsigned int` parameter of `indices_end`, hence reduced modulo `2^32`. -/
def DecisionTreeModel.train (self : DecisionTreeModel) (eighths_rows_to_use : Fin 256)
    (x_vars_to_use : Nat) : DecisionTreeModel :=
  let rows_to_use :=
    calculate_rows_to_use 8 ((eighths_rows_to_use : Nat) : Int) self.training_set.size
  let training_set_begin := self.training_set.indices_begin
  let training_set_end := self.training_set.indices_end (rows_to_use % 2 ^ 32)
  let trained := (DecisionTreeNode.new 0 training_set_begin training_set_end x_vars_to_use).train
    self.training_set Tree.nullptr Tree.nullptr
  { self with training_set := trained.1, root_node_ptr := trained.2 }

/-- Body of the counting loops of `validate`: `total_correct += (prediction == target)`,
the `int` prediction being compared with the target as a number. -/
def DecisionTreeModel.count_sample (self : DecisionTreeModel) (total_correct : ℚ)
    (sample : Row) : ℚ :=
  let prediction := self.root_node_ptr.predict sample
  let target := sample.get self.validation_set.x_vars
  total_correct + (if prediction.map (fun p : Int => (p : ℚ)) = some target then 1 else 0)

/-- Method `DecisionTreeModel::validate(uint8_t eighths_rows_to_use)`, without the clock
readings: the timed pass over the first `rows_to_use` rows, then the pass over the whole
validation set, each recording `total_correct / validation_set.size()`. -/
def DecisionTreeModel.validate (self : DecisionTreeModel) (eighths_rows_to_use : Fin 256) :
    DecisionTreeModel :=
  let rows_to_use :=
    calculate_rows_to_use 8 ((eighths_rows_to_use : Nat) : Int) self.validation_set.size
  let total_correct :=
    (self.validation_set.data_table.take rows_to_use).foldl self.count_sample 0
  let self1 : DecisionTreeModel :=
    { self with validation_accuracy := total_correct / (self.validation_set.size : ℚ) }
  let total_correct := self1.validation_set.data_table.foldl self1.count_sample 0
  { self1 with validation_accuracy := total_correct / (self1.validation_set.size : ℚ) }

/-! ## Reference count of correctly classified validation rows -/

/-- Reference, in the words of the specification: the number of rows of the whole
validation set whose `predict` result equals the target of the row. -/
def correct_rows_reference (self : DecisionTreeModel) : Nat :=
  self.validation_set.data_table.countP (fun sample =>
    decide ((self.root_node_ptr.predict sample).map (fun p : Int => (p : ℚ)) =
      some (sample.get self.validation_set.x_vars)))

/-! ## Leaves, node count and depth discipline of a tree -/

/-- The test `ptr == nullptr` on a child pointer. -/
def Tree.is_nullptr : Tree → Bool
  | Tree.nullptr => true
  | Tree.node _ _ _ => false

/-- The leaves of a tree, from left to right: the nodes without children. -/
def Tree.leaves : Tree → List DecisionTreeNode
  | Tree.nullptr => []
  | Tree.node n left right =>
    if left.is_nullptr && right.is_nullptr then [n] else left.leaves ++ right.leaves

/-- The number of nodes of a tree, which is the number of calls of `train` that built
it. -/
def Tree.n_nodes : Tree → Nat
  | Tree.nullptr => 0
  | Tree.node _ left right => 1 + left.n_nodes + right.n_nodes

/-- The root of the tree, if there is one, has depth `d + 1`. -/
def Tree.child_of_depth (d : Nat) : Tree → Prop
  | Tree.nullptr => True
  | Tree.node n _ _ => n.depth = d + 1

/-- The depth discipline of C30 at every node of a tree: no node is deeper than 6, a
child is one level deeper than its parent, and a node with a child has depth below 6
and a group of more than 10 rows. -/
def Tree.depth_invariant : Tree → Prop
  | Tree.nullptr => True
  | Tree.node n left right =>
    n.depth ≤ 6 ∧ left.child_of_depth n.depth ∧ right.child_of_depth n.depth ∧
    ((left ≠ Tree.nullptr ∨ right ≠ Tree.nullptr) → n.depth < 6 ∧ n.group_size > 10) ∧
    left.depth_invariant ∧ right.depth_invariant

/-! ## Ranges and split conditions of the nodes of a tree -/

/-- Every node of the tree has its index range inside `[lo, hi)`. -/
def Tree.ranges_within (lo hi : Nat) : Tree → Prop
  | Tree.nullptr => True
  | Tree.node n left right =>
    lo ≤ n.group_begin ∧ n.group_end ≤ hi ∧
    left.ranges_within lo hi ∧ right.ranges_within lo hi

/-- The rows of all indices in the range of the root of a tree satisfy `cond`. -/
def Tree.root_range_all (ds : DecisionTreeDataset) (cond : Row → Prop) : Tree → Prop
  | Tree.nullptr => True
  | Tree.node n _ _ => ∀ pos, n.group_begin ≤ pos → pos < n.group_end →
    cond (ds.at (ds.row_indices.getD pos 0))

/-- The split conditions of C29 at every node of a tree: the rows of the indices in the
range of the left child satisfy `row[split_var] < split_val`, and those in the range of
the right child satisfy `row[split_var] >= split_val`. -/
def Tree.split_conditions_hold (ds : DecisionTreeDataset) : Tree → Prop
  | Tree.nullptr => True
  | Tree.node n left right =>
    left.root_range_all ds (fun row => row.get n.split_var.toNat < n.split_val) ∧
    right.root_range_all ds (fun row => row.get n.split_var.toNat ≥ n.split_val) ∧
    left.split_conditions_hold ds ∧ right.split_conditions_hold ds

/-- The test that the index range of a node contains the position `pos`. -/
def DecisionTreeNode.range_contains (self : DecisionTreeNode) (pos : Nat) : Bool :=
  decide (self.group_begin ≤ pos ∧ pos < self.group_end)

/-! ## Reference definitions for the finite-difference check of the linear layer -/

/-- Reference, in the words of the specification: the scalar
`L(x) = sum_j g_j * (x . W + b)_j`, the row `x . W + b` being the output recorded by the
forward pass `Linear::operator()` of the layer on `x`. -/
def linear_loss_reference {α : Type} [CommRing α] {n_inputs n_units : Nat}
    (layer : Linear α n_inputs n_units) (g : Matrix α 1 n_units) (x : GradMatrix α 1 n_inputs) :
    α :=
  ∑ j : Fin n_units,
    g.data 0 j * (layer.call (MatrixRef.grad_matrix x)).forward_record.output_matrix.data 0 j

/-- Reference, in the words of the specification: the input `x + h * e_i`, the row `x`
with `h` added to its coordinate `i`. -/
def perturb_reference {α : Type} [CommRing α] {n_inputs : Nat} (x : GradMatrix α 1 n_inputs)
    (i : Fin n_inputs) (h : α) : GradMatrix α 1 n_inputs :=
  { x with toMatrix := x.toMatrix.set 0 i (x.data 0 i + h) }

/-! ## The activation layers, the loss and the network (`Relu.h`, `Sigmoid.h`, `MSELoss.h`, `NeuralNet.h`, `NeuralNetModel.h`) -/

/-- The class `Relu<T, cols>`. -/
structure Relu (α : Type) (cols : Nat) where
  /-- Member `forward_record`. -/
  forward_record : ForwardRecord α cols cols

/-- Method `Relu::operator()`: the forward pass on the matrix `x` points to; `0.5` is
the number `1 / 2`. -/
def Relu.call {α : Type} [LinearOrderedField α] {cols : Nat} (self : Relu α cols)
    (x : MatrixRef α cols) : Relu α cols :=
  { forward_record :=
      { input_matrix := some x
        output_matrix :=
          (List.finRange cols).foldl (fun output_matrix col =>
            let current_elem := x.toMatrix.data 0 col
            { output_matrix with
              toMatrix := output_matrix.toMatrix.set 0 col
                (if current_elem > 0 then current_elem - 1 / 2 else -(1 / 2)) })
            self.forward_record.output_matrix } }

/-- Method `Relu::backward`. The `static_cast` to `GradMatrix<T, 1, cols>*` is not
checked, so the call has no result when `input_matrix` is null or points to a plain
matrix. -/
def Relu.backward {α : Type} [LinearOrderedField α] {cols : Nat} (self : Relu α cols) :
    Option (Relu α cols) :=
  match self.forward_record.input_matrix with
  | some (MatrixRef.grad_matrix grad_input) =>
    some { forward_record :=
      { self.forward_record with
        input_matrix := some (MatrixRef.grad_matrix
          ((List.finRange cols).foldl (fun grad_input col =>
            { grad_input with
              grad := grad_input.grad.set 0 col
                (if grad_input.data 0 col > 0
                  then self.forward_record.output_matrix.grad.data 0 col else 0) })
            grad_input)) } }
  | _ => none

/-- The class `Sigmoid<T, cols>`. -/
structure Sigmoid (α : Type) (cols : Nat) where
  /-- Member `forward_record`. -/
  forward_record : ForwardRecord α cols cols

/-- Method `Sigmoid::sigmoid`; the library function `std::exp` is the parameter `exp`. -/
def Sigmoid.sigmoid {α : Type} [Field α] (exp : α → α) (x : α) : α := 1 / (1 + exp (-x))

/-- Method `Sigmoid::operator()`. -/
def Sigmoid.call {α : Type} [Field α] {cols : Nat} (exp : α → α) (self : Sigmoid α cols)
    (x : MatrixRef α cols) : Sigmoid α cols :=
  { forward_record :=
      { input_matrix := some x
        output_matrix :=
          (List.finRange cols).foldl (fun output_matrix col =>
            { output_matrix with
              toMatrix := output_matrix.toMatrix.set 0 col
                (Sigmoid.sigmoid exp (x.toMatrix.data 0 col)) })
            self.forward_record.output_matrix } }

/-- Method `Sigmoid::backward`, with the same unchecked `static_cast` as
`Relu::backward`. -/
def Sigmoid.backward {α : Type} [Field α] {cols : Nat} (exp : α → α) (self : Sigmoid α cols) :
    Option (Sigmoid α cols) :=
  match self.forward_record.input_matrix with
  | some (MatrixRef.grad_matrix grad_input) =>
    some { forward_record :=
      { self.forward_record with
        input_matrix := some (MatrixRef.grad_matrix
          ((List.finRange cols).foldl (fun grad_input col =>
            let current_elem := grad_input.data 0 col
            { grad_input with
              grad := grad_input.grad.set 0 col
                (Sigmoid.sigmoid exp current_elem * (1 - Sigmoid.sigmoid exp current_elem) *
                  self.forward_record.output_matrix.grad.data 0 col) })
            grad_input)) } }
  | _ => none

/-- The class `MSELoss<T>` with the members of `LossLayer<T>`; the object `input_matrix`
points to is kept as in `ForwardRecord`. -/
structure MSELoss (α : Type) where
  /-- Member `input_matrix`. -/
  input_matrix : Option (MatrixRef α 1)
  /-- Member `target`. -/
  target : α

/-- Method `MSELoss::operator()`: the layer after the call, and the value returned. -/
def MSELoss.call {α : Type} [CommRing α] (_self : MSELoss α) (x : MatrixRef α 1) (target : α) :
    MSELoss α × α :=
  ({ input_matrix := some x, target := target },
    (x.toMatrix.data 0 0 - target) * (x.toMatrix.data 0 0 - target))

/-- Method `MSELoss::backward`, with the same unchecked `static_cast` as
`Relu::backward`. -/
def MSELoss.backward {α : Type} [CommRing α] (self : MSELoss α) : Option (MSELoss α) :=
  match self.input_matrix with
  | some (MatrixRef.grad_matrix grad_input) =>
    some { self with
      input_matrix := some (MatrixRef.grad_matrix
        { grad_input with
          grad := grad_input.grad.set 0 0 (2 * (grad_input.data 0 0 - self.target)) }) }
  | _ => none

/-- The class `NeuralNet<T, input_cols>`. -/
structure NeuralNet (α : Type) (input_cols : Nat) where
  /-- Member `learning_rate` of `TrainableLayer`. -/
  learning_rate : α
  /-- Member `linear_layer_1`. -/
  linear_layer_1 : Linear α input_cols 8
  /-- Member `layer_1_relu_activation`. -/
  layer_1_relu_activation : Relu α 8
  /-- Member `linear_layer_2`. -/
  linear_layer_2 : Linear α 8 1
  /-- Member `layer_2_sigmoid_activation`. -/
  layer_2_sigmoid_activation : Sigmoid α 1

/-- Method `NeuralNet::operator()`. Each layer returns the address of its
`output_matrix`, a `GradMatrix`, which is the argument of the next layer; the pointer
returned by the network is the address of the `output_matrix` of
`layer_2_sigmoid_activation`. -/
def NeuralNet.call {α : Type} [LinearOrderedField α] {input_cols : Nat} (exp : α → α)
    (self : NeuralNet α input_cols) (x : MatrixRef α input_cols) : NeuralNet α input_cols :=
  let linear_layer_1 := self.linear_layer_1.call x
  let layer_1_relu_activation := self.layer_1_relu_activation.call
    (MatrixRef.grad_matrix linear_layer_1.forward_record.output_matrix)
  let linear_layer_2 := self.linear_layer_2.call
    (MatrixRef.grad_matrix layer_1_relu_activation.forward_record.output_matrix)
  let layer_2_sigmoid_activation := self.layer_2_sigmoid_activation.call exp
    (MatrixRef.grad_matrix linear_layer_2.forward_record.output_matrix)
  { self with
    linear_layer_1 := linear_layer_1
    layer_1_relu_activation := layer_1_relu_activation
    linear_layer_2 := linear_layer_2
    layer_2_sigmoid_activation := layer_2_sigmoid_activation }

/-- The `output_matrix` of a layer after a `backward` call of the layer whose
`input_matrix` is the address of that `output_matrix`: what was written through the
pointer is in the matrix itself. -/
def written_through {α : Type} {n : Nat} (input_matrix : Option (MatrixRef α n))
    (output_matrix : GradMatrix α 1 n) : GradMatrix α 1 n :=
  match input_matrix with
  | some (MatrixRef.grad_matrix m) => m
  | _ => output_matrix

/-- Method `NeuralNet::backward`. The `input_matrix` of each layer after the first is
the address of the `output_matrix` of the layer before it, so each `backward` call
writes the gradient of that `output_matrix`. -/
def NeuralNet.backward {α : Type} [LinearOrderedField α] {input_cols : Nat} (exp : α → α)
    (self : NeuralNet α input_cols) : Option (NeuralNet α input_cols) :=
  match self.layer_2_sigmoid_activation.backward exp with
  | none => none
  | some layer_2_sigmoid_activation =>
    let linear_layer_2 := Linear.backward
      { self.linear_layer_2 with
        forward_record :=
          { self.linear_layer_2.forward_record with
            output_matrix := written_through
              layer_2_sigmoid_activation.forward_record.input_matrix
              self.linear_layer_2.forward_record.output_matrix } }
    match Relu.backward
      { forward_record :=
          { self.layer_1_relu_activation.forward_record with
            output_matrix := written_through linear_layer_2.forward_record.input_matrix
              self.layer_1_relu_activation.forward_record.output_matrix } } with
    | none => none
    | some layer_1_relu_activation =>
      let linear_layer_1 := Linear.backward
        { self.linear_layer_1 with
          forward_record :=
            { self.linear_layer_1.forward_record with
              output_matrix := written_through
                layer_1_relu_activation.forward_record.input_matrix
                self.linear_layer_1.forward_record.output_matrix } }
      some { self with
        linear_layer_1 := linear_layer_1
        layer_1_relu_activation := layer_1_relu_activation
        linear_layer_2 := linear_layer_2
        layer_2_sigmoid_activation := layer_2_sigmoid_activation }

/-- The statements `loss(neural_net(&row.first), row.second); loss.backward();
neural_net.backward();` of the loop body of `NeuralNetModel::train`, on the members
`neural_net` and `loss` of the model. The row of the dataset is a plain matrix, and the
`input_matrix` of `loss` is the address of the network's output. -/
def NeuralNetModel.forward_backward {α : Type} [LinearOrderedField α] {model_x_vars : Nat}
    (exp : α → α) (neural_net : NeuralNet α model_x_vars) (loss : MSELoss α)
    (row : Matrix α 1 model_x_vars × α) : Option (NeuralNet α model_x_vars × MSELoss α) :=
  let neural_net := neural_net.call exp (MatrixRef.matrix row.1)
  let loss := (loss.call (MatrixRef.grad_matrix
    neural_net.layer_2_sigmoid_activation.forward_record.output_matrix) row.2).1
  match loss.backward with
  | none => none
  | some loss =>
    let neural_net : NeuralNet α model_x_vars :=
      { neural_net with
        layer_2_sigmoid_activation :=
          { forward_record :=
              { neural_net.layer_2_sigmoid_activation.forward_record with
                output_matrix := written_through loss.input_matrix
                  neural_net.layer_2_sigmoid_activation.forward_record.output_matrix } } }
    match neural_net.backward exp with
    | none => none
    | some neural_net => some (neural_net, loss)

/-! ## Reference definitions for the forward pass and the gradients of the network -/

/-- Reference, in the words of the specification: `h = x . W1 + b1`. -/
def hidden_reference {α : Type} [CommRing α] {n : Nat} (net : NeuralNet α n)
    (x : Matrix α 1 n) (j : Fin 8) : α :=
  (∑ i : Fin n, x.data 0 i * net.linear_layer_1.weights.data i j) +
    net.linear_layer_1.biases.data 0 j

/-- Reference, in the words of the specification: `a_j = h_j - 0.5` if `h_j > 0`, else
`-0.5`. -/
def activation_reference {α : Type} [LinearOrderedField α] {n : Nat} (net : NeuralNet α n)
    (x : Matrix α 1 n) (j : Fin 8) : α :=
  if hidden_reference net x j > 0 then hidden_reference net x j - 1 / 2 else -(1 / 2)

/-- Reference, in the words of the specification: `p = sigmoid(a . W2 + b2)`, the
sigmoid being `1 / (1 + exp(-z))`. -/
def prediction_reference {α : Type} [LinearOrderedField α] {n : Nat} (exp : α → α)
    (net : NeuralNet α n) (x : Matrix α 1 n) : α :=
  1 / (1 + exp (-((∑ j : Fin 8, activation_reference net x j *
    net.linear_layer_2.weights.data j 0) + net.linear_layer_2.biases.data 0 0)))

/-- Reference, in the words of the specification: `d = 2 (p - t) p (1 - p)`. -/
def delta_reference {α : Type} [LinearOrderedField α] {n : Nat} (exp : α → α)
    (net : NeuralNet α n) (x : Matrix α 1 n) (t : α) : α :=
  2 * (prediction_reference exp net x - t) * prediction_reference exp net x *
    (1 - prediction_reference exp net x)

/-! ## `calculate_rows_to_use` with a partial division -/

/-- The function `calculate_rows_to_use` with the division made partial: there is no
result when the divisor `total_divisions` is 0 at the point where the division is
evaluated. -/
def calculate_rows_to_use_checked (total_divisions divisions_to_use : Int) (total_rows : Nat) :
    Option Nat :=
  if divisions_to_use ≥ total_divisions ∨ divisions_to_use ≤ 0 then some total_rows
  else if total_divisions = 0 then none
  else
    some (std_round
      (((divisions_to_use : ℚ) / (total_divisions : ℚ)) * (total_rows : ℚ))).toNat

/-! ## The copy constructor and `operator=` of the tree node -/

/-- The copy constructor `DecisionTreeNode(const DecisionTreeNode& rhs)`: the members of
the new node and its two child pointers. -/
def DecisionTreeNode.copy (rhs : DecisionTreeNode) : DecisionTreeNode × Tree × Tree :=
  ({ split_var := rhs.split_var
     split_val := rhs.split_val
     class_prediction := rhs.class_prediction
     depth := rhs.depth
     x_vars_to_use := rhs.x_vars_to_use
     group_begin := rhs.group_begin
     group_end := rhs.group_end
     group_size := rhs.group_size }, Tree.nullptr, Tree.nullptr)

/-- Method `DecisionTreeNode::operator=`, called on the node `self` whose child pointers
are `left` and `right`: the members of the node and its two child pointers after the
assignments, in the order of the source. The second assignment is
`split_val = rhs.split_var`, which converts the `int` to `T`. -/
def DecisionTreeNode.operator_assign (self : DecisionTreeNode) (_left _right : Tree)
    (rhs : DecisionTreeNode) : DecisionTreeNode × Tree × Tree :=
  let self := { self with split_var := rhs.split_var }
  let self := { self with split_val := (rhs.split_var : ℚ) }
  let self := { self with class_prediction := rhs.class_prediction }
  let self := { self with depth := rhs.depth }
  let left := Tree.nullptr
  let right := Tree.nullptr
  let self := { self with x_vars_to_use := rhs.x_vars_to_use }
  let self := { self with group_begin := rhs.group_begin }
  let self := { self with group_end := rhs.group_end }
  let self := { self with group_size := rhs.group_size }
  (self, left, right)

/-! ## Reference definition for the comment on `Relu::operator()` -/

/-- Reference, in the words of C35 and of the comment on `Relu::operator()`: the input
element if it is positive, and 0 otherwise. -/
def relu_reference {α : Type} [LinearOrderedField α] (x : α) : α := if x > 0 then x else 0

/-! ## The dataset of the network (`NeuralNetDataset.h`) -/

/-- The class `NeuralNetDataset<T, x_variables, x_variables_to_use>`. -/
structure NeuralNetDataset (α : Type) (x_variables x_variables_to_use : Nat) where
  /-- Member `data_table`. -/
  data_table : List (Matrix α 1 x_variables_to_use × α)

/-- Method `NeuralNetDataset::size`. -/
def NeuralNetDataset.size {α : Type} {x_variables x_variables_to_use : Nat}
    (self : NeuralNetDataset α x_variables x_variables_to_use) : Nat :=
  self.data_table.length

/-- Body of the loop over the lines of the file in `NeuralNetDataset::load_data`, for
the line number `row`. The line is given as the list of its fields, already converted by
`std::stod`, and is taken to have `x_variables + 1` of them (a field past the end of the
line reads as 0 here). The target is the field after the `x_variables_to_use` fields
read and the `x_variables - x_variables_to_use` fields skipped. -/
def NeuralNetDataset.load_row {α : Type} [CommRing α] {x_variables x_variables_to_use : Nat}
    (self : NeuralNetDataset α x_variables x_variables_to_use) (row : Nat) (line : List α) :
    NeuralNetDataset α x_variables x_variables_to_use :=
  -- `data_table.emplace_back()`
  let data_table := self.data_table ++ [((Matrix.zero : Matrix α 1 x_variables_to_use), 0)]
  -- `data_table[row].first[0][col] = std::stod(item)` for each column to use
  let data_table := (List.finRange x_variables_to_use).foldl (fun data_table col =>
    data_table.set row
      (((data_table.getD row (Matrix.zero, 0)).1.set 0 col (line.getD col 0)),
        (data_table.getD row (Matrix.zero, 0)).2)) data_table
  -- `data_table[row].second = std::stod(item)`
  let data_table := data_table.set row
    ((data_table.getD row (Matrix.zero, 0)).1,
      line.getD (x_variables_to_use + (x_variables - x_variables_to_use)) 0)
  { data_table := data_table }

/-- Method `NeuralNetDataset::load_data`; the csv file is given as the list of its
lines. The data table is not cleared, and `row` counts the lines of the file from 0. -/
def NeuralNetDataset.load_data {α : Type} [CommRing α] {x_variables x_variables_to_use : Nat}
    (self : NeuralNetDataset α x_variables x_variables_to_use) (csv_file : List (List α)) :
    NeuralNetDataset α x_variables x_variables_to_use :=
  (csv_file.foldl (fun (state : NeuralNetDataset α x_variables x_variables_to_use × Nat) line =>
    (state.1.load_row state.2 line, state.2 + 1)) (self, 0)).1

/-- The constructor `NeuralNetDataset(const std::string& csv_file)`. -/
def NeuralNetDataset.new {α : Type} [CommRing α] {x_variables x_variables_to_use : Nat}
    (csv_file : List (List α)) : NeuralNetDataset α x_variables x_variables_to_use :=
  NeuralNetDataset.load_data { data_table := [] } csv_file

/-! ## The bounds on the split of the nodes of a tree -/

/-- The condition of C31 at every node of a tree that has a child, for the number `x` of
features to use: `0 <= split_var < x`, the column `split_var` is a feature column of the
dataset, and `split_val` is the value of that column in the row of some index in the
range of the node, or `split_var` and `split_val` are both 0. -/
def Tree.split_within (ds : DecisionTreeDataset) (x : Nat) : Tree → Prop
  | Tree.nullptr => True
  | Tree.node n left right =>
    ((left ≠ Tree.nullptr ∨ right ≠ Tree.nullptr) →
      0 ≤ n.split_var ∧ n.split_var < (x : Int) ∧ n.split_var.toNat < ds.x_vars ∧
      ((∃ pos, n.group_begin ≤ pos ∧ pos < n.group_end ∧
          n.split_val = (ds.at (ds.row_indices.getD pos 0)).get n.split_var.toNat) ∨
        (n.split_var = 0 ∧ n.split_val = 0))) ∧
    left.split_within ds x ∧ right.split_within ds x

/-! ## `double` arithmetic (IEEE 754 binary64) and `calculate_rows_to_use` in it -/

/-- The integer part of the binary logarithm of `n`, by repeated halving, at most `fuel`
times; `n` halvings always suffice. -/
def binary_log : Nat → Nat → Nat
  | 0, _ => 0
  | fuel + 1, n => if 2 ≤ n then binary_log fuel (n / 2) + 1 else 0

/-- The binary exponent of a non-zero rational `q`: the integer `e` with
`2^e <= |q| < 2^(e+1)`. -/
def binary_exponent (q : ℚ) : Int :=
  if (2 : ℚ) ^ ((binary_log q.num.natAbs q.num.natAbs : Int) - (binary_log q.den q.den : Int))
      ≤ |q|
  then (binary_log q.num.natAbs q.num.natAbs : Int) - (binary_log q.den q.den : Int)
  else (binary_log q.num.natAbs q.num.natAbs : Int) - (binary_log q.den q.den : Int) - 1

/-- Rounding of a rational to an integer, to nearest with ties to the even integer. -/
def round_half_even (x : ℚ) : Int :=
  if x - (⌊x⌋ : ℚ) < 1 / 2 then ⌊x⌋
  else if x - (⌊x⌋ : ℚ) > 1 / 2 then ⌊x⌋ + 1
  else if ⌊x⌋ % 2 = 0 then ⌊x⌋ else ⌊x⌋ + 1

/-- The `double` that an arithmetic operation or a conversion with the exact result `q`
returns: the binary64 number nearest to `q`, a tie going to the one with an even
significand (IEEE 754 round to nearest even, with 53 significant bits). Results are taken
in the normal range, `2^-1022 <= |q| < 2^1024`, or 0, and each operation is rounded on its
own (no extended precision, no fused multiply-add). -/
def to_double (q : ℚ) : ℚ :=
  if q = 0 then 0
  else (round_half_even (q / (2 : ℚ) ^ (binary_exponent q - 52)) : ℚ) *
    (2 : ℚ) ^ (binary_exponent q - 52)

/-- Function `calculate_rows_to_use(total_divisions, divisions_to_use, total_rows)` with
its `double` arithmetic: the conversions to `double`, the quotient and the product each
return the nearest `double`; `std::round` of a `double` and the final
`static_cast<size_t>` are as in `calculate_rows_to_use`. -/
def calculate_rows_to_use_double (total_divisions divisions_to_use : Int) (total_rows : Nat) :
    Nat :=
  if divisions_to_use ≥ total_divisions ∨ divisions_to_use ≤ 0 then total_rows
  else
    (std_round (to_double
      (to_double (to_double (divisions_to_use : ℚ) / to_double (total_divisions : ℚ)) *
        to_double (total_rows : ℚ)))).toNat

/-! ## `calculate_gini_index` in `double` arithmetic -/

/-- Body of the first loop of `calculate_gini_index` for the row index `i`, each `double`
operation returning the `double` nearest to its exact result. -/
def gini_count_row_double (ds : DecisionTreeDataset) (split_variable : Nat) (split_value : ℚ)
    (acc : GiniAcc) (i : Nat) : GiniAcc :=
  let row := ds.at i
  if row.get split_variable ≥ split_value then
    { acc with
      size1 := to_double (acc.size1 + 1)
      sum1 := to_double (acc.sum1 + to_double (row.get ds.x_vars)) }
  else
    { acc with
      size0 := to_double (acc.size0 + 1)
      sum0 := to_double (acc.sum0 + to_double (row.get ds.x_vars)) }

/-- Body of the second loop of `calculate_gini_index` for one subgroup, each `double`
operation returning the `double` nearest to its exact result. -/
def gini_add_subgroup_double (gini_index size sum proportion : ℚ) : ℚ :=
  if size > 0 then
    let class_proportions1 := to_double (sum / size)
    let class_proportions0 := to_double (1 - class_proportions1)
    to_double (gini_index +
      to_double (to_double (1 - to_double
        (to_double (class_proportions0 * class_proportions0)
          + to_double (class_proportions1 * class_proportions1))) * proportion))
  else gini_index

/-- Method `DecisionTreeNode::calculate_gini_index` in `double` arithmetic. -/
def DecisionTreeNode.calculate_gini_index_double (ds : DecisionTreeDataset)
    (self : DecisionTreeNode) (split_variable : Nat) (split_value : ℚ) : ℚ :=
  let acc := (self.group ds).foldl (gini_count_row_double ds split_variable split_value)
    ⟨0, 0, 0, 0⟩
  let subgroup_size_proportions0 := to_double (acc.size0 / to_double (self.group_size : ℚ))
  let subgroup_size_proportions1 := to_double (1 - subgroup_size_proportions0)
  let gini_index := gini_add_subgroup_double 0 acc.size0 acc.sum0 subgroup_size_proportions0
  gini_add_subgroup_double gini_index acc.size1 acc.sum1 subgroup_size_proportions1

/-! ## `get_best_split` with the impurity as a parameter -/

/-- Body of the inner loop of `get_best_split`, with the `double` returned by the call
`calculate_gini_index(col, current_val)` given by the function `gini`, so that nothing is
assumed about how the impurity is rounded. -/
def get_best_split_col_scored (gini : Nat → ℚ → ℚ) (row : Row) (st : BestSplit) (col : Nat) :
    BestSplit :=
  if st.done then st
  else
    let current_val := row.get col
    let current_gini_index := gini col current_val
    if current_gini_index < st.best_gini_index then
      { best_gini_index := current_gini_index
        best_val := current_val
        best_var := col
        done := if current_gini_index = 0 then true else st.done }
    else st

/-- Body of the outer loop of `get_best_split`, with the impurity given by `gini`. -/
def get_best_split_row_scored (gini : Nat → ℚ → ℚ) (ds : DecisionTreeDataset)
    (self : DecisionTreeNode) (st : BestSplit) (i : Nat) : BestSplit :=
  if st.done then st
  else (List.range self.x_vars_to_use).foldl (get_best_split_col_scored gini (ds.at i)) st

/-- The two loops of `get_best_split`, with the impurity given by `gini`. -/
def DecisionTreeNode.best_split_search_scored (gini : Nat → ℚ → ℚ) (ds : DecisionTreeDataset)
    (self : DecisionTreeNode) : BestSplit :=
  (self.group ds).foldl (get_best_split_row_scored gini ds self) ⟨1 / 2, 0, 0, false⟩

/-- Method `DecisionTreeNode::get_best_split`, with the impurity given by `gini`. -/
def DecisionTreeNode.get_best_split_scored (gini : Nat → ℚ → ℚ) (ds : DecisionTreeDataset)
    (self : DecisionTreeNode) : DecisionTreeNode :=
  let best := self.best_split_search_scored gini ds
  { self with split_var := (best.best_var : Int), split_val := best.best_val }

/-! ## Concrete datasets used to instantiate the theorems -/

/-- A table of five rows with one feature and a target, with the identity index vector. -/
def dataset_five : DecisionTreeDataset :=
  ⟨1, [[3, 0], [5, 1], [1, 0], [4, 1], [2, 0]], [0, 1, 2, 3, 4]⟩

/-- A node over the range `[1, 5)` split at `row[0] < 3`. -/
def node_five : DecisionTreeNode := ⟨0, 3, -1, 0, 1, 1, 5, 4⟩


/-- A table of two rows with the same feature value and different targets. -/
def dataset_tie : DecisionTreeDataset := ⟨1, [[5, 0], [5, 1]], [0, 1]⟩


/-- A table of twelve rows: feature 0 is `-1` in six rows and `1` in six rows, and in
each half the targets alternate between 0 and 1. -/
def dataset_balanced : DecisionTreeDataset :=
  ⟨1, [[-1, 0], [-1, 1], [-1, 0], [-1, 1], [-1, 0], [-1, 1],
       [1, 0], [1, 1], [1, 0], [1, 1], [1, 0], [1, 1]],
   [0, 1, 2, 3, 4, 5, 6, 7, 8, 9, 10, 11]⟩

/-- A table of twelve rows whose target is 1 exactly when feature 0 is at least 7. -/
def dataset_separable : DecisionTreeDataset :=
  ⟨1, [[3, 0], [9, 1], [1, 0], [12, 1], [5, 0], [7, 1],
       [2, 0], [10, 1], [6, 0], [8, 1], [4, 0], [11, 1]],
   [0, 1, 2, 3, 4, 5, 6, 7, 8, 9, 10, 11]⟩

/-- A small gradient-bearing matrix for concrete checks. -/
def matrix_g : GradMatrix ℚ 1 2 := ⟨⟨fun _ j => (j : ℚ) + 1⟩, ⟨fun _ j => (j : ℚ) + 3⟩⟩

/-- A linear layer with two inputs and one unit, after a forward pass on the
gradient-bearing row `matrix_g`. -/
def linear_example : Linear ℚ 2 1 :=
  (({ learning_rate := 1 / 10
      forward_record := ⟨none, ⟨⟨fun _ _ => 0⟩, ⟨fun _ _ => 5⟩⟩⟩
      weights := ⟨⟨fun i _ => (i : ℚ) + 2⟩, ⟨fun _ _ => 7⟩⟩
      biases := ⟨⟨fun _ _ => 1⟩, ⟨fun _ _ => 9⟩⟩ } : Linear ℚ 2 1).call
    (MatrixRef.grad_matrix matrix_g))

/-- Two training rows with four features, one of each class, by the rule that the class
is 1 exactly when feature 0 is non-negative. -/
def dataset_rule_small : DecisionTreeDataset :=
  ⟨4, [[-1, 0, 0, 0, 0], [1, 0, 0, 0, 1]], [0, 1]⟩

/-- Twelve training rows with four features following the same rule: feature 0 runs over
`-6 .. -1` and `5 .. 10`. -/
def dataset_rule_gap : DecisionTreeDataset :=
  ⟨4, [[-6, 0, 0, 0, 0], [-5, 0, 0, 0, 0], [-4, 0, 0, 0, 0], [-3, 0, 0, 0, 0],
       [-2, 0, 0, 0, 0], [-1, 0, 0, 0, 0], [5, 0, 0, 0, 1], [6, 0, 0, 0, 1],
       [7, 0, 0, 0, 1], [8, 0, 0, 0, 1], [9, 0, 0, 0, 1], [10, 0, 0, 0, 1]],
   [0, 1, 2, 3, 4, 5, 6, 7, 8, 9, 10, 11]⟩

/-- One validation row following the same rule, whose feature 0 lies between the two
classes of `dataset_rule_gap`. -/
def dataset_rule_between : DecisionTreeDataset := ⟨4, [[2, 0, 0, 0, 1]], [0]⟩

/-- Models over the datasets above, before training. -/
def model_rule_small : DecisionTreeModel := ⟨0, dataset_rule_small, dataset_rule_small, Tree.nullptr⟩

/-- A model with `dataset_rule_gap` for training and `dataset_rule_between` for
validation, before training. -/
def model_rule_gap : DecisionTreeModel :=
  ⟨0, dataset_rule_gap, dataset_rule_between, Tree.nullptr⟩

/-- A model trained and validated on `dataset_rule_gap`, before training. -/
def model_rule_same : DecisionTreeModel := ⟨0, dataset_rule_gap, dataset_rule_gap, Tree.nullptr⟩

/-- The gradient-bearing row `[-1, 0, 1]` with a zero gradient. -/
def matrix_x3 : GradMatrix ℚ 1 3 := ⟨⟨fun _ => ![-1, 0, 1]⟩, ⟨fun _ _ => 0⟩⟩

/-- A `Relu` layer after a forward pass on `matrix_x3`, with the output gradient
`[2, 3, 4]`. -/
def example_relu : Relu ℚ 3 :=
  (Relu.mk ⟨none, ⟨⟨fun _ _ => 0⟩, ⟨fun _ j => (j : ℚ) + 2⟩⟩⟩).call
    (MatrixRef.grad_matrix matrix_x3)

/-- A dataset of one feature holding the one row `([1], 0)`. -/
def example_nn_dataset : NeuralNetDataset ℚ 1 1 := NeuralNetDataset.new [[1, 0]]

/-- Three rows with the feature values 2, 3, 4 and the targets 1, 0, 1. -/
def dataset_three : DecisionTreeDataset := ⟨1, [[2, 1], [3, 0], [4, 1]], [0, 1, 2]⟩

/-! ## `std::partition`: the contract -/

theorem partition_skip_true_ge (pred : Nat → Bool) (a : List Nat) (dist first : Nat) :
    first ≤ partition_skip_true pred a first dist := by
  induction dist generalizing first with
  | zero => simp [partition_skip_true]
  | succ d ih =>
    simp only [partition_skip_true]
    split
    · exact Nat.le_trans (Nat.le_succ first) (ih (first + 1))
    · exact Nat.le_refl first

theorem partition_skip_true_le (pred : Nat → Bool) (a : List Nat) (dist first : Nat) :
    partition_skip_true pred a first dist ≤ first + dist := by
  induction dist generalizing first with
  | zero => simp [partition_skip_true]
  | succ d ih =>
    simp only [partition_skip_true]
    split
    · have := ih (first + 1); omega
    · omega

theorem partition_skip_false_ge (pred : Nat → Bool) (a : List Nat) (first dist : Nat) :
    first ≤ partition_skip_false pred a first dist := by
  induction dist with
  | zero => simp [partition_skip_false]
  | succ d ih =>
    simp only [partition_skip_false]
    split
    · exact ih
    · omega

theorem partition_skip_false_le (pred : Nat → Bool) (a : List Nat) (first dist : Nat) :
    partition_skip_false pred a first dist ≤ first + dist := by
  induction dist with
  | zero => simp [partition_skip_false]
  | succ d ih =>
    simp only [partition_skip_false]
    split
    · omega
    · omega

theorem cons_set_perm (x : Nat) : ∀ (xs : List Nat) (k : Nat), k < xs.length →
    (xs.getD k 0 :: xs.set k x).Perm (x :: xs)
  | [], k, h => by simp at h
  | y :: ys, 0, _ => by simpa using List.Perm.swap x y ys
  | y :: ys, k + 1, h => by
    have ih := cons_set_perm x ys k (by simpa using h)
    have h1 : ((y :: ys).getD (k + 1) 0 :: (y :: ys).set (k + 1) x).Perm
        (y :: ys.getD k 0 :: ys.set k x) := by
      simpa using List.Perm.swap y (ys.getD k 0) (ys.set k x)
    exact h1.trans (((ih.cons y)).trans (List.Perm.swap x y ys))

theorem iter_swap_perm : ∀ (a : List Nat) (i j : Nat), i < j → j < a.length →
    (iter_swap a i j).Perm a
  | [], _, _, _, h => by simp at h
  | x :: xs, 0, j + 1, _, h => by
    have := cons_set_perm x xs j (by simpa using h)
    simpa [iter_swap] using this
  | x :: xs, i + 1, j + 1, hij, h => by
    have := iter_swap_perm xs i j (by omega) (by simpa using h)
    simpa [iter_swap] using this

theorem iter_swap_length (a : List Nat) (i j : Nat) : (iter_swap a i j).length = a.length := by
  simp [iter_swap]

theorem iter_swap_getD (a : List Nat) (i j k : Nat) (hi : i < a.length) (hj : j < a.length) :
    (iter_swap a i j).getD k 0 =
      if k = j then a.getD i 0 else if k = i then a.getD j 0 else a.getD k 0 := by
  simp only [iter_swap, List.getD_eq_getElem?_getD, List.getElem?_set, List.length_set]
  by_cases hkj : k = j
  · subst hkj; simp [hj]
  · by_cases hki : k = i
    · subst hki; simp [hi, Ne.symm hkj, hkj]
    · simp [Ne.symm hkj, Ne.symm hki, hkj, hki]

theorem partition_skip_true_spec (pred : Nat → Bool) (a : List Nat) (dist first : Nat) :
    (∀ i, first ≤ i → i < partition_skip_true pred a first dist → pred (a.getD i 0) = true) ∧
    (partition_skip_true pred a first dist = first + dist ∨
      pred (a.getD (partition_skip_true pred a first dist) 0) = false) := by
  induction dist generalizing first with
  | zero => simp [partition_skip_true]; intro i h1 h2; omega
  | succ d ih =>
    simp only [partition_skip_true]
    by_cases hp : pred (a.getD first 0) = true
    · simp only [hp, if_true]
      obtain ⟨h1, h2⟩ := ih (first + 1)
      refine ⟨fun i hi hlt => ?_, ?_⟩
      · by_cases hif : i = first
        · subst hif; exact hp
        · exact h1 i (by omega) hlt
      · rcases h2 with h2 | h2
        · left; omega
        · right; exact h2
    · simp only [hp]
      refine ⟨fun i hi hlt => ?_, ?_⟩
      · simp at hlt; omega
      · right; simpa using hp

theorem partition_skip_false_spec (pred : Nat → Bool) (a : List Nat) (first dist : Nat) :
    (∀ i, partition_skip_false pred a first dist < i → i ≤ first + dist →
      pred (a.getD i 0) = false) ∧
    (partition_skip_false pred a first dist = first ∨
      pred (a.getD (partition_skip_false pred a first dist) 0) = true) := by
  induction dist with
  | zero => simp [partition_skip_false]; intro i h1 h2; omega
  | succ d ih =>
    simp only [partition_skip_false]
    by_cases hp : pred (a.getD (first + (d + 1)) 0) = true
    · rw [if_neg (by rw [hp]; decide)]
      refine ⟨fun i hi hle => ?_, Or.inr hp⟩
      omega
    · have hp' : pred (a.getD (first + (d + 1)) 0) = false := by simpa using hp
      rw [if_pos (by rw [hp']; decide)]
      obtain ⟨h1, h2⟩ := ih
      refine ⟨fun i hi hle => ?_, h2⟩
      by_cases hif : i = first + (d + 1)
      · subst hif; exact hp'
      · exact h1 i hi (by omega)

/-- The contract of `std::partition` on the range `[first, last)` of a vector. -/
theorem partition_spec (pred : Nat → Bool) (n : Nat) : ∀ (a : List Nat) (first last : Nat),
    last - first ≤ n → first ≤ last → last ≤ a.length →
    (partition pred a first last).1.Perm a ∧
    (partition pred a first last).1.length = a.length ∧
    first ≤ (partition pred a first last).2 ∧
    (partition pred a first last).2 ≤ last ∧
    (∀ i, i < first ∨ last ≤ i →
      (partition pred a first last).1.getD i 0 = a.getD i 0) ∧
    (∀ i, first ≤ i → i < (partition pred a first last).2 →
      pred ((partition pred a first last).1.getD i 0) = true) ∧
    (∀ i, (partition pred a first last).2 ≤ i → i < last →
      pred ((partition pred a first last).1.getD i 0) = false) := by
  induction n with
  | zero =>
    intro a first last hn hfl hla
    have : first = last := by omega
    subst this
    rw [MLComparison.partition]
    rw [Nat.sub_self, partition_skip_true, if_pos rfl]
    exact ⟨List.Perm.refl _, rfl, Nat.le_refl _, Nat.le_refl _, fun _ _ => rfl,
      fun i h1 h2 => absurd h2 (by simpa using h1), fun i h1 h2 => absurd h2 (by simpa using h1)⟩
  | succ n ih =>
    intro a first last hn hfl hla
    rw [MLComparison.partition]
    have hge := partition_skip_true_ge pred a (last - first) first
    have hle := partition_skip_true_le pred a (last - first) first
    obtain ⟨hT1, hT2⟩ := partition_skip_true_spec pred a (last - first) first
    generalize partition_skip_true pred a first (last - first) = first1 at *
    by_cases h1 : first1 = last
    · rw [if_pos h1]
      refine ⟨List.Perm.refl _, rfl, h1 ▸ hfl, Nat.le_of_eq h1, fun _ _ => rfl, ?_, ?_⟩
      · intro i hi hlt; exact hT1 i hi hlt
      · intro i hi hlt
        have : first1 ≤ i := hi
        omega
    · rw [if_neg h1]
      simp only []
      have hge2 := partition_skip_false_ge pred a first1 (last - 1 - first1)
      have hle2 := partition_skip_false_le pred a first1 (last - 1 - first1)
      obtain ⟨hF1, hF2⟩ := partition_skip_false_spec pred a first1 (last - 1 - first1)
      generalize partition_skip_false pred a first1 (last - 1 - first1) = last2 at *
      have hT2' : pred (a.getD first1 0) = false := by
        rcases hT2 with h | h
        · exfalso; omega
        · exact h
      by_cases h2 : first1 = last2
      · rw [dif_pos h2]
        subst h2
        refine ⟨List.Perm.refl _, rfl, hge, by omega, fun _ _ => rfl, ?_, ?_⟩
        · intro i hi hlt; exact hT1 i hi hlt
        · intro i hi hlt
          by_cases hif : i = first1
          · subst hif; exact hT2'
          · exact hF1 i (by omega) (by omega)
      · rw [dif_neg h2]
        have hF2' : pred (a.getD last2 0) = true := by
          rcases hF2 with h | h
          · exfalso; omega
          · exact h
        have hl2 : last2 < a.length := by omega
        have hf1 : first1 < last2 := by omega
        have hsl := iter_swap_length a first1 last2
        obtain ⟨p1, p2, p3, p4, p5, p6, p7⟩ :=
          ih (iter_swap a first1 last2) (first1 + 1) last2 (by omega) (by omega) (by omega)
        generalize partition pred (iter_swap a first1 last2) (first1 + 1) last2 = r at *
        have hsw := iter_swap_getD a first1 last2
        refine ⟨p1.trans (iter_swap_perm a first1 last2 hf1 hl2), by omega, by omega, by omega,
          ?_, ?_, ?_⟩
        · intro i hi
          rw [p5 i (by omega), hsw i (by omega) hl2]
          rw [if_neg (by omega), if_neg (by omega)]
        · intro i hi hlt
          by_cases hif : i < first1 + 1
          · rw [p5 i (Or.inl hif), hsw i (by omega) hl2, if_neg (by omega)]
            by_cases hie : i = first1
            · rw [if_pos hie]; exact hF2'
            · rw [if_neg hie]; exact hT1 i hi (by omega)
          · exact p6 i (by omega) hlt
        · intro i hi hlt
          by_cases hif : i < last2
          · exact p7 i hi hif
          · rw [p5 i (Or.inr (by omega)), hsw i (by omega) hl2]
            by_cases hie : i = last2
            · rw [if_pos hie]; exact hT2'
            · rw [if_neg hie, if_neg (by omega)]; exact hF1 i (by omega) (by omega)

theorem getD_eq_imp_getElem? (a a' : List Nat) (hlen : a'.length = a.length) (i : Nat)
    (h : a'.getD i 0 = a.getD i 0) : a'[i]? = a[i]? := by
  by_cases hi : i < a.length
  · have hi' : i < a'.length := by omega
    simp only [List.getD_eq_getElem?_getD, List.getElem?_eq_getElem hi,
      List.getElem?_eq_getElem hi', Option.getD_some] at h
    rw [List.getElem?_eq_getElem hi, List.getElem?_eq_getElem hi', h]
  · rw [List.getElem?_eq_none (by omega), List.getElem?_eq_none (by omega)]

theorem slice_decomp (a : List Nat) (b e : Nat) (hbe : b ≤ e) :
    a = a.take b ++ ((a.drop b).take (e - b) ++ a.drop e) := by
  have h1 : a.drop e = (a.drop b).drop (e - b) := by
    rw [List.drop_drop]; congr 1; omega
  rw [h1, List.take_append_drop, List.take_append_drop]

theorem slice_perm (a a' : List Nat) (b e : Nat) (hbe : b ≤ e)
    (hperm : a'.Perm a) (hlen : a'.length = a.length)
    (hout : ∀ i, i < b ∨ e ≤ i → a'.getD i 0 = a.getD i 0) :
    ((a'.drop b).take (e - b)).Perm ((a.drop b).take (e - b)) := by
  have ht : a'.take b = a.take b := by
    apply List.ext_getElem?
    intro i
    by_cases hi : i < b
    · rw [List.getElem?_take_of_lt hi, List.getElem?_take_of_lt hi]
      exact getD_eq_imp_getElem? a a' hlen i (hout i (Or.inl hi))
    · rw [List.getElem?_take_eq_none (by omega), List.getElem?_take_eq_none (by omega)]
  have hd : a'.drop e = a.drop e := by
    apply List.ext_getElem?
    intro i
    rw [List.getElem?_drop, List.getElem?_drop]
    exact getD_eq_imp_getElem? a a' hlen (e + i) (hout (e + i) (Or.inr (by omega)))
  have h1 := slice_decomp a b e hbe
  have h2 := slice_decomp a' b e hbe
  rw [ht, hd] at h2
  rw [h1, h2] at hperm
  have h3 := (List.perm_append_left_iff _).mp hperm
  exact (List.perm_append_right_iff _).mp h3

/-! ## `split_group` -/

theorem split_group_data_table (ds : DecisionTreeDataset) (self : DecisionTreeNode) :
    (self.split_group ds).1.data_table = ds.data_table ∧
    (self.split_group ds).1.x_vars = ds.x_vars := ⟨rfl, rfl⟩

theorem split_group_at (ds : DecisionTreeDataset) (self : DecisionTreeNode) (i : Nat) :
    (self.split_group ds).1.at i = ds.at i := rfl

/-- C1: on a non-empty range `[group_begin, group_end)` of the index vector and for any
split variable and split value stored in the node, `split_group` returns a split point
`p` inside the range such that the row of every index at a position in
`[group_begin, p)` has `row[split_var] < split_val`, the row of every index at a
position in `[p, group_end)` has `row[split_var] ≥ split_val`, and the indices held by
the range afterwards are a permutation of those held before. -/
theorem split_group_partitions (ds : DecisionTreeDataset) (self : DecisionTreeNode)
    (hne : self.group_begin < self.group_end)
    (hend : self.group_end ≤ ds.row_indices.length) :
    self.group_begin ≤ (self.split_group ds).2 ∧
    (self.split_group ds).2 ≤ self.group_end ∧
    (∀ pos, self.group_begin ≤ pos → pos < (self.split_group ds).2 →
      ((self.split_group ds).1.at ((self.split_group ds).1.row_indices.getD pos 0)).get
        self.split_var.toNat < self.split_val) ∧
    (∀ pos, (self.split_group ds).2 ≤ pos → pos < self.group_end →
      ((self.split_group ds).1.at ((self.split_group ds).1.row_indices.getD pos 0)).get
        self.split_var.toNat ≥ self.split_val) ∧
    (self.group (self.split_group ds).1).Perm (self.group ds) := by
  obtain ⟨p1, p2, p3, p4, p5, p6, p7⟩ :=
    partition_spec (self.goes_left ds) (self.group_end - self.group_begin) ds.row_indices
      self.group_begin self.group_end (Nat.le_refl _) (Nat.le_of_lt hne) hend
  refine ⟨p3, p4, ?_, ?_, ?_⟩
  · intro pos h1 h2
    have := p6 pos h1 h2
    simpa [DecisionTreeNode.goes_left] using this
  · intro pos h1 h2
    have := p7 pos h1 h2
    simpa [DecisionTreeNode.goes_left] using this
  · exact slice_perm ds.row_indices _ self.group_begin self.group_end (Nat.le_of_lt hne) p1 p2 p5

/-- C1 at the node `node_five` over `dataset_five`. -/
theorem split_group_partitions_witness :
    node_five.group_begin ≤ (node_five.split_group dataset_five).2 ∧
    (node_five.split_group dataset_five).2 ≤ node_five.group_end ∧
    (∀ pos, node_five.group_begin ≤ pos → pos < (node_five.split_group dataset_five).2 →
      ((node_five.split_group dataset_five).1.at
        ((node_five.split_group dataset_five).1.row_indices.getD pos 0)).get
        node_five.split_var.toNat < node_five.split_val) ∧
    (∀ pos, (node_five.split_group dataset_five).2 ≤ pos → pos < node_five.group_end →
      ((node_five.split_group dataset_five).1.at
        ((node_five.split_group dataset_five).1.row_indices.getD pos 0)).get
        node_five.split_var.toNat ≥ node_five.split_val) ∧
    (node_five.group (node_five.split_group dataset_five).1).Perm
      (node_five.group dataset_five) :=
  split_group_partitions dataset_five node_five (by decide) (by decide)

/-! ## `train`: unfolding and frame -/


theorem split_group_frame (ds : DecisionTreeDataset) (self : DecisionTreeNode)
    (hbe : self.group_begin ≤ self.group_end)
    (hend : self.group_end ≤ ds.row_indices.length) :
    (self.split_group ds).1.row_indices.Perm ds.row_indices ∧
    (self.split_group ds).1.row_indices.length = ds.row_indices.length ∧
    self.group_begin ≤ (self.split_group ds).2 ∧
    (self.split_group ds).2 ≤ self.group_end ∧
    (∀ i, i < self.group_begin ∨ self.group_end ≤ i →
      (self.split_group ds).1.row_indices.getD i 0 = ds.row_indices.getD i 0) := by
  obtain ⟨p1, p2, p3, p4, p5, _, _⟩ :=
    partition_spec (self.goes_left ds) (self.group_end - self.group_begin) ds.row_indices
      self.group_begin self.group_end (Nat.le_refl _) hbe hend
  exact ⟨p1, p2, p3, p4, p5⟩

/-- The `else` branch of `train`: the stop rule on depth and group size fires. -/
theorem train_of_stop (ds : DecisionTreeDataset) (self : DecisionTreeNode) (left right : Tree)
    (h : ¬(self.depth < 6 ∧ self.group_size > 10)) :
    self.train ds left right = (ds, Tree.node (self.become_leaf ds) left right) := by
  rw [DecisionTreeNode.train, dif_neg h]

/-- The branch of `train` in which the split point is an end of the range. -/
theorem train_of_degenerate (ds : DecisionTreeDataset) (self : DecisionTreeNode)
    (left right : Tree) (h : self.depth < 6 ∧ self.group_size > 10)
    (hd : ((self.get_best_split ds).split_group ds).2 = self.group_begin ∨
      ((self.get_best_split ds).split_group ds).2 = self.group_end) :
    self.train ds left right =
      (((self.get_best_split ds).split_group ds).1,
        Tree.node ((self.get_best_split ds).become_leaf
          ((self.get_best_split ds).split_group ds).1) left right) := by
  rw [DecisionTreeNode.train, dif_pos h]
  exact if_pos hd

/-- The branch of `train` that creates and trains the two children. -/
theorem train_of_split (ds : DecisionTreeDataset) (self : DecisionTreeNode)
    (left right : Tree) (h : self.depth < 6 ∧ self.group_size > 10)
    (hd : ¬(((self.get_best_split ds).split_group ds).2 = self.group_begin ∨
      ((self.get_best_split ds).split_group ds).2 = self.group_end)) :
    self.train ds left right =
      ((DecisionTreeNode.train
          (DecisionTreeNode.train ((self.get_best_split ds).split_group ds).1
            (DecisionTreeNode.new (self.depth + 1) self.group_begin
              ((self.get_best_split ds).split_group ds).2 self.x_vars_to_use)
            Tree.nullptr Tree.nullptr).1
          (DecisionTreeNode.new (self.depth + 1) ((self.get_best_split ds).split_group ds).2
            self.group_end self.x_vars_to_use) Tree.nullptr Tree.nullptr).1,
        Tree.node (self.get_best_split ds)
          (DecisionTreeNode.train ((self.get_best_split ds).split_group ds).1
            (DecisionTreeNode.new (self.depth + 1) self.group_begin
              ((self.get_best_split ds).split_group ds).2 self.x_vars_to_use)
            Tree.nullptr Tree.nullptr).2
          (DecisionTreeNode.train
            (DecisionTreeNode.train ((self.get_best_split ds).split_group ds).1
              (DecisionTreeNode.new (self.depth + 1) self.group_begin
                ((self.get_best_split ds).split_group ds).2 self.x_vars_to_use)
              Tree.nullptr Tree.nullptr).1
            (DecisionTreeNode.new (self.depth + 1) ((self.get_best_split ds).split_group ds).2
              self.group_end self.x_vars_to_use) Tree.nullptr Tree.nullptr).2) := by
  rw [DecisionTreeNode.train, dif_pos h]
  exact if_neg hd

/-- Frame property of the whole recursion of `train`: the data table is untouched, the
index vector is permuted, and positions outside the node's range keep their value. -/
theorem train_frame (k : Nat) : ∀ (ds : DecisionTreeDataset) (self : DecisionTreeNode)
    (left right : Tree), 6 - self.depth ≤ k →
    self.group_begin ≤ self.group_end → self.group_end ≤ ds.row_indices.length →
    (self.train ds left right).1.data_table = ds.data_table ∧
    (self.train ds left right).1.x_vars = ds.x_vars ∧
    (self.train ds left right).1.row_indices.Perm ds.row_indices ∧
    (∀ i, i < self.group_begin ∨ self.group_end ≤ i →
      (self.train ds left right).1.row_indices.getD i 0 = ds.row_indices.getD i 0) := by
  induction k with
  | zero =>
    intro ds self left right hk hbe hend
    rw [train_of_stop ds self left right (by omega)]
    exact ⟨rfl, rfl, List.Perm.refl _, fun _ _ => rfl⟩
  | succ k ih =>
    intro ds self left right hk hbe hend
    by_cases hc : self.depth < 6 ∧ self.group_size > 10
    · obtain ⟨s1, s2, s3, s4, s5⟩ := split_group_frame ds (self.get_best_split ds) hbe hend
      have s3 : self.group_begin ≤ ((self.get_best_split ds).split_group ds).2 := s3
      have s4 : ((self.get_best_split ds).split_group ds).2 ≤ self.group_end := s4
      have s5 : ∀ i, i < self.group_begin ∨ self.group_end ≤ i →
            ((self.get_best_split ds).split_group ds).1.row_indices.getD i 0
              = ds.row_indices.getD i 0 := s5
      have hdt : ((self.get_best_split ds).split_group ds).1.data_table = ds.data_table := rfl
      have hxv : ((self.get_best_split ds).split_group ds).1.x_vars = ds.x_vars := rfl
      by_cases hd : ((self.get_best_split ds).split_group ds).2 = self.group_begin ∨
          ((self.get_best_split ds).split_group ds).2 = self.group_end
      · rw [train_of_degenerate ds self left right hc hd]
        exact ⟨hdt, hxv, s1, s5⟩
      · rw [train_of_split ds self left right hc hd]
        generalize (self.get_best_split ds).split_group ds = sp at *
        obtain ⟨l1, l2, l3, l4⟩ := ih sp.1
          (DecisionTreeNode.new (self.depth + 1) self.group_begin sp.2 self.x_vars_to_use)
          Tree.nullptr Tree.nullptr
          (by simp only [DecisionTreeNode.new]; omega) s3
          (by simp only [DecisionTreeNode.new]; omega)
        generalize DecisionTreeNode.train sp.1
          (DecisionTreeNode.new (self.depth + 1) self.group_begin sp.2 self.x_vars_to_use)
          Tree.nullptr Tree.nullptr = l at *
        obtain ⟨r1, r2, r3, r4⟩ := ih l.1
          (DecisionTreeNode.new (self.depth + 1) sp.2 self.group_end self.x_vars_to_use)
          Tree.nullptr Tree.nullptr
          (by simp only [DecisionTreeNode.new]; omega) s4
          (by simp only [DecisionTreeNode.new]; rw [l3.length_eq]; omega)
        generalize DecisionTreeNode.train l.1
          (DecisionTreeNode.new (self.depth + 1) sp.2 self.group_end self.x_vars_to_use)
          Tree.nullptr Tree.nullptr = r at *
        simp only [DecisionTreeNode.new] at l4 r4
        refine ⟨r1.trans (l1.trans hdt), r2.trans (l2.trans hxv), r3.trans (l3.trans s1), ?_⟩
        intro i hi
        rw [r4 i (by omega), l4 i (by omega), s5 i hi]
    · rw [train_of_stop ds self left right hc]
      exact ⟨rfl, rfl, List.Perm.refl _, fun _ _ => rfl⟩

/-- C2: on a dataset of `n` rows whose index vector is a permutation of `[0..n)` and
for a root node over a range `[group_begin, group_end)` of it, after the whole
recursion of `train` the index vector is still a permutation of `[0..n)`, every
position outside the range holds the value it held before, and the data table is the
one it was. -/
theorem train_keeps_permutation (ds : DecisionTreeDataset) (self : DecisionTreeNode)
    (left right : Tree)
    (hperm : ds.row_indices.Perm (List.range ds.data_table.length))
    (hbe : self.group_begin ≤ self.group_end)
    (hend : self.group_end ≤ ds.data_table.length) :
    (self.train ds left right).1.row_indices.Perm
      (List.range (self.train ds left right).1.data_table.length) ∧
    (∀ pos, pos < self.group_begin ∨ self.group_end ≤ pos →
      (self.train ds left right).1.row_indices.getD pos 0 = ds.row_indices.getD pos 0) ∧
    (self.train ds left right).1.data_table = ds.data_table := by
  have hlen : ds.row_indices.length = ds.data_table.length := by
    rw [hperm.length_eq, List.length_range]
  obtain ⟨h1, _, h3, h4⟩ :=
    train_frame (6 - self.depth) ds self left right (Nat.le_refl _) hbe (by omega)
  refine ⟨?_, h4, h1⟩
  rw [h1]
  exact h3.trans hperm

/-- C2 at the root node over the whole of `dataset_separable`. -/
theorem train_keeps_permutation_witness :
    ((DecisionTreeNode.new 0 0 12 1).train dataset_separable Tree.nullptr Tree.nullptr).1.row_indices.Perm
      (List.range ((DecisionTreeNode.new 0 0 12 1).train dataset_separable Tree.nullptr Tree.nullptr).1.data_table.length) ∧
    (∀ pos, pos < (DecisionTreeNode.new 0 0 12 1).group_begin ∨ (DecisionTreeNode.new 0 0 12 1).group_end ≤ pos →
      ((DecisionTreeNode.new 0 0 12 1).train dataset_separable Tree.nullptr Tree.nullptr).1.row_indices.getD pos 0 = dataset_separable.row_indices.getD pos 0) ∧
    ((DecisionTreeNode.new 0 0 12 1).train dataset_separable Tree.nullptr Tree.nullptr).1.data_table = dataset_separable.data_table :=
  train_keeps_permutation dataset_separable (DecisionTreeNode.new 0 0 12 1) Tree.nullptr
    Tree.nullptr (by decide) (by decide) (by decide)

/-! ## `calculate_gini_index` -/

theorem group_length (ds : DecisionTreeDataset) (self : DecisionTreeNode)
    (hend : self.group_end ≤ ds.row_indices.length) :
    (self.group ds).length = self.group_end - self.group_begin := by
  simp only [DecisionTreeNode.group, List.length_take, List.length_drop]
  omega

theorem gini_count_fold (ds : DecisionTreeDataset) (f : Nat) (t : ℚ) (l : List Nat) :
    ∀ acc : GiniAcc,
    l.foldl (gini_count_row ds f t) acc =
      ⟨acc.size0 + ((l.filter (fun i => decide ((ds.at i).get f < t))).length : ℚ),
       acc.size1 + ((l.filter (fun i => decide ((ds.at i).get f ≥ t))).length : ℚ),
       acc.sum0 + ((l.filter (fun i => decide ((ds.at i).get f < t))).map ds.target).sum,
       acc.sum1 + ((l.filter (fun i => decide ((ds.at i).get f ≥ t))).map ds.target).sum⟩ := by
  induction l with
  | nil => intro acc; simp
  | cons i l ih =>
    intro acc
    rw [List.foldl_cons, ih]
    by_cases h : (ds.at i).get f ≥ t
    · have h' : ¬ (ds.at i).get f < t := not_lt.mpr h
      rw [List.filter_cons_of_neg (by simpa using h), List.filter_cons_of_pos (by simpa using h)]
      simp only [gini_count_row, if_pos h, List.length_cons, List.map_cons, List.sum_cons,
        DecisionTreeDataset.target, GiniAcc.mk.injEq, true_and]
      push_cast
      exact ⟨by ring, by ring⟩
    · have h' : (ds.at i).get f < t := not_le.mp h
      rw [List.filter_cons_of_pos (by simpa using h'), List.filter_cons_of_neg (by simpa using h')]
      simp only [gini_count_row, if_neg h, List.length_cons, List.map_cons, List.sum_cons,
        DecisionTreeDataset.target, GiniAcc.mk.injEq, true_and, and_true]
      push_cast
      exact ⟨by ring, by ring⟩

theorem filter_lt_ge_length (ds : DecisionTreeDataset) (f : Nat) (t : ℚ) (l : List Nat) :
    (l.filter (fun i => decide ((ds.at i).get f < t))).length +
      (l.filter (fun i => decide ((ds.at i).get f ≥ t))).length = l.length := by
  induction l with
  | nil => simp
  | cons i l ih =>
    by_cases h : (ds.at i).get f < t
    · have h' : ¬ (ds.at i).get f ≥ t := not_le.mpr h
      simp only [List.filter_cons, h, h', decide_True, decide_False, if_true,
        Bool.false_eq_true, if_false, List.length_cons]
      omega
    · have h' : (ds.at i).get f ≥ t := not_lt.mp h
      simp only [List.filter_cons, h, h', decide_True, decide_False, if_true,
        Bool.false_eq_true, if_false, List.length_cons]
      omega

theorem gini_add_subgroup_eq (ds : DecisionTreeDataset) (g : ℚ) (n : Nat) (S : List Nat)
    (prop : ℚ) (hprop : prop = (S.length : ℚ) / (n : ℚ)) :
    gini_add_subgroup g (S.length : ℚ) (S.map ds.target).sum prop
      = g + gini_subgroup_reference ds n S := by
  unfold gini_add_subgroup gini_subgroup_reference
  by_cases h : S.length = 0
  · simp [h]
  · have hpos : (S.length : ℚ) > 0 := by
      have : 0 < S.length := Nat.pos_of_ne_zero h
      exact_mod_cast this
    rw [if_pos hpos, if_neg h, hprop]
    ring

/-- The value of `calculate_gini_index` in closed form. -/
theorem calculate_gini_index_eq (ds : DecisionTreeDataset) (self : DecisionTreeNode)
    (f : Nat) (t : ℚ) (hsize : self.group_size = (self.group ds).length)
    (hne : 0 < self.group_size) :
    self.calculate_gini_index ds f t = gini_reference ds (self.group ds) f t := by
  unfold DecisionTreeNode.calculate_gini_index gini_reference
  simp only [gini_count_fold, zero_add]
  have hlen := filter_lt_ge_length ds f t (self.group ds)
  have hn : ((self.group ds).length : ℚ) ≠ 0 := by
    have : 0 < (self.group ds).length := hsize ▸ hne
    exact_mod_cast Nat.pos_iff_ne_zero.mp this
  have hhigh : (1 : ℚ) -
      (((self.group ds).filter (fun i => decide ((ds.at i).get f < t))).length : ℚ) /
        (self.group_size : ℚ) =
      (((self.group ds).filter (fun i => decide ((ds.at i).get f ≥ t))).length : ℚ) /
        ((self.group ds).length : ℚ) := by
    have hcast : (((self.group ds).filter (fun i => decide ((ds.at i).get f < t))).length : ℚ) +
        (((self.group ds).filter (fun i => decide ((ds.at i).get f ≥ t))).length : ℚ) =
        ((self.group ds).length : ℚ) := by exact_mod_cast hlen
    rw [hsize]
    field_simp
    linarith
  rw [gini_add_subgroup_eq ds 0 (self.group ds).length
      ((self.group ds).filter (fun i => decide ((ds.at i).get f < t))) _ (by rw [hsize]),
    gini_add_subgroup_eq ds _ (self.group ds).length
      ((self.group ds).filter (fun i => decide ((ds.at i).get f ≥ t))) _ hhigh, zero_add]

/-- C3: for a node over a non-empty range of the index vector, whose `group_size` is the
length of that range, and for every feature `f` and threshold `t`,
`calculate_gini_index(f, t)` equals the reference weighted Gini impurity: the sum over
the subgroup of rows with `row[f] < t` and the subgroup of rows with `row[f] ≥ t` of
`(|S| / group_size) * (1 - p^2 - (1 - p)^2)` with `p` the mean target of the subgroup,
an empty subgroup contributing 0. -/
theorem calculate_gini_index_refines_reference (ds : DecisionTreeDataset)
    (self : DecisionTreeNode) (f : Nat) (t : ℚ)
    (hne : self.group_begin < self.group_end)
    (hend : self.group_end ≤ ds.row_indices.length)
    (hsize : self.group_size = self.group_end - self.group_begin) :
    self.calculate_gini_index ds f t = gini_reference ds (self.group ds) f t :=
  calculate_gini_index_eq ds self f t (by rw [group_length ds self hend, hsize])
    (by omega)

/-- C3 at the node `node_five` over `dataset_five`, feature 0 and threshold 3. -/
theorem calculate_gini_index_refines_reference_witness :
    node_five.calculate_gini_index dataset_five 0 3
      = gini_reference dataset_five (node_five.group dataset_five) 0 3 :=
  calculate_gini_index_refines_reference dataset_five node_five 0 3
    (by decide) (by decide) (by decide)

/-! ## Impurity of binary targets -/


theorem sum_targets_bounds (ds : DecisionTreeDataset) (S : List Nat)
    (hbin : ∀ i ∈ S, ds.target i = 0 ∨ ds.target i = 1) :
    0 ≤ (S.map ds.target).sum ∧ (S.map ds.target).sum ≤ (S.length : ℚ) := by
  induction S with
  | nil => simp
  | cons i S ih =>
    obtain ⟨h1, h2⟩ := ih (fun j hj => hbin j (List.mem_cons_of_mem i hj))
    simp only [List.map_cons, List.sum_cons, List.length_cons]
    push_cast
    rcases hbin i (List.mem_cons_self i S) with h | h <;> rw [h] <;> constructor <;> linarith

theorem sum_targets_eq_zero (ds : DecisionTreeDataset) (S : List Nat)
    (hbin : ∀ i ∈ S, ds.target i = 0 ∨ ds.target i = 1) :
    (S.map ds.target).sum = 0 ↔ ∀ i ∈ S, ds.target i = 0 := by
  induction S with
  | nil => simp
  | cons i S ih =>
    have hb := fun j hj => hbin j (List.mem_cons_of_mem i hj)
    obtain ⟨h1, _⟩ := sum_targets_bounds ds S hb
    simp only [List.map_cons, List.sum_cons, List.mem_cons, forall_eq_or_imp]
    rw [← ih hb]
    rcases hbin i (List.mem_cons_self i S) with h | h <;> rw [h]
    · simp
    · constructor
      · intro h'; linarith
      · intro h'; exact absurd h'.1 one_ne_zero

theorem sum_targets_eq_length (ds : DecisionTreeDataset) (S : List Nat)
    (hbin : ∀ i ∈ S, ds.target i = 0 ∨ ds.target i = 1) :
    (S.map ds.target).sum = (S.length : ℚ) ↔ ∀ i ∈ S, ds.target i = 1 := by
  induction S with
  | nil => simp
  | cons i S ih =>
    have hb := fun j hj => hbin j (List.mem_cons_of_mem i hj)
    obtain ⟨_, h2⟩ := sum_targets_bounds ds S hb
    simp only [List.map_cons, List.sum_cons, List.mem_cons, forall_eq_or_imp, List.length_cons]
    rw [← ih hb]
    push_cast
    rcases hbin i (List.mem_cons_self i S) with h | h <;> rw [h]
    · constructor
      · intro h'; linarith
      · intro h'; exact absurd h'.1 zero_ne_one
    · constructor
      · intro h'; exact ⟨rfl, by linarith⟩
      · intro h'; linarith [h'.2]

theorem gini_subgroup_reference_nonneg (ds : DecisionTreeDataset) (n : Nat) (S : List Nat)
    (hbin : ∀ i ∈ S, ds.target i = 0 ∨ ds.target i = 1) :
    0 ≤ gini_subgroup_reference ds n S := by
  unfold gini_subgroup_reference
  by_cases h : S.length = 0
  · rw [if_pos h]
  · rw [if_neg h]
    obtain ⟨h1, h2⟩ := sum_targets_bounds ds S hbin
    have hpos : (0 : ℚ) < (S.length : ℚ) := by exact_mod_cast Nat.pos_of_ne_zero h
    have hp0 : 0 ≤ (S.map ds.target).sum / (S.length : ℚ) := div_nonneg h1 (le_of_lt hpos)
    have hp1 : (S.map ds.target).sum / (S.length : ℚ) ≤ 1 := (div_le_one hpos).mpr h2
    have hw : 0 ≤ (S.length : ℚ) / (n : ℚ) := div_nonneg (le_of_lt hpos) (Nat.cast_nonneg n)
    apply mul_nonneg hw
    nlinarith

/-- A subgroup of binary targets contributes 0 exactly when all its targets are equal. -/
theorem gini_subgroup_reference_eq_zero (ds : DecisionTreeDataset) (n : Nat) (S : List Nat)
    (hn : 0 < n) (hbin : ∀ i ∈ S, ds.target i = 0 ∨ ds.target i = 1) :
    gini_subgroup_reference ds n S = 0 ↔
      ((∀ i ∈ S, ds.target i = 0) ∨ (∀ i ∈ S, ds.target i = 1)) := by
  unfold gini_subgroup_reference
  by_cases h : S.length = 0
  · rw [if_pos h]
    have : S = [] := List.length_eq_zero.mp h
    subst this
    simp
  · rw [if_neg h]
    have hpos : (0 : ℚ) < (S.length : ℚ) := by exact_mod_cast Nat.pos_of_ne_zero h
    have hnpos : (0 : ℚ) < (n : ℚ) := by exact_mod_cast hn
    have hw : (S.length : ℚ) / (n : ℚ) ≠ 0 := ne_of_gt (div_pos hpos hnpos)
    rw [← sum_targets_eq_zero ds S hbin, ← sum_targets_eq_length ds S hbin]
    simp only [mul_eq_zero, hw, false_or]
    have key : (1 : ℚ) - ((S.map ds.target).sum / (S.length : ℚ)) ^ 2
        - (1 - (S.map ds.target).sum / (S.length : ℚ)) ^ 2
        = 2 * ((S.map ds.target).sum / (S.length : ℚ))
          * (1 - (S.map ds.target).sum / (S.length : ℚ)) := by ring
    rw [key]
    simp only [mul_eq_zero, OfNat.ofNat_ne_zero, false_or, div_eq_zero_iff, ne_of_gt hpos,
      or_false, sub_eq_zero]
    constructor
    · rintro (h1 | h1)
      · left; exact h1
      · right
        have := h1.symm
        field_simp at this
        linarith
    · rintro (h1 | h1)
      · left; exact h1
      · right; rw [h1]; field_simp

theorem gini_reference_nonneg (ds : DecisionTreeDataset) (group : List Nat) (f : Nat) (t : ℚ)
    (hbin : ∀ i ∈ group, ds.target i = 0 ∨ ds.target i = 1) :
    0 ≤ gini_reference ds group f t := by
  unfold gini_reference
  exact add_nonneg
    (gini_subgroup_reference_nonneg ds _ _ (fun i hi => hbin i (List.mem_filter.mp hi).1))
    (gini_subgroup_reference_nonneg ds _ _ (fun i hi => hbin i (List.mem_filter.mp hi).1))

theorem gini_reference_eq_zero (ds : DecisionTreeDataset) (group : List Nat) (f : Nat) (t : ℚ)
    (hne : 0 < group.length)
    (hbin : ∀ i ∈ group, ds.target i = 0 ∨ ds.target i = 1) :
    gini_reference ds group f t = 0 ↔
      ((∀ i ∈ group.filter (fun i => decide ((ds.at i).get f < t)), ds.target i = 0) ∨
        (∀ i ∈ group.filter (fun i => decide ((ds.at i).get f < t)), ds.target i = 1)) ∧
      ((∀ i ∈ group.filter (fun i => decide ((ds.at i).get f ≥ t)), ds.target i = 0) ∨
        (∀ i ∈ group.filter (fun i => decide ((ds.at i).get f ≥ t)), ds.target i = 1)) := by
  have hb1 : ∀ i ∈ group.filter (fun i => decide ((ds.at i).get f < t)),
      ds.target i = 0 ∨ ds.target i = 1 := fun i hi => hbin i (List.mem_filter.mp hi).1
  have hb2 : ∀ i ∈ group.filter (fun i => decide ((ds.at i).get f ≥ t)),
      ds.target i = 0 ∨ ds.target i = 1 := fun i hi => hbin i (List.mem_filter.mp hi).1
  have n1 := gini_subgroup_reference_nonneg ds group.length _ hb1
  have n2 := gini_subgroup_reference_nonneg ds group.length _ hb2
  rw [← gini_subgroup_reference_eq_zero ds group.length _ hne hb1,
    ← gini_subgroup_reference_eq_zero ds group.length _ hne hb2]
  show gini_subgroup_reference ds group.length _ + gini_subgroup_reference ds group.length _ = 0
    ↔ _
  constructor
  · intro h; constructor <;> linarith
  · rintro ⟨h1, h2⟩; rw [h1, h2]; norm_num

/-! ## `get_best_split` -/

theorem best_split_scan_append (gini : Nat → ℚ → ℚ) (cs : List (Nat × ℚ)) (d : Nat × ℚ) :
    best_split_scan gini (cs ++ [d]) =
      if (best_split_scan gini cs).done then best_split_scan gini cs
      else if gini d.1 d.2 < (best_split_scan gini cs).best_gini_index then
        { best_gini_index := gini d.1 d.2, best_val := d.2, best_var := d.1,
          done := if gini d.1 d.2 = 0 then true else (best_split_scan gini cs).done }
      else best_split_scan gini cs := by
  simp only [best_split_scan, List.foldl_append, List.foldl_cons, List.foldl_nil]

theorem get_best_split_col_fold (ds : DecisionTreeDataset) (self : DecisionTreeNode) (row : Row)
    (cols : List Nat) : ∀ st : BestSplit,
    cols.foldl (get_best_split_col ds self row) st =
      (cols.map (fun col => (col, row.get col))).foldl (fun st c =>
        if st.done then st
        else if self.calculate_gini_index ds c.1 c.2 < st.best_gini_index then
          { best_gini_index := self.calculate_gini_index ds c.1 c.2, best_val := c.2,
            best_var := c.1,
            done := if self.calculate_gini_index ds c.1 c.2 = 0 then true else st.done }
        else st) st := by
  induction cols with
  | nil => intro st; rfl
  | cons c cols ih => intro st; rw [List.foldl_cons, ih]; rfl

theorem fold_of_done (gini : Nat → ℚ → ℚ) (cs : List (Nat × ℚ)) :
    ∀ st : BestSplit, st.done = true →
    cs.foldl (fun st c =>
        if st.done then st
        else if gini c.1 c.2 < st.best_gini_index then
          { best_gini_index := gini c.1 c.2, best_val := c.2, best_var := c.1,
            done := if gini c.1 c.2 = 0 then true else st.done }
        else st) st = st := by
  induction cs with
  | nil => intro st _; rfl
  | cons c cs ih =>
    intro st h
    rw [List.foldl_cons, if_pos h]
    exact ih st h

theorem get_best_split_row_fold (ds : DecisionTreeDataset) (self : DecisionTreeNode)
    (l : List Nat) : ∀ st : BestSplit,
    l.foldl (get_best_split_row ds self) st =
      (l.flatMap (fun i => (List.range self.x_vars_to_use).map
          (fun col => (col, (ds.at i).get col)))).foldl (fun st c =>
        if st.done then st
        else if self.calculate_gini_index ds c.1 c.2 < st.best_gini_index then
          { best_gini_index := self.calculate_gini_index ds c.1 c.2, best_val := c.2,
            best_var := c.1,
            done := if self.calculate_gini_index ds c.1 c.2 = 0 then true else st.done }
        else st) st := by
  induction l with
  | nil => intro st; rfl
  | cons i l ih =>
    intro st
    rw [List.foldl_cons, List.flatMap_cons, List.foldl_append, ← ih]
    congr 1
    unfold get_best_split_row
    by_cases h : st.done = true
    · rw [if_pos h, fold_of_done _ _ st h]
    · rw [if_neg h, get_best_split_col_fold]

/-- The two nested loops of `get_best_split` are one scan over the candidates. -/
theorem best_split_search_eq_scan (ds : DecisionTreeDataset) (self : DecisionTreeNode) :
    self.best_split_search ds =
      best_split_scan (self.calculate_gini_index ds) (self.candidates ds) := by
  unfold DecisionTreeNode.best_split_search best_split_scan DecisionTreeNode.candidates
  exact get_best_split_row_fold ds self _ _

theorem mem_candidates (ds : DecisionTreeDataset) (self : DecisionTreeNode) (c : Nat × ℚ) :
    c ∈ self.candidates ds ↔
      ∃ i ∈ self.group ds, ∃ f, f < self.x_vars_to_use ∧ c = (f, (ds.at i).get f) := by
  simp only [DecisionTreeNode.candidates, List.mem_flatMap, List.mem_map, List.mem_range]
  constructor
  · rintro ⟨i, hi, f, hf, rfl⟩; exact ⟨i, hi, f, hf, rfl⟩
  · rintro ⟨i, hi, f, hf, rfl⟩; exact ⟨i, hi, f, hf, rfl⟩

/-- What the scan leaves behind: either nothing beat the baseline `1/2` and the state is
the initial one, or the state holds a candidate `c` that is strictly better than
everything before it, and either the scan stopped there with impurity 0 or `c` is at
least as good as everything after it. -/
theorem best_split_scan_spec (gini : Nat → ℚ → ℚ) (cs : List (Nat × ℚ)) :
    (best_split_scan gini cs = ⟨1 / 2, 0, 0, false⟩ ∧ ∀ c ∈ cs, 1 / 2 ≤ gini c.1 c.2) ∨
    (∃ P1 c P2, cs = P1 ++ c :: P2 ∧
      (best_split_scan gini cs).best_var = c.1 ∧
      (best_split_scan gini cs).best_val = c.2 ∧
      (best_split_scan gini cs).best_gini_index = gini c.1 c.2 ∧
      gini c.1 c.2 < 1 / 2 ∧
      (∀ c' ∈ P1, gini c.1 c.2 < gini c'.1 c'.2) ∧
      ((best_split_scan gini cs).done = true →
        gini c.1 c.2 = 0 ∧ best_split_scan gini cs = best_split_scan gini (P1 ++ [c])) ∧
      ((best_split_scan gini cs).done = false →
        gini c.1 c.2 ≠ 0 ∧ ∀ c' ∈ P2, gini c.1 c.2 ≤ gini c'.1 c'.2)) := by
  induction cs using List.reverseRecOn with
  | nil => left; exact ⟨rfl, fun c hc => absurd hc (List.not_mem_nil c)⟩
  | append_singleton cs d ih =>
    rw [best_split_scan_append]
    rcases ih with ⟨hinit, hall⟩ | ⟨P1, c, P2, hcs, hvar, hval, hbest, hlt, hP1, hdone, hnot⟩
    · rw [hinit]
      simp only [Bool.false_eq_true, if_false]
      by_cases hd : gini d.1 d.2 < 1 / 2
      · right
        rw [if_pos hd]
        refine ⟨cs, d, [], rfl, rfl, rfl, rfl, hd, ?_, ?_, ?_⟩
        · intro c' hc'; exact lt_of_lt_of_le hd (hall c' hc')
        · intro h
          by_cases h0 : gini d.1 d.2 = 0
          · refine ⟨h0, ?_⟩
            rw [best_split_scan_append, hinit]
            simp only [Bool.false_eq_true, if_false, if_pos hd]
          · simp [h0] at h
        · intro h
          by_cases h0 : gini d.1 d.2 = 0
          · simp [h0] at h
          · exact ⟨h0, fun c' hc' => absurd hc' (List.not_mem_nil c')⟩
      · left
        rw [if_neg hd]
        refine ⟨rfl, ?_⟩
        intro c hc
        rcases List.mem_append.mp hc with h | h
        · exact hall c h
        · rw [List.mem_singleton.mp h]; exact not_lt.mp hd
    · right
      by_cases hdn : (best_split_scan gini cs).done = true
      · rw [if_pos hdn]
        exact ⟨P1, c, P2 ++ [d], by rw [hcs]; simp, hvar, hval, hbest, hlt, hP1,
          fun _ => hdone hdn, fun h => absurd hdn (by rw [h]; decide)⟩
      · rw [if_neg hdn]
        have hdn' : (best_split_scan gini cs).done = false := by simpa using hdn
        obtain ⟨hc0, hP2⟩ := hnot hdn'
        by_cases hd : gini d.1 d.2 < (best_split_scan gini cs).best_gini_index
        · rw [if_pos hd]
          rw [hbest] at hd
          refine ⟨cs, d, [], rfl, rfl, rfl, rfl, lt_trans hd hlt, ?_, ?_, ?_⟩
          · intro c' hc'
            rw [hcs] at hc'
            rcases List.mem_append.mp hc' with h | h
            · exact lt_trans hd (hP1 c' h)
            · rcases List.mem_cons.mp h with h | h
              · rw [h]; exact hd
              · exact lt_of_lt_of_le hd (hP2 c' h)
          · intro h
            by_cases h0 : gini d.1 d.2 = 0
            · refine ⟨h0, ?_⟩
              rw [best_split_scan_append, if_neg hdn, hbest, if_pos hd]
            · simp [h0, hdn'] at h
          · intro h
            by_cases h0 : gini d.1 d.2 = 0
            · simp [h0] at h
            · exact ⟨h0, fun c' hc' => absurd hc' (List.not_mem_nil c')⟩
        · rw [if_neg hd]
          rw [hbest] at hd
          refine ⟨P1, c, P2 ++ [d], by rw [hcs]; simp, hvar, hval, hbest, hlt, hP1,
            fun h => absurd h hdn, fun _ => ⟨hc0, ?_⟩⟩
          intro c' hc'
          rcases List.mem_append.mp hc' with h | h
          · exact hP2 c' h
          · rw [List.mem_singleton.mp h]; exact not_lt.mp hd


theorem best_split_scan_of_done (gini : Nat → ℚ → ℚ) (cs rest : List (Nat × ℚ))
    (h : (best_split_scan gini cs).done = true) :
    best_split_scan gini (cs ++ rest) = best_split_scan gini cs := by
  unfold best_split_scan at h ⊢
  rw [List.foldl_append]
  exact fold_of_done gini rest _ h

theorem best_split_scan_done_of_zero (gini : Nat → ℚ → ℚ) (cs : List (Nat × ℚ))
    (hnn : ∀ c ∈ cs, 0 ≤ gini c.1 c.2) (hz : ∃ c ∈ cs, gini c.1 c.2 = 0) :
    (best_split_scan gini cs).done = true := by
  obtain ⟨c0, hc0, hg0⟩ := hz
  rcases best_split_scan_spec gini cs with ⟨_, hall⟩ | ⟨P1, c, P2, hcs, _, _, _, _, hP1, _, hnot⟩
  · have := hall c0 hc0
    rw [hg0] at this
    norm_num at this
  · by_contra hd
    have hd' : (best_split_scan gini cs).done = false := by simpa using hd
    obtain ⟨hne, hP2⟩ := hnot hd'
    have hcmem : c ∈ cs := by rw [hcs]; simp
    have hcn := hnn c hcmem
    rw [hcs] at hc0
    rcases List.mem_append.mp hc0 with h | h
    · have := hP1 c0 h; rw [hg0] at this; linarith
    · rcases List.mem_cons.mp h with h | h
      · rw [h] at hg0; exact hne hg0
      · have := hP2 c0 h; rw [hg0] at this
        exact hne (le_antisymm this hcn)

theorem calculate_gini_index_nonneg (ds : DecisionTreeDataset) (self : DecisionTreeNode)
    (f : Nat) (t : ℚ) (hsize : self.group_size = (self.group ds).length)
    (hne : 0 < self.group_size)
    (hbin : ∀ i ∈ self.group ds, ds.target i = 0 ∨ ds.target i = 1) :
    0 ≤ self.calculate_gini_index ds f t := by
  rw [calculate_gini_index_eq ds self f t hsize hne]
  exact gini_reference_nonneg ds _ f t hbin

theorem get_best_split_split (ds : DecisionTreeDataset) (self : DecisionTreeNode) :
    (self.get_best_split ds).split_var.toNat =
      (best_split_scan (self.calculate_gini_index ds) (self.candidates ds)).best_var ∧
    (self.get_best_split ds).split_var =
      ((best_split_scan (self.calculate_gini_index ds) (self.candidates ds)).best_var : Int) ∧
    (self.get_best_split ds).split_val =
      (best_split_scan (self.calculate_gini_index ds) (self.candidates ds)).best_val := by
  rw [← best_split_search_eq_scan]
  exact ⟨Int.toNat_ofNat _, rfl, rfl⟩

/-- C4: for a node over a non-empty range whose targets are 0 or 1, if some candidate
split (a feature `f < x_vars_to_use` with threshold `row[f]` of a row of the group; so in
particular `x_vars_to_use ≥ 1`) has Gini impurity strictly below `1/2`, then the split
stored by `get_best_split` is one of the candidates and its impurity is at most the
impurity of every candidate. -/
theorem get_best_split_minimal (ds : DecisionTreeDataset) (self : DecisionTreeNode)
    (hne : self.group_begin < self.group_end)
    (hend : self.group_end ≤ ds.row_indices.length)
    (hsize : self.group_size = self.group_end - self.group_begin)
    (hbin : ∀ i ∈ self.group ds, ds.target i = 0 ∨ ds.target i = 1)
    (hex : ∃ i ∈ self.group ds, ∃ f, f < self.x_vars_to_use ∧
      self.calculate_gini_index ds f ((ds.at i).get f) < 1 / 2) :
    (∃ i ∈ self.group ds, ∃ f, f < self.x_vars_to_use ∧
      (self.get_best_split ds).split_var = (f : Int) ∧
      (self.get_best_split ds).split_val = (ds.at i).get f) ∧
    (∀ i ∈ self.group ds, ∀ f, f < self.x_vars_to_use →
      self.calculate_gini_index ds (self.get_best_split ds).split_var.toNat
          (self.get_best_split ds).split_val
        ≤ self.calculate_gini_index ds f ((ds.at i).get f)) := by
  have hsz : self.group_size = (self.group ds).length := by rw [group_length ds self hend, hsize]
  have hpos : 0 < self.group_size := by omega
  obtain ⟨e1, e2, e3⟩ := get_best_split_split ds self
  rw [e1, e2, e3]
  obtain ⟨i0, hi0, f0, hf0, hg0⟩ := hex
  rcases best_split_scan_spec (self.calculate_gini_index ds) (self.candidates ds) with
    ⟨_, hall⟩ | ⟨P1, c, P2, hcs, hvar, hval, _, _, hP1, hdone, hnot⟩
  · have := hall (f0, (ds.at i0).get f0) ((mem_candidates ds self _).mpr ⟨i0, hi0, f0, hf0, rfl⟩)
    exact absurd hg0 (not_lt.mpr this)
  · have hcmem : c ∈ self.candidates ds := by rw [hcs]; simp
    obtain ⟨i, hi, f, hf, hc⟩ := (mem_candidates ds self c).mp hcmem
    rw [hvar, hval]
    refine ⟨⟨i, hi, f, hf, by rw [hc], by rw [hc]⟩, ?_⟩
    intro i' hi' f' hf'
    have hmem' : (f', (ds.at i').get f') ∈ self.candidates ds :=
      (mem_candidates ds self _).mpr ⟨i', hi', f', hf', rfl⟩
    by_cases hd : (best_split_scan (self.calculate_gini_index ds) (self.candidates ds)).done = true
    · rw [(hdone hd).1]
      exact calculate_gini_index_nonneg ds self _ _ hsz hpos hbin
    · have hd' : (best_split_scan (self.calculate_gini_index ds) (self.candidates ds)).done
          = false := by simpa using hd
      obtain ⟨_, hP2⟩ := hnot hd'
      rw [hcs] at hmem'
      rcases List.mem_append.mp hmem' with h | h
      · exact le_of_lt (hP1 (f', (ds.at i').get f') h)
      · rcases List.mem_cons.mp h with h | h
        · subst h; exact le_refl _
        · exact hP2 (f', (ds.at i').get f') h

/-- C4 at the node `node_five` over `dataset_five`, where the candidate `(0, 5)` has
impurity `1/3`. -/
theorem get_best_split_minimal_witness :
    (∃ i ∈ node_five.group dataset_five, ∃ f, f < node_five.x_vars_to_use ∧
      (node_five.get_best_split dataset_five).split_var = (f : Int) ∧
      (node_five.get_best_split dataset_five).split_val = (dataset_five.at i).get f) ∧
    (∀ i ∈ node_five.group dataset_five, ∀ f, f < node_five.x_vars_to_use →
      node_five.calculate_gini_index dataset_five
          (node_five.get_best_split dataset_five).split_var.toNat
          (node_five.get_best_split dataset_five).split_val
        ≤ node_five.calculate_gini_index dataset_five f ((dataset_five.at i).get f)) :=
  get_best_split_minimal dataset_five node_five (by decide) (by decide) (by decide)
    (by decide!) ⟨1, by decide, 0, by decide, by decide!⟩

/-- C5 as stated fails when no candidate beats the baseline: over `dataset_tie` the only
candidate split is `(0, 5)`, of impurity `1/2`, and the stored split is the default
`(0, 0)`, which is not a candidate; so the stored split is not the first candidate whose
impurity equals the minimum over the candidates. -/
theorem get_best_split_first_minimum_counterexample :
    ¬ ∃ P1 c P2, (DecisionTreeNode.new 0 0 2 1).candidates dataset_tie = P1 ++ c :: P2 ∧
      ((DecisionTreeNode.new 0 0 2 1).get_best_split dataset_tie).split_var = (c.1 : Int) ∧
      ((DecisionTreeNode.new 0 0 2 1).get_best_split dataset_tie).split_val = c.2 := by
  rintro ⟨P1, c, P2, h, _, hval⟩
  have hc : c ∈ (DecisionTreeNode.new 0 0 2 1).candidates dataset_tie := by rw [h]; simp
  have hcand : (DecisionTreeNode.new 0 0 2 1).candidates dataset_tie = [(0, 5), (0, 5)] := by
    decide!
  have hv : ((DecisionTreeNode.new 0 0 2 1).get_best_split dataset_tie).split_val = 0 := by
    decide!
  rw [hcand] at hc
  rw [hv] at hval
  have : c = (0, 5) := by simpa using hc
  rw [this] at hval
  norm_num at hval

/-! ## Degenerate partitions -/


theorem slice_getD (a : List Nat) (b e k : Nat) (hk : k < e - b) :
    ((a.drop b).take (e - b)).getD k 0 = a.getD (b + k) 0 := by
  simp only [List.getD_eq_getElem?_getD, List.getElem?_take_of_lt hk, List.getElem?_drop]

theorem mem_slice (a : List Nat) (b e : Nat) (he : e ≤ a.length) (x : Nat) :
    x ∈ (a.drop b).take (e - b) ↔ ∃ pos, b ≤ pos ∧ pos < e ∧ a.getD pos 0 = x := by
  have hlen : ((a.drop b).take (e - b)).length = e - b := by
    simp only [List.length_take, List.length_drop]; omega
  constructor
  · intro hx
    obtain ⟨k, hk, hkx⟩ := List.mem_iff_getElem.mp hx
    rw [hlen] at hk
    refine ⟨b + k, by omega, by omega, ?_⟩
    rw [← slice_getD a b e k hk, List.getD_eq_getElem?_getD, List.getElem?_eq_getElem, hkx]
    rfl
  · rintro ⟨pos, h1, h2, h3⟩
    have hk : pos - b < e - b := by omega
    have := slice_getD a b e (pos - b) hk
    rw [show b + (pos - b) = pos by omega, h3] at this
    rw [List.getD_eq_getElem?_getD, List.getElem?_eq_getElem (by rw [hlen]; exact hk)] at this
    simp only [Option.getD_some] at this
    rw [← this]
    exact List.getElem_mem _

/-- The split point of `split_group` is the begin of the range exactly when no row of the
group goes left, and the end of the range exactly when every row goes left. -/
theorem split_point_degenerate (ds : DecisionTreeDataset) (self : DecisionTreeNode)
    (hbe : self.group_begin ≤ self.group_end)
    (hend : self.group_end ≤ ds.row_indices.length) :
    ((self.split_group ds).2 = self.group_begin ↔
      ∀ i ∈ self.group ds, self.goes_left ds i = false) ∧
    ((self.split_group ds).2 = self.group_end ↔
      ∀ i ∈ self.group ds, self.goes_left ds i = true) := by
  obtain ⟨p1, p2, p3, p4, p5, p6, p7⟩ :=
    partition_spec (self.goes_left ds) (self.group_end - self.group_begin) ds.row_indices
      self.group_begin self.group_end (Nat.le_refl _) hbe hend
  have hperm := slice_perm ds.row_indices _ self.group_begin self.group_end hbe p1 p2 p5
  have hp : (self.split_group ds).2 =
      (partition (self.goes_left ds) ds.row_indices self.group_begin self.group_end).2 := rfl
  rw [hp]
  generalize partition (self.goes_left ds) ds.row_indices self.group_begin self.group_end = r at *
  have hend' : self.group_end ≤ r.1.length := by omega
  have hmem : ∀ i, i ∈ self.group ds ↔
      ∃ pos, self.group_begin ≤ pos ∧ pos < self.group_end ∧ r.1.getD pos 0 = i := by
    intro i
    rw [← mem_slice r.1 self.group_begin self.group_end hend' i]
    exact (hperm.mem_iff).symm
  constructor
  · constructor
    · intro h i hi
      obtain ⟨pos, h1, h2, h3⟩ := (hmem i).mp hi
      rw [← h3]
      exact p7 pos (by omega) h2
    · intro h
      by_contra hne
      have hlt : self.group_begin < r.2 := by omega
      have h1 := p6 self.group_begin (Nat.le_refl _) hlt
      have h2 := h _ ((hmem _).mpr ⟨self.group_begin, Nat.le_refl _, by omega, rfl⟩)
      rw [h1] at h2
      exact absurd h2 (by decide)
  · constructor
    · intro h i hi
      obtain ⟨pos, h1, h2, h3⟩ := (hmem i).mp hi
      rw [← h3]
      exact p6 pos h1 (by omega)
    · intro h
      by_contra hne
      have hlt : r.2 < self.group_end := by omega
      have h1 := p7 r.2 (Nat.le_refl _) hlt
      have h2 := h _ ((hmem _).mpr ⟨r.2, p3, hlt, rfl⟩)
      rw [h1] at h2
      exact absurd h2 (by decide)

/-! ## `train`: the stop rule -/


theorem become_leaf_class_prediction (ds : DecisionTreeDataset) (self : DecisionTreeNode) :
    (self.become_leaf ds).class_prediction = 0 ∨ (self.become_leaf ds).class_prediction = 1 := by
  unfold DecisionTreeNode.become_leaf
  simp only []
  split
  · right; rfl
  · left; rfl

/-- C6: for a node whose class prediction is unset (`-1`, as left by the constructor)
and which has no children, `train` makes it a leaf (class prediction 0 or 1, still no
children) if and only if `depth ≥ 6`, or `group_size ≤ 10`, or the split point returned
by `split_group` is the begin or the end of the range; otherwise the node keeps its
class prediction unset and gets exactly the two children constructed at `depth + 1`
over `[group_begin, split_point)` and `[split_point, group_end)`, trained left first. -/
theorem train_leaf_iff_stop (ds : DecisionTreeDataset) (self : DecisionTreeNode)
    (hunset : self.class_prediction = -1) :
    ((∃ n, (self.train ds Tree.nullptr Tree.nullptr).2 = Tree.node n Tree.nullptr Tree.nullptr ∧
        (n.class_prediction = 0 ∨ n.class_prediction = 1)) ↔
      (6 ≤ self.depth ∨ self.group_size ≤ 10 ∨
        ((self.get_best_split ds).split_group ds).2 = self.group_begin ∨
        ((self.get_best_split ds).split_group ds).2 = self.group_end)) ∧
    (¬(6 ≤ self.depth ∨ self.group_size ≤ 10 ∨
        ((self.get_best_split ds).split_group ds).2 = self.group_begin ∨
        ((self.get_best_split ds).split_group ds).2 = self.group_end) →
      (self.get_best_split ds).class_prediction = -1 ∧
      (self.train ds Tree.nullptr Tree.nullptr).2 =
        Tree.node (self.get_best_split ds)
          (DecisionTreeNode.train ((self.get_best_split ds).split_group ds).1
            (DecisionTreeNode.new (self.depth + 1) self.group_begin
              ((self.get_best_split ds).split_group ds).2 self.x_vars_to_use)
            Tree.nullptr Tree.nullptr).2
          (DecisionTreeNode.train
            (DecisionTreeNode.train ((self.get_best_split ds).split_group ds).1
              (DecisionTreeNode.new (self.depth + 1) self.group_begin
                ((self.get_best_split ds).split_group ds).2 self.x_vars_to_use)
              Tree.nullptr Tree.nullptr).1
            (DecisionTreeNode.new (self.depth + 1) ((self.get_best_split ds).split_group ds).2
              self.group_end self.x_vars_to_use) Tree.nullptr Tree.nullptr).2) := by
  have hcp : (self.get_best_split ds).class_prediction = -1 := hunset
  by_cases hc : self.depth < 6 ∧ self.group_size > 10
  · by_cases hd : ((self.get_best_split ds).split_group ds).2 = self.group_begin ∨
        ((self.get_best_split ds).split_group ds).2 = self.group_end
    · rw [train_of_degenerate ds self _ _ hc hd]
      refine ⟨⟨fun _ => Or.inr (Or.inr hd), fun _ => ⟨_, rfl, become_leaf_class_prediction _ _⟩⟩,
        fun h => absurd (Or.inr (Or.inr hd)) h⟩
    · rw [train_of_split ds self _ _ hc hd]
      refine ⟨⟨?_, ?_⟩, fun _ => ⟨hcp, rfl⟩⟩
      · rintro ⟨n, hn, hn01⟩
        have h1 : self.get_best_split ds = n := by
          simp only [Tree.node.injEq] at hn
          exact hn.1
        rw [← h1, hcp] at hn01
        rcases hn01 with h | h <;> exact absurd h (by decide)
      · rintro (h | h | h)
        · omega
        · omega
        · exact absurd h hd
  · rw [train_of_stop ds self _ _ hc]
    have hstop : 6 ≤ self.depth ∨ self.group_size ≤ 10 := by omega
    refine ⟨⟨fun _ => ?_, fun _ => ⟨_, rfl, become_leaf_class_prediction _ _⟩⟩, fun h => ?_⟩
    · rcases hstop with h | h
      · exact Or.inl h
      · exact Or.inr (Or.inl h)
    · exfalso; apply h
      rcases hstop with h | h
      · exact Or.inl h
      · exact Or.inr (Or.inl h)

/-- C6 at the root node over the whole of `dataset_five`. -/
theorem train_leaf_iff_stop_witness :
    ((∃ n, ((DecisionTreeNode.new 0 0 5 1).train dataset_five Tree.nullptr Tree.nullptr).2 = Tree.node n Tree.nullptr Tree.nullptr ∧
        (n.class_prediction = 0 ∨ n.class_prediction = 1)) ↔
      (6 ≤ (DecisionTreeNode.new 0 0 5 1).depth ∨ (DecisionTreeNode.new 0 0 5 1).group_size ≤ 10 ∨
        (((DecisionTreeNode.new 0 0 5 1).get_best_split dataset_five).split_group dataset_five).2 = (DecisionTreeNode.new 0 0 5 1).group_begin ∨
        (((DecisionTreeNode.new 0 0 5 1).get_best_split dataset_five).split_group dataset_five).2 = (DecisionTreeNode.new 0 0 5 1).group_end)) ∧
    (¬(6 ≤ (DecisionTreeNode.new 0 0 5 1).depth ∨ (DecisionTreeNode.new 0 0 5 1).group_size ≤ 10 ∨
        (((DecisionTreeNode.new 0 0 5 1).get_best_split dataset_five).split_group dataset_five).2 = (DecisionTreeNode.new 0 0 5 1).group_begin ∨
        (((DecisionTreeNode.new 0 0 5 1).get_best_split dataset_five).split_group dataset_five).2 = (DecisionTreeNode.new 0 0 5 1).group_end) →
      ((DecisionTreeNode.new 0 0 5 1).get_best_split dataset_five).class_prediction = -1 ∧
      ((DecisionTreeNode.new 0 0 5 1).train dataset_five Tree.nullptr Tree.nullptr).2 =
        Tree.node ((DecisionTreeNode.new 0 0 5 1).get_best_split dataset_five)
          (DecisionTreeNode.train (((DecisionTreeNode.new 0 0 5 1).get_best_split dataset_five).split_group dataset_five).1
            (DecisionTreeNode.new ((DecisionTreeNode.new 0 0 5 1).depth + 1) (DecisionTreeNode.new 0 0 5 1).group_begin
              (((DecisionTreeNode.new 0 0 5 1).get_best_split dataset_five).split_group dataset_five).2 (DecisionTreeNode.new 0 0 5 1).x_vars_to_use)
            Tree.nullptr Tree.nullptr).2
          (DecisionTreeNode.train
            (DecisionTreeNode.train (((DecisionTreeNode.new 0 0 5 1).get_best_split dataset_five).split_group dataset_five).1
              (DecisionTreeNode.new ((DecisionTreeNode.new 0 0 5 1).depth + 1) (DecisionTreeNode.new 0 0 5 1).group_begin
                (((DecisionTreeNode.new 0 0 5 1).get_best_split dataset_five).split_group dataset_five).2 (DecisionTreeNode.new 0 0 5 1).x_vars_to_use)
              Tree.nullptr Tree.nullptr).1
            (DecisionTreeNode.new ((DecisionTreeNode.new 0 0 5 1).depth + 1) (((DecisionTreeNode.new 0 0 5 1).get_best_split dataset_five).split_group dataset_five).2
              (DecisionTreeNode.new 0 0 5 1).group_end (DecisionTreeNode.new 0 0 5 1).x_vars_to_use) Tree.nullptr Tree.nullptr).2) :=
  train_leaf_iff_stop dataset_five (DecisionTreeNode.new 0 0 5 1) (by decide)

/-! ## `become_leaf` -/

theorem truncate_intCast (z : Int) : truncate (z : ℚ) = z := by
  unfold truncate
  rw [Rat.num_intCast, Rat.den_intCast]
  simp

theorem become_leaf_sum (ds : DecisionTreeDataset) (l : List Nat)
    (hbin : ∀ i ∈ l, ds.target i = 0 ∨ ds.target i = 1) : ∀ s : Int,
    l.foldl (fun sum i => truncate ((sum : ℚ) + (ds.at i).get ds.x_vars)) s =
      s + ((l.filter (fun i => decide (ds.target i = 1))).length : Int) := by
  induction l with
  | nil => intro s; simp
  | cons i l ih =>
    intro s
    rw [List.foldl_cons, ih (fun j hj => hbin j (List.mem_cons_of_mem i hj))]
    have ht : (ds.at i).get ds.x_vars = ds.target i := rfl
    rw [ht]
    rcases hbin i (List.mem_cons_self i l) with h | h
    · rw [h, add_zero, truncate_intCast, List.filter_cons_of_neg (by simp [h])]
    · have : ((s : ℚ) + 1) = ((s + 1 : Int) : ℚ) := by push_cast; rfl
      rw [h, this, truncate_intCast, List.filter_cons_of_pos (by simp [h]), List.length_cons]
      push_cast
      ring

/-- C7: for a node whose group's targets are all 0 or 1, `become_leaf` sets
`class_prediction` to 1 if and only if the number of rows with target 1 is strictly
more than half of `group_size` taken as an exact fraction, and to 0 otherwise; in
particular a count of exactly half gives 0. -/
theorem become_leaf_majority (ds : DecisionTreeDataset) (self : DecisionTreeNode)
    (hbin : ∀ i ∈ self.group ds, ds.target i = 0 ∨ ds.target i = 1) :
    ((self.become_leaf ds).class_prediction = 1 ↔
      (self.group_size : ℚ) / 2 <
        (((self.group ds).filter (fun i => decide (ds.target i = 1))).length : ℚ)) ∧
    (¬ (self.group_size : ℚ) / 2 <
        (((self.group ds).filter (fun i => decide (ds.target i = 1))).length : ℚ) →
      (self.become_leaf ds).class_prediction = 0) ∧
    ((((self.group ds).filter (fun i => decide (ds.target i = 1))).length : ℚ)
        = (self.group_size : ℚ) / 2 →
      (self.become_leaf ds).class_prediction = 0) := by
  have hsum := become_leaf_sum ds (self.group ds) hbin 0
  have hcp : (self.become_leaf ds).class_prediction =
      if (((self.group ds).filter (fun i => decide (ds.target i = 1))).length : Int)
        > ((self.group_size / 2 : Nat) : Int) then 1 else 0 := by
    unfold DecisionTreeNode.become_leaf
    simp only []
    rw [hsum, zero_add]
  generalize ((self.group ds).filter (fun i => decide (ds.target i = 1))).length = ones at *
  have key : ((self.group_size : ℚ) / 2 < (ones : ℚ)) ↔
      ((ones : Int) > ((self.group_size / 2 : Nat) : Int)) := by
    rw [div_lt_iff₀ (by norm_num : (0 : ℚ) < 2)]
    have h1 : ((self.group_size : ℚ) < (ones : ℚ) * 2) ↔ self.group_size < ones * 2 := by
      exact_mod_cast Iff.rfl
    rw [h1]
    omega
  rw [hcp]
  refine ⟨?_, ?_, ?_⟩
  · constructor
    · intro h
      by_contra hk
      rw [key] at hk
      rw [if_neg hk] at h
      exact absurd h (by decide)
    · intro h
      rw [key] at h
      rw [if_pos h]
  · intro h
    rw [key] at h
    rw [if_neg h]
  · intro h
    have : ¬ ((self.group_size : ℚ) / 2 < (ones : ℚ)) := by rw [h]; exact lt_irrefl _
    rw [key] at this
    rw [if_neg this]

/-- C7 at the node `node_five` over `dataset_five`: two of four targets are 1. -/
theorem become_leaf_majority_witness :
    ((node_five.become_leaf dataset_five).class_prediction = 1 ↔
      (node_five.group_size : ℚ) / 2 <
        (((node_five.group dataset_five).filter
          (fun i => decide (dataset_five.target i = 1))).length : ℚ)) ∧
    (¬ (node_five.group_size : ℚ) / 2 <
        (((node_five.group dataset_five).filter
          (fun i => decide (dataset_five.target i = 1))).length : ℚ) →
      (node_five.become_leaf dataset_five).class_prediction = 0) ∧
    ((((node_five.group dataset_five).filter
          (fun i => decide (dataset_five.target i = 1))).length : ℚ)
        = (node_five.group_size : ℚ) / 2 →
      (node_five.become_leaf dataset_five).class_prediction = 0) :=
  become_leaf_majority dataset_five node_five (by decide!)

/-! ## `train` when no candidate beats the baseline -/

theorem train_ne_nullptr (ds : DecisionTreeDataset) (self : DecisionTreeNode) (left right : Tree) :
    (self.train ds left right).2 ≠ Tree.nullptr := by
  by_cases hc : self.depth < 6 ∧ self.group_size > 10
  · by_cases hd : ((self.get_best_split ds).split_group ds).2 = self.group_begin ∨
        ((self.get_best_split ds).split_group ds).2 = self.group_end
    · rw [train_of_degenerate ds self _ _ hc hd]; exact Tree.noConfusion
    · rw [train_of_split ds self _ _ hc hd]; exact Tree.noConfusion
  · rw [train_of_stop ds self _ _ hc]; exact Tree.noConfusion

/-- When no candidate beats the baseline, the search leaves its initial state. -/
theorem best_split_scan_of_none (gini : Nat → ℚ → ℚ) (cs : List (Nat × ℚ))
    (hno : ∀ c ∈ cs, ¬ gini c.1 c.2 < 1 / 2) :
    best_split_scan gini cs = ⟨1 / 2, 0, 0, false⟩ := by
  rcases best_split_scan_spec gini cs with ⟨h, _⟩ | ⟨P1, c, P2, hcs, _, _, _, hlt, _⟩
  · exact h
  · exact absurd hlt (hno c (by rw [hcs]; simp))

/-- C8, as the code behaves, at the root node over `dataset_balanced` (depth 0, twelve
rows): both candidate thresholds `-1` and `1` have impurity exactly `1/2`, so no
candidate is below the baseline and the search keeps its initial values `(0, 0)`;
`train` then uses them as the split `row[0] < 0`, which puts six rows on each side, so
the split point is 6, neither end of the range, and the node does not become a leaf. -/
theorem train_default_split_counterexample :
    (DecisionTreeNode.new 0 0 12 1).depth < 6 ∧
    (DecisionTreeNode.new 0 0 12 1).group_size > 10 ∧
    (∀ c ∈ (DecisionTreeNode.new 0 0 12 1).candidates dataset_balanced,
      ¬ (DecisionTreeNode.new 0 0 12 1).calculate_gini_index dataset_balanced c.1 c.2 < 1 / 2) ∧
    (((DecisionTreeNode.new 0 0 12 1).get_best_split dataset_balanced).split_group
      dataset_balanced).2 = 6 ∧
    ¬ ∃ n, ((DecisionTreeNode.new 0 0 12 1).train dataset_balanced Tree.nullptr Tree.nullptr).2
      = Tree.node n Tree.nullptr Tree.nullptr := by
  have hsp : (((DecisionTreeNode.new 0 0 12 1).get_best_split dataset_balanced).split_group
      dataset_balanced).2 = 6 := by decide!
  refine ⟨by decide, by decide, by decide!, hsp, ?_⟩
  rw [train_of_split dataset_balanced _ _ _ ⟨by decide, by decide⟩
    (by rw [hsp]; decide)]
  rintro ⟨n, hn⟩
  simp only [Tree.node.injEq] at hn
  exact absurd hn.2.1 (train_ne_nullptr _ _ _ _)

/-! ## `train` on a separable group -/


/-- The node at the root of the tree returned by `train` keeps the range, size, depth
and number of variables of the node `train` was called on. -/
theorem train_root (ds : DecisionTreeDataset) (self : DecisionTreeNode) (left right : Tree) :
    ∃ n l r, (self.train ds left right).2 = Tree.node n l r ∧
      n.group_begin = self.group_begin ∧ n.group_end = self.group_end ∧
      n.group_size = self.group_size ∧ n.depth = self.depth ∧
      n.x_vars_to_use = self.x_vars_to_use := by
  by_cases hc : self.depth < 6 ∧ self.group_size > 10
  · by_cases hd : ((self.get_best_split ds).split_group ds).2 = self.group_begin ∨
        ((self.get_best_split ds).split_group ds).2 = self.group_end
    · rw [train_of_degenerate ds self _ _ hc hd]
      exact ⟨_, _, _, rfl, rfl, rfl, rfl, rfl, rfl⟩
    · rw [train_of_split ds self _ _ hc hd]
      exact ⟨_, _, _, rfl, rfl, rfl, rfl, rfl, rfl⟩
  · rw [train_of_stop ds self _ _ hc]
    exact ⟨_, _, _, rfl, rfl, rfl, rfl, rfl, rfl⟩

/-- With non-negative impurities, if some candidate has impurity 0 then the stored split
is a candidate of impurity 0. -/
theorem get_best_split_perfect (ds : DecisionTreeDataset) (self : DecisionTreeNode)
    (hnn : ∀ c ∈ self.candidates ds, 0 ≤ self.calculate_gini_index ds c.1 c.2)
    (hz : ∃ c ∈ self.candidates ds, self.calculate_gini_index ds c.1 c.2 = 0) :
    self.calculate_gini_index ds (self.get_best_split ds).split_var.toNat
      (self.get_best_split ds).split_val = 0 := by
  obtain ⟨e1, _, e3⟩ := get_best_split_split ds self
  rw [e1, e3]
  have hd := best_split_scan_done_of_zero _ _ hnn hz
  rcases best_split_scan_spec (self.calculate_gini_index ds) (self.candidates ds) with
    ⟨h, _⟩ | ⟨P1, c, P2, _, hvar, hval, _, _, _, hdone, _⟩
  · rw [h] at hd; exact absurd hd (by decide)
  · rw [hvar, hval]; exact (hdone hd).1

/-- A group separated by the threshold `t` on feature `f` has a candidate split of
impurity 0: the smallest value of the feature among the rows at or above `t`. -/
theorem separable_candidate (ds : DecisionTreeDataset) (self : DecisionTreeNode)
    (hsz : self.group_size = (self.group ds).length)
    (hbin : ∀ i ∈ self.group ds, ds.target i = 0 ∨ ds.target i = 1)
    (f : Nat) (t a b : ℚ) (hf : f < self.x_vars_to_use)
    (hlow : ∀ i ∈ self.group ds, (ds.at i).get f < t → ds.target i = a)
    (hhigh : ∀ i ∈ self.group ds, (ds.at i).get f ≥ t → ds.target i = b)
    (hlow_ne : ∃ i ∈ self.group ds, (ds.at i).get f < t)
    (hhigh_ne : ∃ i ∈ self.group ds, (ds.at i).get f ≥ t) :
    ∃ c ∈ self.candidates ds, self.calculate_gini_index ds c.1 c.2 = 0 := by
  obtain ⟨i1, hi1, hi1t⟩ := hlow_ne
  obtain ⟨i2, hi2, hi2t⟩ := hhigh_ne
  have hne : ((self.group ds).filter (fun i => decide ((ds.at i).get f ≥ t))).toFinset.Nonempty :=
    ⟨i2, by simp [hi2, hi2t]⟩
  obtain ⟨j, hj, hmin⟩ := Finset.exists_min_image _ (fun i => (ds.at i).get f) hne
  simp only [List.mem_toFinset, List.mem_filter, decide_eq_true_eq] at hj hmin
  have hpos : 0 < self.group_size := by
    rw [hsz]; exact List.length_pos_of_mem hi1
  refine ⟨(f, (ds.at j).get f), (mem_candidates ds self _).mpr ⟨j, hj.1, f, hf, rfl⟩, ?_⟩
  rw [calculate_gini_index_eq ds self _ _ hsz hpos,
    gini_reference_eq_zero ds _ _ _ (hsz ▸ hpos) hbin]
  have hiff : ∀ i ∈ self.group ds, ((ds.at i).get f < (ds.at j).get f ↔ (ds.at i).get f < t) := by
    intro i hi
    constructor
    · intro h
      by_contra hc
      exact absurd h (not_lt.mpr (hmin i ⟨hi, not_lt.mp hc⟩))
    · intro h
      exact lt_of_lt_of_le h hj.2
  have ha : a = 0 ∨ a = 1 := by rw [← hlow i1 hi1 hi1t]; exact hbin i1 hi1
  have hb : b = 0 ∨ b = 1 := by rw [← hhigh i2 hi2 hi2t]; exact hbin i2 hi2
  constructor
  · have hall : ∀ i ∈ (self.group ds).filter
        (fun i => decide ((ds.at i).get f < (ds.at j).get f)), ds.target i = a := by
      intro i hi
      simp only [List.mem_filter, decide_eq_true_eq] at hi
      exact hlow i hi.1 ((hiff i hi.1).mp hi.2)
    rcases ha with h | h
    · left; intro i hi; rw [hall i hi, h]
    · right; intro i hi; rw [hall i hi, h]
  · have hall : ∀ i ∈ (self.group ds).filter
        (fun i => decide ((ds.at i).get f ≥ (ds.at j).get f)), ds.target i = b := by
      intro i hi
      simp only [List.mem_filter, decide_eq_true_eq] at hi
      refine hhigh i hi.1 ?_
      by_contra hc
      exact absurd ((hiff i hi.1).mpr (not_le.mp hc)) (not_lt.mpr hi.2)
    rcases hb with h | h
    · left; intro i hi; rw [hall i hi, h]
    · right; intro i hi; rw [hall i hi, h]


/-- After `split_group` and the training of both children, the left child's range holds
indices of the parent's group that went left, and the right child's range holds indices
of the parent's group that went right. -/
theorem children_groups (ds : DecisionTreeDataset) (self : DecisionTreeNode) (d x : Nat)
    (hbe : self.group_begin ≤ self.group_end)
    (hend : self.group_end ≤ ds.row_indices.length) :
    (∀ i ∈ (DecisionTreeNode.new d self.group_begin (self.split_group ds).2 x).group
        (DecisionTreeNode.train
          (DecisionTreeNode.train (self.split_group ds).1
            (DecisionTreeNode.new d self.group_begin (self.split_group ds).2 x)
            Tree.nullptr Tree.nullptr).1
          (DecisionTreeNode.new d (self.split_group ds).2 self.group_end x)
          Tree.nullptr Tree.nullptr).1,
      i ∈ self.group ds ∧ self.goes_left ds i = true) ∧
    (∀ i ∈ (DecisionTreeNode.new d (self.split_group ds).2 self.group_end x).group
        (DecisionTreeNode.train
          (DecisionTreeNode.train (self.split_group ds).1
            (DecisionTreeNode.new d self.group_begin (self.split_group ds).2 x)
            Tree.nullptr Tree.nullptr).1
          (DecisionTreeNode.new d (self.split_group ds).2 self.group_end x)
          Tree.nullptr Tree.nullptr).1,
      i ∈ self.group ds ∧ self.goes_left ds i = false) := by
  obtain ⟨p1, p2, p3, p4, p5, p6, p7⟩ :=
    partition_spec (self.goes_left ds) (self.group_end - self.group_begin) ds.row_indices
      self.group_begin self.group_end (Nat.le_refl _) hbe hend
  have hperm := slice_perm ds.row_indices _ self.group_begin self.group_end hbe p1 p2 p5
  have hsp1 : (self.split_group ds).1.row_indices =
      (partition (self.goes_left ds) ds.row_indices self.group_begin self.group_end).1 := rfl
  have hsp2 : (self.split_group ds).2 =
      (partition (self.goes_left ds) ds.row_indices self.group_begin self.group_end).2 := rfl
  rw [← hsp1] at p1 p2 p5 p6 p7 hperm
  rw [← hsp2] at p3 p4 p6 p7
  generalize self.split_group ds = sp at *
  -- membership in the parent's group, read off the partitioned vector
  have hmemG : ∀ pos, self.group_begin ≤ pos → pos < self.group_end →
      sp.1.row_indices.getD pos 0 ∈ self.group ds := by
    intro pos h1 h2
    apply hperm.mem_iff.mp
    exact (mem_slice sp.1.row_indices _ _ (by omega) _).mpr ⟨pos, h1, h2, rfl⟩
  obtain ⟨_, _, l3, l4⟩ := train_frame (6 - d) sp.1
    (DecisionTreeNode.new d self.group_begin sp.2 x) Tree.nullptr Tree.nullptr
    (Nat.le_refl _) p3 (by show sp.2 ≤ _; omega)
  have l4 : ∀ i, i < self.group_begin ∨ sp.2 ≤ i →
      (DecisionTreeNode.train sp.1 (DecisionTreeNode.new d self.group_begin sp.2 x)
        Tree.nullptr Tree.nullptr).1.row_indices.getD i 0 = sp.1.row_indices.getD i 0 := l4
  have lperm := slice_perm sp.1.row_indices _ self.group_begin sp.2 p3 l3 l3.length_eq l4
  generalize DecisionTreeNode.train sp.1 (DecisionTreeNode.new d self.group_begin sp.2 x)
    Tree.nullptr Tree.nullptr = l at *
  obtain ⟨_, _, r3, r4⟩ := train_frame (6 - d) l.1
    (DecisionTreeNode.new d sp.2 self.group_end x) Tree.nullptr Tree.nullptr
    (Nat.le_refl _) p4 (by show self.group_end ≤ _; rw [l3.length_eq]; omega)
  have r4 : ∀ i, i < sp.2 ∨ self.group_end ≤ i →
      (DecisionTreeNode.train l.1 (DecisionTreeNode.new d sp.2 self.group_end x)
        Tree.nullptr Tree.nullptr).1.row_indices.getD i 0 = l.1.row_indices.getD i 0 := r4
  have rperm := slice_perm l.1.row_indices _ sp.2 self.group_end p4 r3 r3.length_eq r4
  generalize DecisionTreeNode.train l.1 (DecisionTreeNode.new d sp.2 self.group_end x)
    Tree.nullptr Tree.nullptr = r at *
  have hlenl : l.1.row_indices.length = ds.row_indices.length := by rw [l3.length_eq, p2]
  have hlenr : r.1.row_indices.length = ds.row_indices.length := by rw [r3.length_eq, hlenl]
  constructor
  · intro i hi
    have hi : i ∈ (r.1.row_indices.drop self.group_begin).take (sp.2 - self.group_begin) := hi
    obtain ⟨pos, h1, h2, h3⟩ := (mem_slice r.1.row_indices _ _ (by omega) i).mp hi
    rw [r4 pos (Or.inl h2)] at h3
    have hil : i ∈ (l.1.row_indices.drop self.group_begin).take (sp.2 - self.group_begin) :=
      (mem_slice l.1.row_indices _ _ (by omega) i).mpr ⟨pos, h1, h2, h3⟩
    have his := lperm.mem_iff.mp hil
    obtain ⟨pos', h1', h2', h3'⟩ := (mem_slice sp.1.row_indices _ _ (by omega) i).mp his
    rw [← h3']
    exact ⟨hmemG pos' h1' (by omega), p6 pos' h1' h2'⟩
  · intro i hi
    have hi : i ∈ (r.1.row_indices.drop sp.2).take (self.group_end - sp.2) := hi
    have hil := rperm.mem_iff.mp hi
    obtain ⟨pos, h1, h2, h3⟩ := (mem_slice l.1.row_indices _ _ (by omega) i).mp hil
    rw [l4 pos (Or.inr h1)] at h3
    rw [← h3]
    exact ⟨hmemG pos (by omega) h2, p7 pos h1 h2⟩


/-- C9: for a node with `depth < 6` and `group_size > 10` over a range of binary targets
that a threshold `t` on a feature `f < x_vars_to_use` separates perfectly (rows below `t`
have class `a`, rows at or above `t` have the other class `b`, both sides non-empty),
`get_best_split` stores a split of impurity exactly 0, the split point lies strictly
inside the range, and `train` makes the node an internal node: its class prediction is
untouched and it has two children, over `[group_begin, split_point)` and
`[split_point, group_end)`, each of which holds rows of a single class. -/
theorem train_separable (ds : DecisionTreeDataset) (self : DecisionTreeNode)
    (hdepth : self.depth < 6) (hgroup : self.group_size > 10)
    (hend : self.group_end ≤ ds.row_indices.length)
    (hsize : self.group_size = self.group_end - self.group_begin)
    (hbin : ∀ i ∈ self.group ds, ds.target i = 0 ∨ ds.target i = 1)
    (f : Nat) (t a b : ℚ) (hf : f < self.x_vars_to_use) (hab : a ≠ b)
    (hlow : ∀ i ∈ self.group ds, (ds.at i).get f < t → ds.target i = a)
    (hhigh : ∀ i ∈ self.group ds, (ds.at i).get f ≥ t → ds.target i = b)
    (hlow_ne : ∃ i ∈ self.group ds, (ds.at i).get f < t)
    (hhigh_ne : ∃ i ∈ self.group ds, (ds.at i).get f ≥ t) :
    self.calculate_gini_index ds (self.get_best_split ds).split_var.toNat
      (self.get_best_split ds).split_val = 0 ∧
    self.group_begin < ((self.get_best_split ds).split_group ds).2 ∧
    ((self.get_best_split ds).split_group ds).2 < self.group_end ∧
    ∃ n nl ll lr nr rl rr,
      (self.train ds Tree.nullptr Tree.nullptr).2
        = Tree.node n (Tree.node nl ll lr) (Tree.node nr rl rr) ∧
      n.class_prediction = self.class_prediction ∧
      nl.group_begin = self.group_begin ∧
      nl.group_end = ((self.get_best_split ds).split_group ds).2 ∧
      nr.group_begin = ((self.get_best_split ds).split_group ds).2 ∧
      nr.group_end = self.group_end ∧
      (∀ i ∈ nl.group (self.train ds Tree.nullptr Tree.nullptr).1,
        ∀ j ∈ nl.group (self.train ds Tree.nullptr Tree.nullptr).1,
          ds.target i = ds.target j) ∧
      (∀ i ∈ nr.group (self.train ds Tree.nullptr Tree.nullptr).1,
        ∀ j ∈ nr.group (self.train ds Tree.nullptr Tree.nullptr).1,
          ds.target i = ds.target j) := by
  have hbe : self.group_begin ≤ self.group_end := by omega
  have hsz : self.group_size = (self.group ds).length := by rw [group_length ds self hend, hsize]
  have hpos : 0 < self.group_size := by omega
  have hnn : ∀ c ∈ self.candidates ds, 0 ≤ self.calculate_gini_index ds c.1 c.2 :=
    fun c _ => calculate_gini_index_nonneg ds self _ _ hsz hpos hbin
  have hz := separable_candidate ds self hsz hbin f t a b hf hlow hhigh hlow_ne hhigh_ne
  have hg0 := get_best_split_perfect ds self hnn hz
  have hpure := hg0
  rw [calculate_gini_index_eq ds self _ _ hsz hpos,
    gini_reference_eq_zero ds _ _ _ (hsz ▸ hpos) hbin] at hpure
  obtain ⟨hpl, hph⟩ := hpure
  obtain ⟨i1, hi1, hi1t⟩ := hlow_ne
  obtain ⟨i2, hi2, hi2t⟩ := hhigh_ne
  have ht1 := hlow i1 hi1 hi1t
  have ht2 := hhigh i2 hi2 hi2t
  have hgl : ∀ i, (self.get_best_split ds).goes_left ds i =
      decide ((ds.at i).get (self.get_best_split ds).split_var.toNat
        < (self.get_best_split ds).split_val) := fun _ => rfl
  obtain ⟨d1, d2⟩ := split_point_degenerate ds (self.get_best_split ds) hbe hend
  have d1 : ((self.get_best_split ds).split_group ds).2 = self.group_begin ↔
      ∀ i ∈ self.group ds, (self.get_best_split ds).goes_left ds i = false := d1
  have d2 : ((self.get_best_split ds).split_group ds).2 = self.group_end ↔
      ∀ i ∈ self.group ds, (self.get_best_split ds).goes_left ds i = true := d2
  have hnb : ((self.get_best_split ds).split_group ds).2 ≠ self.group_begin := by
    intro h
    have hall := d1.mp h
    have m1 : i1 ∈ (self.group ds).filter (fun i => decide ((ds.at i).get
        (self.get_best_split ds).split_var.toNat ≥ (self.get_best_split ds).split_val)) := by
      have := hall i1 hi1
      rw [hgl] at this
      simp only [List.mem_filter, hi1, true_and, decide_eq_true_eq]
      simpa using this
    have m2 : i2 ∈ (self.group ds).filter (fun i => decide ((ds.at i).get
        (self.get_best_split ds).split_var.toNat ≥ (self.get_best_split ds).split_val)) := by
      have := hall i2 hi2
      rw [hgl] at this
      simp only [List.mem_filter, hi2, true_and, decide_eq_true_eq]
      simpa using this
    rcases hph with h0 | h0
    · exact hab (by rw [← ht1, ← ht2, h0 i1 m1, h0 i2 m2])
    · exact hab (by rw [← ht1, ← ht2, h0 i1 m1, h0 i2 m2])
  have hne : ((self.get_best_split ds).split_group ds).2 ≠ self.group_end := by
    intro h
    have hall := d2.mp h
    have m1 : i1 ∈ (self.group ds).filter (fun i => decide ((ds.at i).get
        (self.get_best_split ds).split_var.toNat < (self.get_best_split ds).split_val)) := by
      have := hall i1 hi1
      rw [hgl] at this
      simp only [List.mem_filter, hi1, true_and, decide_eq_true_eq]
      simpa using this
    have m2 : i2 ∈ (self.group ds).filter (fun i => decide ((ds.at i).get
        (self.get_best_split ds).split_var.toNat < (self.get_best_split ds).split_val)) := by
      have := hall i2 hi2
      rw [hgl] at this
      simp only [List.mem_filter, hi2, true_and, decide_eq_true_eq]
      simpa using this
    rcases hpl with h0 | h0
    · exact hab (by rw [← ht1, ← ht2, h0 i1 m1, h0 i2 m2])
    · exact hab (by rw [← ht1, ← ht2, h0 i1 m1, h0 i2 m2])
  obtain ⟨_, _, s3, s4, _⟩ := split_group_frame ds (self.get_best_split ds) hbe hend
  have s3 : self.group_begin ≤ ((self.get_best_split ds).split_group ds).2 := s3
  have s4 : ((self.get_best_split ds).split_group ds).2 ≤ self.group_end := s4
  refine ⟨hg0, by omega, by omega, ?_⟩
  have hd : ¬(((self.get_best_split ds).split_group ds).2 = self.group_begin ∨
      ((self.get_best_split ds).split_group ds).2 = self.group_end) := by
    rintro (h | h)
    · exact hnb h
    · exact hne h
  obtain ⟨cl, cr⟩ := children_groups ds (self.get_best_split ds) (self.depth + 1)
    self.x_vars_to_use hbe hend
  have cl : ∀ i ∈ (DecisionTreeNode.new (self.depth + 1) self.group_begin
        ((self.get_best_split ds).split_group ds).2 self.x_vars_to_use).group
        (self.train ds Tree.nullptr Tree.nullptr).1,
      i ∈ self.group ds ∧ (self.get_best_split ds).goes_left ds i = true := by
    rw [train_of_split ds self _ _ ⟨hdepth, hgroup⟩ hd]; exact cl
  have cr : ∀ i ∈ (DecisionTreeNode.new (self.depth + 1)
        ((self.get_best_split ds).split_group ds).2 self.group_end self.x_vars_to_use).group
        (self.train ds Tree.nullptr Tree.nullptr).1,
      i ∈ self.group ds ∧ (self.get_best_split ds).goes_left ds i = false := by
    rw [train_of_split ds self _ _ ⟨hdepth, hgroup⟩ hd]; exact cr
  have hroot : (self.train ds Tree.nullptr Tree.nullptr).2 = Tree.node (self.get_best_split ds)
      (DecisionTreeNode.train ((self.get_best_split ds).split_group ds).1
        (DecisionTreeNode.new (self.depth + 1) self.group_begin
          ((self.get_best_split ds).split_group ds).2 self.x_vars_to_use)
        Tree.nullptr Tree.nullptr).2
      (DecisionTreeNode.train
        (DecisionTreeNode.train ((self.get_best_split ds).split_group ds).1
          (DecisionTreeNode.new (self.depth + 1) self.group_begin
            ((self.get_best_split ds).split_group ds).2 self.x_vars_to_use)
          Tree.nullptr Tree.nullptr).1
        (DecisionTreeNode.new (self.depth + 1) ((self.get_best_split ds).split_group ds).2
          self.group_end self.x_vars_to_use) Tree.nullptr Tree.nullptr).2 := by
    rw [train_of_split ds self _ _ ⟨hdepth, hgroup⟩ hd]
  obtain ⟨nl, ll, lr, hl, hlb, hle, _, _, _⟩ := train_root
    ((self.get_best_split ds).split_group ds).1
    (DecisionTreeNode.new (self.depth + 1) self.group_begin
      ((self.get_best_split ds).split_group ds).2 self.x_vars_to_use) Tree.nullptr Tree.nullptr
  obtain ⟨nr, rl, rr, hr, hrb, hre, _, _, _⟩ := train_root
    (DecisionTreeNode.train ((self.get_best_split ds).split_group ds).1
      (DecisionTreeNode.new (self.depth + 1) self.group_begin
        ((self.get_best_split ds).split_group ds).2 self.x_vars_to_use)
      Tree.nullptr Tree.nullptr).1
    (DecisionTreeNode.new (self.depth + 1) ((self.get_best_split ds).split_group ds).2
      self.group_end self.x_vars_to_use) Tree.nullptr Tree.nullptr
  rw [hl, hr] at hroot
  have hgl' : ∀ (m : DecisionTreeNode) (D : DecisionTreeDataset) (b e d x : Nat),
      m.group_begin = b → m.group_end = e →
      m.group D = (DecisionTreeNode.new d b e x).group D := by
    intro m D b e d x h1 h2
    unfold DecisionTreeNode.group
    rw [h1, h2]
    rfl
  refine ⟨_, nl, ll, lr, nr, rl, rr, hroot, rfl, hlb, hle, hrb, hre, ?_, ?_⟩
  · rw [hgl' nl _ _ _ (self.depth + 1) self.x_vars_to_use hlb hle]
    intro i hi j hj
    obtain ⟨gi, li⟩ := cl i hi
    obtain ⟨gj, lj⟩ := cl j hj
    rw [hgl] at li lj
    have mi : i ∈ (self.group ds).filter (fun i => decide ((ds.at i).get
        (self.get_best_split ds).split_var.toNat < (self.get_best_split ds).split_val)) :=
      List.mem_filter.mpr ⟨gi, li⟩
    have mj : j ∈ (self.group ds).filter (fun i => decide ((ds.at i).get
        (self.get_best_split ds).split_var.toNat < (self.get_best_split ds).split_val)) :=
      List.mem_filter.mpr ⟨gj, lj⟩
    rcases hpl with h0 | h0
    · rw [h0 i mi, h0 j mj]
    · rw [h0 i mi, h0 j mj]
  · rw [hgl' nr _ _ _ (self.depth + 1) self.x_vars_to_use hrb hre]
    intro i hi j hj
    obtain ⟨gi, li⟩ := cr i hi
    obtain ⟨gj, lj⟩ := cr j hj
    rw [hgl] at li lj
    have mi : i ∈ (self.group ds).filter (fun i => decide ((ds.at i).get
        (self.get_best_split ds).split_var.toNat ≥ (self.get_best_split ds).split_val)) := by
      refine List.mem_filter.mpr ⟨gi, ?_⟩
      simpa using li
    have mj : j ∈ (self.group ds).filter (fun i => decide ((ds.at i).get
        (self.get_best_split ds).split_var.toNat ≥ (self.get_best_split ds).split_val)) := by
      refine List.mem_filter.mpr ⟨gj, ?_⟩
      simpa using lj
    rcases hph with h0 | h0
    · rw [h0 i mi, h0 j mj]
    · rw [h0 i mi, h0 j mj]

/-- C9 at the root node over `dataset_separable`, separated by `row[0] < 7`. -/
theorem train_separable_witness :
    (DecisionTreeNode.new 0 0 12 1).calculate_gini_index dataset_separable ((DecisionTreeNode.new 0 0 12 1).get_best_split dataset_separable).split_var.toNat
      ((DecisionTreeNode.new 0 0 12 1).get_best_split dataset_separable).split_val = 0 ∧
    (DecisionTreeNode.new 0 0 12 1).group_begin < (((DecisionTreeNode.new 0 0 12 1).get_best_split dataset_separable).split_group dataset_separable).2 ∧
    (((DecisionTreeNode.new 0 0 12 1).get_best_split dataset_separable).split_group dataset_separable).2 < (DecisionTreeNode.new 0 0 12 1).group_end ∧
    ∃ n nl ll lr nr rl rr,
      ((DecisionTreeNode.new 0 0 12 1).train dataset_separable Tree.nullptr Tree.nullptr).2
        = Tree.node n (Tree.node nl ll lr) (Tree.node nr rl rr) ∧
      n.class_prediction = (DecisionTreeNode.new 0 0 12 1).class_prediction ∧
      nl.group_begin = (DecisionTreeNode.new 0 0 12 1).group_begin ∧
      nl.group_end = (((DecisionTreeNode.new 0 0 12 1).get_best_split dataset_separable).split_group dataset_separable).2 ∧
      nr.group_begin = (((DecisionTreeNode.new 0 0 12 1).get_best_split dataset_separable).split_group dataset_separable).2 ∧
      nr.group_end = (DecisionTreeNode.new 0 0 12 1).group_end ∧
      (∀ i ∈ nl.group ((DecisionTreeNode.new 0 0 12 1).train dataset_separable Tree.nullptr Tree.nullptr).1,
        ∀ j ∈ nl.group ((DecisionTreeNode.new 0 0 12 1).train dataset_separable Tree.nullptr Tree.nullptr).1,
          dataset_separable.target i = dataset_separable.target j) ∧
      (∀ i ∈ nr.group ((DecisionTreeNode.new 0 0 12 1).train dataset_separable Tree.nullptr Tree.nullptr).1,
        ∀ j ∈ nr.group ((DecisionTreeNode.new 0 0 12 1).train dataset_separable Tree.nullptr Tree.nullptr).1,
          dataset_separable.target i = dataset_separable.target j) :=
  train_separable dataset_separable (DecisionTreeNode.new 0 0 12 1) (by decide) (by decide)
    (by decide) (by decide) (by decide!) 0 7 0 1 (by decide) (by decide) (by decide!)
    (by decide!) ⟨0, by decide, by decide!⟩ ⟨1, by decide, by decide!⟩

/-! ## `train`: ranges of the children -/

theorem train_split_invariant (k : Nat) : ∀ (ds : DecisionTreeDataset) (self : DecisionTreeNode),
    6 - self.depth ≤ k → self.group_begin ≤ self.group_end →
    self.group_end ≤ ds.row_indices.length →
    self.group_size = self.group_end - self.group_begin →
    (self.train ds Tree.nullptr Tree.nullptr).2.split_invariant := by
  induction k with
  | zero =>
    intro ds self hk _ _ _
    rw [train_of_stop ds self _ _ (by omega)]
    exact ⟨trivial, trivial, trivial⟩
  | succ k ih =>
    intro ds self hk hbe hend hsize
    by_cases hc : self.depth < 6 ∧ self.group_size > 10
    · by_cases hd : ((self.get_best_split ds).split_group ds).2 = self.group_begin ∨
          ((self.get_best_split ds).split_group ds).2 = self.group_end
      · rw [train_of_degenerate ds self _ _ hc hd]
        exact ⟨trivial, trivial, trivial⟩
      · rw [train_of_split ds self _ _ hc hd]
        obtain ⟨_, s2, s3, s4, _⟩ := split_group_frame ds (self.get_best_split ds) hbe hend
        have s3 : self.group_begin ≤ ((self.get_best_split ds).split_group ds).2 := s3
        have s4 : ((self.get_best_split ds).split_group ds).2 ≤ self.group_end := s4
        generalize (self.get_best_split ds).split_group ds = sp at *
        have ihl := ih sp.1
          (DecisionTreeNode.new (self.depth + 1) self.group_begin sp.2 self.x_vars_to_use)
          (by simp only [DecisionTreeNode.new]; omega) s3
          (by simp only [DecisionTreeNode.new]; omega) rfl
        obtain ⟨_, _, l3, _⟩ := train_frame (6 - (self.depth + 1)) sp.1
          (DecisionTreeNode.new (self.depth + 1) self.group_begin sp.2 self.x_vars_to_use)
          Tree.nullptr Tree.nullptr (Nat.le_refl _) s3
          (by simp only [DecisionTreeNode.new]; omega)
        obtain ⟨nl, ll, lr, hl, hlb, hle, hls, _, _⟩ := train_root sp.1
          (DecisionTreeNode.new (self.depth + 1) self.group_begin sp.2 self.x_vars_to_use)
          Tree.nullptr Tree.nullptr
        generalize DecisionTreeNode.train sp.1
          (DecisionTreeNode.new (self.depth + 1) self.group_begin sp.2 self.x_vars_to_use)
          Tree.nullptr Tree.nullptr = l at *
        have ihr := ih l.1
          (DecisionTreeNode.new (self.depth + 1) sp.2 self.group_end self.x_vars_to_use)
          (by simp only [DecisionTreeNode.new]; omega) s4
          (by simp only [DecisionTreeNode.new]; rw [l3.length_eq]; omega) rfl
        obtain ⟨nr, rl, rr, hr, hrb, hre, hrs, _, _⟩ := train_root l.1
          (DecisionTreeNode.new (self.depth + 1) sp.2 self.group_end self.x_vars_to_use)
          Tree.nullptr Tree.nullptr
        generalize DecisionTreeNode.train l.1
          (DecisionTreeNode.new (self.depth + 1) sp.2 self.group_end self.x_vars_to_use)
          Tree.nullptr Tree.nullptr = r at *
        refine ⟨?_, ihl, ihr⟩
        rw [hl, hr]
        simp only [DecisionTreeNode.new] at hlb hle hls hrb hre hrs
        have g1 : (self.get_best_split ds).group_begin = self.group_begin := rfl
        have g2 : (self.get_best_split ds).group_end = self.group_end := rfl
        have g3 : (self.get_best_split ds).group_size = self.group_size := rfl
        show (self.get_best_split ds).group_begin < nl.group_end ∧
          nl.group_end < (self.get_best_split ds).group_end ∧
          nl.group_begin = (self.get_best_split ds).group_begin ∧
          nr.group_begin = nl.group_end ∧
          nr.group_end = (self.get_best_split ds).group_end ∧
          nl.group_size + nr.group_size = (self.get_best_split ds).group_size
        rw [g1, g2, g3]
        have hd1 : sp.2 ≠ self.group_begin := fun h => hd (Or.inl h)
        have hd2 : sp.2 ≠ self.group_end := fun h => hd (Or.inr h)
        refine ⟨by omega, by omega, hlb, by omega, hre, by omega⟩
    · rw [train_of_stop ds self _ _ hc]
      exact ⟨trivial, trivial, trivial⟩

/-- C10: in the tree produced by `train` from a node over a range
`[group_begin, group_end)` of the index vector whose `group_size` is the length of the
range, every internal node with range `[begin, end)` has a split point `p` with
`begin < p < end` such that its left child's range is exactly `[begin, p)` and its right
child's range exactly `[p, end)` (so the sibling ranges are non-empty, disjoint and
cover the parent's range), and the children's group sizes sum to the parent's. -/
theorem train_children_partition_range (ds : DecisionTreeDataset) (self : DecisionTreeNode)
    (hbe : self.group_begin ≤ self.group_end)
    (hend : self.group_end ≤ ds.row_indices.length)
    (hsize : self.group_size = self.group_end - self.group_begin) :
    (self.train ds Tree.nullptr Tree.nullptr).2.split_invariant ∧
    (∀ n nl ll lr nr rl rr, (self.train ds Tree.nullptr Tree.nullptr).2
        = Tree.node n (Tree.node nl ll lr) (Tree.node nr rl rr) →
      nl.group_end = ((self.get_best_split ds).split_group ds).2 ∧
      nr.group_begin = ((self.get_best_split ds).split_group ds).2) := by
  refine ⟨train_split_invariant (6 - self.depth) ds self (Nat.le_refl _) hbe hend hsize, ?_⟩
  intro n nl ll lr nr rl rr h
  by_cases hc : self.depth < 6 ∧ self.group_size > 10
  · by_cases hd : ((self.get_best_split ds).split_group ds).2 = self.group_begin ∨
        ((self.get_best_split ds).split_group ds).2 = self.group_end
    · rw [train_of_degenerate ds self _ _ hc hd] at h
      simp only [Tree.node.injEq] at h
      exact absurd h.2.1 Tree.noConfusion
    · rw [train_of_split ds self _ _ hc hd] at h
      simp only [Tree.node.injEq] at h
      obtain ⟨nl', ll', lr', hl, _, hle, _⟩ := train_root
        ((self.get_best_split ds).split_group ds).1
        (DecisionTreeNode.new (self.depth + 1) self.group_begin
          ((self.get_best_split ds).split_group ds).2 self.x_vars_to_use)
        Tree.nullptr Tree.nullptr
      obtain ⟨nr', rl', rr', hr, hrb, _⟩ := train_root
        (DecisionTreeNode.train ((self.get_best_split ds).split_group ds).1
          (DecisionTreeNode.new (self.depth + 1) self.group_begin
            ((self.get_best_split ds).split_group ds).2 self.x_vars_to_use)
          Tree.nullptr Tree.nullptr).1
        (DecisionTreeNode.new (self.depth + 1) ((self.get_best_split ds).split_group ds).2
          self.group_end self.x_vars_to_use) Tree.nullptr Tree.nullptr
      rw [hl] at h
      rw [hr] at h
      simp only [Tree.node.injEq] at h
      obtain ⟨_, ⟨h1, _, _⟩, ⟨h2, _, _⟩⟩ := h
      rw [← h1, ← h2]
      exact ⟨hle, hrb⟩
  · rw [train_of_stop ds self _ _ hc] at h
    simp only [Tree.node.injEq] at h
    exact absurd h.2.1 Tree.noConfusion

/-- C10 at the root node over `dataset_separable`. -/
theorem train_children_partition_range_witness :
    ((DecisionTreeNode.new 0 0 12 1).train dataset_separable Tree.nullptr Tree.nullptr).2.split_invariant ∧
    (∀ n nl ll lr nr rl rr, ((DecisionTreeNode.new 0 0 12 1).train dataset_separable Tree.nullptr Tree.nullptr).2
        = Tree.node n (Tree.node nl ll lr) (Tree.node nr rl rr) →
      nl.group_end = (((DecisionTreeNode.new 0 0 12 1).get_best_split dataset_separable).split_group dataset_separable).2 ∧
      nr.group_begin = (((DecisionTreeNode.new 0 0 12 1).get_best_split dataset_separable).split_group dataset_separable).2) :=
  train_children_partition_range dataset_separable (DecisionTreeNode.new 0 0 12 1)
    (by decide) (by decide) (by decide)

/-! ## `predict` on a trained tree -/

theorem predict_of_leaf_or_internal (sample : Row) : ∀ t : Tree, t.leaf_or_internal →
    t.predict sample = some 0 ∨ t.predict sample = some 1
  | Tree.nullptr, h => absurd h id
  | Tree.node n left right, h => by
    rcases h with ⟨h01, _, _⟩ | ⟨hm, hl, hr⟩
    · rcases h01 with h0 | h1
      · left; simp [Tree.predict, h0]
      · right; simp [Tree.predict, h1]
    · have ihl := predict_of_leaf_or_internal sample left hl
      have ihr := predict_of_leaf_or_internal sample right hr
      simp only [Tree.predict, hm]
      rw [if_neg (by decide)]
      split
      · exact ihl
      · exact ihr

theorem train_leaf_or_internal (k : Nat) : ∀ (ds : DecisionTreeDataset) (self : DecisionTreeNode),
    6 - self.depth ≤ k → self.class_prediction = -1 →
    (self.train ds Tree.nullptr Tree.nullptr).2.leaf_or_internal := by
  induction k with
  | zero =>
    intro ds self hk _
    rw [train_of_stop ds self _ _ (by omega)]
    exact Or.inl ⟨become_leaf_class_prediction _ _, rfl, rfl⟩
  | succ k ih =>
    intro ds self hk hunset
    by_cases hc : self.depth < 6 ∧ self.group_size > 10
    · by_cases hd : ((self.get_best_split ds).split_group ds).2 = self.group_begin ∨
          ((self.get_best_split ds).split_group ds).2 = self.group_end
      · rw [train_of_degenerate ds self _ _ hc hd]
        exact Or.inl ⟨become_leaf_class_prediction _ _, rfl, rfl⟩
      · rw [train_of_split ds self _ _ hc hd]
        refine Or.inr ⟨hunset, ?_, ?_⟩
        · exact ih _ _ (by simp only [DecisionTreeNode.new]; omega) rfl
        · exact ih _ _ (by simp only [DecisionTreeNode.new]; omega) rfl
    · rw [train_of_stop ds self _ _ hc]
      exact Or.inl ⟨become_leaf_class_prediction _ _, rfl, rfl⟩

/-- C11: after `train` completes on a root node as the constructor leaves it (class
prediction `-1`, no children), every node of the tree is a leaf (class prediction 0 or
1, no children) or an internal node (class prediction `-1`, both children present and
trained); hence for every sample `predict` follows no empty pointer and returns 0 or
1. -/
theorem train_then_predict (ds : DecisionTreeDataset) (self : DecisionTreeNode)
    (hunset : self.class_prediction = -1) :
    (self.train ds Tree.nullptr Tree.nullptr).2.leaf_or_internal ∧
    ∀ sample : Row,
      (self.train ds Tree.nullptr Tree.nullptr).2.predict sample = some 0 ∨
      (self.train ds Tree.nullptr Tree.nullptr).2.predict sample = some 1 :=
  ⟨train_leaf_or_internal (6 - self.depth) ds self (Nat.le_refl _) hunset,
    fun sample => predict_of_leaf_or_internal sample _
      (train_leaf_or_internal (6 - self.depth) ds self (Nat.le_refl _) hunset)⟩

/-- C11 at the root node over `dataset_separable`. -/
theorem train_then_predict_witness :
    ((DecisionTreeNode.new 0 0 12 1).train dataset_separable Tree.nullptr
      Tree.nullptr).2.leaf_or_internal ∧
    ∀ sample : Row,
      ((DecisionTreeNode.new 0 0 12 1).train dataset_separable Tree.nullptr
        Tree.nullptr).2.predict sample = some 0 ∨
      ((DecisionTreeNode.new 0 0 12 1).train dataset_separable Tree.nullptr
        Tree.nullptr).2.predict sample = some 1 :=
  train_then_predict dataset_separable (DecisionTreeNode.new 0 0 12 1) (by decide)

/-! ## `calculate_rows_to_use` -/

theorem calculate_rows_to_use_all (t d : Int) (rows : Nat) (h : d ≥ t ∨ d ≤ 0) :
    calculate_rows_to_use t d rows = rows := by
  unfold calculate_rows_to_use
  rw [if_pos h]

theorem calculate_rows_to_use_nearest (t d : Int) (rows : Nat) (h : ¬(d ≥ t ∨ d ≤ 0)) :
    ((calculate_rows_to_use t d rows : ℚ) - 1 / 2 ≤ ((d : ℚ) / (t : ℚ)) * (rows : ℚ)) ∧
    (((d : ℚ) / (t : ℚ)) * (rows : ℚ) < (calculate_rows_to_use t d rows : ℚ) + 1 / 2) := by
  unfold calculate_rows_to_use
  rw [if_neg h]
  have hd : (0 : ℚ) < (d : ℚ) := by
    have : 0 < d := by omega
    exact_mod_cast this
  have ht : (0 : ℚ) < (t : ℚ) := by
    have : 0 < t := by omega
    exact_mod_cast this
  have hx : (0 : ℚ) ≤ ((d : ℚ) / (t : ℚ)) * (rows : ℚ) :=
    mul_nonneg (le_of_lt (div_pos hd ht)) (Nat.cast_nonneg rows)
  generalize ((d : ℚ) / (t : ℚ)) * (rows : ℚ) = x at hx ⊢
  unfold std_round
  rw [if_pos hx]
  have hfl : (0 : Int) ≤ ⌊x + 1 / 2⌋ := Int.floor_nonneg.mpr (by linarith)
  have hcast : ((⌊x + 1 / 2⌋.toNat : ℕ) : ℚ) = ((⌊x + 1 / 2⌋ : Int) : ℚ) := by
    have : ((⌊x + 1 / 2⌋.toNat : ℕ) : Int) = ⌊x + 1 / 2⌋ := Int.toNat_of_nonneg hfl
    exact_mod_cast this
  rw [hcast]
  have h1 := Int.floor_le (x + 1 / 2)
  have h2 := Int.lt_floor_add_one (x + 1 / 2)
  constructor <;> linarith

/-- The rule of `std::round` for a halfway value, on an instance: three eighths of 4 rows
is `3/2`, which goes to 2. -/
theorem calculate_rows_to_use_half : calculate_rows_to_use 8 3 4 = 2 := by decide!

/-! ## `calculate_gini_index` on a one-sided split -/

theorem gini_subgroup_reference_nil (ds : DecisionTreeDataset) (n : Nat) :
    gini_subgroup_reference ds n [] = 0 := rfl

theorem gini_subgroup_reference_self (ds : DecisionTreeDataset) (group : List Nat)
    (hne : 0 < group.length) :
    gini_subgroup_reference ds group.length group = gini_unweighted_reference ds group := by
  unfold gini_subgroup_reference gini_unweighted_reference
  rw [if_neg (by omega)]
  have : ((group.length : ℚ)) ≠ 0 := by exact_mod_cast (Nat.pos_iff_ne_zero.mp hne)
  simp only []
  rw [div_self this, one_mul]

/-- C14: for a node over a non-empty range and a split `(f, t)` under which all rows of
the group fall into one subgroup (all have `row[f] < t`, or all have `row[f] ≥ t`),
`calculate_gini_index(f, t)` equals the unweighted impurity `1 - p^2 - (1 - p)^2` of
the whole group, `p` being the group's mean target, and the empty subgroup contributes
exactly 0. -/
theorem calculate_gini_index_one_sided (ds : DecisionTreeDataset) (self : DecisionTreeNode)
    (f : Nat) (t : ℚ)
    (hne : self.group_begin < self.group_end)
    (hend : self.group_end ≤ ds.row_indices.length)
    (hsize : self.group_size = self.group_end - self.group_begin)
    (hside : (∀ i ∈ self.group ds, (ds.at i).get f < t) ∨
      (∀ i ∈ self.group ds, (ds.at i).get f ≥ t)) :
    self.calculate_gini_index ds f t = gini_unweighted_reference ds (self.group ds) ∧
    ((∀ i ∈ self.group ds, (ds.at i).get f < t) →
      gini_subgroup_reference ds (self.group ds).length
        ((self.group ds).filter (fun i => decide ((ds.at i).get f ≥ t))) = 0) ∧
    ((∀ i ∈ self.group ds, (ds.at i).get f ≥ t) →
      gini_subgroup_reference ds (self.group ds).length
        ((self.group ds).filter (fun i => decide ((ds.at i).get f < t))) = 0) := by
  have hsz : self.group_size = (self.group ds).length := by rw [group_length ds self hend, hsize]
  have hpos : 0 < self.group_size := by omega
  have hlen : 0 < (self.group ds).length := hsz ▸ hpos
  have hlow : (∀ i ∈ self.group ds, (ds.at i).get f < t) →
      (self.group ds).filter (fun i => decide ((ds.at i).get f < t)) = self.group ds ∧
      (self.group ds).filter (fun i => decide ((ds.at i).get f ≥ t)) = [] := by
    intro h
    constructor
    · exact List.filter_eq_self.mpr (fun i hi => by simpa using h i hi)
    · exact List.filter_eq_nil_iff.mpr (fun i hi => by simpa using h i hi)
  have hhigh : (∀ i ∈ self.group ds, (ds.at i).get f ≥ t) →
      (self.group ds).filter (fun i => decide ((ds.at i).get f < t)) = [] ∧
      (self.group ds).filter (fun i => decide ((ds.at i).get f ≥ t)) = self.group ds := by
    intro h
    constructor
    · exact List.filter_eq_nil_iff.mpr (fun i hi => by simpa using h i hi)
    · exact List.filter_eq_self.mpr (fun i hi => by simpa using h i hi)
  refine ⟨?_, fun h => by rw [(hlow h).2]; rfl, fun h => by rw [(hhigh h).1]; rfl⟩
  rw [calculate_gini_index_eq ds self f t hsz hpos]
  show gini_subgroup_reference ds _ _ + gini_subgroup_reference ds _ _ = _
  rcases hside with h | h
  · rw [(hlow h).1, (hlow h).2, gini_subgroup_reference_nil, add_zero,
      gini_subgroup_reference_self ds _ hlen]
  · rw [(hhigh h).1, (hhigh h).2, gini_subgroup_reference_nil, zero_add,
      gini_subgroup_reference_self ds _ hlen]

/-- C14 at the node `node_five` over `dataset_five`: every row has `row[0] ≥ 1`. -/
theorem calculate_gini_index_one_sided_witness :
    node_five.calculate_gini_index dataset_five 0 1
      = gini_unweighted_reference dataset_five (node_five.group dataset_five) ∧
    ((∀ i ∈ node_five.group dataset_five, (dataset_five.at i).get 0 < 1) →
      gini_subgroup_reference dataset_five (node_five.group dataset_five).length
        ((node_five.group dataset_five).filter
          (fun i => decide ((dataset_five.at i).get 0 ≥ 1))) = 0) ∧
    ((∀ i ∈ node_five.group dataset_five, (dataset_five.at i).get 0 ≥ 1) →
      gini_subgroup_reference dataset_five (node_five.group dataset_five).length
        ((node_five.group dataset_five).filter
          (fun i => decide ((dataset_five.at i).get 0 < 1))) = 0) :=
  calculate_gini_index_one_sided dataset_five node_five 0 1 (by decide) (by decide) (by decide)
    (Or.inr (by decide!))

/-! ## Range of the impurity -/

theorem sum_targets_eq_ones (ds : DecisionTreeDataset) (S : List Nat)
    (hbin : ∀ i ∈ S, ds.target i = 0 ∨ ds.target i = 1) :
    (S.map ds.target).sum = ((S.filter (fun i => decide (ds.target i = 1))).length : ℚ) ∧
    (S.length : ℚ) = ((S.filter (fun i => decide (ds.target i = 0))).length : ℚ) +
      ((S.filter (fun i => decide (ds.target i = 1))).length : ℚ) := by
  induction S with
  | nil => simp
  | cons i S ih =>
    obtain ⟨h1, h2⟩ := ih (fun j hj => hbin j (List.mem_cons_of_mem i hj))
    rcases hbin i (List.mem_cons_self i S) with h | h
    · rw [List.filter_cons_of_neg (by simp [h]), List.filter_cons_of_pos (by simp [h])]
      simp only [List.map_cons, List.sum_cons, List.length_cons, h, zero_add]
      push_cast
      exact ⟨h1, by linarith⟩
    · rw [List.filter_cons_of_pos (by simp [h]), List.filter_cons_of_neg (by simp [h])]
      simp only [List.map_cons, List.sum_cons, List.length_cons, h]
      push_cast
      exact ⟨by linarith, by linarith⟩

theorem pure_iff_all_zero_or_all_one (ds : DecisionTreeDataset) (S : List Nat)
    (hbin : ∀ i ∈ S, ds.target i = 0 ∨ ds.target i = 1) :
    (∀ i ∈ S, ∀ j ∈ S, ds.target i = ds.target j) ↔
      ((∀ i ∈ S, ds.target i = 0) ∨ (∀ i ∈ S, ds.target i = 1)) := by
  constructor
  · intro h
    cases S with
    | nil => left; intro i hi; exact absurd hi (List.not_mem_nil i)
    | cons a S =>
      rcases hbin a (List.mem_cons_self a S) with ha | ha
      · left; intro i hi; rw [h i hi a (List.mem_cons_self a S), ha]
      · right; intro i hi; rw [h i hi a (List.mem_cons_self a S), ha]
  · rintro (h | h) i hi j hj
    · rw [h i hi, h j hj]
    · rw [h i hi, h j hj]

/-- A subgroup of binary targets contributes at most half its weight, and exactly half
its weight when it has as many targets 0 as targets 1. -/
theorem gini_subgroup_reference_le (ds : DecisionTreeDataset) (n : Nat) (S : List Nat)
    (hn : 0 < n) (hbin : ∀ i ∈ S, ds.target i = 0 ∨ ds.target i = 1) :
    gini_subgroup_reference ds n S ≤ (S.length : ℚ) / (n : ℚ) * (1 / 2) ∧
    (gini_subgroup_reference ds n S = (S.length : ℚ) / (n : ℚ) * (1 / 2) ↔
      (S.filter (fun i => decide (ds.target i = 0))).length =
        (S.filter (fun i => decide (ds.target i = 1))).length) := by
  obtain ⟨hs, hl⟩ := sum_targets_eq_ones ds S hbin
  unfold gini_subgroup_reference
  by_cases h : S.length = 0
  · rw [if_pos h]
    have : S = [] := List.length_eq_zero.mp h
    subst this
    simp
  · rw [if_neg h]
    have hpos : (0 : ℚ) < (S.length : ℚ) := by exact_mod_cast Nat.pos_of_ne_zero h
    have hnpos : (0 : ℚ) < (n : ℚ) := by exact_mod_cast hn
    have hw : (0 : ℚ) < (S.length : ℚ) / (n : ℚ) := div_pos hpos hnpos
    simp only []
    rw [hs]
    generalize (S.filter (fun i => decide (ds.target i = 1))).length = ones at *
    generalize (S.filter (fun i => decide (ds.target i = 0))).length = zeros at *
    have key : (1 : ℚ) - ((ones : ℚ) / (S.length : ℚ)) ^ 2 - (1 - (ones : ℚ) / (S.length : ℚ)) ^ 2
        = 1 / 2 - 2 * ((ones : ℚ) / (S.length : ℚ) - 1 / 2) ^ 2 := by ring
    rw [key]
    constructor
    · apply mul_le_mul_of_nonneg_left _ (le_of_lt hw)
      nlinarith [sq_nonneg ((ones : ℚ) / (S.length : ℚ) - 1 / 2)]
    · rw [mul_right_inj' (ne_of_gt hw)]
      constructor
      · intro h1
        have h2 : ((ones : ℚ) / (S.length : ℚ) - 1 / 2) ^ 2 = 0 := by linarith
        have h3 : (ones : ℚ) / (S.length : ℚ) = 1 / 2 := by
          have := pow_eq_zero_iff (two_ne_zero) |>.mp h2
          linarith
        rw [div_eq_iff (ne_of_gt hpos)] at h3
        have h4 : (zeros : ℚ) = (ones : ℚ) := by linarith
        exact_mod_cast h4
      · intro h1
        have h4 : (zeros : ℚ) = (ones : ℚ) := by exact_mod_cast h1
        have h3 : (ones : ℚ) / (S.length : ℚ) = 1 / 2 := by
          rw [div_eq_iff (ne_of_gt hpos)]
          linarith
        rw [h3]
        norm_num

/-- C15: for a node over a non-empty range with targets 0 or 1 and every split `(f, t)`,
`calculate_gini_index` lies in `[0, 1/2]`; it is 0 exactly when each subgroup is pure
(all its targets equal, which an empty subgroup is), and it is `1/2` exactly when each
subgroup has as many targets 0 as targets 1 (which an empty subgroup has). -/
theorem calculate_gini_index_range (ds : DecisionTreeDataset) (self : DecisionTreeNode)
    (f : Nat) (t : ℚ)
    (hne : self.group_begin < self.group_end)
    (hend : self.group_end ≤ ds.row_indices.length)
    (hsize : self.group_size = self.group_end - self.group_begin)
    (hbin : ∀ i ∈ self.group ds, ds.target i = 0 ∨ ds.target i = 1) :
    0 ≤ self.calculate_gini_index ds f t ∧
    self.calculate_gini_index ds f t ≤ 1 / 2 ∧
    (self.calculate_gini_index ds f t = 0 ↔
      (∀ i ∈ (self.group ds).filter (fun i => decide ((ds.at i).get f < t)),
        ∀ j ∈ (self.group ds).filter (fun i => decide ((ds.at i).get f < t)),
          ds.target i = ds.target j) ∧
      (∀ i ∈ (self.group ds).filter (fun i => decide ((ds.at i).get f ≥ t)),
        ∀ j ∈ (self.group ds).filter (fun i => decide ((ds.at i).get f ≥ t)),
          ds.target i = ds.target j)) ∧
    (self.calculate_gini_index ds f t = 1 / 2 ↔
      (((self.group ds).filter (fun i => decide ((ds.at i).get f < t))).filter
          (fun i => decide (ds.target i = 0))).length =
        (((self.group ds).filter (fun i => decide ((ds.at i).get f < t))).filter
          (fun i => decide (ds.target i = 1))).length ∧
      (((self.group ds).filter (fun i => decide ((ds.at i).get f ≥ t))).filter
          (fun i => decide (ds.target i = 0))).length =
        (((self.group ds).filter (fun i => decide ((ds.at i).get f ≥ t))).filter
          (fun i => decide (ds.target i = 1))).length) := by
  have hsz : self.group_size = (self.group ds).length := by rw [group_length ds self hend, hsize]
  have hpos : 0 < self.group_size := by omega
  have hlen : 0 < (self.group ds).length := hsz ▸ hpos
  have hb1 : ∀ i ∈ (self.group ds).filter (fun i => decide ((ds.at i).get f < t)),
      ds.target i = 0 ∨ ds.target i = 1 := fun i hi => hbin i (List.mem_filter.mp hi).1
  have hb2 : ∀ i ∈ (self.group ds).filter (fun i => decide ((ds.at i).get f ≥ t)),
      ds.target i = 0 ∨ ds.target i = 1 := fun i hi => hbin i (List.mem_filter.mp hi).1
  rw [calculate_gini_index_eq ds self f t hsz hpos]
  refine ⟨gini_reference_nonneg ds _ f t hbin, ?_, ?_, ?_⟩
  · obtain ⟨l1, _⟩ := gini_subgroup_reference_le ds (self.group ds).length _ hlen hb1
    obtain ⟨l2, _⟩ := gini_subgroup_reference_le ds (self.group ds).length _ hlen hb2
    have hsum := filter_lt_ge_length ds f t (self.group ds)
    have hcast : (((self.group ds).filter (fun i => decide ((ds.at i).get f < t))).length : ℚ) +
        (((self.group ds).filter (fun i => decide ((ds.at i).get f ≥ t))).length : ℚ) =
        ((self.group ds).length : ℚ) := by exact_mod_cast hsum
    have hn : ((self.group ds).length : ℚ) ≠ 0 := by exact_mod_cast (Nat.pos_iff_ne_zero.mp hlen)
    show gini_subgroup_reference ds _ _ + gini_subgroup_reference ds _ _ ≤ 1 / 2
    have htot : (((self.group ds).filter (fun i => decide ((ds.at i).get f < t))).length : ℚ)
          / ((self.group ds).length : ℚ) * (1 / 2) +
        (((self.group ds).filter (fun i => decide ((ds.at i).get f ≥ t))).length : ℚ)
          / ((self.group ds).length : ℚ) * (1 / 2) = 1 / 2 := by
      rw [← add_mul, ← add_div, hcast, div_self hn, one_mul]
    linarith
  · rw [gini_reference_eq_zero ds _ f t hlen hbin,
      pure_iff_all_zero_or_all_one ds _ hb1, pure_iff_all_zero_or_all_one ds _ hb2]
  · obtain ⟨l1, e1⟩ := gini_subgroup_reference_le ds (self.group ds).length _ hlen hb1
    obtain ⟨l2, e2⟩ := gini_subgroup_reference_le ds (self.group ds).length _ hlen hb2
    have hsum := filter_lt_ge_length ds f t (self.group ds)
    have hcast : (((self.group ds).filter (fun i => decide ((ds.at i).get f < t))).length : ℚ) +
        (((self.group ds).filter (fun i => decide ((ds.at i).get f ≥ t))).length : ℚ) =
        ((self.group ds).length : ℚ) := by exact_mod_cast hsum
    have hn : ((self.group ds).length : ℚ) ≠ 0 := by exact_mod_cast (Nat.pos_iff_ne_zero.mp hlen)
    have htot : (((self.group ds).filter (fun i => decide ((ds.at i).get f < t))).length : ℚ)
          / ((self.group ds).length : ℚ) * (1 / 2) +
        (((self.group ds).filter (fun i => decide ((ds.at i).get f ≥ t))).length : ℚ)
          / ((self.group ds).length : ℚ) * (1 / 2) = 1 / 2 := by
      rw [← add_mul, ← add_div, hcast, div_self hn, one_mul]
    rw [← e1, ← e2]
    show gini_subgroup_reference ds _ _ + gini_subgroup_reference ds _ _ = 1 / 2 ↔ _
    constructor
    · intro h
      constructor <;> linarith
    · rintro ⟨h1, h2⟩
      rw [h1, h2, htot]

/-- C15 at the node `node_five` over `dataset_five`, feature 0 and threshold 3. -/
theorem calculate_gini_index_range_witness :
    0 ≤ node_five.calculate_gini_index dataset_five 0 3 ∧
    node_five.calculate_gini_index dataset_five 0 3 ≤ 1 / 2 ∧
    (node_five.calculate_gini_index dataset_five 0 3 = 0 ↔
      (∀ i ∈ (node_five.group dataset_five).filter (fun i => decide ((dataset_five.at i).get 0 < 3)),
        ∀ j ∈ (node_five.group dataset_five).filter (fun i => decide ((dataset_five.at i).get 0 < 3)),
          dataset_five.target i = dataset_five.target j) ∧
      (∀ i ∈ (node_five.group dataset_five).filter (fun i => decide ((dataset_five.at i).get 0 ≥ 3)),
        ∀ j ∈ (node_five.group dataset_five).filter (fun i => decide ((dataset_five.at i).get 0 ≥ 3)),
          dataset_five.target i = dataset_five.target j)) ∧
    (node_five.calculate_gini_index dataset_five 0 3 = 1 / 2 ↔
      (((node_five.group dataset_five).filter (fun i => decide ((dataset_five.at i).get 0 < 3))).filter
          (fun i => decide (dataset_five.target i = 0))).length =
        (((node_five.group dataset_five).filter (fun i => decide ((dataset_five.at i).get 0 < 3))).filter
          (fun i => decide (dataset_five.target i = 1))).length ∧
      (((node_five.group dataset_five).filter (fun i => decide ((dataset_five.at i).get 0 ≥ 3))).filter
          (fun i => decide (dataset_five.target i = 0))).length =
        (((node_five.group dataset_five).filter (fun i => decide ((dataset_five.at i).get 0 ≥ 3))).filter
          (fun i => decide (dataset_five.target i = 1))).length) :=
  calculate_gini_index_range dataset_five node_five 0 3 (by decide) (by decide) (by decide)
    (by decide!)

/-! ## `split_group`: order within the two sides -/

theorem slice_append (a : List Nat) (b p e : Nat) (hbp : b ≤ p) (hpe : p ≤ e) :
    (a.drop b).take (e - b) = (a.drop b).take (p - b) ++ (a.drop p).take (e - p) := by
  have h1 : a.drop p = (a.drop b).drop (p - b) := by
    rw [List.drop_drop]; congr 1; omega
  have h2 : e - b = (p - b) + (e - p) := by omega
  rw [h1, h2, List.take_add]

/-- The two sides of the range after `split_group`, as sets with multiplicity: the
indices before the split point are the indices of the group that go left, and the
indices from the split point on are the others. -/
theorem split_group_sides (ds : DecisionTreeDataset) (self : DecisionTreeNode)
    (hbe : self.group_begin ≤ self.group_end)
    (hend : self.group_end ≤ ds.row_indices.length) :
    (((self.split_group ds).1.row_indices.drop self.group_begin).take
        ((self.split_group ds).2 - self.group_begin)).Perm
      ((self.group ds).filter (self.goes_left ds)) ∧
    (((self.split_group ds).1.row_indices.drop (self.split_group ds).2).take
        (self.group_end - (self.split_group ds).2)).Perm
      ((self.group ds).filter (fun i => !self.goes_left ds i)) := by
  obtain ⟨p1, p2, p3, p4, p5, p6, p7⟩ :=
    partition_spec (self.goes_left ds) (self.group_end - self.group_begin) ds.row_indices
      self.group_begin self.group_end (Nat.le_refl _) hbe hend
  have hperm := slice_perm ds.row_indices _ self.group_begin self.group_end hbe p1 p2 p5
  have hsp1 : (self.split_group ds).1.row_indices =
      (partition (self.goes_left ds) ds.row_indices self.group_begin self.group_end).1 := rfl
  have hsp2 : (self.split_group ds).2 =
      (partition (self.goes_left ds) ds.row_indices self.group_begin self.group_end).2 := rfl
  rw [hsp1, hsp2]
  generalize partition (self.goes_left ds) ds.row_indices self.group_begin self.group_end = r at *
  have hG : self.group ds = (ds.row_indices.drop self.group_begin).take
      (self.group_end - self.group_begin) := rfl
  rw [hG]
  rw [slice_append r.1 self.group_begin r.2 self.group_end p3 p4] at hperm
  have hL : ∀ x ∈ (r.1.drop self.group_begin).take (r.2 - self.group_begin),
      self.goes_left ds x = true := by
    intro x hx
    obtain ⟨pos, h1, h2, h3⟩ := (mem_slice r.1 _ _ (by omega) x).mp hx
    rw [← h3]; exact p6 pos h1 h2
  have hR : ∀ x ∈ (r.1.drop r.2).take (self.group_end - r.2),
      self.goes_left ds x = false := by
    intro x hx
    obtain ⟨pos, h1, h2, h3⟩ := (mem_slice r.1 _ _ (by omega) x).mp hx
    rw [← h3]; exact p7 pos h1 h2
  constructor
  · have h := hperm.filter (self.goes_left ds)
    rw [List.filter_append, List.filter_eq_self.mpr hL,
      List.filter_eq_nil_iff.mpr (fun x hx => by rw [hR x hx]; decide), List.append_nil] at h
    exact h
  · have h := hperm.filter (fun i => !self.goes_left ds i)
    rw [List.filter_append, List.filter_eq_nil_iff.mpr (fun x hx => by rw [hL x hx]; decide),
      List.filter_eq_self.mpr (fun x hx => by rw [hR x hx]; rfl), List.nil_append] at h
    exact h

/-- C16, amended: `split_group` is a partition that need not be stable: on a range of the
index vector, the indices placed before the split point are, in some order, exactly the
indices of the range whose row has `row[split_var] < split_val`, and the indices placed
at or after the split point are, in some order, exactly the other indices of the
range. -/
theorem split_group_unordered_sides (ds : DecisionTreeDataset) (self : DecisionTreeNode)
    (hbe : self.group_begin ≤ self.group_end)
    (hend : self.group_end ≤ ds.row_indices.length) :
    (((self.split_group ds).1.row_indices.drop self.group_begin).take
        ((self.split_group ds).2 - self.group_begin)).Perm
      ((self.group ds).filter
        (fun i => decide ((ds.at i).get self.split_var.toNat < self.split_val))) ∧
    (((self.split_group ds).1.row_indices.drop (self.split_group ds).2).take
        (self.group_end - (self.split_group ds).2)).Perm
      ((self.group ds).filter
        (fun i => decide ((ds.at i).get self.split_var.toNat ≥ self.split_val))) := by
  obtain ⟨h1, h2⟩ := split_group_sides ds self hbe hend
  refine ⟨h1, ?_⟩
  have : (fun i => !self.goes_left ds i) =
      (fun i => decide ((ds.at i).get self.split_var.toNat ≥ self.split_val)) := by
    funext i
    unfold DecisionTreeNode.goes_left
    by_cases h : (ds.at i).get self.split_var.toNat < self.split_val
    · simp [h, not_le.mpr h]
    · simp [h, not_lt.mp h]
  rw [this] at h2
  exact h2

/-- C16, amended, at the node `node_five` over `dataset_five`. -/
theorem split_group_unordered_sides_witness :
    (((node_five.split_group dataset_five).1.row_indices.drop node_five.group_begin).take
        ((node_five.split_group dataset_five).2 - node_five.group_begin)).Perm
      ((node_five.group dataset_five).filter
        (fun i => decide ((dataset_five.at i).get node_five.split_var.toNat
          < node_five.split_val))) ∧
    (((node_five.split_group dataset_five).1.row_indices.drop
          (node_five.split_group dataset_five).2).take
        (node_five.group_end - (node_five.split_group dataset_five).2)).Perm
      ((node_five.group dataset_five).filter
        (fun i => decide ((dataset_five.at i).get node_five.split_var.toNat
          ≥ node_five.split_val))) :=
  split_group_unordered_sides dataset_five node_five (by decide) (by decide)

/-- C16 as stated fails at the node `node_five` over `dataset_five`: the range holds the
indices `1, 2, 3, 4`, of which `2` and `4` go left, in this order; after `split_group`
the range holds `4, 2, 3, 1`, so the indices before the split point are in the order
`4, 2` and the indices after it in the order `3, 1`. -/
theorem split_group_stable_counterexample :
    node_five.group dataset_five = [1, 2, 3, 4] ∧
    (node_five.group dataset_five).filter
      (fun i => decide ((dataset_five.at i).get node_five.split_var.toNat
        < node_five.split_val)) = [2, 4] ∧
    (node_five.group dataset_five).filter
      (fun i => decide ((dataset_five.at i).get node_five.split_var.toNat
        ≥ node_five.split_val)) = [1, 3] ∧
    ((node_five.split_group dataset_five).1.row_indices.drop node_five.group_begin).take
      ((node_five.split_group dataset_five).2 - node_five.group_begin) = [4, 2] ∧
    ((node_five.split_group dataset_five).1.row_indices.drop
        (node_five.split_group dataset_five).2).take
      (node_five.group_end - (node_five.split_group dataset_five).2) = [3, 1] ∧
    ((node_five.split_group dataset_five).1.row_indices.drop node_five.group_begin).take
        ((node_five.split_group dataset_five).2 - node_five.group_begin) ≠
      (node_five.group dataset_five).filter
        (fun i => decide ((dataset_five.at i).get node_five.split_var.toNat
          < node_five.split_val)) := by
  decide!

/-! ## Loops over the cells of a matrix -/

theorem matrix_set_data {α : Type} {n_rows n_cols : Nat} (m : Matrix α n_rows n_cols)
    (row : Fin n_rows) (col : Fin n_cols) (v : α) (i : Fin n_rows) (j : Fin n_cols) :
    (m.set row col v).data i j = if i = row ∧ j = col then v else m.data i j := by
  unfold Matrix.set
  by_cases hi : i = row
  · subst hi
    by_cases hj : j = col
    · subst hj; simp
    · simp [hj]
  · simp [hi]

/-- A loop whose step `x` rewrites exactly the cells owned by `x`, each from its own old
value: after the loop over a list without repetitions, a cell owned by a member of the
list is rewritten once and every other cell is untouched. -/
theorem foldl_owner {M ι κ β : Type} [DecidableEq ι] (get : M → κ → β) (step : M → ι → M)
    (own : κ → Option ι) (g : κ → β → β)
    (hstep : ∀ m x y, get (step m x) y = if own y = some x then g y (get m y) else get m y) :
    ∀ l : List ι, l.Nodup → ∀ m : M,
      (∀ y x, own y = some x → x ∈ l → get (l.foldl step m) y = g y (get m y)) ∧
      (∀ y, (∀ x ∈ l, own y ≠ some x) → get (l.foldl step m) y = get m y) := by
  intro l
  induction l with
  | nil =>
    intro _ m
    exact ⟨fun y x _ hx => absurd hx (List.not_mem_nil x), fun y _ => rfl⟩
  | cons a l ih =>
    intro hnd m
    obtain ⟨ha, hl⟩ := List.nodup_cons.mp hnd
    obtain ⟨ih1, ih2⟩ := ih hl (step m a)
    constructor
    · intro y x hy hx
      rw [List.foldl_cons]
      rcases List.mem_cons.mp hx with hxa | hxl
      · subst hxa
        rw [ih2 y (fun x' hx' h => by
          rw [hy] at h
          exact ha ((Option.some.inj h) ▸ hx')), hstep, if_pos hy]
      · have hne : own y ≠ some a := by
          intro h; rw [hy] at h
          exact ha ((Option.some.inj h) ▸ hxl)
        rw [ih1 y x hy hxl, hstep, if_neg hne]
    · intro y hy
      rw [List.foldl_cons, ih2 y (fun x hx => hy x (List.mem_cons_of_mem a hx)), hstep,
        if_neg (hy a (List.mem_cons_self a l))]

/-- Two nested loops over all rows and columns whose body rewrites the cell
`cell row col` from its own old value, `cell` being a bijection from the loop indices to
the cells: every cell is rewritten exactly once. -/
theorem nested_loops_cells {M β : Type} {r c a b : Nat} (get : M → Fin a × Fin b → β)
    (body : M → Fin r → Fin c → M) (cell : Fin r → Fin c → Fin a × Fin b)
    (rowOf : Fin a × Fin b → Fin r) (colOf : Fin a × Fin b → Fin c)
    (g : Fin r → Fin c → β → β)
    (hbody : ∀ m row col y, get (body m row col) y =
      if y = cell row col then g row col (get m y) else get m y)
    (hcell : ∀ y, cell (rowOf y) (colOf y) = y)
    (hinv : ∀ row col, rowOf (cell row col) = row ∧ colOf (cell row col) = col) (m : M)
    (y : Fin a × Fin b) :
    get ((List.finRange r).foldl (fun res row =>
      (List.finRange c).foldl (fun res col => body res row col) res) m) y
      = g (rowOf y) (colOf y) (get m y) := by
  -- the loop over the columns of one row
  have hcol : ∀ (row : Fin r) (m' : M) (y : Fin a × Fin b),
      get ((List.finRange c).foldl (fun res col => body res row col) m') y =
        if some (rowOf y) = some row then g (rowOf y) (colOf y) (get m' y) else get m' y := by
    intro row m' y
    obtain ⟨f1, f2⟩ := foldl_owner get (fun res col => body res row col)
      (fun y => if rowOf y = row then some (colOf y) else none)
      (fun y old => g (rowOf y) (colOf y) old)
      (by
        intro m'' x y'
        beta_reduce
        rw [hbody]
        by_cases hy : y' = cell row x
        · obtain ⟨e1, e2⟩ := hinv row x
          rw [if_pos hy, hy, e1, e2, if_pos rfl, if_pos rfl]
        · rw [if_neg hy]
          by_cases hr : rowOf y' = row
          · rw [if_pos hr, if_neg]
            intro h
            apply hy
            rw [← hcell y', hr, Option.some.inj h]
          · rw [if_neg hr, if_neg (by simp)])
      (List.finRange c) (List.nodup_finRange c) m'
    by_cases hr : rowOf y = row
    · rw [if_pos (by rw [hr])]
      exact f1 y (colOf y) (by rw [if_pos hr]) (List.mem_finRange _)
    · rw [if_neg (fun h => hr (Option.some.inj h))]
      exact f2 y (fun x _ => by rw [if_neg hr]; simp)
  obtain ⟨f1, _⟩ := foldl_owner get
    (fun res row => (List.finRange c).foldl (fun res col => body res row col) res)
    (fun y => some (rowOf y))
    (fun y old => g (rowOf y) (colOf y) old)
    (by
      intro m'' x y'
      beta_reduce
      rw [hcol])
    (List.finRange r) (List.nodup_finRange r) m
  exact f1 y (rowOf y) rfl (List.mem_finRange _)

/-! ## Matrix products and transpose -/

theorem accumulate_cell {α : Type} [CommRing α] {n_rows n_cols n : Nat} (f : Fin n → α)
    (row : Fin n_rows) (col : Fin n_cols) (l : List (Fin n)) :
    ∀ (res : Matrix α n_rows n_cols) (y : Fin n_rows × Fin n_cols),
    (l.foldl (fun res k => res.set row col (res.data row col + f k)) res).data y.1 y.2 =
      if y = (row, col) then res.data y.1 y.2 + (l.map f).sum else res.data y.1 y.2 := by
  induction l with
  | nil => intro res y; simp
  | cons k l ih =>
    intro res y
    rw [List.foldl_cons, ih]
    simp only [matrix_set_data]
    by_cases hy : y = (row, col)
    · subst hy
      simp only [and_self, if_true, List.map_cons, List.sum_cons]
      ring
    · have : ¬(y.1 = row ∧ y.2 = col) := fun h => hy (Prod.ext h.1 h.2)
      rw [if_neg hy, if_neg hy, if_neg this]

theorem matrix_zero_data {α : Type} [CommRing α] {n_rows n_cols : Nat}
    (i : Fin n_rows) (j : Fin n_cols) : (Matrix.zero : Matrix α n_rows n_cols).data i j = 0 :=
  rfl

/-- The elements of the product computed by `dot`. -/
theorem dot_data {α : Type} [CommRing α] {n_rows n_cols right_cols : Nat}
    (A : Matrix α n_rows n_cols) (B : Matrix α n_cols right_cols)
    (i : Fin n_rows) (j : Fin right_cols) :
    (A.dot B).data i j = ∑ k : Fin n_cols, A.data i k * B.data k j := by
  have := nested_loops_cells (fun (m : Matrix α n_rows right_cols) y => m.data y.1 y.2)
    (fun result row col => (List.finRange n_cols).foldl (fun result k =>
      result.set row col (result.data row col + A.data row k * B.data k col)) result)
    (fun row col => (row, col)) Prod.fst Prod.snd
    (fun row col old => old + ((List.finRange n_cols).map
      (fun k => A.data row k * B.data k col)).sum)
    (fun m row col y => accumulate_cell (fun k => A.data row k * B.data k col) row col _ m y)
    (fun _ => rfl) (fun _ _ => ⟨rfl, rfl⟩) Matrix.zero (i, j)
  rw [Fin.sum_univ_def]
  simpa [matrix_zero_data] using this

/-- The elements of the product computed by `t_dot`. -/
theorem t_dot_data {α : Type} [CommRing α] {n_rows n_cols right_cols : Nat}
    (A : Matrix α n_rows n_cols) (B : Matrix α n_rows right_cols)
    (i : Fin n_cols) (j : Fin right_cols) :
    (A.t_dot B).data i j = ∑ k : Fin n_rows, A.data k i * B.data k j := by
  have := nested_loops_cells (fun (m : Matrix α n_cols right_cols) y => m.data y.1 y.2)
    (fun result row col => (List.finRange n_rows).foldl (fun result k =>
      result.set row col (result.data row col + A.data k row * B.data k col)) result)
    (fun row col => (row, col)) Prod.fst Prod.snd
    (fun row col old => old + ((List.finRange n_rows).map
      (fun k => A.data k row * B.data k col)).sum)
    (fun m row col y => accumulate_cell (fun k => A.data k row * B.data k col) row col _ m y)
    (fun _ => rfl) (fun _ _ => ⟨rfl, rfl⟩) Matrix.zero (i, j)
  rw [Fin.sum_univ_def]
  simpa [matrix_zero_data] using this

/-- The elements of the product computed by `dot_t`. -/
theorem dot_t_data {α : Type} [CommRing α] {n_rows n_cols right_rows : Nat}
    (A : Matrix α n_rows n_cols) (B : Matrix α right_rows n_cols)
    (i : Fin n_rows) (j : Fin right_rows) :
    (A.dot_t B).data i j = ∑ k : Fin n_cols, A.data i k * B.data j k := by
  have := nested_loops_cells (fun (m : Matrix α n_rows right_rows) y => m.data y.1 y.2)
    (fun result row col => (List.finRange n_cols).foldl (fun result k =>
      result.set row col (result.data row col + A.data row k * B.data col k)) result)
    (fun row col => (row, col)) Prod.fst Prod.snd
    (fun row col old => old + ((List.finRange n_cols).map
      (fun k => A.data row k * B.data col k)).sum)
    (fun m row col y => accumulate_cell (fun k => A.data row k * B.data col k) row col _ m y)
    (fun _ => rfl) (fun _ _ => ⟨rfl, rfl⟩) Matrix.zero (i, j)
  rw [Fin.sum_univ_def]
  simpa [matrix_zero_data] using this

/-- The elements of the transpose computed by `t`. -/
theorem t_data {α : Type} [CommRing α] {n_rows n_cols : Nat}
    (A : Matrix α n_rows n_cols) (i : Fin n_cols) (j : Fin n_rows) :
    A.t.data i j = A.data j i := by
  have := nested_loops_cells (fun (m : Matrix α n_cols n_rows) y => m.data y.1 y.2)
    (fun result row col => result.set col row (A.data row col))
    (fun row col => (col, row)) Prod.snd Prod.fst
    (fun row col _ => A.data row col)
    (fun m row col y => by
      beta_reduce
      rw [matrix_set_data]
      by_cases hy : y = (col, row)
      · subst hy; simp
      · have : ¬(y.1 = col ∧ y.2 = row) := fun h => hy (Prod.ext h.1 h.2)
        rw [if_neg hy, if_neg this])
    (fun _ => rfl) (fun _ _ => ⟨rfl, rfl⟩) Matrix.zero (i, j)
  exact this

/-- The elements of the sum computed by `add`. -/
theorem add_data {α : Type} [CommRing α] {n_rows n_cols : Nat}
    (A B : Matrix α n_rows n_cols) (i : Fin n_rows) (j : Fin n_cols) :
    (A.add B).data i j = A.data i j + B.data i j := by
  have := nested_loops_cells (fun (m : Matrix α n_rows n_cols) y => m.data y.1 y.2)
    (fun m row col => m.set row col (m.data row col + B.data row col))
    (fun row col => (row, col)) Prod.fst Prod.snd
    (fun row col old => old + B.data row col)
    (fun m row col y => by
      beta_reduce
      rw [matrix_set_data]
      by_cases hy : y = (row, col)
      · subst hy; simp
      · have : ¬(y.1 = row ∧ y.2 = col) := fun h => hy (Prod.ext h.1 h.2)
        rw [if_neg hy, if_neg this])
    (fun _ => rfl) (fun _ _ => ⟨rfl, rfl⟩) A (i, j)
  exact this

theorem matrix_ext {α : Type} {n_rows n_cols : Nat} (A B : Matrix α n_rows n_cols)
    (h : ∀ i j, A.data i j = B.data i j) : A = B := by
  cases A; cases B
  congr
  funext i j
  exact h i j

/-- C17: for all matrices `A` (`r x n`) and `B` (`n x c`) over a commutative ring,
`A.dot(B).t()` equals `B.t().dot(A.t())` element for element, `dot` being the triple
loop that accumulates into a zero-initialised result. -/
theorem dot_t_transpose_law {α : Type} [CommRing α] {r n c : Nat}
    (A : Matrix α r n) (B : Matrix α n c) :
    (∀ (i : Fin c) (j : Fin r), (A.dot B).t.data i j = (B.t.dot A.t).data i j) ∧
    (A.dot B).t = B.t.dot A.t := by
  have h : ∀ (i : Fin c) (j : Fin r), (A.dot B).t.data i j = (B.t.dot A.t).data i j := by
    intro i j
    rw [t_data, dot_data, dot_data]
    refine Finset.sum_congr rfl (fun k _ => ?_)
    rw [t_data, t_data, mul_comm]
  exact ⟨h, matrix_ext _ _ h⟩

/-- C18: the transposed-product variants equal the plain product applied to a
materialised transpose: `A.t_dot(B) = A.t().dot(B)` and `A.dot_t(B) = A.dot(B.t())`,
element for element. -/
theorem transposed_products_refine_dot {α : Type} [CommRing α] {r n c : Nat}
    (A : Matrix α r n) (B : Matrix α r c) (C : Matrix α c n) :
    A.t_dot B = A.t.dot B ∧ A.dot_t C = A.dot C.t ∧
    (∀ (i : Fin n) (j : Fin c), (A.t_dot B).data i j = (A.t.dot B).data i j) ∧
    (∀ (i : Fin r) (j : Fin c), (A.dot_t C).data i j = (A.dot C.t).data i j) := by
  have h1 : ∀ (i : Fin n) (j : Fin c), (A.t_dot B).data i j = (A.t.dot B).data i j := by
    intro i j
    rw [t_dot_data, dot_data]
    refine Finset.sum_congr rfl (fun k _ => ?_)
    rw [t_data]
  have h2 : ∀ (i : Fin r) (j : Fin c), (A.dot_t C).data i j = (A.dot C.t).data i j := by
    intro i j
    rw [dot_t_data, dot_data]
    refine Finset.sum_congr rfl (fun k _ => ?_)
    rw [t_data]
  exact ⟨matrix_ext _ _ h1, matrix_ext _ _ h2, h1, h2⟩

/-! ## `SGDStep` -/

theorem foldl_invariant {M ι : Type} (P : M → Prop) (step : M → ι → M)
    (h : ∀ m x, P m → P (step m x)) (l : List ι) : ∀ m, P m → P (l.foldl step m) := by
  induction l with
  | nil => intro m hm; exact hm
  | cons a l ih => intro m hm; exact ih _ (h m a hm)

theorem SGDStep_grad {α : Type} [CommRing α] {n_rows n_cols : Nat}
    (M : GradMatrix α n_rows n_cols) (learning_rate : α) :
    (M.SGDStep learning_rate).grad = M.grad := by
  unfold GradMatrix.SGDStep
  apply foldl_invariant (fun m : GradMatrix α n_rows n_cols => m.grad = M.grad)
  · intro m row hm
    apply foldl_invariant (fun m : GradMatrix α n_rows n_cols => m.grad = M.grad)
    · intro m col hm
      exact hm
    · exact hm
  · rfl

theorem SGDStep_data {α : Type} [CommRing α] {n_rows n_cols : Nat}
    (M : GradMatrix α n_rows n_cols) (learning_rate : α) (i : Fin n_rows) (j : Fin n_cols) :
    (M.SGDStep learning_rate).data i j = M.data i j - learning_rate * M.grad.data i j := by
  -- the gradient read inside the loops is the one of `M`
  have hloop : M.SGDStep learning_rate =
      (List.finRange n_rows).foldl (fun m row =>
        (List.finRange n_cols).foldl (fun m col =>
          ({ m with
              toMatrix := m.toMatrix.set row col
                (m.data row col - learning_rate * m.grad.data row col) } :
            GradMatrix α n_rows n_cols)) m) M := rfl
  have := nested_loops_cells
    (fun (m : GradMatrix α n_rows n_cols) y => (m.data y.1 y.2, m.grad.data y.1 y.2))
    (fun m row col => ({ m with
      toMatrix := m.toMatrix.set row col
        (m.data row col - learning_rate * m.grad.data row col) } : GradMatrix α n_rows n_cols))
    (fun row col => (row, col)) Prod.fst Prod.snd
    (fun _ _ old => (old.1 - learning_rate * old.2, old.2))
    (fun m row col y => by
      beta_reduce
      simp only [matrix_set_data]
      by_cases hy : y = (row, col)
      · subst hy; simp
      · have : ¬(y.1 = row ∧ y.2 = col) := fun h => hy (Prod.ext h.1 h.2)
        rw [if_neg hy, if_neg this])
    (fun _ => rfl) (fun _ _ => ⟨rfl, rfl⟩) M (i, j)
  rw [hloop]
  exact congrArg Prod.fst this

/-- C19: for every gradient-bearing matrix `M` and rate `r`, after `M.SGDStep(r)` every
element `M[i][j]` equals its old value minus `r` times `M.grad[i][j]`, and the gradient
buffer `M.grad` is unchanged. -/
theorem SGDStep_spec {α : Type} [CommRing α] {n_rows n_cols : Nat}
    (M : GradMatrix α n_rows n_cols) (r : α) :
    (∀ (i : Fin n_rows) (j : Fin n_cols),
      (M.SGDStep r).data i j = M.data i j - r * M.grad.data i j) ∧
    (M.SGDStep r).grad = M.grad :=
  ⟨fun i j => SGDStep_data M r i j, SGDStep_grad M r⟩

/-- C19 on an instance: the step of rate `1/2` on the row `(1, 2)` with gradient `(3, 4)`
gives `(-1/2, 0)`. -/
theorem SGDStep_example :
    (matrix_g.SGDStep (1 / 2)).data 0 0 = -1 / 2 ∧ (matrix_g.SGDStep (1 / 2)).data 0 1 = 0 := by
  constructor
  · rw [SGDStep_data]; simp [matrix_g]; norm_num
  · rw [SGDStep_data]; simp [matrix_g]; norm_num

/-! ## `Linear::backward` -/

theorem linear_backward_eq {α : Type} [CommRing α] {n m : Nat} (L : Linear α n m)
    (x : GradMatrix α 1 n)
    (hrec : L.forward_record.input_matrix = some (MatrixRef.grad_matrix x)) :
    L.backward =
      { L with
        forward_record :=
          { L.forward_record with
            input_matrix := some (MatrixRef.grad_matrix
              { x with grad := L.forward_record.output_matrix.grad.dot_t L.weights.toMatrix }) }
        weights :=
          { L.weights with grad := x.toMatrix.t_dot L.forward_record.output_matrix.grad }
        biases := { L.biases with grad := L.forward_record.output_matrix.grad } } := by
  unfold Linear.backward
  rw [hrec]
  rfl

/-- C20: for a Linear layer with weights `W` (`n x m`) whose forward pass recorded a
gradient-bearing input `x` (`1 x n`) and whose output gradient is `g` (`1 x m`),
`backward` sets the input gradient to `g . W^T` (entry `i` is the sum over `j` of
`g_j * W[i][j]`), the weight gradient to `x^T . g` (entry `[i][j]` is `x_i * g_j`) and
the bias gradient to `g`, whatever those gradient buffers held before, and leaves the
input values, the weights, the biases and the output matrix unchanged. -/
theorem linear_backward_spec {α : Type} [CommRing α] {n m : Nat} (L : Linear α n m)
    (x : GradMatrix α 1 n)
    (hrec : L.forward_record.input_matrix = some (MatrixRef.grad_matrix x)) :
    (∃ x1 : GradMatrix α 1 n,
      L.backward.forward_record.input_matrix = some (MatrixRef.grad_matrix x1) ∧
      x1.toMatrix = x.toMatrix ∧
      ∀ i : Fin n, x1.grad.data 0 i =
        ∑ j : Fin m, L.forward_record.output_matrix.grad.data 0 j * L.weights.data i j) ∧
    (∀ (i : Fin n) (j : Fin m), L.backward.weights.grad.data i j =
      x.data 0 i * L.forward_record.output_matrix.grad.data 0 j) ∧
    L.backward.biases.grad = L.forward_record.output_matrix.grad ∧
    L.backward.weights.toMatrix = L.weights.toMatrix ∧
    L.backward.biases.toMatrix = L.biases.toMatrix ∧
    L.backward.forward_record.output_matrix = L.forward_record.output_matrix := by
  rw [linear_backward_eq L x hrec]
  refine ⟨⟨_, rfl, rfl, fun i => ?_⟩, fun i j => ?_, rfl, rfl, rfl, rfl⟩
  · exact dot_t_data _ _ 0 i
  · show (x.toMatrix.t_dot L.forward_record.output_matrix.grad).data i j = _
    rw [t_dot_data]
    simp

/-- C20 at the layer `linear_example`, whose forward pass recorded `matrix_g`. -/
theorem linear_backward_spec_witness :
    (∃ x1 : GradMatrix ℚ 1 2,
      linear_example.backward.forward_record.input_matrix = some (MatrixRef.grad_matrix x1) ∧
      x1.toMatrix = matrix_g.toMatrix ∧
      ∀ i : Fin 2, x1.grad.data 0 i =
        ∑ j : Fin 1, linear_example.forward_record.output_matrix.grad.data 0 j * linear_example.weights.data i j) ∧
    (∀ (i : Fin 2) (j : Fin 1), linear_example.backward.weights.grad.data i j =
      matrix_g.data 0 i * linear_example.forward_record.output_matrix.grad.data 0 j) ∧
    linear_example.backward.biases.grad = linear_example.forward_record.output_matrix.grad ∧
    linear_example.backward.weights.toMatrix = linear_example.weights.toMatrix ∧
    linear_example.backward.biases.toMatrix = linear_example.biases.toMatrix ∧
    linear_example.backward.forward_record.output_matrix = linear_example.forward_record.output_matrix :=
  linear_backward_spec linear_example matrix_g rfl

/-! ## Leaves over a group of one class -/

theorem at_target_of_data_table (ds ds' : DecisionTreeDataset)
    (h1 : ds'.data_table = ds.data_table) (h2 : ds'.x_vars = ds.x_vars) (i : Nat) :
    ds'.at i = ds.at i ∧ ds'.target i = ds.target i := by
  unfold DecisionTreeDataset.target DecisionTreeDataset.at
  rw [h1, h2]
  exact ⟨rfl, rfl⟩

/-- On a non-empty group all of whose targets are the class `c`, `become_leaf` sets the
class prediction to `c`. -/
theorem become_leaf_pure (ds : DecisionTreeDataset) (self : DecisionTreeNode) (c : Int)
    (hc : c = 0 ∨ c = 1) (hsz : self.group_size = (self.group ds).length)
    (hne : 0 < (self.group ds).length)
    (hpure : ∀ i ∈ self.group ds, ds.target i = (c : ℚ)) :
    (self.become_leaf ds).class_prediction = c := by
  have hbin : ∀ i ∈ self.group ds, ds.target i = 0 ∨ ds.target i = 1 := by
    intro i hi
    rcases hc with h | h
    · left; rw [hpure i hi, h]; norm_num
    · right; rw [hpure i hi, h]; norm_num
  have hsum := become_leaf_sum ds (self.group ds) hbin 0
  have hcp : (self.become_leaf ds).class_prediction =
      if (((self.group ds).filter (fun i => decide (ds.target i = 1))).length : Int)
        > ((self.group_size / 2 : Nat) : Int) then 1 else 0 := by
    unfold DecisionTreeNode.become_leaf
    simp only []
    rw [hsum, zero_add]
  rw [hcp]
  rcases hc with h | h
  · have : (self.group ds).filter (fun i => decide (ds.target i = 1)) = [] := by
      apply List.filter_eq_nil_iff.mpr
      intro i hi
      rw [hpure i hi, h]
      norm_num
    rw [this, h, if_neg]
    simp only [List.length_nil]
    omega
  · have : (self.group ds).filter (fun i => decide (ds.target i = 1)) = self.group ds := by
      apply List.filter_eq_self.mpr
      intro i hi
      rw [hpure i hi, h]
      norm_num
    rw [this, h, ← hsz, if_pos]
    have : self.group_size / 2 < self.group_size := Nat.div_lt_self (by omega) (by norm_num)
    exact_mod_cast this

theorem predict_leaf (n : DecisionTreeNode) (left right : Tree) (sample : Row)
    (h : 0 ≤ n.class_prediction) :
    (Tree.node n left right).predict sample = some n.class_prediction := by
  simp only [Tree.predict]
  rw [if_pos h]

theorem predict_internal (n : DecisionTreeNode) (left right : Tree) (sample : Row)
    (h : n.class_prediction = -1) :
    (Tree.node n left right).predict sample =
      if sample.get n.split_var.toNat < n.split_val then left.predict sample
      else right.predict sample := by
  simp only [Tree.predict]
  rw [if_neg (by rw [h]; decide)]

/-- The groups of the two children at the moment each is trained: the left child's group
holds indices of the parent's group that go left, the right child's group holds indices
of the parent's group that do not, and every index of the parent's group is in one of
the two. -/
theorem children_at_call (ds : DecisionTreeDataset) (self : DecisionTreeNode) (d x : Nat)
    (hbe : self.group_begin ≤ self.group_end)
    (hend : self.group_end ≤ ds.row_indices.length) :
    (∀ i ∈ (DecisionTreeNode.new d self.group_begin (self.split_group ds).2 x).group
        (self.split_group ds).1,
      i ∈ self.group ds ∧ self.goes_left ds i = true) ∧
    (∀ i ∈ (DecisionTreeNode.new d (self.split_group ds).2 self.group_end x).group
        (DecisionTreeNode.train (self.split_group ds).1
          (DecisionTreeNode.new d self.group_begin (self.split_group ds).2 x)
          Tree.nullptr Tree.nullptr).1,
      i ∈ self.group ds ∧ self.goes_left ds i = false) ∧
    (∀ i ∈ self.group ds,
      i ∈ (DecisionTreeNode.new d self.group_begin (self.split_group ds).2 x).group
        (self.split_group ds).1 ∨
      i ∈ (DecisionTreeNode.new d (self.split_group ds).2 self.group_end x).group
        (DecisionTreeNode.train (self.split_group ds).1
          (DecisionTreeNode.new d self.group_begin (self.split_group ds).2 x)
          Tree.nullptr Tree.nullptr).1) ∧
    self.group_end ≤ (DecisionTreeNode.train (self.split_group ds).1
          (DecisionTreeNode.new d self.group_begin (self.split_group ds).2 x)
          Tree.nullptr Tree.nullptr).1.row_indices.length ∧
    (DecisionTreeNode.train (self.split_group ds).1
          (DecisionTreeNode.new d self.group_begin (self.split_group ds).2 x)
          Tree.nullptr Tree.nullptr).1.data_table = ds.data_table ∧
    (DecisionTreeNode.train (self.split_group ds).1
          (DecisionTreeNode.new d self.group_begin (self.split_group ds).2 x)
          Tree.nullptr Tree.nullptr).1.x_vars = ds.x_vars := by
  obtain ⟨p1, p2, p3, p4, p5, p6, p7⟩ :=
    partition_spec (self.goes_left ds) (self.group_end - self.group_begin) ds.row_indices
      self.group_begin self.group_end (Nat.le_refl _) hbe hend
  have hperm := slice_perm ds.row_indices _ self.group_begin self.group_end hbe p1 p2 p5
  have hsp1 : (self.split_group ds).1.row_indices =
      (partition (self.goes_left ds) ds.row_indices self.group_begin self.group_end).1 := rfl
  have hsp2 : (self.split_group ds).2 =
      (partition (self.goes_left ds) ds.row_indices self.group_begin self.group_end).2 := rfl
  have hdt : (self.split_group ds).1.data_table = ds.data_table := rfl
  have hxv : (self.split_group ds).1.x_vars = ds.x_vars := rfl
  rw [← hsp1] at p1 p2 p5 p6 p7 hperm
  rw [← hsp2] at p3 p4 p6 p7
  generalize self.split_group ds = sp at *
  have hmemG : ∀ pos, self.group_begin ≤ pos → pos < self.group_end →
      sp.1.row_indices.getD pos 0 ∈ self.group ds := by
    intro pos h1 h2
    apply hperm.mem_iff.mp
    exact (mem_slice sp.1.row_indices _ _ (by omega) _).mpr ⟨pos, h1, h2, rfl⟩
  obtain ⟨l1, l2, l3, l4⟩ := train_frame (6 - d) sp.1
    (DecisionTreeNode.new d self.group_begin sp.2 x) Tree.nullptr Tree.nullptr
    (Nat.le_refl _) p3 (by show sp.2 ≤ _; omega)
  have l4 : ∀ i, i < self.group_begin ∨ sp.2 ≤ i →
      (DecisionTreeNode.train sp.1 (DecisionTreeNode.new d self.group_begin sp.2 x)
        Tree.nullptr Tree.nullptr).1.row_indices.getD i 0 = sp.1.row_indices.getD i 0 := l4
  generalize DecisionTreeNode.train sp.1 (DecisionTreeNode.new d self.group_begin sp.2 x)
    Tree.nullptr Tree.nullptr = l at *
  have hlenl : l.1.row_indices.length = ds.row_indices.length := by rw [l3.length_eq, p2]
  refine ⟨?_, ?_, ?_, by omega, l1.trans hdt, l2.trans hxv⟩
  · intro i hi
    have hi : i ∈ (sp.1.row_indices.drop self.group_begin).take (sp.2 - self.group_begin) := hi
    obtain ⟨pos, h1, h2, h3⟩ := (mem_slice sp.1.row_indices _ _ (by omega) i).mp hi
    rw [← h3]
    exact ⟨hmemG pos h1 (by omega), p6 pos h1 h2⟩
  · intro i hi
    have hi : i ∈ (l.1.row_indices.drop sp.2).take (self.group_end - sp.2) := hi
    obtain ⟨pos, h1, h2, h3⟩ := (mem_slice l.1.row_indices _ _ (by omega) i).mp hi
    rw [l4 pos (Or.inr h1)] at h3
    rw [← h3]
    exact ⟨hmemG pos (by omega) h2, p7 pos h1 h2⟩
  · intro i hi
    have his := hperm.mem_iff.mpr hi
    obtain ⟨pos, h1, h2, h3⟩ := (mem_slice sp.1.row_indices _ _ (by omega) i).mp his
    by_cases hp : pos < sp.2
    · left
      show i ∈ (sp.1.row_indices.drop self.group_begin).take (sp.2 - self.group_begin)
      exact (mem_slice sp.1.row_indices _ _ (by omega) i).mpr ⟨pos, h1, hp, h3⟩
    · right
      show i ∈ (l.1.row_indices.drop sp.2).take (self.group_end - sp.2)
      refine (mem_slice l.1.row_indices _ _ (by omega) i).mpr ⟨pos, by omega, h2, ?_⟩
      rw [l4 pos (Or.inr (by omega)), h3]

/-! ## Trees trained on a group of one class -/

/-- Routing through an internal node: if each child's tree returns `cls i` on the row of
every index `i` of the group it was trained on, the parent's tree returns `cls i` on the
row of every index `i` of the parent's group. -/
theorem train_route (ds : DecisionTreeDataset) (self : DecisionTreeNode) (cls : Nat → Int)
    (hc : self.depth < 6 ∧ self.group_size > 10)
    (hd : ¬(((self.get_best_split ds).split_group ds).2 = self.group_begin ∨
      ((self.get_best_split ds).split_group ds).2 = self.group_end))
    (hunset : self.class_prediction = -1)
    (hbe : self.group_begin ≤ self.group_end)
    (hend : self.group_end ≤ ds.row_indices.length)
    (hL : ∀ i ∈ (DecisionTreeNode.new (self.depth + 1) self.group_begin
          ((self.get_best_split ds).split_group ds).2 self.x_vars_to_use).group
          ((self.get_best_split ds).split_group ds).1,
      (DecisionTreeNode.train ((self.get_best_split ds).split_group ds).1
        (DecisionTreeNode.new (self.depth + 1) self.group_begin
          ((self.get_best_split ds).split_group ds).2 self.x_vars_to_use)
        Tree.nullptr Tree.nullptr).2.predict (ds.at i) = some (cls i))
    (hR : ∀ i ∈ (DecisionTreeNode.new (self.depth + 1)
          ((self.get_best_split ds).split_group ds).2 self.group_end self.x_vars_to_use).group
          (DecisionTreeNode.train ((self.get_best_split ds).split_group ds).1
            (DecisionTreeNode.new (self.depth + 1) self.group_begin
              ((self.get_best_split ds).split_group ds).2 self.x_vars_to_use)
            Tree.nullptr Tree.nullptr).1,
      (DecisionTreeNode.train
        (DecisionTreeNode.train ((self.get_best_split ds).split_group ds).1
          (DecisionTreeNode.new (self.depth + 1) self.group_begin
            ((self.get_best_split ds).split_group ds).2 self.x_vars_to_use)
          Tree.nullptr Tree.nullptr).1
        (DecisionTreeNode.new (self.depth + 1) ((self.get_best_split ds).split_group ds).2
          self.group_end self.x_vars_to_use) Tree.nullptr Tree.nullptr).2.predict (ds.at i)
        = some (cls i)) :
    ∀ i ∈ self.group ds,
      (self.train ds Tree.nullptr Tree.nullptr).2.predict (ds.at i) = some (cls i) := by
  intro i hi
  rw [train_of_split ds self _ _ hc hd]
  have hcp : (self.get_best_split ds).class_prediction = -1 := hunset
  rw [predict_internal _ _ _ _ hcp]
  obtain ⟨ca, cb, cc, _⟩ := children_at_call ds (self.get_best_split ds) (self.depth + 1)
    self.x_vars_to_use hbe hend
  have hgl : ∀ j, (self.get_best_split ds).goes_left ds j =
      decide ((ds.at j).get (self.get_best_split ds).split_var.toNat
        < (self.get_best_split ds).split_val) := fun _ => rfl
  rcases cc i hi with h | h
  · have := (ca i h).2
    rw [hgl] at this
    rw [if_pos (by simpa using this)]
    exact hL i h
  · have := (cb i h).2
    rw [hgl] at this
    rw [if_neg (by simpa using this)]
    exact hR i h

/-- A node trained on a group all of whose targets are the class `c` yields a tree that
returns `c` on the row of every index of the group. -/
theorem train_pure_correct (k : Nat) : ∀ (ds : DecisionTreeDataset) (self : DecisionTreeNode)
    (c : Int), 6 - self.depth ≤ k → self.class_prediction = -1 →
    self.group_begin ≤ self.group_end → self.group_end ≤ ds.row_indices.length →
    self.group_size = self.group_end - self.group_begin → (c = 0 ∨ c = 1) →
    (∀ i ∈ self.group ds, ds.target i = (c : ℚ)) →
    ∀ i ∈ self.group ds,
      (self.train ds Tree.nullptr Tree.nullptr).2.predict (ds.at i) = some c := by
  induction k with
  | zero =>
    intro ds self c hk _ _ hend hsize hc hpure i hi
    rw [train_of_stop ds self _ _ (by omega)]
    have hsz : self.group_size = (self.group ds).length := by
      rw [group_length ds self hend, hsize]
    have hcp := become_leaf_pure ds self c hc hsz (List.length_pos_of_mem hi) hpure
    rw [predict_leaf _ _ _ _ (by rw [hcp]; rcases hc with h | h <;> simp [h]), hcp]
  | succ k ih =>
    intro ds self c hk hunset hbe hend hsize hc hpure i hi
    have hsz : self.group_size = (self.group ds).length := by
      rw [group_length ds self hend, hsize]
    by_cases hg : self.depth < 6 ∧ self.group_size > 10
    · obtain ⟨s1, s2, s3, s4, s5⟩ := split_group_frame ds (self.get_best_split ds) hbe hend
      have s3 : self.group_begin ≤ ((self.get_best_split ds).split_group ds).2 := s3
      have s4 : ((self.get_best_split ds).split_group ds).2 ≤ self.group_end := s4
      by_cases hd : ((self.get_best_split ds).split_group ds).2 = self.group_begin ∨
          ((self.get_best_split ds).split_group ds).2 = self.group_end
      · rw [train_of_degenerate ds self _ _ hg hd]
        have hperm : ((self.get_best_split ds).group
            ((self.get_best_split ds).split_group ds).1).Perm (self.group ds) :=
          slice_perm ds.row_indices _ self.group_begin self.group_end hbe s1 s2 s5
        have hcp := become_leaf_pure ((self.get_best_split ds).split_group ds).1
          (self.get_best_split ds) c hc
          (by rw [hperm.length_eq]; exact hsz)
          (by rw [hperm.length_eq]; exact List.length_pos_of_mem hi)
          (fun j hj => hpure j (hperm.mem_iff.mp hj))
        rw [predict_leaf _ _ _ _ (by rw [hcp]; rcases hc with h | h <;> simp [h]), hcp]
      · obtain ⟨ca, cb, _, cl, cdt, cxv⟩ := children_at_call ds (self.get_best_split ds)
          (self.depth + 1) self.x_vars_to_use hbe hend
        refine train_route ds self (fun _ => c) hg hd hunset hbe hend ?_ ?_ i hi
        · intro j hj
          have := ih ((self.get_best_split ds).split_group ds).1
            (DecisionTreeNode.new (self.depth + 1) self.group_begin
              ((self.get_best_split ds).split_group ds).2 self.x_vars_to_use) c
            (by simp only [DecisionTreeNode.new]; omega) rfl s3
            (by show ((self.get_best_split ds).split_group ds).2 ≤ _; omega) rfl hc
            (fun j' hj' => hpure j' (ca j' hj').1) j hj
          exact this
        · intro j hj
          have := ih _
            (DecisionTreeNode.new (self.depth + 1)
              ((self.get_best_split ds).split_group ds).2 self.group_end self.x_vars_to_use) c
            (by simp only [DecisionTreeNode.new]; omega) rfl s4 cl rfl hc
            (fun j' hj' => by
              rw [(at_target_of_data_table ds _ cdt cxv j').2]
              exact hpure j' (cb j' hj').1) j hj
          rw [(at_target_of_data_table ds _ cdt cxv j).1] at this
          exact this
    · rw [train_of_stop ds self _ _ hg]
      have hcp := become_leaf_pure ds self c hc hsz (List.length_pos_of_mem hi) hpure
      rw [predict_leaf _ _ _ _ (by rw [hcp]; rcases hc with h | h <;> simp [h]), hcp]

/-! ## Trees trained on a group split perfectly -/

theorem class_of_zero_or_one (ds : DecisionTreeDataset) (S : List Nat)
    (h : (∀ i ∈ S, ds.target i = 0) ∨ (∀ i ∈ S, ds.target i = 1)) :
    ∃ c : Int, (c = 0 ∨ c = 1) ∧ ∀ i ∈ S, ds.target i = (c : ℚ) := by
  rcases h with h | h
  · exact ⟨0, Or.inl rfl, fun i hi => by rw [h i hi]; norm_num⟩
  · exact ⟨1, Or.inr rfl, fun i hi => by rw [h i hi]; norm_num⟩

/-- A node that passes the size test and whose stored split has impurity 0 yields a tree
that returns, on the row of every index of the group, the target of that row. -/
theorem train_perfect_correct (ds : DecisionTreeDataset) (self : DecisionTreeNode)
    (hc : self.depth < 6 ∧ self.group_size > 10)
    (hunset : self.class_prediction = -1)
    (hend : self.group_end ≤ ds.row_indices.length)
    (hsize : self.group_size = self.group_end - self.group_begin)
    (hbin : ∀ i ∈ self.group ds, ds.target i = 0 ∨ ds.target i = 1)
    (hg0 : self.calculate_gini_index ds (self.get_best_split ds).split_var.toNat
      (self.get_best_split ds).split_val = 0) :
    ∀ i ∈ self.group ds, ∃ c : Int, (c : ℚ) = ds.target i ∧
      (self.train ds Tree.nullptr Tree.nullptr).2.predict (ds.at i) = some c := by
  have hbe : self.group_begin ≤ self.group_end := by omega
  have hsz : self.group_size = (self.group ds).length := by rw [group_length ds self hend, hsize]
  have hpos : 0 < self.group_size := by omega
  rw [calculate_gini_index_eq ds self _ _ hsz hpos,
    gini_reference_eq_zero ds _ _ _ (hsz ▸ hpos) hbin] at hg0
  obtain ⟨hpl, hph⟩ := hg0
  obtain ⟨cl, hcl, hlow⟩ := class_of_zero_or_one ds _ hpl
  obtain ⟨ch, hch, hhigh⟩ := class_of_zero_or_one ds _ hph
  have hgl : ∀ i, (self.get_best_split ds).goes_left ds i =
      decide ((ds.at i).get (self.get_best_split ds).split_var.toNat
        < (self.get_best_split ds).split_val) := fun _ => rfl
  have hleft : ∀ i ∈ self.group ds, (self.get_best_split ds).goes_left ds i = true →
      ds.target i = (cl : ℚ) := by
    intro i hi h
    rw [hgl] at h
    exact hlow i (List.mem_filter.mpr ⟨hi, h⟩)
  have hright : ∀ i ∈ self.group ds, (self.get_best_split ds).goes_left ds i = false →
      ds.target i = (ch : ℚ) := by
    intro i hi h
    rw [hgl] at h
    exact hhigh i (List.mem_filter.mpr ⟨hi, by simpa using h⟩)
  obtain ⟨s1, s2, s3, s4, s5⟩ := split_group_frame ds (self.get_best_split ds) hbe hend
  have s3 : self.group_begin ≤ ((self.get_best_split ds).split_group ds).2 := s3
  have s4 : ((self.get_best_split ds).split_group ds).2 ≤ self.group_end := s4
  obtain ⟨d1, d2⟩ := split_point_degenerate ds (self.get_best_split ds) hbe hend
  have d1 : ((self.get_best_split ds).split_group ds).2 = self.group_begin ↔
      ∀ i ∈ self.group ds, (self.get_best_split ds).goes_left ds i = false := d1
  have d2 : ((self.get_best_split ds).split_group ds).2 = self.group_end ↔
      ∀ i ∈ self.group ds, (self.get_best_split ds).goes_left ds i = true := d2
  have hperm : ((self.get_best_split ds).group
      ((self.get_best_split ds).split_group ds).1).Perm (self.group ds) :=
    slice_perm ds.row_indices _ self.group_begin self.group_end hbe s1 s2 s5
  intro i hi
  by_cases hd : ((self.get_best_split ds).split_group ds).2 = self.group_begin ∨
      ((self.get_best_split ds).split_group ds).2 = self.group_end
  · -- the whole group is on one side, hence of one class
    have hone : ∃ c : Int, (c = 0 ∨ c = 1) ∧ ∀ j ∈ self.group ds, ds.target j = (c : ℚ) := by
      rcases hd with h | h
      · exact ⟨ch, hch, fun j hj => hright j hj (d1.mp h j hj)⟩
      · exact ⟨cl, hcl, fun j hj => hleft j hj (d2.mp h j hj)⟩
    obtain ⟨c, hc01, hpure⟩ := hone
    rw [train_of_degenerate ds self _ _ hc hd]
    have hcp := become_leaf_pure ((self.get_best_split ds).split_group ds).1
      (self.get_best_split ds) c hc01
      (by rw [hperm.length_eq]; exact hsz)
      (by rw [hperm.length_eq]; exact List.length_pos_of_mem hi)
      (fun j hj => hpure j (hperm.mem_iff.mp hj))
    refine ⟨c, (hpure i hi).symm, ?_⟩
    rw [predict_leaf _ _ _ _ (by rw [hcp]; rcases hc01 with h | h <;> simp [h]), hcp]
  · obtain ⟨ca, cb, _, cl', cdt, cxv⟩ := children_at_call ds (self.get_best_split ds)
      (self.depth + 1) self.x_vars_to_use hbe hend
    have hroute := train_route ds self
      (fun j => if (self.get_best_split ds).goes_left ds j = true then cl else ch)
      hc hd hunset hbe hend
      (by
        intro j hj
        have := train_pure_correct (6 - (self.depth + 1))
          ((self.get_best_split ds).split_group ds).1
          (DecisionTreeNode.new (self.depth + 1) self.group_begin
            ((self.get_best_split ds).split_group ds).2 self.x_vars_to_use) cl
          (Nat.le_refl _) rfl s3
          (by show ((self.get_best_split ds).split_group ds).2 ≤ _; omega) rfl hcl
          (fun j' hj' => hleft j' (ca j' hj').1 (ca j' hj').2) j hj
        show _ = some (if (self.get_best_split ds).goes_left ds j = true then cl else ch)
        rw [if_pos (ca j hj).2]
        exact this)
      (by
        intro j hj
        have := train_pure_correct (6 - (self.depth + 1)) _
          (DecisionTreeNode.new (self.depth + 1)
            ((self.get_best_split ds).split_group ds).2 self.group_end self.x_vars_to_use) ch
          (Nat.le_refl _) rfl s4 cl' rfl hch
          (fun j' hj' => by
            rw [(at_target_of_data_table ds _ cdt cxv j').2]
            exact hright j' (cb j' hj').1 (cb j' hj').2) j hj
        rw [(at_target_of_data_table ds _ cdt cxv j).1] at this
        show _ = some (if (self.get_best_split ds).goes_left ds j = true then cl else ch)
        rw [if_neg (by rw [(cb j hj).2]; decide)]
        exact this)
      i hi
    refine ⟨_, ?_, hroute⟩
    show ((if (self.get_best_split ds).goes_left ds i = true then cl else ch : Int) : ℚ)
      = ds.target i
    by_cases hgi : (self.get_best_split ds).goes_left ds i = true
    · rw [if_pos hgi]; exact (hleft i hi hgi).symm
    · have hgi' : (self.get_best_split ds).goes_left ds i = false := by simpa using hgi
      rw [if_neg hgi]; exact (hright i hi hgi').symm

/-- A node at depth below 6 over more than 10 rows whose target is 1 exactly when
feature 0 is non-negative, searching at least feature 0, yields a tree that returns on
the row of every index of the group the target of that row. -/
theorem train_rule_correct (ds : DecisionTreeDataset) (self : DecisionTreeNode)
    (hc : self.depth < 6 ∧ self.group_size > 10)
    (hunset : self.class_prediction = -1)
    (hend : self.group_end ≤ ds.row_indices.length)
    (hsize : self.group_size = self.group_end - self.group_begin)
    (hx : 0 < self.x_vars_to_use)
    (hrule : ∀ i ∈ self.group ds, ds.target i = if (ds.at i).get 0 ≥ 0 then 1 else 0) :
    ∀ i ∈ self.group ds, ∃ c : Int, (c : ℚ) = ds.target i ∧
      (self.train ds Tree.nullptr Tree.nullptr).2.predict (ds.at i) = some c := by
  have hsz : self.group_size = (self.group ds).length := by rw [group_length ds self hend, hsize]
  have hpos : 0 < self.group_size := by omega
  have hbin : ∀ i ∈ self.group ds, ds.target i = 0 ∨ ds.target i = 1 := by
    intro i hi
    rw [hrule i hi]
    split
    · right; rfl
    · left; rfl
  have hlow : ∀ i ∈ self.group ds, (ds.at i).get 0 < 0 → ds.target i = 0 := by
    intro i hi h
    rw [hrule i hi, if_neg (not_le.mpr h)]
  have hhigh : ∀ i ∈ self.group ds, (ds.at i).get 0 ≥ 0 → ds.target i = 1 := by
    intro i hi h
    rw [hrule i hi, if_pos h]
  by_cases hl : ∃ i ∈ self.group ds, (ds.at i).get 0 < 0
  · by_cases hh : ∃ i ∈ self.group ds, (ds.at i).get 0 ≥ 0
    · have hnn : ∀ c ∈ self.candidates ds, 0 ≤ self.calculate_gini_index ds c.1 c.2 :=
        fun c _ => calculate_gini_index_nonneg ds self _ _ hsz hpos hbin
      have hz := separable_candidate ds self hsz hbin 0 0 0 1 hx hlow hhigh hl hh
      exact train_perfect_correct ds self hc hunset hend hsize hbin
        (get_best_split_perfect ds self hnn hz)
    · intro i hi
      have hall : ∀ j ∈ self.group ds, ds.target j = ((0 : Int) : ℚ) := by
        intro j hj
        rw [hlow j hj (not_le.mp (fun h => hh ⟨j, hj, h⟩))]
        norm_num
      exact ⟨0, (hall i hi).symm, train_pure_correct (6 - self.depth) ds self 0 (Nat.le_refl _)
        hunset (by omega) hend hsize (Or.inl rfl) hall i hi⟩
  · intro i hi
    have hall : ∀ j ∈ self.group ds, ds.target j = ((1 : Int) : ℚ) := by
      intro j hj
      rw [hhigh j hj (not_lt.mp (fun h => hl ⟨j, hj, h⟩))]
      norm_num
    exact ⟨1, (hall i hi).symm, train_pure_correct (6 - self.depth) ds self 1 (Nat.le_refl _)
      hunset (by omega) hend hsize (Or.inr rfl) hall i hi⟩

/-! ## `DecisionTreeModel`: training then validation -/

theorem count_sample_all (M : DecisionTreeModel) (rows : List Row)
    (h : ∀ row ∈ rows, ∃ c : Int, (c : ℚ) = row.get M.validation_set.x_vars ∧
      M.root_node_ptr.predict row = some c) :
    ∀ total : ℚ, rows.foldl M.count_sample total = total + (rows.length : ℚ) := by
  induction rows with
  | nil => intro total; simp
  | cons row rows ih =>
    intro total
    rw [List.foldl_cons, ih (fun r hr => h r (List.mem_cons_of_mem row hr))]
    obtain ⟨c, hc, hp⟩ := h row (List.mem_cons_self row rows)
    have : M.count_sample total row = total + 1 := by
      unfold DecisionTreeModel.count_sample
      simp only []
      rw [hp, Option.map_some', hc, if_pos rfl]
    rw [this, List.length_cons]
    push_cast
    ring

theorem validate_accuracy (M : DecisionTreeModel) (e : Fin 256) :
    (M.validate e).get_accuracy =
      M.validation_set.data_table.foldl M.count_sample 0 / (M.validation_set.size : ℚ) := rfl

theorem model_train_full (M : DecisionTreeModel) (x : Nat)
    (hn : M.training_set.row_indices.length < 2 ^ 32) :
    (M.train 8 x).root_node_ptr =
      ((DecisionTreeNode.new 0 0 M.training_set.row_indices.length x).train M.training_set
        Tree.nullptr Tree.nullptr).2 ∧
    (M.train 8 x).validation_set = M.validation_set := by
  have h1 : calculate_rows_to_use 8 (((8 : Fin 256) : Nat) : Int) M.training_set.size
      = M.training_set.row_indices.length :=
    calculate_rows_to_use_all 8 _ _ (Or.inl (by decide))
  have h2 : M.training_set.indices_end (M.training_set.row_indices.length % 2 ^ 32)
      = M.training_set.row_indices.length := by
    unfold DecisionTreeDataset.indices_end
    rw [Nat.mod_eq_of_lt hn, if_neg (by omega)]
  unfold DecisionTreeModel.train
  simp only []
  rw [h1, h2]
  exact ⟨rfl, trivial⟩

/-- C12, amended: for a training set of more than 10 and fewer than `2^32` rows, with
the index vector as loaded, in which each row's class is 1 exactly when feature 0 is
non-negative, and a non-empty validation set every row of which is a row of the
training set, a model trained with `train(8, 4)` and then validated records validation
accuracy exactly 1. -/
theorem train_validate_accuracy (M : DecisionTreeModel) (e : Fin 256)
    (hx : M.training_set.x_vars = 4) (hxv : M.validation_set.x_vars = 4)
    (hidx : M.training_set.row_indices = List.range M.training_set.data_table.length)
    (hlarge : 10 < M.training_set.data_table.length)
    (hsmall : M.training_set.data_table.length < 2 ^ 32)
    (hrule : ∀ row ∈ M.training_set.data_table, row.get 4 = if row.get 0 ≥ 0 then 1 else 0)
    (hvne : M.validation_set.data_table ≠ [])
    (hvidx : M.validation_set.row_indices.length = M.validation_set.data_table.length)
    (hsub : ∀ row ∈ M.validation_set.data_table, row ∈ M.training_set.data_table) :
    ((M.train 8 4).validate e).get_accuracy = 1 := by
  have hlen : M.training_set.row_indices.length = M.training_set.data_table.length := by
    rw [hidx, List.length_range]
  obtain ⟨hroot, hval⟩ := model_train_full M 4 (by rw [hlen]; exact hsmall)
  have hgroup : (DecisionTreeNode.new 0 0 M.training_set.row_indices.length 4).group
      M.training_set = List.range M.training_set.data_table.length := by
    unfold DecisionTreeNode.group
    simp only [DecisionTreeNode.new, List.drop_zero, Nat.sub_zero]
    rw [hidx, List.length_range]
    exact List.take_of_length_le (by rw [List.length_range])
  have hat : ∀ i, i < M.training_set.data_table.length →
      M.training_set.at i ∈ M.training_set.data_table := by
    intro i hi
    unfold DecisionTreeDataset.at
    rw [List.getD_eq_getElem _ _ hi]
    exact List.getElem_mem _
  have hcorrect := train_rule_correct M.training_set
    (DecisionTreeNode.new 0 0 M.training_set.row_indices.length 4)
    ⟨by show 0 < 6; decide, by show M.training_set.row_indices.length - 0 > 10; omega⟩ rfl
    (Nat.le_refl _) rfl (by show 0 < 4; decide)
    (by
      intro i hi
      rw [hgroup, List.mem_range] at hi
      have := hrule _ (hat i hi)
      unfold DecisionTreeDataset.target
      rw [hx]
      exact this)
  rw [validate_accuracy, hval]
  have hall : ∀ row ∈ M.validation_set.data_table,
      ∃ c : Int, (c : ℚ) = row.get (M.train 8 4).validation_set.x_vars ∧
        (M.train 8 4).root_node_ptr.predict row = some c := by
    intro row hrow
    obtain ⟨i, hi, hrowi⟩ := List.mem_iff_getElem.mp (hsub row hrow)
    have hati : M.training_set.at i = row := by
      unfold DecisionTreeDataset.at
      rw [List.getD_eq_getElem _ _ hi, hrowi]
    obtain ⟨c, hc, hp⟩ := hcorrect i (by rw [hgroup, List.mem_range]; exact hi)
    refine ⟨c, ?_, ?_⟩
    · rw [hc, hval, hxv]
      unfold DecisionTreeDataset.target
      rw [hati, hx]
    · rw [hroot, ← hati]
      exact hp
  rw [count_sample_all (M.train 8 4) _ hall 0, zero_add]
  have hpos : (M.validation_set.data_table.length : ℚ) ≠ 0 := by
    have : M.validation_set.data_table.length ≠ 0 :=
      fun h => hvne (List.length_eq_zero.mp h)
    exact_mod_cast this
  unfold DecisionTreeDataset.size
  rw [hvidx]
  exact div_self hpos

/-- C12, amended, at the model trained and validated on `dataset_rule_gap`. -/
theorem train_validate_accuracy_witness :
    ((model_rule_same.train 8 4).validate 8).get_accuracy = 1 :=
  train_validate_accuracy model_rule_same 8 (by decide) (by decide) (by decide) (by decide)
    (by decide) (by decide!) (by decide) (by decide) (by decide!)

/-- C12 as stated fails. Every row of the datasets below has class 1 exactly when
feature 0 is non-negative. With the two training rows of `dataset_rule_small` the root
is a leaf that predicts 0, so validation on the same two rows gives accuracy `1/2`. With
the twelve training rows of `dataset_rule_gap` the root splits at `row[0] < 5`, so the
validation row with feature 0 equal to 2 and class 1 is predicted 0 and the accuracy
is 0. -/
theorem train_validate_accuracy_counterexample :
    (∀ row ∈ dataset_rule_small.data_table, row.get 4 = if row.get 0 ≥ 0 then 1 else 0) ∧
    (∀ row ∈ dataset_rule_gap.data_table, row.get 4 = if row.get 0 ≥ 0 then 1 else 0) ∧
    (∀ row ∈ dataset_rule_between.data_table, row.get 4 = if row.get 0 ≥ 0 then 1 else 0) ∧
    ((model_rule_small.train 8 4).validate 8).get_accuracy = 1 / 2 ∧
    ((model_rule_gap.train 8 4).validate 8).get_accuracy = 0 := by
  refine ⟨by decide!, by decide!, by decide!, by decide!, by decide!⟩

/-! ## `DecisionTreeModel::validate` and `indices_end` -/

theorem count_sample_countP (M : DecisionTreeModel) (rows : List Row) :
    ∀ total : ℚ, rows.foldl M.count_sample total = total +
      (rows.countP (fun sample =>
        decide ((M.root_node_ptr.predict sample).map (fun p : Int => (p : ℚ)) =
          some (sample.get M.validation_set.x_vars))) : ℚ) := by
  induction rows with
  | nil => intro total; simp
  | cons row rows ih =>
    intro total
    rw [List.foldl_cons, ih, List.countP_cons]
    unfold DecisionTreeModel.count_sample
    simp only []
    by_cases h : (M.root_node_ptr.predict row).map (fun p : Int => (p : ℚ)) =
        some (row.get M.validation_set.x_vars)
    · rw [if_pos h, if_pos (by simpa using h)]
      push_cast
      ring
    · rw [if_neg h, if_neg (by simpa using h)]
      push_cast
      ring

/-- C28: `indices_end(k)` is the position `min(k, n)` of the index vector of `n` rows, so
that the range from `indices_begin()` to it is the prefix of length `k` when `k < n` and
the whole vector otherwise. -/
theorem indices_end_prefix (ds : DecisionTreeDataset) (k : Nat) :
    ds.indices_end k = min k ds.size ∧
    (k < ds.size → ds.indices_end k = k) ∧
    (¬ k < ds.size → ds.indices_end k = ds.size) ∧
    (ds.row_indices.take (ds.indices_end k - ds.indices_begin)).length = min k ds.size ∧
    (ds.row_indices.take (ds.indices_end k - ds.indices_begin)) <+: ds.row_indices := by
  have h0 : ds.indices_end k = min k ds.size := by
    unfold DecisionTreeDataset.indices_end DecisionTreeDataset.size
    by_cases h : k < ds.row_indices.length
    · rw [if_pos ⟨h, Nat.zero_le k⟩]; omega
    · rw [if_neg (fun hh => h hh.1)]; omega
  refine ⟨h0, ?_, ?_, ?_, List.take_prefix _ _⟩
  · intro h; rw [h0]; omega
  · intro h; rw [h0]; omega
  · rw [List.length_take, h0]
    unfold DecisionTreeDataset.indices_begin DecisionTreeDataset.size
    omega

/-- C27: after `validate`, `get_accuracy` is the number of rows of the whole validation
set whose `predict` result equals the target of the row, divided by the size of the
validation set; it lies between 0 and 1 and is the same for every fraction argument. -/
theorem validate_accuracy_is_fraction_correct (M : DecisionTreeModel) (e : Fin 256)
    (hload : M.validation_set.row_indices.length = M.validation_set.data_table.length)
    (hne : 0 < M.validation_set.size) :
    (M.validate e).get_accuracy =
      (correct_rows_reference M : ℚ) / (M.validation_set.size : ℚ) ∧
    0 ≤ (M.validate e).get_accuracy ∧ (M.validate e).get_accuracy ≤ 1 ∧
    ∀ e2 : Fin 256, (M.validate e2).get_accuracy = (M.validate e).get_accuracy := by
  have hacc : ∀ e1 : Fin 256, (M.validate e1).get_accuracy =
      (correct_rows_reference M : ℚ) / (M.validation_set.size : ℚ) := by
    intro e1
    rw [validate_accuracy, count_sample_countP, zero_add]
    rfl
  have hpos : (0 : ℚ) < (M.validation_set.size : ℚ) := by exact_mod_cast hne
  have hle : (correct_rows_reference M : ℚ) ≤ (M.validation_set.size : ℚ) := by
    have : correct_rows_reference M ≤ M.validation_set.size := by
      unfold correct_rows_reference DecisionTreeDataset.size
      rw [hload]
      exact List.countP_le_length _
    exact_mod_cast this
  refine ⟨hacc e, ?_, ?_, fun e2 => by rw [hacc e2, hacc e]⟩
  · rw [hacc e]
    exact div_nonneg (Nat.cast_nonneg _) hpos.le
  · rw [hacc e, div_le_one hpos]
    exact hle

/-- C27 at the model trained on all of `dataset_rule_gap` and validated on one eighth of
the same rows. -/
theorem validate_accuracy_is_fraction_correct_witness :
    ((model_rule_same.train 8 4).validation_set.row_indices.length =
      (model_rule_same.train 8 4).validation_set.data_table.length) ∧
    0 < (model_rule_same.train 8 4).validation_set.size ∧
    (((model_rule_same.train 8 4).validate 1).get_accuracy =
      (correct_rows_reference (model_rule_same.train 8 4) : ℚ) /
        ((model_rule_same.train 8 4).validation_set.size : ℚ) ∧
    0 ≤ ((model_rule_same.train 8 4).validate 1).get_accuracy ∧
    ((model_rule_same.train 8 4).validate 1).get_accuracy ≤ 1 ∧
    ∀ e2 : Fin 256, ((model_rule_same.train 8 4).validate e2).get_accuracy =
      ((model_rule_same.train 8 4).validate 1).get_accuracy) :=
  ⟨by decide, by decide,
    validate_accuracy_is_fraction_correct (model_rule_same.train 8 4) 1 (by decide) (by decide)⟩

/-! ## The depth discipline of `train` -/

theorem depth_invariant_leaf (n : DecisionTreeNode) (h : n.depth ≤ 6) :
    (Tree.node n Tree.nullptr Tree.nullptr).depth_invariant :=
  ⟨h, trivial, trivial, fun hh => by rcases hh with hh | hh <;> exact absurd rfl hh,
    trivial, trivial⟩

/-- The depth discipline, and the bounds on the numbers of leaves and nodes, for the tree
built by `train` from a node of depth at most 6. -/
theorem train_depth_invariant (k : Nat) : ∀ (ds : DecisionTreeDataset) (self : DecisionTreeNode),
    6 - self.depth ≤ k → self.depth ≤ 6 →
    (self.train ds Tree.nullptr Tree.nullptr).2.depth_invariant ∧
    (self.train ds Tree.nullptr Tree.nullptr).2.leaves.length ≤ 2 ^ (6 - self.depth) ∧
    (self.train ds Tree.nullptr Tree.nullptr).2.n_nodes + 1 ≤ 2 ^ (7 - self.depth) := by
  induction k with
  | zero =>
    intro ds self hk hd6
    rw [train_of_stop ds self _ _ (by omega)]
    refine ⟨depth_invariant_leaf _ hd6, ?_, ?_⟩
    · exact Nat.one_le_two_pow
    · show 1 + 0 + 0 + 1 ≤ 2 ^ (7 - self.depth)
      have : (7 - self.depth) = (6 - self.depth) + 1 := by omega
      rw [this, pow_succ]
      have := @Nat.one_le_two_pow (6 - self.depth)
      omega
  | succ k ih =>
    intro ds self hk hd6
    have hleaf : ∀ n : DecisionTreeNode, n.depth = self.depth →
        (Tree.node n Tree.nullptr Tree.nullptr).depth_invariant ∧
        (Tree.node n Tree.nullptr Tree.nullptr).leaves.length ≤ 2 ^ (6 - self.depth) ∧
        (Tree.node n Tree.nullptr Tree.nullptr).n_nodes + 1 ≤ 2 ^ (7 - self.depth) := by
      intro n hn
      refine ⟨depth_invariant_leaf _ (by omega), ?_, ?_⟩
      · exact Nat.one_le_two_pow
      · show 1 + 0 + 0 + 1 ≤ 2 ^ (7 - self.depth)
        have : (7 - self.depth) = (6 - self.depth) + 1 := by omega
        rw [this, pow_succ]
        have := @Nat.one_le_two_pow (6 - self.depth)
        omega
    by_cases hc : self.depth < 6 ∧ self.group_size > 10
    · by_cases hd : ((self.get_best_split ds).split_group ds).2 = self.group_begin ∨
          ((self.get_best_split ds).split_group ds).2 = self.group_end
      · rw [train_of_degenerate ds self _ _ hc hd]
        exact hleaf _ rfl
      · rw [train_of_split ds self _ _ hc hd]
        generalize (self.get_best_split ds).split_group ds = sp at *
        obtain ⟨il1, il2, il3⟩ := ih sp.1
          (DecisionTreeNode.new (self.depth + 1) self.group_begin sp.2 self.x_vars_to_use)
          (by simp only [DecisionTreeNode.new]; omega)
          (by simp only [DecisionTreeNode.new]; omega)
        obtain ⟨nl, ll, lr, hl, _, _, _, hld, _⟩ := train_root sp.1
          (DecisionTreeNode.new (self.depth + 1) self.group_begin sp.2 self.x_vars_to_use)
          Tree.nullptr Tree.nullptr
        generalize DecisionTreeNode.train sp.1
          (DecisionTreeNode.new (self.depth + 1) self.group_begin sp.2 self.x_vars_to_use)
          Tree.nullptr Tree.nullptr = l at *
        obtain ⟨ir1, ir2, ir3⟩ := ih l.1
          (DecisionTreeNode.new (self.depth + 1) sp.2 self.group_end self.x_vars_to_use)
          (by simp only [DecisionTreeNode.new]; omega)
          (by simp only [DecisionTreeNode.new]; omega)
        obtain ⟨nr, rl, rr, hr, _, _, _, hrd, _⟩ := train_root l.1
          (DecisionTreeNode.new (self.depth + 1) sp.2 self.group_end self.x_vars_to_use)
          Tree.nullptr Tree.nullptr
        generalize DecisionTreeNode.train l.1
          (DecisionTreeNode.new (self.depth + 1) sp.2 self.group_end self.x_vars_to_use)
          Tree.nullptr Tree.nullptr = r at *
        simp only [DecisionTreeNode.new] at hld hrd il2 il3 ir2 ir3
        have e6 : 6 - self.depth = (6 - (self.depth + 1)) + 1 := by omega
        have e7 : 7 - self.depth = (7 - (self.depth + 1)) + 1 := by omega
        refine ⟨⟨hd6, ?_, ?_, fun _ => hc, il1, ir1⟩, ?_, ?_⟩
        · rw [hl]; exact hld
        · rw [hr]; exact hrd
        · rw [hl] at il2 ⊢
          simp only [Tree.leaves, Tree.is_nullptr, Bool.false_and, Bool.false_eq_true,
            if_false, List.length_append] at il2 ⊢
          rw [e6, pow_succ]
          omega
        · show 1 + l.2.n_nodes + r.2.n_nodes + 1 ≤ 2 ^ (7 - self.depth)
          rw [e7, pow_succ]
          omega
    · rw [train_of_stop ds self _ _ hc]
      exact hleaf _ rfl

/-- C30: `train` is a total function (the recursion descends on `6 - depth`), and the tree
it builds from a root of depth 0 satisfies: every child is one level deeper than its
parent, every node with children has depth below 6 and a group of more than 10 rows, no
node is deeper than 6, there are at most 64 leaves, and at most 127 nodes, which bounds
the number of calls of `train`. -/
theorem train_depth_bounded (ds : DecisionTreeDataset) (self : DecisionTreeNode)
    (hroot : self.depth = 0) :
    (self.train ds Tree.nullptr Tree.nullptr).2.depth_invariant ∧
    (self.train ds Tree.nullptr Tree.nullptr).2.leaves.length ≤ 64 ∧
    (self.train ds Tree.nullptr Tree.nullptr).2.n_nodes ≤ 127 := by
  obtain ⟨h1, h2, h3⟩ := train_depth_invariant (6 - self.depth) ds self (Nat.le_refl _)
    (by omega)
  rw [hroot] at h2 h3
  exact ⟨h1, h2, by omega⟩

/-- C30 at the root node over `dataset_separable`. -/
theorem train_depth_bounded_witness :
    (DecisionTreeNode.new 0 0 12 1).depth = 0 ∧
    (((DecisionTreeNode.new 0 0 12 1).train dataset_separable Tree.nullptr
      Tree.nullptr).2.depth_invariant ∧
    ((DecisionTreeNode.new 0 0 12 1).train dataset_separable Tree.nullptr
      Tree.nullptr).2.leaves.length ≤ 64 ∧
    ((DecisionTreeNode.new 0 0 12 1).train dataset_separable Tree.nullptr
      Tree.nullptr).2.n_nodes ≤ 127) :=
  ⟨rfl, train_depth_bounded dataset_separable (DecisionTreeNode.new 0 0 12 1) rfl⟩

/-! ## `predict` on the rows of a trained range -/

theorem ranges_within_mono (lo hi lo2 hi2 : Nat) (h1 : lo2 ≤ lo) (h2 : hi ≤ hi2) :
    ∀ t : Tree, t.ranges_within lo hi → t.ranges_within lo2 hi2 := by
  intro t
  induction t with
  | nullptr => intro _; trivial
  | node n left right ihl ihr =>
    intro h
    obtain ⟨a, b, c, d⟩ := h
    exact ⟨by omega, by omega, ihl c, ihr d⟩

theorem leaves_within (lo hi : Nat) :
    ∀ t : Tree, t.ranges_within lo hi →
      ∀ leaf ∈ t.leaves, lo ≤ leaf.group_begin ∧ leaf.group_end ≤ hi := by
  intro t
  induction t with
  | nullptr => intro _ leaf hleaf; simp [Tree.leaves] at hleaf
  | node n left right ihl ihr =>
    intro h leaf hleaf
    obtain ⟨a, b, c, d⟩ := h
    simp only [Tree.leaves] at hleaf
    split at hleaf
    · rw [List.mem_singleton] at hleaf
      rw [hleaf]; exact ⟨a, b⟩
    · rcases List.mem_append.mp hleaf with h | h
      · exact ihl c leaf h
      · exact ihr d leaf h

theorem split_conditions_hold_congr (ds ds2 : DecisionTreeDataset) (lo hi : Nat)
    (hdt : ds2.data_table = ds.data_table)
    (hagree : ∀ pos, lo ≤ pos → pos < hi → ds2.row_indices.getD pos 0 = ds.row_indices.getD pos 0) :
    ∀ t : Tree, t.ranges_within lo hi → t.split_conditions_hold ds →
      t.split_conditions_hold ds2 := by
  have hat : ∀ i, ds2.at i = ds.at i := by
    intro i; unfold DecisionTreeDataset.at; rw [hdt]
  have hroot : ∀ (cond : Row → Prop) (t : Tree), t.ranges_within lo hi →
      t.root_range_all ds cond → t.root_range_all ds2 cond := by
    intro cond t
    cases t with
    | nullptr => intro _ _; trivial
    | node n left right =>
      intro hw h pos h1 h2
      rw [hat, hagree pos (by have := hw.1; omega) (by have := hw.2.1; omega)]
      exact h pos h1 h2
  intro t
  induction t with
  | nullptr => intro _ _; trivial
  | node n left right ihl ihr =>
    intro hw h
    obtain ⟨_, _, wl, wr⟩ := hw
    obtain ⟨a, b, c, d⟩ := h
    exact ⟨hroot _ left wl a, hroot _ right wr b, ihl wl c, ihr wr d⟩

theorem filter_range_contains_nil (pos : Nat) (ls : List DecisionTreeNode)
    (h : ∀ leaf ∈ ls, pos < leaf.group_begin ∨ leaf.group_end ≤ pos) :
    ls.filter (fun leaf => leaf.range_contains pos) = [] := by
  rw [List.filter_eq_nil_iff]
  intro leaf hleaf
  have := h leaf hleaf
  simp only [DecisionTreeNode.range_contains, decide_eq_true_eq]
  omega

theorem leaf_of_range_leaf (ds : DecisionTreeDataset) (n : DecisionTreeNode)
    (hcp : n.class_prediction = 0 ∨ n.class_prediction = 1) :
    (Tree.node n Tree.nullptr Tree.nullptr).ranges_within n.group_begin n.group_end ∧
    (∀ pos, n.group_begin ≤ pos → pos < n.group_end →
      ((Tree.node n Tree.nullptr Tree.nullptr).leaves.filter
          (fun leaf => leaf.range_contains pos)).length = 1 ∧
      ∀ leaf ∈ (Tree.node n Tree.nullptr Tree.nullptr).leaves, leaf.range_contains pos = true →
        (Tree.node n Tree.nullptr Tree.nullptr).predict (ds.at (ds.row_indices.getD pos 0)) =
          some leaf.class_prediction) ∧
    (Tree.node n Tree.nullptr Tree.nullptr).split_conditions_hold ds := by
  have hl : (Tree.node n Tree.nullptr Tree.nullptr).leaves = [n] := rfl
  refine ⟨⟨Nat.le_refl _, Nat.le_refl _, trivial, trivial⟩, ?_, ⟨trivial, trivial, trivial, trivial⟩⟩
  intro pos h1 h2
  rw [hl]
  constructor
  · have : n.range_contains pos = true := by
      simp only [DecisionTreeNode.range_contains, decide_eq_true_eq]; omega
    rw [List.filter_cons, if_pos this]
    rfl
  · intro leaf hleaf _
    rw [List.mem_singleton] at hleaf
    rw [hleaf]
    exact predict_leaf _ _ _ _ (by rcases hcp with h | h <;> simp [h])

/-- The leaves of the tree built by `train` tile the range of the node, `predict` on the
row of the index at a position returns the class prediction of the leaf whose range
contains the position, and the split conditions hold at every node. -/
theorem train_leaf_of_range (k : Nat) : ∀ (ds : DecisionTreeDataset) (self : DecisionTreeNode),
    6 - self.depth ≤ k → self.class_prediction = -1 →
    self.group_begin ≤ self.group_end → self.group_end ≤ ds.row_indices.length →
    (self.train ds Tree.nullptr Tree.nullptr).2.ranges_within self.group_begin self.group_end ∧
    (∀ pos, self.group_begin ≤ pos → pos < self.group_end →
      ((self.train ds Tree.nullptr Tree.nullptr).2.leaves.filter
          (fun leaf => leaf.range_contains pos)).length = 1 ∧
      ∀ leaf ∈ (self.train ds Tree.nullptr Tree.nullptr).2.leaves,
        leaf.range_contains pos = true →
        (self.train ds Tree.nullptr Tree.nullptr).2.predict
          ((self.train ds Tree.nullptr Tree.nullptr).1.at
            ((self.train ds Tree.nullptr Tree.nullptr).1.row_indices.getD pos 0)) =
          some leaf.class_prediction) ∧
    (self.train ds Tree.nullptr Tree.nullptr).2.split_conditions_hold
      (self.train ds Tree.nullptr Tree.nullptr).1 := by
  induction k with
  | zero =>
    intro ds self hk _ _ _
    rw [train_of_stop ds self _ _ (by omega)]
    exact leaf_of_range_leaf ds (self.become_leaf ds) (become_leaf_class_prediction _ _)
  | succ k ih =>
    intro ds self hk hunset hbe hend
    by_cases hc : self.depth < 6 ∧ self.group_size > 10
    · by_cases hd : ((self.get_best_split ds).split_group ds).2 = self.group_begin ∨
          ((self.get_best_split ds).split_group ds).2 = self.group_end
      · rw [train_of_degenerate ds self _ _ hc hd]
        exact leaf_of_range_leaf _ ((self.get_best_split ds).become_leaf _)
          (become_leaf_class_prediction _ _)
      · rw [train_of_split ds self _ _ hc hd]
        obtain ⟨cg1, cg2⟩ := children_groups ds (self.get_best_split ds) (self.depth + 1)
          self.x_vars_to_use hbe hend
        simp only [show (self.get_best_split ds).group_begin = self.group_begin from rfl,
          show (self.get_best_split ds).group_end = self.group_end from rfl] at cg1 cg2
        obtain ⟨_, s2, s3, s4, _⟩ := split_group_frame ds (self.get_best_split ds) hbe hend
        have s3 : self.group_begin ≤ ((self.get_best_split ds).split_group ds).2 := s3
        have s4 : ((self.get_best_split ds).split_group ds).2 ≤ self.group_end := s4
        have hdt0 : ((self.get_best_split ds).split_group ds).1.data_table = ds.data_table := rfl
        have hcp : (self.get_best_split ds).class_prediction = -1 := hunset
        have hgl : ∀ j, (self.get_best_split ds).goes_left ds j =
            decide ((ds.at j).get (self.get_best_split ds).split_var.toNat
              < (self.get_best_split ds).split_val) := fun _ => rfl
        generalize (self.get_best_split ds).split_group ds = sp at *
        obtain ⟨il1, il2, il3⟩ := ih sp.1
          (DecisionTreeNode.new (self.depth + 1) self.group_begin sp.2 self.x_vars_to_use)
          (by simp only [DecisionTreeNode.new]; omega) rfl s3
          (by simp only [DecisionTreeNode.new]; omega)
        obtain ⟨l1, _, l3, _⟩ := train_frame (6 - (self.depth + 1)) sp.1
          (DecisionTreeNode.new (self.depth + 1) self.group_begin sp.2 self.x_vars_to_use)
          Tree.nullptr Tree.nullptr (Nat.le_refl _) s3
          (by simp only [DecisionTreeNode.new]; omega)
        obtain ⟨nl, ll, lr, hl, hlb, hle, _⟩ := train_root sp.1
          (DecisionTreeNode.new (self.depth + 1) self.group_begin sp.2 self.x_vars_to_use)
          Tree.nullptr Tree.nullptr
        generalize DecisionTreeNode.train sp.1
          (DecisionTreeNode.new (self.depth + 1) self.group_begin sp.2 self.x_vars_to_use)
          Tree.nullptr Tree.nullptr = l at *
        obtain ⟨ir1, ir2, ir3⟩ := ih l.1
          (DecisionTreeNode.new (self.depth + 1) sp.2 self.group_end self.x_vars_to_use)
          (by simp only [DecisionTreeNode.new]; omega) rfl s4
          (by simp only [DecisionTreeNode.new]; rw [l3.length_eq]; omega)
        obtain ⟨r1, _, r3, r4⟩ := train_frame (6 - (self.depth + 1)) l.1
          (DecisionTreeNode.new (self.depth + 1) sp.2 self.group_end self.x_vars_to_use)
          Tree.nullptr Tree.nullptr (Nat.le_refl _) s4
          (by simp only [DecisionTreeNode.new]; rw [l3.length_eq]; omega)
        obtain ⟨nr, rl, rr, hr, hrb, hre, _⟩ := train_root l.1
          (DecisionTreeNode.new (self.depth + 1) sp.2 self.group_end self.x_vars_to_use)
          Tree.nullptr Tree.nullptr
        generalize DecisionTreeNode.train l.1
          (DecisionTreeNode.new (self.depth + 1) sp.2 self.group_end self.x_vars_to_use)
          Tree.nullptr Tree.nullptr = r at *
        simp only [DecisionTreeNode.new] at hlb hle hrb hre il1 il2 ir1 ir2 r4
        have hlenr : r.1.row_indices.length = ds.row_indices.length := by
          rw [r3.length_eq, l3.length_eq, s2]
        have hatr : ∀ i, r.1.at i = ds.at i := by
          intro i; unfold DecisionTreeDataset.at; rw [r1, l1, hdt0]
        have hatl : ∀ i, l.1.at i = r.1.at i := by
          intro i; unfold DecisionTreeDataset.at; rw [r1]
        -- the split condition at the positions of the two children
        have hleft : ∀ pos, self.group_begin ≤ pos → pos < sp.2 →
            (ds.at (r.1.row_indices.getD pos 0)).get (self.get_best_split ds).split_var.toNat
              < (self.get_best_split ds).split_val := by
          intro pos h1 h2
          have hm : r.1.row_indices.getD pos 0 ∈
              (r.1.row_indices.drop self.group_begin).take (sp.2 - self.group_begin) :=
            (mem_slice r.1.row_indices _ _ (by omega) _).mpr ⟨pos, h1, h2, rfl⟩
          have := (cg1 _ hm).2
          rw [hgl] at this
          simpa using this
        have hright : ∀ pos, sp.2 ≤ pos → pos < self.group_end →
            ¬ (ds.at (r.1.row_indices.getD pos 0)).get (self.get_best_split ds).split_var.toNat
              < (self.get_best_split ds).split_val := by
          intro pos h1 h2
          have hm : r.1.row_indices.getD pos 0 ∈
              (r.1.row_indices.drop sp.2).take (self.group_end - sp.2) :=
            (mem_slice r.1.row_indices _ _ (by omega) _).mpr ⟨pos, h1, h2, rfl⟩
          have := (cg2 _ hm).2
          rw [hgl] at this
          simpa using this
        have hwl := leaves_within _ _ l.2 il1
        have hwr := leaves_within _ _ r.2 ir1
        have hleaves : (Tree.node (self.get_best_split ds) l.2 r.2).leaves =
            l.2.leaves ++ r.2.leaves := by
          rw [hl]; rfl
        refine ⟨⟨Nat.le_refl _, Nat.le_refl _,
          ranges_within_mono _ _ _ _ (Nat.le_refl _) s4 _ il1,
          ranges_within_mono _ _ _ _ s3 (Nat.le_refl _) _ ir1⟩, ?_, ?_⟩
        · intro pos h1 h2
          rw [hleaves, List.filter_append, List.length_append]
          by_cases hp : pos < sp.2
          · obtain ⟨a1, a2⟩ := il2 pos h1 hp
            constructor
            · rw [a1, filter_range_contains_nil pos r.2.leaves
                (fun leaf hleaf => Or.inl (by have := (hwr leaf hleaf).1; omega))]
              rfl
            · intro leaf hleaf hcontains
              have hcontains2 := hcontains
              simp only [DecisionTreeNode.range_contains, decide_eq_true_eq] at hcontains2
              rcases List.mem_append.mp hleaf with h | h
              · rw [predict_internal _ _ _ _ hcp, hatr, if_pos (hleft pos h1 hp), ← hatr,
                  ← a2 leaf h hcontains, hatl, r4 pos (Or.inl hp)]
              · have := (hwr leaf h).1; omega
          · obtain ⟨a1, a2⟩ := ir2 pos (by omega) h2
            constructor
            · rw [a1, filter_range_contains_nil pos l.2.leaves
                (fun leaf hleaf => Or.inr (by have := (hwl leaf hleaf).2; omega))]
              rfl
            · intro leaf hleaf hcontains
              have hcontains2 := hcontains
              simp only [DecisionTreeNode.range_contains, decide_eq_true_eq] at hcontains2
              rcases List.mem_append.mp hleaf with h | h
              · have := (hwl leaf h).2; omega
              · rw [predict_internal _ _ _ _ hcp, hatr,
                  if_neg (hright pos (by omega) h2), ← hatr]
                exact a2 leaf h hcontains
        · refine ⟨?_, ?_, ?_, ir3⟩
          · rw [hl]
            intro pos h1 h2
            rw [hatr]
            exact hleft pos (by omega) (by omega)
          · rw [hr]
            intro pos h1 h2
            rw [hatr]
            exact not_lt.mp (hright pos (by omega) (by omega))
          · exact split_conditions_hold_congr l.1 r.1 self.group_begin sp.2 r1
              (fun pos _ h2 => r4 pos (Or.inl h2)) l.2 il1 il3
    · rw [train_of_stop ds self _ _ hc]
      exact leaf_of_range_leaf ds (self.become_leaf ds) (become_leaf_class_prediction _ _)

/-- C29: after `train` on a root node as the constructor leaves it, over a range of the
index vector, every index of the range sits at a position of the range in the final
index vector; for every position of the range exactly one leaf has an index range that
contains it, and `predict` on the row of the index at that position returns the class
prediction of that leaf; and at every node the rows of the indices in the left child's
range satisfy `row[split_var] < split_val` and those in the right child's range satisfy
`row[split_var] >= split_val`, in the final index vector. -/
theorem train_predict_leaf_of_range (ds : DecisionTreeDataset) (self : DecisionTreeNode)
    (hunset : self.class_prediction = -1)
    (hbe : self.group_begin ≤ self.group_end)
    (hend : self.group_end ≤ ds.row_indices.length) :
    (self.train ds Tree.nullptr Tree.nullptr).1.data_table = ds.data_table ∧
    (∀ i ∈ self.group ds, ∃ pos, self.group_begin ≤ pos ∧ pos < self.group_end ∧
      (self.train ds Tree.nullptr Tree.nullptr).1.row_indices.getD pos 0 = i) ∧
    (∀ pos, self.group_begin ≤ pos → pos < self.group_end →
      ((self.train ds Tree.nullptr Tree.nullptr).2.leaves.filter
          (fun leaf => leaf.range_contains pos)).length = 1 ∧
      ∀ leaf ∈ (self.train ds Tree.nullptr Tree.nullptr).2.leaves,
        leaf.range_contains pos = true →
        (self.train ds Tree.nullptr Tree.nullptr).2.predict
          ((self.train ds Tree.nullptr Tree.nullptr).1.at
            ((self.train ds Tree.nullptr Tree.nullptr).1.row_indices.getD pos 0)) =
          some leaf.class_prediction) ∧
    (self.train ds Tree.nullptr Tree.nullptr).2.split_conditions_hold
      (self.train ds Tree.nullptr Tree.nullptr).1 := by
  obtain ⟨_, h2, h3⟩ := train_leaf_of_range (6 - self.depth) ds self (Nat.le_refl _) hunset
    hbe hend
  obtain ⟨f1, _, f3, f4⟩ := train_frame (6 - self.depth) ds self Tree.nullptr Tree.nullptr
    (Nat.le_refl _) hbe hend
  refine ⟨f1, ?_, h2, h3⟩
  intro i hi
  have hperm := slice_perm ds.row_indices _ self.group_begin self.group_end hbe f3
    f3.length_eq f4
  have hi2 := hperm.mem_iff.mpr hi
  exact (mem_slice _ _ _ (by rw [f3.length_eq]; exact hend) i).mp hi2

/-- C29 at the root node over the whole of `dataset_separable`. -/
theorem train_predict_leaf_of_range_witness :
    (DecisionTreeNode.new 0 0 12 1).class_prediction = -1 ∧
    (DecisionTreeNode.new 0 0 12 1).group_begin ≤ (DecisionTreeNode.new 0 0 12 1).group_end ∧
    (DecisionTreeNode.new 0 0 12 1).group_end ≤ dataset_separable.row_indices.length ∧
    (((DecisionTreeNode.new 0 0 12 1).train dataset_separable Tree.nullptr Tree.nullptr).1.data_table = dataset_separable.data_table ∧
    (∀ i ∈ (DecisionTreeNode.new 0 0 12 1).group dataset_separable, ∃ pos, (DecisionTreeNode.new 0 0 12 1).group_begin ≤ pos ∧ pos < (DecisionTreeNode.new 0 0 12 1).group_end ∧
      ((DecisionTreeNode.new 0 0 12 1).train dataset_separable Tree.nullptr Tree.nullptr).1.row_indices.getD pos 0 = i) ∧
    (∀ pos, (DecisionTreeNode.new 0 0 12 1).group_begin ≤ pos → pos < (DecisionTreeNode.new 0 0 12 1).group_end →
      (((DecisionTreeNode.new 0 0 12 1).train dataset_separable Tree.nullptr Tree.nullptr).2.leaves.filter
          (fun leaf => leaf.range_contains pos)).length = 1 ∧
      ∀ leaf ∈ ((DecisionTreeNode.new 0 0 12 1).train dataset_separable Tree.nullptr Tree.nullptr).2.leaves,
        leaf.range_contains pos = true →
        ((DecisionTreeNode.new 0 0 12 1).train dataset_separable Tree.nullptr Tree.nullptr).2.predict
          (((DecisionTreeNode.new 0 0 12 1).train dataset_separable Tree.nullptr Tree.nullptr).1.at
            (((DecisionTreeNode.new 0 0 12 1).train dataset_separable Tree.nullptr Tree.nullptr).1.row_indices.getD pos 0)) =
          some leaf.class_prediction) ∧
    ((DecisionTreeNode.new 0 0 12 1).train dataset_separable Tree.nullptr Tree.nullptr).2.split_conditions_hold
      ((DecisionTreeNode.new 0 0 12 1).train dataset_separable Tree.nullptr Tree.nullptr).1) :=
  ⟨rfl, by decide, by decide,
    train_predict_leaf_of_range dataset_separable (DecisionTreeNode.new 0 0 12 1) rfl
      (by decide) (by decide)⟩

/-! ## The linear layer: finite differences of the forward pass -/

theorem linear_call_output {α : Type} [CommRing α] {n m : Nat} (L : Linear α n m)
    (x : MatrixRef α n) (j : Fin m) :
    (L.call x).forward_record.output_matrix.data 0 j =
      (∑ k : Fin n, x.toMatrix.data 0 k * L.weights.data k j) + L.biases.data 0 j := by
  show ((x.toMatrix.dot L.weights.toMatrix).add L.biases.toMatrix).data 0 j = _
  rw [add_data, dot_data]

theorem linear_loss_difference {α : Type} [CommRing α] {n m : Nat} (L : Linear α n m)
    (g : Matrix α 1 m) (x : GradMatrix α 1 n) (i : Fin n) (h : α) :
    linear_loss_reference L g (perturb_reference x i h) - linear_loss_reference L g x =
      h * ∑ j : Fin m, g.data 0 j * L.weights.data i j := by
  unfold linear_loss_reference
  rw [← Finset.sum_sub_distrib, Finset.mul_sum]
  apply Finset.sum_congr rfl
  intro j _
  rw [linear_call_output, linear_call_output]
  have hx : ∀ k : Fin n, (perturb_reference x i h).data 0 k =
      x.data 0 k + (if k = i then h else 0) := by
    intro k
    show (x.toMatrix.set 0 i (x.data 0 i + h)).data 0 k = _
    rw [matrix_set_data]
    by_cases hk : k = i
    · rw [if_pos ⟨rfl, hk⟩, if_pos hk, hk]
    · rw [if_neg (fun hh => hk hh.2), if_neg hk, add_zero]
  have hsum : (∑ k : Fin n, (perturb_reference x i h).data 0 k * L.weights.data k j) =
      (∑ k : Fin n, x.data 0 k * L.weights.data k j) + h * L.weights.data i j := by
    simp only [hx, add_mul, Finset.sum_add_distrib, ite_mul, zero_mul,
      Finset.sum_ite_eq', Finset.mem_univ, if_true]
  show g.data 0 j * ((∑ k : Fin n, (perturb_reference x i h).data 0 k * L.weights.data k j)
      + L.biases.data 0 j)
    - g.data 0 j * ((∑ k : Fin n, x.data 0 k * L.weights.data k j) + L.biases.data 0 j) = _
  rw [hsum]
  ring

/-- C21: for a layer with weights `W` and biases `b`, a gradient-bearing input `x`, the
output gradient `g` held in the forward record, a coordinate `i` and a step `h != 0`,
the gradient that `backward` writes to coordinate `i` of the input after the forward
pass on `x` equals `(L(x + h * e_i) - L(x)) / h` exactly, `L` being
`sum_j g_j * (x . W + b)_j` computed by the forward pass; so the two differ by at most
`1e-3`, and the input gradient is a `1 x n` matrix. -/
theorem linear_input_gradient_finite_difference {α : Type} [LinearOrderedField α] {n m : Nat}
    (L : Linear α n m) (x : GradMatrix α 1 n) (i : Fin n) (h : α) (hh : h ≠ 0) :
    ∃ x1 : GradMatrix α 1 n,
      (L.call (MatrixRef.grad_matrix x)).backward.forward_record.input_matrix =
        some (MatrixRef.grad_matrix x1) ∧
      x1.grad.data 0 i =
        (linear_loss_reference L L.forward_record.output_matrix.grad (perturb_reference x i h)
          - linear_loss_reference L L.forward_record.output_matrix.grad x) / h ∧
      |x1.grad.data 0 i -
        (linear_loss_reference L L.forward_record.output_matrix.grad (perturb_reference x i h)
          - linear_loss_reference L L.forward_record.output_matrix.grad x) / h| ≤ 1 / 1000 := by
  have hval : (L.forward_record.output_matrix.grad.dot_t L.weights.toMatrix).data 0 i =
      (linear_loss_reference L L.forward_record.output_matrix.grad (perturb_reference x i h)
        - linear_loss_reference L L.forward_record.output_matrix.grad x) / h := by
    rw [linear_loss_difference, dot_t_data, mul_div_assoc, mul_comm, div_mul_cancel₀ _ hh]
  refine ⟨{ x with grad := L.forward_record.output_matrix.grad.dot_t L.weights.toMatrix }, ?_,
    hval, ?_⟩
  · rw [linear_backward_eq (L.call (MatrixRef.grad_matrix x)) x rfl]
    rfl
  · show |(L.forward_record.output_matrix.grad.dot_t L.weights.toMatrix).data 0 i - _| ≤ _
    rw [hval, sub_self, abs_zero]
    norm_num

/-- C21 at the layer `linear_example`, the input `matrix_g`, coordinate 0 and step
`1/2`. -/
theorem linear_input_gradient_finite_difference_witness :
    (1 / 2 : ℚ) ≠ 0 ∧
    ∃ x1 : GradMatrix ℚ 1 2,
      (linear_example.call (MatrixRef.grad_matrix matrix_g)).backward.forward_record.input_matrix =
        some (MatrixRef.grad_matrix x1) ∧
      x1.grad.data 0 0 =
        (linear_loss_reference linear_example linear_example.forward_record.output_matrix.grad
            (perturb_reference matrix_g 0 (1 / 2))
          - linear_loss_reference linear_example linear_example.forward_record.output_matrix.grad
            matrix_g) / (1 / 2) ∧
      |x1.grad.data 0 0 -
        (linear_loss_reference linear_example linear_example.forward_record.output_matrix.grad
            (perturb_reference matrix_g 0 (1 / 2))
          - linear_loss_reference linear_example linear_example.forward_record.output_matrix.grad
            matrix_g) / (1 / 2)| ≤ 1 / 1000 :=
  ⟨by simp, linear_input_gradient_finite_difference linear_example matrix_g 0 (1 / 2)
    (by simp)⟩

/-! ## The activation layers and the loss -/

/-- A loop over the columns that assigns `f col` to element `[0][col]` of a
gradient-bearing row: afterwards element `[0][j]` is `f j` and the gradient is
untouched. -/
theorem row_loop_data {α : Type} {c : Nat} (f : Fin c → α) (l : List (Fin c)) :
    ∀ m : GradMatrix α 1 c,
    (l.foldl (fun (out : GradMatrix α 1 c) col =>
        { out with toMatrix := out.toMatrix.set 0 col (f col) }) m).grad = m.grad ∧
    ∀ j : Fin c, (l.foldl (fun (out : GradMatrix α 1 c) col =>
        { out with toMatrix := out.toMatrix.set 0 col (f col) }) m).data 0 j =
      if j ∈ l then f j else m.data 0 j := by
  induction l with
  | nil => intro m; exact ⟨rfl, fun j => by simp⟩
  | cons a l ih =>
    intro m
    rw [List.foldl_cons]
    obtain ⟨h1, h2⟩ := ih { m with toMatrix := m.toMatrix.set 0 a (f a) }
    refine ⟨h1, fun j => ?_⟩
    rw [h2 j]
    by_cases hj : j ∈ l
    · rw [if_pos hj, if_pos (List.mem_cons_of_mem a hj)]
    · rw [if_neg hj]
      show (m.toMatrix.set 0 a (f a)).data 0 j = _
      rw [matrix_set_data]
      by_cases hja : j = a
      · rw [if_pos ⟨rfl, hja⟩, if_pos (by rw [hja]; exact List.mem_cons_self a l), hja]
      · rw [if_neg (fun h => hja h.2), if_neg (by
          intro h
          rcases List.mem_cons.mp h with h | h
          · exact hja h
          · exact hj h)]

/-- A loop over the columns that assigns `F data col` to element `[0][col]` of the
gradient of a row, `data` being the row itself: afterwards element `[0][j]` of the
gradient is `F data j` and the row is untouched. -/
theorem row_loop_grad {α : Type} {c : Nat} (F : Matrix α 1 c → Fin c → α) (l : List (Fin c)) :
    ∀ m : GradMatrix α 1 c,
    (l.foldl (fun (g : GradMatrix α 1 c) col =>
        { g with grad := g.grad.set 0 col (F g.toMatrix col) }) m).toMatrix = m.toMatrix ∧
    ∀ j : Fin c, (l.foldl (fun (g : GradMatrix α 1 c) col =>
        { g with grad := g.grad.set 0 col (F g.toMatrix col) }) m).grad.data 0 j =
      if j ∈ l then F m.toMatrix j else m.grad.data 0 j := by
  induction l with
  | nil => intro m; exact ⟨rfl, fun j => by simp⟩
  | cons a l ih =>
    intro m
    rw [List.foldl_cons]
    obtain ⟨h1, h2⟩ := ih { m with grad := m.grad.set 0 a (F m.toMatrix a) }
    refine ⟨h1, fun j => ?_⟩
    rw [h2 j]
    by_cases hj : j ∈ l
    · rw [if_pos hj, if_pos (List.mem_cons_of_mem a hj)]
    · rw [if_neg hj]
      show (m.grad.set 0 a (F m.toMatrix a)).data 0 j = _
      rw [matrix_set_data]
      by_cases hja : j = a
      · rw [if_pos ⟨rfl, hja⟩, if_pos (by rw [hja]; exact List.mem_cons_self a l), hja]
      · rw [if_neg (fun h => hja h.2), if_neg (by
          intro h
          rcases List.mem_cons.mp h with h | h
          · exact hja h
          · exact hj h)]

/-- The output recorded by `Relu::operator()`. -/
theorem relu_call_output {α : Type} [LinearOrderedField α] {cols : Nat} (S : Relu α cols)
    (x : MatrixRef α cols) :
    (S.call x).forward_record.output_matrix.grad = S.forward_record.output_matrix.grad ∧
    ∀ col : Fin cols, (S.call x).forward_record.output_matrix.data 0 col =
      if x.toMatrix.data 0 col > 0 then x.toMatrix.data 0 col - 1 / 2 else -(1 / 2) := by
  obtain ⟨h1, h2⟩ := row_loop_data
    (fun col => if x.toMatrix.data 0 col > 0 then x.toMatrix.data 0 col - 1 / 2 else -(1 / 2))
    (List.finRange cols) S.forward_record.output_matrix
  refine ⟨h1, fun col => ?_⟩
  have := h2 col
  rw [if_pos (List.mem_finRange col)] at this
  exact this

/-- The result of `Relu::backward` when the recorded input is gradient-bearing. -/
theorem relu_backward_eq {α : Type} [LinearOrderedField α] {cols : Nat} (S : Relu α cols)
    (x : GradMatrix α 1 cols)
    (hrec : S.forward_record.input_matrix = some (MatrixRef.grad_matrix x)) :
    ∃ x1 : GradMatrix α 1 cols,
      S.backward = some { forward_record :=
        { S.forward_record with input_matrix := some (MatrixRef.grad_matrix x1) } } ∧
      x1.toMatrix = x.toMatrix ∧
      ∀ col : Fin cols, x1.grad.data 0 col =
        if x.data 0 col > 0 then S.forward_record.output_matrix.grad.data 0 col else 0 := by
  obtain ⟨h1, h2⟩ := row_loop_grad
    (fun (d : Matrix α 1 cols) col =>
      if d.data 0 col > 0 then S.forward_record.output_matrix.grad.data 0 col else 0)
    (List.finRange cols) x
  refine ⟨_, ?_, h1, fun col => ?_⟩
  · unfold Relu.backward
    rw [hrec]
  · have := h2 col
    rw [if_pos (List.mem_finRange col)] at this
    exact this

/-- C22: the forward pass of `Relu` records the input pointer and writes, for each
column, `input - 0.5` when `input > 0` and `-0.5` otherwise, also for `input = 0`; every
output element is at least `-0.5`; and on the row `[-1, 0, 1]` the output is
`[-0.5, -0.5, 0.5]`. -/
theorem relu_forward_spec {α : Type} [LinearOrderedField α] {cols : Nat} (S : Relu α cols)
    (x : MatrixRef α cols) (S3 : Relu α 3) :
    (S.call x).forward_record.input_matrix = some x ∧
    (∀ col : Fin cols, (S.call x).forward_record.output_matrix.data 0 col =
      if x.toMatrix.data 0 col > 0 then x.toMatrix.data 0 col - 1 / 2 else -(1 / 2)) ∧
    (∀ col : Fin cols, x.toMatrix.data 0 col = 0 →
      (S.call x).forward_record.output_matrix.data 0 col = -(1 / 2)) ∧
    (∀ col : Fin cols, (S.call x).forward_record.output_matrix.data 0 col ≥ -(1 / 2)) ∧
    (∀ col : Fin 3,
      (S3.call (MatrixRef.matrix ⟨fun _ => ![-1, 0, 1]⟩)).forward_record.output_matrix.data 0 col
        = ![-(1 / 2), -(1 / 2), 1 / 2] col) := by
  obtain ⟨_, h⟩ := relu_call_output S x
  refine ⟨rfl, h, ?_, ?_, ?_⟩
  · intro col h0
    rw [h col, h0, if_neg (lt_irrefl 0)]
  · intro col
    rw [h col]
    split
    · rename_i hpos
      have : (0 : α) < x.toMatrix.data 0 col := hpos
      linarith
    · exact le_refl _
  · intro col
    rw [(relu_call_output S3 _).2 col]
    show (if (![-1, 0, 1] : Fin 3 → α) col > 0 then (![-1, 0, 1] : Fin 3 → α) col - 1 / 2
      else -(1 / 2)) = _
    fin_cases col
    · simp
    · simp
    · norm_num

/-- C23: when the recorded input `x` is gradient-bearing, the backward pass of `Relu`
leaves the input values as they are and sets the input gradient at each column to the
output gradient of that column when `x > 0` there and to 0 otherwise, also for `x = 0`;
for `x = [-1, 0, 1]` the input gradient is `[0, 0, g_2]`. -/
theorem relu_backward_spec {α : Type} [LinearOrderedField α] {cols : Nat} (S : Relu α cols)
    (x : GradMatrix α 1 cols)
    (hrec : S.forward_record.input_matrix = some (MatrixRef.grad_matrix x)) :
    (∃ x1 : GradMatrix α 1 cols,
      S.backward = some { forward_record :=
        { S.forward_record with input_matrix := some (MatrixRef.grad_matrix x1) } } ∧
      x1.toMatrix = x.toMatrix ∧
      (∀ col : Fin cols, x1.grad.data 0 col =
        if x.data 0 col > 0 then S.forward_record.output_matrix.grad.data 0 col else 0) ∧
      (∀ col : Fin cols, x.data 0 col = 0 → x1.grad.data 0 col = 0)) ∧
    (∀ (old : Matrix α 1 3) (out : GradMatrix α 1 3),
      ∃ x1 : GradMatrix α 1 3,
        (Relu.mk ⟨some (MatrixRef.grad_matrix ⟨⟨fun _ => ![-1, 0, 1]⟩, old⟩), out⟩).backward =
          some (Relu.mk ⟨some (MatrixRef.grad_matrix x1), out⟩) ∧
        ∀ col : Fin 3, x1.grad.data 0 col = ![0, 0, out.grad.data 0 2] col) := by
  constructor
  · obtain ⟨x1, h1, h2, h3⟩ := relu_backward_eq S x hrec
    refine ⟨x1, h1, h2, h3, ?_⟩
    intro col h0
    rw [h3 col, h0, if_neg (lt_irrefl 0)]
  · intro old out
    obtain ⟨x1, h1, _, h3⟩ := relu_backward_eq
      (Relu.mk ⟨some (MatrixRef.grad_matrix ⟨⟨fun _ => ![-1, 0, 1]⟩, old⟩), out⟩)
      ⟨⟨fun _ => ![-1, 0, 1]⟩, old⟩ rfl
    refine ⟨x1, h1, ?_⟩
    intro col
    rw [h3 col]
    show (if (![-1, 0, 1] : Fin 3 → α) col > 0 then out.grad.data 0 col else 0) = _
    fin_cases col
    · simp
    · simp
    · simp

/-- C23 at the layer `example_relu`, whose forward pass recorded `matrix_x3`. -/
theorem relu_backward_spec_witness :
    example_relu.forward_record.input_matrix = some (MatrixRef.grad_matrix matrix_x3) ∧
    ((∃ x1 : GradMatrix ℚ 1 3,
      example_relu.backward = some { forward_record :=
        { example_relu.forward_record with input_matrix := some (MatrixRef.grad_matrix x1) } } ∧
      x1.toMatrix = matrix_x3.toMatrix ∧
      (∀ col : Fin 3, x1.grad.data 0 col =
        if matrix_x3.data 0 col > 0 then example_relu.forward_record.output_matrix.grad.data 0 col
        else 0) ∧
      (∀ col : Fin 3, matrix_x3.data 0 col = 0 → x1.grad.data 0 col = 0)) ∧
    (∀ (old : Matrix ℚ 1 3) (out : GradMatrix ℚ 1 3),
      ∃ x1 : GradMatrix ℚ 1 3,
        (Relu.mk ⟨some (MatrixRef.grad_matrix ⟨⟨fun _ => ![-1, 0, 1]⟩, old⟩), out⟩).backward =
          some (Relu.mk ⟨some (MatrixRef.grad_matrix x1), out⟩) ∧
        ∀ col : Fin 3, x1.grad.data 0 col = ![0, 0, out.grad.data 0 2] col)) :=
  ⟨rfl, relu_backward_spec example_relu matrix_x3 rfl⟩

/-- The output recorded by `Sigmoid::operator()`. -/
theorem sigmoid_call_output {α : Type} [Field α] {cols : Nat} (exp : α → α)
    (S : Sigmoid α cols) (x : MatrixRef α cols) :
    (S.call exp x).forward_record.output_matrix.grad = S.forward_record.output_matrix.grad ∧
    ∀ col : Fin cols, (S.call exp x).forward_record.output_matrix.data 0 col =
      Sigmoid.sigmoid exp (x.toMatrix.data 0 col) := by
  obtain ⟨h1, h2⟩ := row_loop_data
    (fun col => Sigmoid.sigmoid exp (x.toMatrix.data 0 col))
    (List.finRange cols) S.forward_record.output_matrix
  refine ⟨h1, fun col => ?_⟩
  have := h2 col
  rw [if_pos (List.mem_finRange col)] at this
  exact this

/-- The result of `Sigmoid::backward` when the recorded input is gradient-bearing. -/
theorem sigmoid_backward_eq {α : Type} [Field α] {cols : Nat} (exp : α → α)
    (S : Sigmoid α cols) (x : GradMatrix α 1 cols)
    (hrec : S.forward_record.input_matrix = some (MatrixRef.grad_matrix x)) :
    ∃ x1 : GradMatrix α 1 cols,
      S.backward exp = some { forward_record :=
        { S.forward_record with input_matrix := some (MatrixRef.grad_matrix x1) } } ∧
      x1.toMatrix = x.toMatrix ∧
      ∀ col : Fin cols, x1.grad.data 0 col =
        Sigmoid.sigmoid exp (x.data 0 col) * (1 - Sigmoid.sigmoid exp (x.data 0 col)) *
          S.forward_record.output_matrix.grad.data 0 col := by
  obtain ⟨h1, h2⟩ := row_loop_grad
    (fun (d : Matrix α 1 cols) col =>
      Sigmoid.sigmoid exp (d.data 0 col) * (1 - Sigmoid.sigmoid exp (d.data 0 col)) *
        S.forward_record.output_matrix.grad.data 0 col)
    (List.finRange cols) x
  refine ⟨_, ?_, h1, fun col => ?_⟩
  · unfold Sigmoid.backward
    rw [hrec]
  · have := h2 col
    rw [if_pos (List.mem_finRange col)] at this
    exact this

/-- The result of `MSELoss::backward` when the recorded input is gradient-bearing. -/
theorem mse_backward_eq {α : Type} [CommRing α] (L : MSELoss α) (x : GradMatrix α 1 1)
    (hrec : L.input_matrix = some (MatrixRef.grad_matrix x)) :
    ∃ x1 : GradMatrix α 1 1,
      L.backward = some { L with input_matrix := some (MatrixRef.grad_matrix x1) } ∧
      x1.toMatrix = x.toMatrix ∧
      x1.grad.data 0 0 = 2 * (x.data 0 0 - L.target) := by
  refine ⟨{ x with grad := x.grad.set 0 0 (2 * (x.data 0 0 - L.target)) }, ?_, rfl, ?_⟩
  · unfold MSELoss.backward
    rw [hrec]
  · show (x.grad.set 0 0 (2 * (x.data 0 0 - L.target))).data 0 0 = _
    rw [matrix_set_data, if_pos ⟨rfl, rfl⟩]

theorem sigmoid_real_pos (y : ℝ) : 0 < Sigmoid.sigmoid Real.exp y ∧
    Sigmoid.sigmoid Real.exp y < 1 := by
  unfold Sigmoid.sigmoid
  have he : 0 < Real.exp (-y) := Real.exp_pos _
  constructor
  · positivity
  · rw [div_lt_one (by linarith)]
    linarith

theorem sigmoid_real_deriv (y : ℝ) :
    HasDerivAt (Sigmoid.sigmoid Real.exp)
      (Sigmoid.sigmoid Real.exp y * (1 - Sigmoid.sigmoid Real.exp y)) y := by
  have he : 0 < Real.exp (-y) := Real.exp_pos _
  have hne : 1 + Real.exp (-y) ≠ 0 := by linarith
  have h1 : HasDerivAt (fun z : ℝ => Real.exp (-z)) (Real.exp (-y) * -1) y :=
    (hasDerivAt_id y).neg.exp
  have h2 : HasDerivAt (fun z : ℝ => 1 + Real.exp (-z)) (Real.exp (-y) * -1) y :=
    h1.const_add 1
  have h3 := h2.inv hne
  have hf : Sigmoid.sigmoid Real.exp = fun z : ℝ => (1 + Real.exp (-z))⁻¹ := by
    funext z
    unfold Sigmoid.sigmoid
    rw [one_div]
  rw [hf]
  convert h3 using 1
  field_simp
  ring

/-- C24: over the reals, with the exponential function for `std::exp`, the forward pass
of `Sigmoid` writes `s(x) = 1 / (1 + e^(-x))` for each column, a number strictly between
0 and 1; the backward pass on a gradient-bearing recorded input `x` leaves the input
values as they are and sets the input gradient of each column to
`s(x) * (1 - s(x)) * g`, `g` being the output gradient of the column; and
`s(y) * (1 - s(y))` is the derivative of `s` at every `y`. -/
theorem sigmoid_spec {cols : Nat} (S : Sigmoid ℝ cols) (x : MatrixRef ℝ cols)
    (xg : GradMatrix ℝ 1 cols) (out : GradMatrix ℝ 1 cols) :
    (S.call Real.exp x).forward_record.input_matrix = some x ∧
    (∀ col : Fin cols,
      (S.call Real.exp x).forward_record.output_matrix.data 0 col =
        1 / (1 + Real.exp (-(x.toMatrix.data 0 col))) ∧
      0 < (S.call Real.exp x).forward_record.output_matrix.data 0 col ∧
      (S.call Real.exp x).forward_record.output_matrix.data 0 col < 1) ∧
    (∃ x1 : GradMatrix ℝ 1 cols,
      (Sigmoid.mk ⟨some (MatrixRef.grad_matrix xg), out⟩).backward Real.exp =
        some (Sigmoid.mk ⟨some (MatrixRef.grad_matrix x1), out⟩) ∧
      x1.toMatrix = xg.toMatrix ∧
      ∀ col : Fin cols, x1.grad.data 0 col =
        1 / (1 + Real.exp (-(xg.data 0 col))) * (1 - 1 / (1 + Real.exp (-(xg.data 0 col)))) *
          out.grad.data 0 col) ∧
    (∀ y : ℝ, HasDerivAt (fun z : ℝ => 1 / (1 + Real.exp (-z)))
        (1 / (1 + Real.exp (-y)) * (1 - 1 / (1 + Real.exp (-y)))) y) ∧
    (∀ y : ℝ, Sigmoid.sigmoid Real.exp y = 1 / (1 + Real.exp (-y))) := by
  obtain ⟨_, h⟩ := sigmoid_call_output Real.exp S x
  refine ⟨rfl, ?_, ?_, ?_, fun _ => rfl⟩
  · intro col
    rw [h col]
    exact ⟨rfl, sigmoid_real_pos _⟩
  · exact sigmoid_backward_eq Real.exp (Sigmoid.mk ⟨some (MatrixRef.grad_matrix xg), out⟩) xg rfl
  · exact sigmoid_real_deriv

/-- C25: the forward pass of `MSELoss` on a prediction `p` and a target `t` returns
`(p - t)^2`, which is non-negative and is 0 exactly when `p = t`; the following backward
pass leaves the prediction as it is and sets its gradient to `2 * (p - t)`; and over the
reals `2 * (p - t)` is the derivative of the returned value with respect to `p`. -/
theorem mse_loss_spec {α : Type} [LinearOrderedField α] (L : MSELoss α) (x : GradMatrix α 1 1)
    (t : α) (Lr : MSELoss ℝ) (gr : Matrix ℝ 1 1) (p tr : ℝ) :
    (L.call (MatrixRef.grad_matrix x) t).2 = (x.data 0 0 - t) ^ 2 ∧
    0 ≤ (L.call (MatrixRef.grad_matrix x) t).2 ∧
    ((L.call (MatrixRef.grad_matrix x) t).2 = 0 ↔ x.data 0 0 = t) ∧
    (∃ x1 : GradMatrix α 1 1,
      (L.call (MatrixRef.grad_matrix x) t).1.backward =
        some ⟨some (MatrixRef.grad_matrix x1), t⟩ ∧
      x1.toMatrix = x.toMatrix ∧
      x1.grad.data 0 0 = 2 * (x.data 0 0 - t)) ∧
    HasDerivAt (fun q : ℝ => (Lr.call (MatrixRef.grad_matrix ⟨⟨fun _ _ => q⟩, gr⟩) tr).2)
      (2 * (p - tr)) p := by
  have hval : (L.call (MatrixRef.grad_matrix x) t).2 = (x.data 0 0 - t) ^ 2 := by
    show (x.data 0 0 - t) * (x.data 0 0 - t) = _
    ring
  refine ⟨hval, ?_, ?_, ?_, ?_⟩
  · rw [hval]; exact sq_nonneg _
  · rw [hval, sq_eq_zero_iff, sub_eq_zero]
  · exact mse_backward_eq (L.call (MatrixRef.grad_matrix x) t).1 x rfl
  · show HasDerivAt (fun q : ℝ => (q - tr) * (q - tr)) (2 * (p - tr)) p
    have h1 : HasDerivAt (fun q : ℝ => q - tr) 1 p := (hasDerivAt_id p).sub_const tr
    have h2 := h1.mul h1
    convert h2 using 1
    ring

/-! ## The network: forward pass and stored gradients -/

/-- The result of `Linear::backward` when the recorded input is a plain matrix: the
gradients of the weights and biases are set and nothing is written through the input
pointer. -/
theorem linear_backward_matrix_eq {α : Type} [CommRing α] {n m : Nat} (L : Linear α n m)
    (x : Matrix α 1 n)
    (hrec : L.forward_record.input_matrix = some (MatrixRef.matrix x)) :
    L.backward =
      { L with
        forward_record :=
          { L.forward_record with input_matrix := some (MatrixRef.matrix x) }
        weights := { L.weights with grad := x.t_dot L.forward_record.output_matrix.grad }
        biases := { L.biases with grad := L.forward_record.output_matrix.grad } } := by
  unfold Linear.backward
  rw [hrec]
  rfl

/-- The gradients stored by `NeuralNet::backward` in a network whose layers recorded the
inputs `x`, `o1`, `oR` and `o2`, in terms of the gradient `g` of the network's output. -/
theorem neural_net_backward_eq {α : Type} [LinearOrderedField α] {n : Nat} (exp : α → α)
    (N : NeuralNet α n) (x : Matrix α 1 n) (o1 oR : GradMatrix α 1 8) (o2 : GradMatrix α 1 1)
    (h1 : N.linear_layer_1.forward_record.input_matrix = some (MatrixRef.matrix x))
    (hR : N.layer_1_relu_activation.forward_record.input_matrix =
      some (MatrixRef.grad_matrix o1))
    (h2 : N.linear_layer_2.forward_record.input_matrix = some (MatrixRef.grad_matrix oR))
    (hS : N.layer_2_sigmoid_activation.forward_record.input_matrix =
      some (MatrixRef.grad_matrix o2)) :
    ∃ N1 : NeuralNet α n, N.backward exp = some N1 ∧
      N1.linear_layer_1.weights.toMatrix = N.linear_layer_1.weights.toMatrix ∧
      N1.linear_layer_1.biases.toMatrix = N.linear_layer_1.biases.toMatrix ∧
      N1.linear_layer_2.weights.toMatrix = N.linear_layer_2.weights.toMatrix ∧
      N1.linear_layer_2.biases.toMatrix = N.linear_layer_2.biases.toMatrix ∧
      N1.layer_2_sigmoid_activation.forward_record.output_matrix =
        N.layer_2_sigmoid_activation.forward_record.output_matrix ∧
      (∀ j : Fin 8, N1.linear_layer_2.weights.grad.data j 0 =
        oR.data 0 j * (Sigmoid.sigmoid exp (o2.data 0 0) *
          (1 - Sigmoid.sigmoid exp (o2.data 0 0)) *
          N.layer_2_sigmoid_activation.forward_record.output_matrix.grad.data 0 0)) ∧
      (N1.linear_layer_2.biases.grad.data 0 0 =
        Sigmoid.sigmoid exp (o2.data 0 0) * (1 - Sigmoid.sigmoid exp (o2.data 0 0)) *
          N.layer_2_sigmoid_activation.forward_record.output_matrix.grad.data 0 0) ∧
      (∀ (i : Fin n) (j : Fin 8), N1.linear_layer_1.weights.grad.data i j =
        x.data 0 i * (if o1.data 0 j > 0 then
          Sigmoid.sigmoid exp (o2.data 0 0) * (1 - Sigmoid.sigmoid exp (o2.data 0 0)) *
            N.layer_2_sigmoid_activation.forward_record.output_matrix.grad.data 0 0 *
            N.linear_layer_2.weights.data j 0 else 0)) ∧
      (∀ j : Fin 8, N1.linear_layer_1.biases.grad.data 0 j =
        if o1.data 0 j > 0 then
          Sigmoid.sigmoid exp (o2.data 0 0) * (1 - Sigmoid.sigmoid exp (o2.data 0 0)) *
            N.layer_2_sigmoid_activation.forward_record.output_matrix.grad.data 0 0 *
            N.linear_layer_2.weights.data j 0 else 0) := by
  obtain ⟨o2b, hs, _, hs2⟩ := sigmoid_backward_eq exp N.layer_2_sigmoid_activation o2 hS
  have hl2 := linear_backward_eq
    ({ N.linear_layer_2 with
        forward_record := { N.linear_layer_2.forward_record with output_matrix := o2b } } :
      Linear α 8 1) oR h2
  obtain ⟨o1b, hr, _, hr2⟩ := relu_backward_eq
    ({ forward_record :=
        { N.layer_1_relu_activation.forward_record with
          output_matrix :=
            { oR with grad := o2b.grad.dot_t N.linear_layer_2.weights.toMatrix } } } :
      Relu α 8) o1 hR
  have hl1 := linear_backward_matrix_eq
    ({ N.linear_layer_1 with
        forward_record := { N.linear_layer_1.forward_record with output_matrix := o1b } } :
      Linear α n 8) x h1
  have hN : N.backward exp = some
      { N with
        linear_layer_1 := Linear.backward
          { N.linear_layer_1 with
            forward_record := { N.linear_layer_1.forward_record with output_matrix := o1b } }
        layer_1_relu_activation :=
          { forward_record :=
              { input_matrix := some (MatrixRef.grad_matrix o1b)
                output_matrix :=
                  { oR with grad := o2b.grad.dot_t N.linear_layer_2.weights.toMatrix } } }
        linear_layer_2 := Linear.backward
          { N.linear_layer_2 with
            forward_record := { N.linear_layer_2.forward_record with output_matrix := o2b } }
        layer_2_sigmoid_activation :=
          { forward_record :=
              { N.layer_2_sigmoid_activation.forward_record with
                input_matrix := some (MatrixRef.grad_matrix o2b) } } } := by
    unfold NeuralNet.backward
    rw [hs]
    simp only [written_through]
    rw [hl2]
    simp only []
    rw [hr]
  refine ⟨_, hN, ?_, ?_, ?_, ?_, rfl, ?_, ?_, ?_, ?_⟩
  · show (Linear.backward _).weights.toMatrix = _
    rw [hl1]
  · show (Linear.backward _).biases.toMatrix = _
    rw [hl1]
  · show (Linear.backward _).weights.toMatrix = _
    rw [hl2]
  · show (Linear.backward _).biases.toMatrix = _
    rw [hl2]
  · intro j
    show (Linear.backward _).weights.grad.data j 0 = _
    rw [hl2]
    show (oR.toMatrix.t_dot o2b.grad).data j 0 = _
    rw [t_dot_data, Fin.sum_univ_one, hs2 0]
  · show (Linear.backward _).biases.grad.data 0 0 = _
    rw [hl2]
    exact hs2 0
  · intro i j
    show (Linear.backward _).weights.grad.data i j = _
    rw [hl1]
    show (x.t_dot o1b.grad).data i j = _
    rw [t_dot_data, Fin.sum_univ_one, hr2 j]
    show x.data 0 i * (if o1.data 0 j > 0 then
      (o2b.grad.dot_t N.linear_layer_2.weights.toMatrix).data 0 j else 0) = _
    rw [dot_t_data, Fin.sum_univ_one, hs2 0]
  · intro j
    show (Linear.backward _).biases.grad.data 0 j = _
    rw [hl1]
    show o1b.grad.data 0 j = _
    rw [hr2 j]
    show (if o1.data 0 j > 0 then
      (o2b.grad.dot_t N.linear_layer_2.weights.toMatrix).data 0 j else 0) = _
    rw [dot_t_data, Fin.sum_univ_one, hs2 0]

/-- The values recorded by the layers in `NeuralNet::operator()` on a plain row. -/
theorem neural_net_call_values {α : Type} [LinearOrderedField α] {n : Nat} (exp : α → α)
    (net : NeuralNet α n) (x : Matrix α 1 n) :
    (∀ j : Fin 8, (net.call exp (MatrixRef.matrix x)).linear_layer_1.forward_record.output_matrix.data
      0 j = hidden_reference net x j) ∧
    (∀ j : Fin 8, (net.call exp
      (MatrixRef.matrix x)).layer_1_relu_activation.forward_record.output_matrix.data 0 j =
        activation_reference net x j) ∧
    (Sigmoid.sigmoid exp ((net.call exp
      (MatrixRef.matrix x)).linear_layer_2.forward_record.output_matrix.data 0 0) =
        prediction_reference exp net x) ∧
    ((net.call exp
      (MatrixRef.matrix x)).layer_2_sigmoid_activation.forward_record.output_matrix.data 0 0 =
        prediction_reference exp net x) := by
  have e1 : ∀ j : Fin 8, (net.linear_layer_1.call
      (MatrixRef.matrix x)).forward_record.output_matrix.data 0 j = hidden_reference net x j :=
    fun j => linear_call_output _ _ j
  have e2 : ∀ j : Fin 8, (net.layer_1_relu_activation.call (MatrixRef.grad_matrix
      (net.linear_layer_1.call (MatrixRef.matrix x)).forward_record.output_matrix)
      ).forward_record.output_matrix.data 0 j = activation_reference net x j := by
    intro j
    rw [(relu_call_output _ _).2 j]
    show (if (net.linear_layer_1.call
        (MatrixRef.matrix x)).forward_record.output_matrix.data 0 j > 0 then
      (net.linear_layer_1.call (MatrixRef.matrix x)).forward_record.output_matrix.data 0 j
        - 1 / 2 else -(1 / 2)) = _
    rw [e1 j]
    rfl
  have e3 : Sigmoid.sigmoid exp ((net.linear_layer_2.call (MatrixRef.grad_matrix
      (net.layer_1_relu_activation.call (MatrixRef.grad_matrix
        (net.linear_layer_1.call (MatrixRef.matrix x)).forward_record.output_matrix)
        ).forward_record.output_matrix)).forward_record.output_matrix.data 0 0) =
      prediction_reference exp net x := by
    rw [linear_call_output]
    unfold prediction_reference Sigmoid.sigmoid
    have : ∀ j : Fin 8, (MatrixRef.grad_matrix
        (net.layer_1_relu_activation.call (MatrixRef.grad_matrix
          (net.linear_layer_1.call (MatrixRef.matrix x)).forward_record.output_matrix)
          ).forward_record.output_matrix).toMatrix.data 0 j = activation_reference net x j := e2
    simp only [this]
  refine ⟨e1, e2, e3, ?_⟩
  show (Sigmoid.call exp _ _).forward_record.output_matrix.data 0 0 = _
  rw [(sigmoid_call_output exp _ _).2 0]
  exact e3

/-- C26: for every network, loss layer, input row `x` and target `t`, and every function
`exp` in the place of `std::exp`, the forward pass leaves the prediction
`p = sigmoid(a . W2 + b2)` in the network's output, with `h = x . W1 + b1` and
`a_j = h_j - 0.5` if `h_j > 0`, else `-0.5`; and the loss forward pass, `loss.backward`
and `NeuralNet::backward` that follow it in `NeuralNetModel::train` have a result, leave
the weights and biases as they are, and store, with `d = 2 (p - t) p (1 - p)`:
`a_j * d` in the layer 2 weight gradient `[j][0]`, `d` in the layer 2 bias gradient,
`x_i * d * W2[j][0]` if `h_j > 0`, else 0, in the layer 1 weight gradient `[i][j]`, and
`d * W2[j][0]` if `h_j > 0`, else 0, in the layer 1 bias gradient `[j]`. -/
theorem neural_net_chain_rule {α : Type} [LinearOrderedField α] {n : Nat} (exp : α → α)
    (net : NeuralNet α n) (loss : MSELoss α) (x : Matrix α 1 n) (t : α) :
    (net.call exp (MatrixRef.matrix x)).layer_2_sigmoid_activation.forward_record.output_matrix.data
      0 0 = prediction_reference exp net x ∧
    ∃ (net1 : NeuralNet α n) (loss1 : MSELoss α),
      NeuralNetModel.forward_backward exp net loss (x, t) = some (net1, loss1) ∧
      net1.layer_2_sigmoid_activation.forward_record.output_matrix.data 0 0 =
        prediction_reference exp net x ∧
      net1.linear_layer_1.weights.toMatrix = net.linear_layer_1.weights.toMatrix ∧
      net1.linear_layer_1.biases.toMatrix = net.linear_layer_1.biases.toMatrix ∧
      net1.linear_layer_2.weights.toMatrix = net.linear_layer_2.weights.toMatrix ∧
      net1.linear_layer_2.biases.toMatrix = net.linear_layer_2.biases.toMatrix ∧
      (∀ j : Fin 8, net1.linear_layer_2.weights.grad.data j 0 =
        activation_reference net x j * delta_reference exp net x t) ∧
      net1.linear_layer_2.biases.grad.data 0 0 = delta_reference exp net x t ∧
      (∀ (i : Fin n) (j : Fin 8), net1.linear_layer_1.weights.grad.data i j =
        if hidden_reference net x j > 0 then
          x.data 0 i * delta_reference exp net x t * net.linear_layer_2.weights.data j 0
        else 0) ∧
      (∀ j : Fin 8, net1.linear_layer_1.biases.grad.data 0 j =
        if hidden_reference net x j > 0 then
          delta_reference exp net x t * net.linear_layer_2.weights.data j 0
        else 0) := by
  obtain ⟨v1, v2, v3, v4⟩ := neural_net_call_values exp net x
  refine ⟨v4, ?_⟩
  obtain ⟨oS, hb, hb1, hb2⟩ := mse_backward_eq
    (loss.call (MatrixRef.grad_matrix (net.call exp
      (MatrixRef.matrix x)).layer_2_sigmoid_activation.forward_record.output_matrix) t).1
    (net.call exp (MatrixRef.matrix x)).layer_2_sigmoid_activation.forward_record.output_matrix
    rfl
  have hbt : oS.grad.data 0 0 = 2 * (prediction_reference exp net x - t) := by
    rw [hb2, v4]
    rfl
  obtain ⟨N1, hN, w1, w2, w3, w4, w5, g1, g2, g3, g4⟩ := neural_net_backward_eq exp
    ({ net.call exp (MatrixRef.matrix x) with
        layer_2_sigmoid_activation :=
          { forward_record :=
              { (net.call exp
                  (MatrixRef.matrix x)).layer_2_sigmoid_activation.forward_record with
                output_matrix := oS } } } : NeuralNet α n)
    x
    (net.call exp (MatrixRef.matrix x)).linear_layer_1.forward_record.output_matrix
    (net.call exp (MatrixRef.matrix x)).layer_1_relu_activation.forward_record.output_matrix
    (net.call exp (MatrixRef.matrix x)).linear_layer_2.forward_record.output_matrix
    rfl rfl rfl rfl
  have hd : Sigmoid.sigmoid exp ((net.call exp
        (MatrixRef.matrix x)).linear_layer_2.forward_record.output_matrix.data 0 0) *
      (1 - Sigmoid.sigmoid exp ((net.call exp
        (MatrixRef.matrix x)).linear_layer_2.forward_record.output_matrix.data 0 0)) *
      oS.grad.data 0 0 = delta_reference exp net x t := by
    rw [v3, hbt]
    unfold delta_reference
    ring
  refine ⟨N1, ⟨some (MatrixRef.grad_matrix oS), t⟩, ?_, ?_, w1, w2, w3, w4, ?_, ?_, ?_, ?_⟩
  · unfold NeuralNetModel.forward_backward
    simp only []
    rw [hb]
    simp only [written_through]
    rw [hN]
    rfl
  · rw [w5]
    show oS.data 0 0 = _
    have : oS.data 0 0 = (net.call exp (MatrixRef.matrix
        x)).layer_2_sigmoid_activation.forward_record.output_matrix.data 0 0 := by
      show oS.toMatrix.data 0 0 = _
      rw [hb1]
    rw [this, v4]
  · intro j
    rw [g1 j, v2 j]
    exact congrArg _ hd
  · rw [g2]
    exact hd
  · intro i j
    rw [g3 i j, v1 j]
    by_cases hpos : hidden_reference net x j > 0
    · rw [if_pos hpos, if_pos hpos]
      show x.data 0 i * (Sigmoid.sigmoid exp _ * (1 - Sigmoid.sigmoid exp _) *
        oS.grad.data 0 0 * net.linear_layer_2.weights.data j 0) = _
      rw [hd]
      ring
    · rw [if_neg hpos, if_neg hpos, mul_zero]
  · intro j
    rw [g4 j, v1 j]
    by_cases hpos : hidden_reference net x j > 0
    · rw [if_pos hpos, if_pos hpos]
      show Sigmoid.sigmoid exp _ * (1 - Sigmoid.sigmoid exp _) *
        oS.grad.data 0 0 * net.linear_layer_2.weights.data j 0 = _
      rw [hd]
    · rw [if_neg hpos, if_neg hpos]

/-! ## `calculate_rows_to_use`: safety -/

theorem calculate_rows_to_use_le (t d : Int) (rows : Nat) :
    calculate_rows_to_use t d rows ≤ rows := by
  unfold calculate_rows_to_use
  by_cases h : d ≥ t ∨ d ≤ 0
  · rw [if_pos h]
  · rw [if_neg h]
    have hd : (0 : ℚ) < (d : ℚ) := by
      have : 0 < d := by omega
      exact_mod_cast this
    have hdt : (d : ℚ) < (t : ℚ) := by
      have : d < t := by omega
      exact_mod_cast this
    have ht : (0 : ℚ) < (t : ℚ) := lt_trans hd hdt
    have hr : (0 : ℚ) ≤ (rows : ℚ) := Nat.cast_nonneg rows
    have hq1 : (d : ℚ) / (t : ℚ) ≤ 1 := by
      rw [div_le_one ht]; exact hdt.le
    have hq0 : 0 ≤ (d : ℚ) / (t : ℚ) := div_nonneg hd.le ht.le
    have hv : ((d : ℚ) / (t : ℚ)) * (rows : ℚ) ≤ (rows : ℚ) := by
      calc ((d : ℚ) / (t : ℚ)) * (rows : ℚ) ≤ 1 * (rows : ℚ) :=
            mul_le_mul_of_nonneg_right hq1 hr
        _ = (rows : ℚ) := one_mul _
    have hv0 : 0 ≤ ((d : ℚ) / (t : ℚ)) * (rows : ℚ) := mul_nonneg hq0 hr
    unfold std_round
    rw [if_pos hv0, Int.toNat_le]
    have : ⌊((d : ℚ) / (t : ℚ)) * (rows : ℚ) + 1 / 2⌋ < (rows : Int) + 1 := by
      rw [Int.floor_lt]
      push_cast
      linarith
    omega

/-- C32: for all `total_divisions`, `divisions_to_use` and `total_rows`, the division in
`calculate_rows_to_use` is evaluated only when `0 < divisions_to_use < total_divisions`,
so never with the divisor 0 (the function with a partial division always has the result
of `calculate_rows_to_use`), and the result is at most `total_rows`; so in `validate`
the number of rows by which the iterator is advanced is at most the size of the
validation set, and at most the number of rows of its data table when that has as many
rows as there are row indices. -/
theorem calculate_rows_to_use_safe :
    (∀ (t d : Int) (rows : Nat),
      calculate_rows_to_use_checked t d rows = some (calculate_rows_to_use t d rows)) ∧
    (∀ (t d : Int), ¬(d ≥ t ∨ d ≤ 0) → 0 < d ∧ d < t ∧ t ≠ 0) ∧
    (∀ (t d : Int) (rows : Nat), calculate_rows_to_use t d rows ≤ rows) ∧
    (∀ (M : DecisionTreeModel) (e : Fin 256),
      calculate_rows_to_use 8 ((e : Nat) : Int) M.validation_set.size ≤ M.validation_set.size ∧
      (M.validation_set.row_indices.length = M.validation_set.data_table.length →
        (M.validation_set.data_table.take
          (calculate_rows_to_use 8 ((e : Nat) : Int) M.validation_set.size)).length =
          calculate_rows_to_use 8 ((e : Nat) : Int) M.validation_set.size)) := by
  refine ⟨?_, ?_, calculate_rows_to_use_le, ?_⟩
  · intro t d rows
    unfold calculate_rows_to_use_checked calculate_rows_to_use
    by_cases h : d ≥ t ∨ d ≤ 0
    · rw [if_pos h, if_pos h]
    · rw [if_neg h, if_neg h, if_neg (by omega)]
  · intro t d h
    omega
  · intro M e
    have h := calculate_rows_to_use_le 8 ((e : Nat) : Int) M.validation_set.size
    refine ⟨h, fun hload => ?_⟩
    rw [List.length_take]
    have : M.validation_set.size = M.validation_set.data_table.length := hload
    omega

/-! ## Copying and assigning a node -/

/-- C33, as the code behaves: the state of a node after `operator=` is that of a copy
of `rhs`, except that `split_val` holds `rhs.split_var`; the two agree exactly when
`rhs.split_val` is `rhs.split_var`. For the node `node_five` (split at `row[0] < 3`) the
assignment leaves `split_val = 0`, the copy constructor `split_val = 3`. -/
theorem operator_assign_split_val (self : DecisionTreeNode) (left right : Tree)
    (rhs : DecisionTreeNode) :
    self.operator_assign left right rhs =
      ({ rhs.copy.1 with split_val := (rhs.split_var : ℚ) }, Tree.nullptr, Tree.nullptr) ∧
    (self.operator_assign left right rhs = rhs.copy ↔ rhs.split_val = (rhs.split_var : ℚ)) ∧
    (self.operator_assign left right node_five).1.split_val = 0 ∧
    node_five.copy.1.split_val = 3 ∧
    self.operator_assign left right node_five ≠ node_five.copy := by
  have h1 : self.operator_assign left right rhs =
      ({ rhs.copy.1 with split_val := (rhs.split_var : ℚ) }, Tree.nullptr, Tree.nullptr) := rfl
  have h2 : self.operator_assign left right rhs = rhs.copy ↔
      rhs.split_val = (rhs.split_var : ℚ) := by
    constructor
    · intro h
      have := congrArg (fun p : DecisionTreeNode × Tree × Tree => p.1.split_val) h
      exact this.symm
    · intro h
      rw [h1]
      unfold DecisionTreeNode.copy
      simp only []
      rw [h]
  refine ⟨h1, h2, ?_, rfl, ?_⟩
  · show ((node_five.split_var : Int) : ℚ) = 0
    simp [node_five]
  · intro h
    have := congrArg (fun p : DecisionTreeNode × Tree × Tree => p.1.split_val) h
    have e1 : (self.operator_assign left right node_five).1.split_val = 0 := by
      show ((node_five.split_var : Int) : ℚ) = 0
      simp [node_five]
    have e2 : node_five.copy.1.split_val = 3 := rfl
    simp only [e1, e2] at this
    norm_num at this

/-! ## `Linear::backward`: the three states of the input pointer -/

/-- C34: `Linear::backward` in the three states of the recorded input pointer. When it
points to a plain matrix `x`, only the gradients of the weights and the biases are set
and the record, with the input it points to, is as before; when it is null, the layer is
as before; when it points to a gradient-bearing matrix, the gradient of that matrix is
set as well and its values are as before. The first layer of the network records the
dataset row it is fed as a plain matrix. -/
theorem linear_backward_cases {α : Type} [CommRing α] {n m : Nat} (learning_rate : α)
    (out : GradMatrix α 1 m) (weights : GradMatrix α n m) (biases : GradMatrix α 1 m)
    (x : Matrix α 1 n) (xg : GradMatrix α 1 n) {β : Type} [LinearOrderedField β] {k : Nat}
    (exp : β → β) (net : NeuralNet β k) (row : Matrix β 1 k) :
    (Linear.mk learning_rate ⟨some (MatrixRef.matrix x), out⟩ weights biases).backward =
      Linear.mk learning_rate ⟨some (MatrixRef.matrix x), out⟩
        { weights with grad := x.t_dot out.grad } { biases with grad := out.grad } ∧
    (Linear.mk learning_rate ⟨none, out⟩ weights biases).backward =
      Linear.mk learning_rate ⟨none, out⟩ weights biases ∧
    (Linear.mk learning_rate ⟨some (MatrixRef.grad_matrix xg), out⟩ weights biases).backward =
      Linear.mk learning_rate
        ⟨some (MatrixRef.grad_matrix { xg with grad := out.grad.dot_t weights.toMatrix }), out⟩
        { weights with grad := xg.toMatrix.t_dot out.grad } { biases with grad := out.grad } ∧
    (net.call exp (MatrixRef.matrix row)).linear_layer_1.forward_record.input_matrix =
      some (MatrixRef.matrix row) :=
  ⟨rfl, rfl, rfl, rfl⟩

/-! ## `Relu::operator()` against its comment -/

/-- C35, amended: in the forward pass of `Relu` each output element is the input element
with the negative values replaced by 0 (the input if positive, 0 otherwise) minus `1/2`,
so it is never that element itself; on the row `[-1, 0, 1]` the output is
`[-1/2, -1/2, 1/2]`, where replacing the negative values by 0 gives `[0, 0, 1]`. -/
theorem relu_forward_shifted {α : Type} [LinearOrderedField α] {cols : Nat} (S : Relu α cols)
    (x : MatrixRef α cols) (S3 : Relu α 3) :
    (∀ col : Fin cols, (S.call x).forward_record.output_matrix.data 0 col =
      relu_reference (x.toMatrix.data 0 col) - 1 / 2) ∧
    (∀ col : Fin cols, (S.call x).forward_record.output_matrix.data 0 col ≠
      relu_reference (x.toMatrix.data 0 col)) ∧
    (∀ col : Fin 3,
      (S3.call (MatrixRef.matrix ⟨fun _ => ![-1, 0, 1]⟩)).forward_record.output_matrix.data 0 col
        = ![-(1 / 2), -(1 / 2), 1 / 2] col ∧
      relu_reference ((![-1, 0, 1] : Fin 3 → α) col) = ![0, 0, 1] col) := by
  have h : ∀ {c : Nat} (R : Relu α c) (y : MatrixRef α c) (col : Fin c),
      (R.call y).forward_record.output_matrix.data 0 col =
        relu_reference (y.toMatrix.data 0 col) - 1 / 2 := by
    intro c R y col
    rw [(relu_call_output R y).2 col]
    unfold relu_reference
    by_cases hp : y.toMatrix.data 0 col > 0
    · rw [if_pos hp, if_pos hp]
    · rw [if_neg hp, if_neg hp, zero_sub]
  refine ⟨h S x, ?_, ?_⟩
  · intro col heq
    rw [h S x col] at heq
    have : (1 / 2 : α) = 0 := by linarith
    norm_num at this
  · intro col
    rw [h S3 _ col]
    show relu_reference ((![-1, 0, 1] : Fin 3 → α) col) - 1 / 2 = _ ∧ _
    unfold relu_reference
    fin_cases col
    · simp
    · simp
    · norm_num

/-! ## `NeuralNetDataset::load_data` -/

theorem load_row_size {α : Type} [CommRing α] {x_variables x_variables_to_use : Nat}
    (self : NeuralNetDataset α x_variables x_variables_to_use) (row : Nat) (line : List α) :
    (self.load_row row line).size = self.size + 1 := by
  unfold NeuralNetDataset.load_row NeuralNetDataset.size
  simp only [List.length_set]
  have : ∀ (l : List (Fin x_variables_to_use))
      (t : List (Matrix α 1 x_variables_to_use × α)),
      (l.foldl (fun data_table col =>
        data_table.set row
          (((data_table.getD row (Matrix.zero, 0)).1.set 0 col (line.getD col 0)),
            (data_table.getD row (Matrix.zero, 0)).2)) t).length = t.length := by
    intro l
    induction l with
    | nil => intro t; rfl
    | cons a l ih => intro t; rw [List.foldl_cons, ih, List.length_set]
  rw [this, List.length_append]
  rfl

theorem load_data_size {α : Type} [CommRing α] {x_variables x_variables_to_use : Nat}
    (csv_file : List (List α)) :
    ∀ (self : NeuralNetDataset α x_variables x_variables_to_use) (row : Nat),
    (csv_file.foldl (fun (state : NeuralNetDataset α x_variables x_variables_to_use × Nat) line =>
      (state.1.load_row state.2 line, state.2 + 1)) (self, row)).1.size =
      self.size + csv_file.length := by
  induction csv_file with
  | nil => intro self row; rfl
  | cons line rest ih =>
    intro self row
    rw [List.foldl_cons, ih, load_row_size, List.length_cons]
    show self.size + 1 + rest.length = self.size + (rest.length + 1)
    omega

/-- C36, as the code behaves: `load_data` appends one row per line of the file to the
rows the dataset holds, so afterwards `size()` is the old size plus the number of lines:
it is the number of lines on a dataset that held no row, as in the constructor, and
never on one that held rows. The dataset `example_nn_dataset`, holding the one row
`([1], 0)`, has size 2 after loading a file of the one line `2,1`: its rows are then
`([2], 1)` and the zero row `([0], 0)`. -/
theorem load_data_appends {α : Type} [CommRing α] {x_variables x_variables_to_use : Nat}
    (self : NeuralNetDataset α x_variables x_variables_to_use) (csv_file : List (List α)) :
    (self.load_data csv_file).size = self.size + csv_file.length ∧
    ((NeuralNetDataset.new csv_file :
      NeuralNetDataset α x_variables x_variables_to_use).size = csv_file.length) ∧
    (0 < self.size → (self.load_data csv_file).size ≠ csv_file.length) ∧
    example_nn_dataset.size = 1 ∧
    (example_nn_dataset.load_data [[2, 1]]).size = 2 ∧
    example_nn_dataset.data_table.map (fun r => (r.1.data 0 0, r.2)) = [(1, 0)] ∧
    (example_nn_dataset.load_data [[2, 1]]).data_table.map (fun r => (r.1.data 0 0, r.2)) =
      [(2, 1), (0, 0)] := by
  have h : ∀ (ds : NeuralNetDataset α x_variables x_variables_to_use),
      (ds.load_data csv_file).size = ds.size + csv_file.length :=
    fun ds => load_data_size csv_file ds 0
  refine ⟨h self, ?_, ?_, ?_, ?_, by decide!, by decide!⟩
  · show (NeuralNetDataset.load_data { data_table := [] } csv_file).size = _
    rw [h]
    show 0 + csv_file.length = _
    omega
  · intro hpos
    rw [h]
    omega
  · exact load_data_size [[1, 0]] _ 0
  · exact (load_data_size [[2, 1]] example_nn_dataset 0).trans
      (by rw [show example_nn_dataset.size = 1 from load_data_size [[1, 0]] _ 0]; rfl)

/-! ## The split stored at the nodes of a trained tree -/

/-- The split stored by `get_best_split`: the default `(0, 0)`, or a column below
`x_vars_to_use` with the value of that column in a row of the group. -/
theorem get_best_split_bounds (ds : DecisionTreeDataset) (self : DecisionTreeNode) :
    ((self.get_best_split ds).split_var = 0 ∧ (self.get_best_split ds).split_val = 0) ∨
    (∃ i ∈ self.group ds, ∃ f, f < self.x_vars_to_use ∧
      (self.get_best_split ds).split_var = (f : Int) ∧
      (self.get_best_split ds).split_val = (ds.at i).get f) := by
  obtain ⟨_, g2, g3⟩ := get_best_split_split ds self
  rcases best_split_scan_spec (self.calculate_gini_index ds) (self.candidates ds) with
    ⟨hinit, _⟩ | ⟨P1, c, P2, hcs, hvar, hval, _⟩
  · left
    rw [g2, g3, hinit]
    exact ⟨rfl, rfl⟩
  · right
    have hc : c ∈ self.candidates ds := by rw [hcs]; simp
    obtain ⟨i, hi, f, hf, hcf⟩ := (mem_candidates ds self c).mp hc
    refine ⟨i, hi, f, hf, ?_, ?_⟩
    · rw [g2, hvar, hcf]
    · rw [g3, hval, hcf]

/-- After `train` the data table and `x_vars` are as before, and every index of the
node's group sits at a position of the node's range. -/
theorem train_group_positions (ds : DecisionTreeDataset) (self : DecisionTreeNode)
    (hbe : self.group_begin ≤ self.group_end)
    (hend : self.group_end ≤ ds.row_indices.length) :
    (self.train ds Tree.nullptr Tree.nullptr).1.data_table = ds.data_table ∧
    (self.train ds Tree.nullptr Tree.nullptr).1.x_vars = ds.x_vars ∧
    ∀ i ∈ self.group ds, ∃ pos, self.group_begin ≤ pos ∧ pos < self.group_end ∧
      (self.train ds Tree.nullptr Tree.nullptr).1.row_indices.getD pos 0 = i := by
  obtain ⟨f1, f2, f3, f4⟩ := train_frame (6 - self.depth) ds self Tree.nullptr Tree.nullptr
    (Nat.le_refl _) hbe hend
  refine ⟨f1, f2, ?_⟩
  intro i hi
  have hperm := slice_perm ds.row_indices _ self.group_begin self.group_end hbe f3
    f3.length_eq f4
  have hi2 := hperm.mem_iff.mpr hi
  exact (mem_slice _ _ _ (by rw [f3.length_eq]; exact hend) i).mp hi2

theorem split_within_congr (ds ds2 : DecisionTreeDataset) (x lo hi : Nat)
    (hdt : ds2.data_table = ds.data_table) (hxv : ds2.x_vars = ds.x_vars)
    (hagree : ∀ pos, lo ≤ pos → pos < hi →
      ds2.row_indices.getD pos 0 = ds.row_indices.getD pos 0) :
    ∀ t : Tree, t.ranges_within lo hi → t.split_within ds x → t.split_within ds2 x := by
  have hat : ∀ i, ds2.at i = ds.at i := by
    intro i; unfold DecisionTreeDataset.at; rw [hdt]
  intro t
  induction t with
  | nullptr => intro _ _; trivial
  | node n left right ihl ihr =>
    intro hw h
    obtain ⟨w1, w2, wl, wr⟩ := hw
    obtain ⟨a, b, c⟩ := h
    refine ⟨fun hch => ?_, ihl wl b, ihr wr c⟩
    obtain ⟨a1, a2, a3, a4⟩ := a hch
    refine ⟨a1, a2, by rw [hxv]; exact a3, ?_⟩
    rcases a4 with ⟨pos, p1, p2, p3⟩ | hdef
    · left
      refine ⟨pos, p1, p2, ?_⟩
      rw [hat, hagree pos (by omega) (by omega)]
      exact p3
    · right; exact hdef

theorem split_within_leaf (ds : DecisionTreeDataset) (x : Nat) (n : DecisionTreeNode) :
    (Tree.node n Tree.nullptr Tree.nullptr).ranges_within n.group_begin n.group_end ∧
    (Tree.node n Tree.nullptr Tree.nullptr).split_within ds x :=
  ⟨⟨Nat.le_refl _, Nat.le_refl _, trivial, trivial⟩,
    ⟨fun h => by rcases h with h | h <;> exact absurd rfl h, trivial, trivial⟩⟩

/-- The ranges of the nodes and the condition of C31 for the tree built by `train`. -/
theorem train_split_within (k : Nat) : ∀ (ds : DecisionTreeDataset) (self : DecisionTreeNode),
    6 - self.depth ≤ k →
    self.group_begin ≤ self.group_end → self.group_end ≤ ds.row_indices.length →
    1 ≤ self.x_vars_to_use → self.x_vars_to_use ≤ ds.x_vars →
    (self.train ds Tree.nullptr Tree.nullptr).2.ranges_within self.group_begin self.group_end ∧
    (self.train ds Tree.nullptr Tree.nullptr).2.split_within
      (self.train ds Tree.nullptr Tree.nullptr).1 self.x_vars_to_use := by
  induction k with
  | zero =>
    intro ds self hk _ _ _ _
    rw [train_of_stop ds self _ _ (by omega)]
    exact split_within_leaf ds _ (self.become_leaf ds)
  | succ k ih =>
    intro ds self hk hbe hend hx1 hx2
    by_cases hc : self.depth < 6 ∧ self.group_size > 10
    · by_cases hd : ((self.get_best_split ds).split_group ds).2 = self.group_begin ∨
          ((self.get_best_split ds).split_group ds).2 = self.group_end
      · rw [train_of_degenerate ds self _ _ hc hd]
        exact split_within_leaf _ _ ((self.get_best_split ds).become_leaf _)
      · obtain ⟨t1, t2, t3⟩ := train_group_positions ds self hbe hend
        rw [train_of_split ds self _ _ hc hd] at t1 t2 t3 ⊢
        have hgb := get_best_split_bounds ds self
        obtain ⟨_, s2, s3, s4, _⟩ := split_group_frame ds (self.get_best_split ds) hbe hend
        have s3 : self.group_begin ≤ ((self.get_best_split ds).split_group ds).2 := s3
        have s4 : ((self.get_best_split ds).split_group ds).2 ≤ self.group_end := s4
        have hxv0 : ((self.get_best_split ds).split_group ds).1.x_vars = ds.x_vars := rfl
        generalize (self.get_best_split ds).split_group ds = sp at *
        obtain ⟨il1, il2⟩ := ih sp.1
          (DecisionTreeNode.new (self.depth + 1) self.group_begin sp.2 self.x_vars_to_use)
          (by simp only [DecisionTreeNode.new]; omega) s3
          (by simp only [DecisionTreeNode.new]; omega) hx1 (by rw [hxv0]; exact hx2)
        obtain ⟨_, l2, l3, _⟩ := train_frame (6 - (self.depth + 1)) sp.1
          (DecisionTreeNode.new (self.depth + 1) self.group_begin sp.2 self.x_vars_to_use)
          Tree.nullptr Tree.nullptr (Nat.le_refl _) s3
          (by simp only [DecisionTreeNode.new]; omega)
        generalize DecisionTreeNode.train sp.1
          (DecisionTreeNode.new (self.depth + 1) self.group_begin sp.2 self.x_vars_to_use)
          Tree.nullptr Tree.nullptr = l at *
        obtain ⟨ir1, ir2⟩ := ih l.1
          (DecisionTreeNode.new (self.depth + 1) sp.2 self.group_end self.x_vars_to_use)
          (by simp only [DecisionTreeNode.new]; omega) s4
          (by simp only [DecisionTreeNode.new]; rw [l3.length_eq]; omega) hx1
          (by rw [l2, hxv0]; exact hx2)
        obtain ⟨r1, r2, _, r4⟩ := train_frame (6 - (self.depth + 1)) l.1
          (DecisionTreeNode.new (self.depth + 1) sp.2 self.group_end self.x_vars_to_use)
          Tree.nullptr Tree.nullptr (Nat.le_refl _) s4
          (by simp only [DecisionTreeNode.new]; rw [l3.length_eq]; omega)
        generalize DecisionTreeNode.train l.1
          (DecisionTreeNode.new (self.depth + 1) sp.2 self.group_end self.x_vars_to_use)
          Tree.nullptr Tree.nullptr = r at *
        simp only [DecisionTreeNode.new] at il1 il2 ir1 ir2 r4
        have t1 : r.1.data_table = ds.data_table := t1
        have t2 : r.1.x_vars = ds.x_vars := t2
        have t3 : ∀ i ∈ self.group ds, ∃ pos, self.group_begin ≤ pos ∧ pos < self.group_end ∧
            r.1.row_indices.getD pos 0 = i := t3
        have hatr : ∀ i, r.1.at i = ds.at i := by
          intro i; unfold DecisionTreeDataset.at; rw [t1]
        refine ⟨⟨Nat.le_refl _, Nat.le_refl _,
          ranges_within_mono _ _ _ _ (Nat.le_refl _) s4 _ il1,
          ranges_within_mono _ _ _ _ s3 (Nat.le_refl _) _ ir1⟩, ?_, ?_, ir2⟩
        · intro _
          rcases hgb with ⟨d1, d2⟩ | ⟨i, hi, f, hf, e1, e2⟩
          · refine ⟨by rw [d1], by rw [d1]; exact_mod_cast hx1, ?_, Or.inr ⟨d1, d2⟩⟩
            rw [d1, t2]
            show 0 < ds.x_vars
            omega
          · refine ⟨by rw [e1]; exact Int.natCast_nonneg f, by rw [e1]; exact_mod_cast hf, ?_,
              Or.inl ?_⟩
            · rw [e1, t2, Int.toNat_ofNat]
              omega
            · obtain ⟨pos, p1, p2, p3⟩ := t3 i hi
              refine ⟨pos, p1, p2, ?_⟩
              rw [hatr, p3, e1, Int.toNat_ofNat]
              exact e2
        · exact split_within_congr l.1 r.1 self.x_vars_to_use self.group_begin sp.2 r1 r2
            (fun pos _ h2 => r4 pos (Or.inl h2)) l.2 il1 il2
    · rw [train_of_stop ds self _ _ hc]
      exact split_within_leaf ds _ (self.become_leaf ds)

/-- C31: for a root node with `1 <= x_vars_to_use <= x_vars` over a range of the index
vector, after `train` every node of the tree that has a child has
`0 <= split_var < x_vars_to_use`, so the column read by the split and by `predict` is
one of the selected feature columns of the row, and its `split_val` is the value of
that column in the row of some index in the range of the node, or `split_var` and
`split_val` are both 0. -/
theorem train_split_var_in_bounds (ds : DecisionTreeDataset) (self : DecisionTreeNode)
    (hbe : self.group_begin ≤ self.group_end)
    (hend : self.group_end ≤ ds.row_indices.length)
    (hx1 : 1 ≤ self.x_vars_to_use) (hx2 : self.x_vars_to_use ≤ ds.x_vars) :
    (self.train ds Tree.nullptr Tree.nullptr).2.split_within
      (self.train ds Tree.nullptr Tree.nullptr).1 self.x_vars_to_use ∧
    (self.train ds Tree.nullptr Tree.nullptr).1.x_vars = ds.x_vars ∧
    (self.train ds Tree.nullptr Tree.nullptr).1.data_table = ds.data_table :=
  ⟨(train_split_within (6 - self.depth) ds self (Nat.le_refl _) hbe hend hx1 hx2).2,
    (train_group_positions ds self hbe hend).2.1, (train_group_positions ds self hbe hend).1⟩

/-- C31 at the root node over the whole of `dataset_separable`. -/
theorem train_split_var_in_bounds_witness :
    (DecisionTreeNode.new 0 0 12 1).group_begin ≤ (DecisionTreeNode.new 0 0 12 1).group_end ∧
    (DecisionTreeNode.new 0 0 12 1).group_end ≤ dataset_separable.row_indices.length ∧
    1 ≤ (DecisionTreeNode.new 0 0 12 1).x_vars_to_use ∧
    (DecisionTreeNode.new 0 0 12 1).x_vars_to_use ≤ dataset_separable.x_vars ∧
    (((DecisionTreeNode.new 0 0 12 1).train dataset_separable Tree.nullptr Tree.nullptr).2.split_within
      ((DecisionTreeNode.new 0 0 12 1).train dataset_separable Tree.nullptr Tree.nullptr).1
      (DecisionTreeNode.new 0 0 12 1).x_vars_to_use ∧
    ((DecisionTreeNode.new 0 0 12 1).train dataset_separable Tree.nullptr Tree.nullptr).1.x_vars =
      dataset_separable.x_vars ∧
    ((DecisionTreeNode.new 0 0 12 1).train dataset_separable Tree.nullptr Tree.nullptr).1.data_table =
      dataset_separable.data_table) :=
  ⟨by decide, by decide, by decide, by decide,
    train_split_var_in_bounds dataset_separable (DecisionTreeNode.new 0 0 12 1)
      (by decide) (by decide) (by decide) (by decide)⟩

/-! ## `Relu::operator()` on the row `[-1, 0, 1]` -/

/-- C35 as stated fails on the row `[-1, 0, 1]`: the output of the forward pass is not the
row with the negative values replaced by 0, since its last element is `1/2` and not
`1`. -/
theorem relu_forward_shifted_counterexample :
    ¬ ∀ col : Fin 3,
      ((Relu.mk ⟨none, ⟨⟨fun _ _ => 0⟩, ⟨fun _ _ => 0⟩⟩⟩ : Relu ℚ 3).call
        (MatrixRef.matrix ⟨fun _ => ![-1, 0, 1]⟩)).forward_record.output_matrix.data 0 col =
      relu_reference ((![-1, 0, 1] : Fin 3 → ℚ) col) := by
  intro h
  have h2 := h 2
  rw [(relu_call_output _ _).2 2] at h2
  have e : (MatrixRef.matrix (⟨fun _ => ![-1, 0, 1]⟩ : Matrix ℚ 1 3)).toMatrix.data 0 2 = 1 := rfl
  rw [e] at h2
  have e2 : relu_reference ((![-1, 0, 1] : Fin 3 → ℚ) 2) = 1 := by
    unfold relu_reference
    simp
  rw [e2] at h2
  norm_num at h2

/-! ## `double` arithmetic: numbers that are not rounded -/

theorem binary_log_spec (fuel : Nat) : ∀ n : Nat, 1 ≤ n → n ≤ fuel →
    2 ^ binary_log fuel n ≤ n ∧ n < 2 ^ (binary_log fuel n + 1) := by
  induction fuel with
  | zero => intro n h1 h2; omega
  | succ fuel ih =>
    intro n h1 h2
    unfold binary_log
    by_cases h : 2 ≤ n
    · rw [if_pos h]
      obtain ⟨a, b⟩ := ih (n / 2) (by omega) (by omega)
      rw [pow_succ, pow_succ]
      rw [pow_succ] at b
      constructor
      · omega
      · omega
    · rw [if_neg h]
      constructor
      · simp; omega
      · simp; omega

/-- The binary exponent of a non-zero rational is a lower bound of its size. -/
theorem binary_exponent_le (q : ℚ) (hq : q ≠ 0) : (2 : ℚ) ^ binary_exponent q ≤ |q| := by
  unfold binary_exponent
  by_cases h : (2 : ℚ) ^ ((binary_log q.num.natAbs q.num.natAbs : Int)
      - (binary_log q.den q.den : Int)) ≤ |q|
  · rw [if_pos h]; exact h
  · rw [if_neg h]
    have hnum : 1 ≤ q.num.natAbs := by
      have : q.num ≠ 0 := Rat.num_ne_zero.mpr hq
      omega
    have hden : 1 ≤ q.den := q.den_pos
    obtain ⟨a1, _⟩ := binary_log_spec q.num.natAbs q.num.natAbs hnum (Nat.le_refl _)
    obtain ⟨_, b2⟩ := binary_log_spec q.den q.den hden (Nat.le_refl _)
    have habs : |q| = (q.num.natAbs : ℚ) / (q.den : ℚ) := by
      conv_lhs => rw [← Rat.num_div_den q]
      rw [abs_div, Nat.abs_cast, Nat.cast_natAbs, Int.cast_abs]
    rw [habs]
    have e1 : (2 : ℚ) ^ ((binary_log q.num.natAbs q.num.natAbs : Int)
        - (binary_log q.den q.den : Int) - 1) =
        (2 : ℚ) ^ (binary_log q.num.natAbs q.num.natAbs) /
          (2 : ℚ) ^ (binary_log q.den q.den + 1) := by
      have : ((binary_log q.num.natAbs q.num.natAbs : Int) - (binary_log q.den q.den : Int) - 1)
          = (binary_log q.num.natAbs q.num.natAbs : Int)
            - ((binary_log q.den q.den + 1 : Nat) : Int) := by push_cast; ring
      rw [this, zpow_sub₀ (by norm_num : (2 : ℚ) ≠ 0), zpow_natCast, zpow_natCast]
    rw [e1]
    have c1 : (2 : ℚ) ^ (binary_log q.num.natAbs q.num.natAbs) ≤ (q.num.natAbs : ℚ) := by
      exact_mod_cast a1
    have c2 : (q.den : ℚ) ≤ (2 : ℚ) ^ (binary_log q.den q.den + 1) := by
      exact_mod_cast b2.le
    have c3 : (0 : ℚ) < (q.den : ℚ) := by exact_mod_cast hden
    have c4 : (0 : ℚ) ≤ (2 : ℚ) ^ (binary_log q.num.natAbs q.num.natAbs) := by positivity
    calc (2 : ℚ) ^ (binary_log q.num.natAbs q.num.natAbs) /
          (2 : ℚ) ^ (binary_log q.den q.den + 1)
        ≤ (2 : ℚ) ^ (binary_log q.num.natAbs q.num.natAbs) / (q.den : ℚ) :=
          div_le_div_of_nonneg_left c4 c3 c2
      _ ≤ (q.num.natAbs : ℚ) / (q.den : ℚ) :=
          div_le_div_of_nonneg_right c1 c3.le

theorem round_half_even_intCast (z : Int) : round_half_even (z : ℚ) = z := by
  unfold round_half_even
  rw [Int.floor_intCast, sub_self, if_pos (by norm_num)]

/-- A rational `n / 2^j` with `n < 2^53` is a `double`: rounding leaves it as it is. -/
theorem to_double_exact (n j : Nat) (hn : n < 2 ^ 53) :
    to_double ((n : ℚ) / 2 ^ j) = (n : ℚ) / 2 ^ j := by
  by_cases h0 : n = 0
  · subst h0
    unfold to_double
    rw [if_pos (by simp)]
    simp
  · have hnpos : (0 : ℚ) < (n : ℚ) := by exact_mod_cast Nat.pos_of_ne_zero h0
    have hqpos : (0 : ℚ) < (n : ℚ) / 2 ^ j := by positivity
    have hq : (n : ℚ) / 2 ^ j ≠ 0 := ne_of_gt hqpos
    have hlow := binary_exponent_le _ hq
    rw [abs_of_pos hqpos] at hlow
    have hup : (n : ℚ) / 2 ^ j < (2 : ℚ) ^ ((53 : Int) - (j : Int)) := by
      rw [zpow_sub₀ (by norm_num : (2 : ℚ) ≠ 0), zpow_natCast]
      have : (n : ℚ) < (2 : ℚ) ^ (53 : Int) := by
        have h53 : (n : ℚ) < ((2 ^ 53 : Nat) : ℚ) := by exact_mod_cast hn
        have e53 : ((2 ^ 53 : Nat) : ℚ) = (2 : ℚ) ^ (53 : Int) := by norm_num
        rw [e53] at h53
        exact h53
      exact div_lt_div_of_pos_right this (by positivity)
    have hlt : binary_exponent ((n : ℚ) / 2 ^ j) < (53 : Int) - (j : Int) :=
      (zpow_lt_zpow_iff_right₀ (by norm_num : (1 : ℚ) < 2)).mp (lt_of_le_of_lt hlow hup)
    unfold to_double
    rw [if_neg hq]
    generalize binary_exponent ((n : ℚ) / 2 ^ j) = e at hlt
    obtain ⟨K, hK⟩ : ∃ K : Nat, (K : Int) = 52 - (j : Int) - e :=
      ⟨(52 - (j : Int) - e).toNat, Int.toNat_of_nonneg (by omega)⟩
    have he : e - 52 = -((j : Int) + (K : Int)) := by omega
    have h2 : (2 : ℚ) ≠ 0 := by norm_num
    have hdiv : (n : ℚ) / 2 ^ j / (2 : ℚ) ^ (e - 52) = (((n * 2 ^ K : Nat) : Int) : ℚ) := by
      rw [he, zpow_neg, zpow_add₀ h2, zpow_natCast, zpow_natCast]
      push_cast
      field_simp
      ring
    rw [hdiv, round_half_even_intCast, he, zpow_neg, zpow_add₀ h2, zpow_natCast, zpow_natCast]
    push_cast
    field_simp
    ring

/-! ## `calculate_rows_to_use` in `double` arithmetic -/

/-- For `total_divisions = 8` and fewer than `2^50` rows every intermediate value of
`calculate_rows_to_use` is a `double`, so the `double` computation returns what the
computation in exact arithmetic returns. -/
theorem calculate_rows_to_use_double_eight (d : Int) (rows : Nat) (hrows : rows < 2 ^ 50) :
    calculate_rows_to_use_double 8 d rows = calculate_rows_to_use 8 d rows := by
  unfold calculate_rows_to_use_double calculate_rows_to_use
  by_cases h : d ≥ 8 ∨ d ≤ 0
  · rw [if_pos h, if_pos h]
  · rw [if_neg h, if_neg h]
    obtain ⟨n, hn⟩ : ∃ n : Nat, (n : Int) = d := ⟨d.toNat, Int.toNat_of_nonneg (by omega)⟩
    have hn8 : n < 8 := by omega
    have hd : (d : ℚ) = (n : ℚ) := by rw [← hn]; simp
    have e1 : to_double (d : ℚ) = (n : ℚ) := by
      have := to_double_exact n 0 (by omega)
      rw [pow_zero, div_one] at this
      rw [hd]; exact this
    have e2 : to_double ((8 : Int) : ℚ) = 8 := by
      have := to_double_exact 8 0 (by norm_num)
      rw [pow_zero, div_one] at this
      exact_mod_cast this
    have e3 : to_double ((n : ℚ) / 8) = (n : ℚ) / 8 := by
      have := to_double_exact n 3 (by omega)
      norm_num at this
      exact this
    have e4 : to_double (rows : ℚ) = (rows : ℚ) := by
      have := to_double_exact rows 0 (by omega)
      rw [pow_zero, div_one] at this
      exact this
    have e5 : to_double ((n : ℚ) / 8 * (rows : ℚ)) = (n : ℚ) / 8 * (rows : ℚ) := by
      have hlt : n * rows < 2 ^ 53 := by
        have h7 : n * rows ≤ 7 * rows := Nat.mul_le_mul_right rows (by omega)
        omega
      have := to_double_exact (n * rows) 3 hlt
      have e : (((n * rows : Nat) : ℚ)) / 2 ^ 3 = (n : ℚ) / 8 * (rows : ℚ) := by
        push_cast; ring
      rw [e] at this
      exact this
    rw [e1, e2, e3, e4, e5, hd]
    norm_num

/-- C13 as stated fails at `(10, 7, 45)`: seven tenths of 45 rows is `31.5`, which rounds
to 32 with halves away from zero, but the `double` quotient `7.0 / 10` is below `7/10`
and its product with 45 is the `double` below `31.5`, so the function returns 31. -/
theorem calculate_rows_to_use_spec_counterexample :
    calculate_rows_to_use_double 10 7 45 = 31 ∧
    std_round (((7 : Int) : ℚ) / ((10 : Int) : ℚ) * ((45 : Nat) : ℚ)) = 32 ∧
    ¬ (((calculate_rows_to_use_double 10 7 45 : Nat) : ℚ) - 1 / 2 ≤
        ((7 : Int) : ℚ) / ((10 : Int) : ℚ) * ((45 : Nat) : ℚ) ∧
      ((7 : Int) : ℚ) / ((10 : Int) : ℚ) * ((45 : Nat) : ℚ) <
        ((calculate_rows_to_use_double 10 7 45 : Nat) : ℚ) + 1 / 2) := by
  have h : calculate_rows_to_use_double 10 7 45 = 31 := by decide!
  refine ⟨h, by decide!, ?_⟩
  rw [h]
  norm_num

/-- C13, amended: `calculate_rows_to_use`, with its `double` arithmetic, returns
`total_rows` when `divisions_to_use <= 0` or `divisions_to_use >= total_divisions`; for
`total_divisions = 8`, the value the repository passes, and fewer than `2^50` rows it
otherwise returns the integer nearest to `(divisions_to_use / 8) * total_rows`, a halfway
value going to the integer above (away from zero, the value being non-negative): the
result `r` satisfies `r - 1/2 <= value < r + 1/2`. In particular `(8, 4, 1000)` gives
500, `(8, 0, 1000)` gives 1000 and `(8, 9, 1000)` gives 1000. -/
theorem calculate_rows_to_use_spec :
    (∀ (t d : Int) (rows : Nat), (d ≤ 0 ∨ d ≥ t) →
      calculate_rows_to_use_double t d rows = rows) ∧
    (∀ (d : Int) (rows : Nat), ¬(d ≤ 0 ∨ d ≥ 8) → rows < 2 ^ 50 →
      ((calculate_rows_to_use_double 8 d rows : ℚ) - 1 / 2 ≤ ((d : ℚ) / 8) * (rows : ℚ)) ∧
      (((d : ℚ) / 8) * (rows : ℚ) < (calculate_rows_to_use_double 8 d rows : ℚ) + 1 / 2) ∧
      calculate_rows_to_use_double 8 d rows =
        (std_round (((d : ℚ) / 8) * (rows : ℚ))).toNat) ∧
    calculate_rows_to_use_double 8 4 1000 = 500 ∧
    calculate_rows_to_use_double 8 0 1000 = 1000 ∧
    calculate_rows_to_use_double 8 9 1000 = 1000 := by
  refine ⟨?_, ?_, by decide!, by decide!, by decide!⟩
  · intro t d rows h
    unfold calculate_rows_to_use_double
    rw [if_pos (Or.comm.mp h)]
  · intro d rows h hrows
    have hne : ¬(d ≥ 8 ∨ d ≤ 0) := fun h2 => h (Or.comm.mp h2)
    rw [calculate_rows_to_use_double_eight d rows hrows]
    obtain ⟨a, b⟩ := calculate_rows_to_use_nearest 8 d rows hne
    have e8 : (((8 : Int) : ℚ)) = 8 := by norm_num
    rw [e8] at a b
    refine ⟨a, b, ?_⟩
    unfold calculate_rows_to_use
    rw [if_neg hne, e8]

/-! ## `get_best_split`: the order of the search -/

theorem get_best_split_col_scored_fold (gini : Nat → ℚ → ℚ) (row : Row) (cols : List Nat) :
    ∀ st : BestSplit,
    cols.foldl (get_best_split_col_scored gini row) st =
      (cols.map (fun col => (col, row.get col))).foldl (fun st c =>
        if st.done then st
        else if gini c.1 c.2 < st.best_gini_index then
          { best_gini_index := gini c.1 c.2, best_val := c.2, best_var := c.1,
            done := if gini c.1 c.2 = 0 then true else st.done }
        else st) st := by
  induction cols with
  | nil => intro st; rfl
  | cons c cols ih => intro st; rw [List.foldl_cons, ih]; rfl

theorem get_best_split_row_scored_fold (gini : Nat → ℚ → ℚ) (ds : DecisionTreeDataset)
    (self : DecisionTreeNode) (l : List Nat) : ∀ st : BestSplit,
    l.foldl (get_best_split_row_scored gini ds self) st =
      (l.flatMap (fun i => (List.range self.x_vars_to_use).map
          (fun col => (col, (ds.at i).get col)))).foldl (fun st c =>
        if st.done then st
        else if gini c.1 c.2 < st.best_gini_index then
          { best_gini_index := gini c.1 c.2, best_val := c.2, best_var := c.1,
            done := if gini c.1 c.2 = 0 then true else st.done }
        else st) st := by
  induction l with
  | nil => intro st; rfl
  | cons i l ih =>
    intro st
    rw [List.foldl_cons, List.flatMap_cons, List.foldl_append, ← ih]
    congr 1
    unfold get_best_split_row_scored
    by_cases h : st.done = true
    · rw [if_pos h, fold_of_done _ _ st h]
    · rw [if_neg h, get_best_split_col_scored_fold]

/-- The two nested loops of `get_best_split` are one scan over the candidates, whatever
the impurity function. -/
theorem best_split_search_scored_eq_scan (gini : Nat → ℚ → ℚ) (ds : DecisionTreeDataset)
    (self : DecisionTreeNode) :
    self.best_split_search_scored gini ds = best_split_scan gini (self.candidates ds) := by
  unfold DecisionTreeNode.best_split_search_scored best_split_scan DecisionTreeNode.candidates
  exact get_best_split_row_scored_fold gini ds self _ _

/-- With the impurity in exact arithmetic, the loops with a given impurity function are
the loops of `get_best_split`. -/
theorem get_best_split_scored_exact (ds : DecisionTreeDataset) (self : DecisionTreeNode) :
    self.get_best_split_scored (self.calculate_gini_index ds) ds = self.get_best_split ds :=
  rfl

/-- C5, amended: whatever value the call of `calculate_gini_index` returns for each
candidate (the function `gini`; candidates of equal exact impurity may get different
`double` values), if some candidate has a value strictly below `1/2` then the candidates
in examination order (rows in range order, then features `0 .. x_vars_to_use - 1`) split
as `P1 ++ c :: P2` where `c` is the stored split and every candidate before `c` has a
strictly larger value. If the search did not stop early, every candidate after `c` has
a value at least that of `c`; if it stopped early, `c` has value 0 and the result is the
same whatever candidates follow `c`. When no value is negative, `c` has the least value
of all candidates, and if some candidate has value exactly 0 then `c` is the first such
candidate and no candidate after it influences the result. -/
theorem get_best_split_first_minimum (gini : Nat → ℚ → ℚ) (ds : DecisionTreeDataset)
    (self : DecisionTreeNode)
    (hex : ∃ c ∈ self.candidates ds, gini c.1 c.2 < 1 / 2) :
    ∃ P1 c P2, self.candidates ds = P1 ++ c :: P2 ∧
      (self.get_best_split_scored gini ds).split_var = (c.1 : Int) ∧
      (self.get_best_split_scored gini ds).split_val = c.2 ∧
      (∀ c' ∈ P1, gini c.1 c.2 < gini c'.1 c'.2) ∧
      ((self.best_split_search_scored gini ds).done = false →
        ∀ c' ∈ P2, gini c.1 c.2 ≤ gini c'.1 c'.2) ∧
      ((self.best_split_search_scored gini ds).done = true →
        gini c.1 c.2 = 0 ∧
        ∀ rest, best_split_scan gini (P1 ++ c :: rest) =
          self.best_split_search_scored gini ds) ∧
      ((∀ c' ∈ self.candidates ds, 0 ≤ gini c'.1 c'.2) →
        (∀ c' ∈ P2, gini c.1 c.2 ≤ gini c'.1 c'.2) ∧
        ((∃ c0 ∈ self.candidates ds, gini c0.1 c0.2 = 0) →
          gini c.1 c.2 = 0 ∧ (∀ c' ∈ P1, gini c'.1 c'.2 ≠ 0) ∧
          ∀ rest, best_split_scan gini (P1 ++ c :: rest) =
            self.best_split_search_scored gini ds)) := by
  have hsv : (self.get_best_split_scored gini ds).split_var =
      ((best_split_scan gini (self.candidates ds)).best_var : Int) := by
    rw [← best_split_search_scored_eq_scan]; rfl
  have hsl : (self.get_best_split_scored gini ds).split_val =
      (best_split_scan gini (self.candidates ds)).best_val := by
    rw [← best_split_search_scored_eq_scan]; rfl
  rw [hsv, hsl, best_split_search_scored_eq_scan]
  obtain ⟨c0, hc0, hg0⟩ := hex
  rcases best_split_scan_spec gini (self.candidates ds) with
    ⟨_, hall⟩ | ⟨P1, c, P2, hcs, hvar, hval, _, _, hP1, hdone, hnot⟩
  · exact absurd hg0 (not_lt.mpr (hall c0 hc0))
  · have hstop : (best_split_scan gini (self.candidates ds)).done = true →
        gini c.1 c.2 = 0 ∧ ∀ rest, best_split_scan gini (P1 ++ c :: rest) =
          best_split_scan gini (self.candidates ds) := by
      intro hd
      obtain ⟨h0, hscan⟩ := hdone hd
      refine ⟨h0, fun rest => ?_⟩
      rw [hscan] at hd
      rw [hscan]
      have := best_split_scan_of_done gini (P1 ++ [c]) rest hd
      simpa using this
    refine ⟨P1, c, P2, hcs, by rw [hvar], hval, hP1, fun hd => (hnot hd).2, hstop, ?_⟩
    intro hnn
    constructor
    · intro c' hc'
      by_cases hd : (best_split_scan gini (self.candidates ds)).done = true
      · rw [(hdone hd).1]
        exact hnn c' (by rw [hcs]; simp [hc'])
      · exact (hnot (by simpa using hd)).2 c' hc'
    · intro hz
      have hd := best_split_scan_done_of_zero _ _ hnn hz
      obtain ⟨h0, hrest⟩ := hstop hd
      refine ⟨h0, ?_, hrest⟩
      intro c' hc' hzero
      have := hP1 c' hc'
      rw [h0, hzero] at this
      exact lt_irrefl _ this

/-- C5, amended, at the root node over `dataset_three`, with the impurity in `double`
arithmetic. -/
theorem get_best_split_first_minimum_witness :
    (∃ c ∈ (DecisionTreeNode.new 0 0 3 1).candidates dataset_three,
      (DecisionTreeNode.new 0 0 3 1).calculate_gini_index_double dataset_three c.1 c.2 < 1 / 2) ∧
    ∃ P1 c P2, (DecisionTreeNode.new 0 0 3 1).candidates dataset_three = P1 ++ c :: P2 ∧
      ((DecisionTreeNode.new 0 0 3 1).get_best_split_scored ((DecisionTreeNode.new 0 0 3 1).calculate_gini_index_double dataset_three)
        dataset_three).split_var = (c.1 : Int) ∧
      ((DecisionTreeNode.new 0 0 3 1).get_best_split_scored ((DecisionTreeNode.new 0 0 3 1).calculate_gini_index_double dataset_three)
        dataset_three).split_val = c.2 ∧
      (∀ c' ∈ P1, ((DecisionTreeNode.new 0 0 3 1).calculate_gini_index_double dataset_three) c.1 c.2 < ((DecisionTreeNode.new 0 0 3 1).calculate_gini_index_double dataset_three) c'.1 c'.2) ∧
      (((DecisionTreeNode.new 0 0 3 1).best_split_search_scored ((DecisionTreeNode.new 0 0 3 1).calculate_gini_index_double dataset_three) dataset_three).done = false →
        ∀ c' ∈ P2, ((DecisionTreeNode.new 0 0 3 1).calculate_gini_index_double dataset_three) c.1 c.2 ≤ ((DecisionTreeNode.new 0 0 3 1).calculate_gini_index_double dataset_three) c'.1 c'.2) ∧
      (((DecisionTreeNode.new 0 0 3 1).best_split_search_scored ((DecisionTreeNode.new 0 0 3 1).calculate_gini_index_double dataset_three) dataset_three).done = true →
        ((DecisionTreeNode.new 0 0 3 1).calculate_gini_index_double dataset_three) c.1 c.2 = 0 ∧
        ∀ rest, best_split_scan ((DecisionTreeNode.new 0 0 3 1).calculate_gini_index_double dataset_three) (P1 ++ c :: rest) =
          (DecisionTreeNode.new 0 0 3 1).best_split_search_scored ((DecisionTreeNode.new 0 0 3 1).calculate_gini_index_double dataset_three) dataset_three) ∧
      ((∀ c' ∈ (DecisionTreeNode.new 0 0 3 1).candidates dataset_three, 0 ≤ ((DecisionTreeNode.new 0 0 3 1).calculate_gini_index_double dataset_three) c'.1 c'.2) →
        (∀ c' ∈ P2, ((DecisionTreeNode.new 0 0 3 1).calculate_gini_index_double dataset_three) c.1 c.2 ≤ ((DecisionTreeNode.new 0 0 3 1).calculate_gini_index_double dataset_three) c'.1 c'.2) ∧
        ((∃ c0 ∈ (DecisionTreeNode.new 0 0 3 1).candidates dataset_three, ((DecisionTreeNode.new 0 0 3 1).calculate_gini_index_double dataset_three) c0.1 c0.2 = 0) →
          ((DecisionTreeNode.new 0 0 3 1).calculate_gini_index_double dataset_three) c.1 c.2 = 0 ∧ (∀ c' ∈ P1, ((DecisionTreeNode.new 0 0 3 1).calculate_gini_index_double dataset_three) c'.1 c'.2 ≠ 0) ∧
          ∀ rest, best_split_scan ((DecisionTreeNode.new 0 0 3 1).calculate_gini_index_double dataset_three) (P1 ++ c :: rest) =
            (DecisionTreeNode.new 0 0 3 1).best_split_search_scored ((DecisionTreeNode.new 0 0 3 1).calculate_gini_index_double dataset_three) dataset_three)) :=
  ⟨⟨(0, 3), by decide!, by decide!⟩,
    get_best_split_first_minimum
      ((DecisionTreeNode.new 0 0 3 1).calculate_gini_index_double dataset_three) dataset_three
      (DecisionTreeNode.new 0 0 3 1) ⟨(0, 3), by decide!, by decide!⟩⟩

/-- The tie of `dataset_three`: the splits at 3 and at 4 both have the exact impurity
`1/3`, and the search on exact impurities stores the first, `(0, 3)`; in `double`
arithmetic the split at 3 gets `0.33333333333333337` and the split at 4 gets
`0.3333333333333333`, and the search on these values stores `(0, 4)`. -/
theorem get_best_split_tie_example :
    (DecisionTreeNode.new 0 0 3 1).calculate_gini_index dataset_three 0 3 = 1 / 3 ∧
    (DecisionTreeNode.new 0 0 3 1).calculate_gini_index dataset_three 0 4 = 1 / 3 ∧
    ((DecisionTreeNode.new 0 0 3 1).get_best_split dataset_three).split_val = 3 ∧
    (DecisionTreeNode.new 0 0 3 1).calculate_gini_index_double dataset_three 0 3 =
      3002399751580331 / 9007199254740992 ∧
    (DecisionTreeNode.new 0 0 3 1).calculate_gini_index_double dataset_three 0 4 =
      6004799503160661 / 18014398509481984 ∧
    ((DecisionTreeNode.new 0 0 3 1).get_best_split_scored
      ((DecisionTreeNode.new 0 0 3 1).calculate_gini_index_double dataset_three)
      dataset_three).split_var = 0 ∧
    ((DecisionTreeNode.new 0 0 3 1).get_best_split_scored
      ((DecisionTreeNode.new 0 0 3 1).calculate_gini_index_double dataset_three)
      dataset_three).split_val = 4 :=
  ⟨by decide!, by decide!, by decide!, by decide!, by decide!, by decide!, by decide!⟩

/-! ## `double` arithmetic: the rounding is to a nearest `double` -/

/-- The binary exponent of a non-zero rational is an upper bound of its size, less one. -/
theorem binary_exponent_lt (q : ℚ) (hq : q ≠ 0) : |q| < (2 : ℚ) ^ (binary_exponent q + 1) := by
  unfold binary_exponent
  by_cases h : (2 : ℚ) ^ ((binary_log q.num.natAbs q.num.natAbs : Int)
      - (binary_log q.den q.den : Int)) ≤ |q|
  · rw [if_pos h]
    have hnum : 1 ≤ q.num.natAbs := by
      have : q.num ≠ 0 := Rat.num_ne_zero.mpr hq
      omega
    have hden : 1 ≤ q.den := q.den_pos
    obtain ⟨_, a2⟩ := binary_log_spec q.num.natAbs q.num.natAbs hnum (Nat.le_refl _)
    obtain ⟨b1, _⟩ := binary_log_spec q.den q.den hden (Nat.le_refl _)
    have habs : |q| = (q.num.natAbs : ℚ) / (q.den : ℚ) := by
      conv_lhs => rw [← Rat.num_div_den q]
      rw [abs_div, Nat.abs_cast, Nat.cast_natAbs, Int.cast_abs]
    rw [habs]
    have e1 : (2 : ℚ) ^ ((binary_log q.num.natAbs q.num.natAbs : Int)
        - (binary_log q.den q.den : Int) + 1) =
        (2 : ℚ) ^ (binary_log q.num.natAbs q.num.natAbs + 1) /
          (2 : ℚ) ^ (binary_log q.den q.den) := by
      have : ((binary_log q.num.natAbs q.num.natAbs : Int) - (binary_log q.den q.den : Int) + 1)
          = ((binary_log q.num.natAbs q.num.natAbs + 1 : Nat) : Int)
            - ((binary_log q.den q.den : Nat) : Int) := by push_cast; ring
      rw [this, zpow_sub₀ (by norm_num : (2 : ℚ) ≠ 0), zpow_natCast, zpow_natCast]
    rw [e1]
    have c1 : (q.num.natAbs : ℚ) < (2 : ℚ) ^ (binary_log q.num.natAbs q.num.natAbs + 1) := by
      exact_mod_cast a2
    have c2 : (2 : ℚ) ^ (binary_log q.den q.den) ≤ (q.den : ℚ) := by
      exact_mod_cast b1
    have c3 : (0 : ℚ) < (2 : ℚ) ^ (binary_log q.den q.den) := by positivity
    have c4 : (0 : ℚ) < (q.den : ℚ) := by exact_mod_cast hden
    have c5 : (0 : ℚ) ≤ (q.num.natAbs : ℚ) := Nat.cast_nonneg _
    calc (q.num.natAbs : ℚ) / (q.den : ℚ)
        ≤ (q.num.natAbs : ℚ) / (2 : ℚ) ^ (binary_log q.den q.den) :=
          div_le_div_of_nonneg_left c5 c3 c2
      _ < (2 : ℚ) ^ (binary_log q.num.natAbs q.num.natAbs + 1) /
          (2 : ℚ) ^ (binary_log q.den q.den) :=
          div_lt_div_of_pos_right c1 c3
  · rw [if_neg h]
    have : (binary_log q.num.natAbs q.num.natAbs : Int) - (binary_log q.den q.den : Int) - 1 + 1
        = (binary_log q.num.natAbs q.num.natAbs : Int) - (binary_log q.den q.den : Int) := by
      ring
    rw [this]
    exact not_le.mp h

/-- Rounding to an integer moves a number by at most one half. -/
theorem round_half_even_near (x : ℚ) : |(round_half_even x : ℚ) - x| ≤ 1 / 2 := by
  have h1 := Int.floor_le x
  have h2 := Int.lt_floor_add_one x
  unfold round_half_even
  rw [abs_le]
  by_cases a : x - (⌊x⌋ : ℚ) < 1 / 2
  · rw [if_pos a]
    constructor <;> linarith
  · rw [if_neg a]
    by_cases b : x - (⌊x⌋ : ℚ) > 1 / 2
    · rw [if_pos b]
      push_cast
      constructor <;> linarith
    · rw [if_neg b]
      have hx : x - (⌊x⌋ : ℚ) = 1 / 2 := le_antisymm (not_lt.mp b) (not_lt.mp a)
      by_cases c : ⌊x⌋ % 2 = 0
      · rw [if_pos c]
        constructor <;> linarith
      · rw [if_neg c]
        push_cast
        constructor <;> linarith

/-- The rounding `to_double` returns a multiple of `2^(e - 52)`, `e` being the binary
exponent of `q`, at most half of `2^(e - 52)` away from `q`: a nearest `double`. -/
theorem to_double_near (q : ℚ) (hq : q ≠ 0) :
    (∃ m : Int, to_double q = (m : ℚ) * (2 : ℚ) ^ (binary_exponent q - 52)) ∧
    |to_double q - q| ≤ (2 : ℚ) ^ (binary_exponent q - 53) := by
  unfold to_double
  rw [if_neg hq]
  refine ⟨⟨_, rfl⟩, ?_⟩
  have hpos : (0 : ℚ) < (2 : ℚ) ^ (binary_exponent q - 52) := by positivity
  have hnear := round_half_even_near (q / (2 : ℚ) ^ (binary_exponent q - 52))
  have e : (round_half_even (q / (2 : ℚ) ^ (binary_exponent q - 52)) : ℚ) *
      (2 : ℚ) ^ (binary_exponent q - 52) - q =
      ((round_half_even (q / (2 : ℚ) ^ (binary_exponent q - 52)) : ℚ) -
        q / (2 : ℚ) ^ (binary_exponent q - 52)) * (2 : ℚ) ^ (binary_exponent q - 52) := by
    field_simp
  rw [e, abs_mul, abs_of_pos hpos]
  have e2 : (2 : ℚ) ^ (binary_exponent q - 53) = 1 / 2 * (2 : ℚ) ^ (binary_exponent q - 52) := by
    have : binary_exponent q - 53 = (binary_exponent q - 52) - 1 := by ring
    rw [this, zpow_sub₀ (by norm_num : (2 : ℚ) ≠ 0), zpow_one]
    ring
  rw [e2]
  exact mul_le_mul_of_nonneg_right hnear hpos.le

/-! ## `calculate_rows_to_use` in `double` arithmetic: the bound on the result -/

/-- The relative error of the rounding `to_double` is at most `2^-53`. -/
theorem to_double_rel (q : ℚ) : |to_double q - q| ≤ |q| * (1 / 2 ^ 53) := by
  by_cases hq : q = 0
  · subst hq
    unfold to_double
    rw [if_pos rfl]
    simp
  · obtain ⟨_, hnear⟩ := to_double_near q hq
    have hlow := binary_exponent_le q hq
    have e : (2 : ℚ) ^ (binary_exponent q - 53) =
        (2 : ℚ) ^ binary_exponent q * (1 / 2 ^ 53) := by
      have : binary_exponent q - 53 = binary_exponent q - ((53 : Nat) : Int) := by norm_num
      rw [this, zpow_sub₀ (by norm_num : (2 : ℚ) ≠ 0), zpow_natCast]
      ring
    rw [e] at hnear
    exact le_trans hnear (mul_le_mul_of_nonneg_right hlow (by positivity))

/-- On a non-negative number the rounding `to_double` is non-negative and exceeds the
number by at most the factor `1 + 2^-53`. -/
theorem to_double_bounds (q : ℚ) (hq : 0 ≤ q) :
    0 ≤ to_double q ∧ to_double q ≤ q * (1 + 1 / 2 ^ 53) := by
  have h := to_double_rel q
  rw [abs_of_nonneg hq, abs_le] at h
  obtain ⟨h1, h2⟩ := h
  constructor
  · have : q * (1 / 2 ^ 53) ≤ q := by
      calc q * (1 / 2 ^ 53) ≤ q * 1 := mul_le_mul_of_nonneg_left (by norm_num) hq
        _ = q := mul_one q
    linarith
  · linarith

/-- The bound of `calculate_rows_to_use` holds of the `double` computation as well, for a
`total_divisions` in the range of `int`: the result is at most `total_rows`. -/
theorem calculate_rows_to_use_double_le (t d : Int) (rows : Nat) (ht : t < 2 ^ 31) :
    calculate_rows_to_use_double t d rows ≤ rows := by
  unfold calculate_rows_to_use_double
  by_cases h : d ≥ t ∨ d ≤ 0
  · rw [if_pos h]
  · rw [if_neg h]
    obtain ⟨nd, hnd⟩ : ∃ n : Nat, (n : Int) = d := ⟨d.toNat, Int.toNat_of_nonneg (by omega)⟩
    obtain ⟨nt, hnt⟩ : ∃ n : Nat, (n : Int) = t := ⟨t.toNat, Int.toNat_of_nonneg (by omega)⟩
    have hdq : (d : ℚ) = (nd : ℚ) := by rw [← hnd]; simp
    have htq : (t : ℚ) = (nt : ℚ) := by rw [← hnt]; simp
    have e1 : to_double (d : ℚ) = (nd : ℚ) := by
      have := to_double_exact nd 0 (by omega)
      rw [pow_zero, div_one] at this
      rw [hdq]; exact this
    have e2 : to_double (t : ℚ) = (nt : ℚ) := by
      have := to_double_exact nt 0 (by omega)
      rw [pow_zero, div_one] at this
      rw [htq]; exact this
    rw [e1, e2]
    have hntpos : (0 : ℚ) < (nt : ℚ) := by
      have : 0 < nt := by omega
      exact_mod_cast this
    have hndpos : (0 : ℚ) < (nd : ℚ) := by
      have : 0 < nd := by omega
      exact_mod_cast this
    -- the quotient is at most `1 - 2^-31`
    have hx : (nd : ℚ) / (nt : ℚ) ≤ 1 - 1 / 2 ^ 31 := by
      rw [div_le_iff₀ hntpos]
      have h1 : (nd : ℚ) + 1 ≤ (nt : ℚ) := by
        have : nd + 1 ≤ nt := by omega
        exact_mod_cast this
      have h2 : (nt : ℚ) ≤ 2 ^ 31 := by
        have : nt ≤ 2 ^ 31 := by omega
        exact_mod_cast this
      have h3 : (nt : ℚ) * (1 / 2 ^ 31) ≤ 1 := by
        calc (nt : ℚ) * (1 / 2 ^ 31) ≤ 2 ^ 31 * (1 / 2 ^ 31) :=
              mul_le_mul_of_nonneg_right h2 (by positivity)
          _ = 1 := by norm_num
      linarith
    have hx0 : (0 : ℚ) ≤ (nd : ℚ) / (nt : ℚ) := (div_pos hndpos hntpos).le
    obtain ⟨q0, q1⟩ := to_double_bounds _ hx0
    have hr0 : (0 : ℚ) ≤ (rows : ℚ) := Nat.cast_nonneg rows
    obtain ⟨r0, r1⟩ := to_double_bounds _ hr0
    have hp0 : 0 ≤ to_double ((nd : ℚ) / (nt : ℚ)) * to_double (rows : ℚ) := mul_nonneg q0 r0
    obtain ⟨f0, f1⟩ := to_double_bounds _ hp0
    generalize to_double (to_double ((nd : ℚ) / (nt : ℚ)) * to_double (rows : ℚ)) = F at f0 f1
    generalize to_double ((nd : ℚ) / (nt : ℚ)) = Q at q0 q1 hp0 f1
    generalize to_double (rows : ℚ) = R at r0 r1 hp0 f1
    have hQ : Q ≤ (1 - 1 / 2 ^ 31) * (1 + 1 / 2 ^ 53) :=
      le_trans q1 (mul_le_mul_of_nonneg_right hx (by positivity))
    have hP : Q * R ≤ (1 - 1 / 2 ^ 31) * (1 + 1 / 2 ^ 53) * ((rows : ℚ) * (1 + 1 / 2 ^ 53)) :=
      mul_le_mul hQ r1 r0 (by norm_num)
    have hF : F ≤ (rows : ℚ) := by
      have hF1 : F ≤ (1 - 1 / 2 ^ 31) * (1 + 1 / 2 ^ 53) * ((rows : ℚ) * (1 + 1 / 2 ^ 53))
          * (1 + 1 / 2 ^ 53) :=
        le_trans f1 (mul_le_mul_of_nonneg_right hP (by positivity))
      have hc : (1 - 1 / 2 ^ 31 : ℚ) * (1 + 1 / 2 ^ 53) * (1 + 1 / 2 ^ 53) * (1 + 1 / 2 ^ 53)
          ≤ 1 := by norm_num
      have e : (1 - 1 / 2 ^ 31 : ℚ) * (1 + 1 / 2 ^ 53) * ((rows : ℚ) * (1 + 1 / 2 ^ 53))
          * (1 + 1 / 2 ^ 53) =
          ((1 - 1 / 2 ^ 31 : ℚ) * (1 + 1 / 2 ^ 53) * (1 + 1 / 2 ^ 53) * (1 + 1 / 2 ^ 53))
            * (rows : ℚ) := by ring
      rw [e] at hF1
      calc F ≤ ((1 - 1 / 2 ^ 31 : ℚ) * (1 + 1 / 2 ^ 53) * (1 + 1 / 2 ^ 53) * (1 + 1 / 2 ^ 53))
            * (rows : ℚ) := hF1
        _ ≤ 1 * (rows : ℚ) := mul_le_mul_of_nonneg_right hc hr0
        _ = (rows : ℚ) := one_mul _
    unfold std_round
    rw [if_pos f0, Int.toNat_le]
    have : ⌊F + 1 / 2⌋ < (rows : Int) + 1 := by
      rw [Int.floor_lt]
      push_cast
      linarith
    omega

/-! ## `get_best_split` over `dataset_balanced` in `double` arithmetic -/

/-- The root node over `dataset_balanced` with the impurity in `double` arithmetic: both
candidate thresholds get the `double` value `0.5`, as in exact arithmetic, and the search
on these values stores the initial `(0, 0)` as well. -/
theorem get_best_split_balanced_double :
    (∀ c ∈ (DecisionTreeNode.new 0 0 12 1).candidates dataset_balanced,
      (DecisionTreeNode.new 0 0 12 1).calculate_gini_index_double dataset_balanced c.1 c.2
        = 1 / 2) ∧
    ((DecisionTreeNode.new 0 0 12 1).get_best_split_scored
      ((DecisionTreeNode.new 0 0 12 1).calculate_gini_index_double dataset_balanced)
      dataset_balanced).split_var = 0 ∧
    ((DecisionTreeNode.new 0 0 12 1).get_best_split_scored
      ((DecisionTreeNode.new 0 0 12 1).calculate_gini_index_double dataset_balanced)
      dataset_balanced).split_val = 0 ∧
    ((DecisionTreeNode.new 0 0 12 1).get_best_split dataset_balanced).split_var = 0 ∧
    ((DecisionTreeNode.new 0 0 12 1).get_best_split dataset_balanced).split_val = 0 :=
  ⟨by decide!, by decide!, by decide!, by decide!, by decide!⟩

end MLComparison
